import Mathlib

/-! # The generic tracer of the Memory Pool System (`trace.c`)

A shallow embedding of `src/src/trace.c` and proofs about it.

Conventions of the embedding.

* A `Trace` pointer is the index of its slot in `arena->trace[]`; a `Seg`
  pointer is the base address of the segment; a `Pool` or `Root` pointer is
  its identifier.  Dereferencing a segment, pool or root that is no longer in
  the arena is the fault `Fault.dangling`.
* `AVER`, `AVERT(Trace, _)`, `AVERT(ScanState, _)` and `NOTREACHED` are
  executed: a failed check ends the run with `Fault.assertion`.  The checking
  functions of other modules (`ArenaCheck`, `SegCheck`, `PoolCheck`, ...) are
  not part of `trace.c`; for a segment, pool or root, validity is presence in
  the arena.
* Everything `trace.c` takes from `mpm.h` and from the pool, root, shield and
  location-dependency modules is either a field of `Config` (constants), a
  field of `Env` (procedures, arbitrary state transformers on the arena), a
  field of `ScanMacros` (the scanning macros of the area scanners), or a
  definition whose comment starts "Modelled from the spec".
* A pointer into an area of words (`Addr *`) is counted in words: `p++` is
  `p + 1`, and `NULL` is 0.
* Every call of an `Env` procedure and of the shield is recorded, in order,
  in `MpsState.events`; the procedures themselves never see that record.
* The telemetry macros `EVENT_*` are taken to expand to nothing, as in a
  build without telemetry: they are left out.
* The byte totals `condemned`, `foundation` and `rate` of a trace are words:
  they are computed modulo `2 ^ MPS_WORD_WIDTH`, as the additions of `Size`s
  in the code are.  The `double`s of the rate computation hold natural
  numbers until the last division; a conversion to `double` and an operation
  in `double` round to 53 significant bits (`toDouble`).  The accounting
  counters of a trace and of a scan state (the counts and sizes of scans,
  references, faults and reclaims) are natural numbers, taken not to wrap.
* Loops over the segments follow `SegFirst`/`SegNext` on the arena as it is
  at that moment and take a fuel argument; loops over a ring walk the ring as
  it stood when the loop was entered.
-/

namespace Mps

/-! ## Types of `mpmtypes.h` -/

abbrev Word := Nat
abbrev Addr := Nat
abbrev Size := Nat
abbrev Count := Nat
abbrev RefSet := Nat
abbrev TraceSet := Nat
abbrev TraceId := Nat
abbrev Rank := Nat
abbrev RankSet := Nat
abbrev AccessSet := Nat
abbrev Attr := Nat
abbrev PoolId := Nat
abbrev RootId := Nat
abbrev BufferId := Nat

/-- Modelled from the spec: the result codes (section 6 names OK, LIMIT,
MEMORY and RESOURCE; section 4.8 speaks of "other failures", here FAIL). -/
inductive Res where
  | OK
  | FAIL
  | RESOURCE
  | MEMORY
  | LIMIT
  deriving DecidableEq, Repr

/-- Ways a run of the model ends without a result. -/
inductive Fault where
  | assertion
  | dangling
  | fuel
  deriving DecidableEq, Repr

/-- Validity signatures (`sig` fields). -/
inductive Sig where
  | SigInvalid
  | TraceSig
  | ScanStateSig
  deriving DecidableEq, Repr

/-- The states of a trace (`TraceINIT` ... `TraceFINISHED`). -/
inductive TraceState where
  | TraceINIT
  | TraceUNFLIPPED
  | TraceFLIPPED
  | TraceRECLAIM
  | TraceFINISHED
  deriving DecidableEq, Repr

/-- The two fix functions a scan state can carry in `ss->fix`. -/
inductive FixMethod where
  | TraceFix
  | TraceFixEmergency
  deriving DecidableEq, Repr

inductive TraceAccountingPhase where
  | TraceAccountingPhaseRootScan
  | TraceAccountingPhaseSegScan
  | TraceAccountingPhaseSingleScan
  deriving DecidableEq, Repr

/-- Constants that `trace.c` takes from the configuration headers. -/
structure Config where
  TRACE_MAX : Nat
  MPS_WORD_WIDTH : Nat
  ARENA_POLL_MAX : Nat
  TraceIdNONE : Nat
  RankMAX : Nat
  AttrSCAN : Attr
  AttrGC : Attr
  AttrMOVINGGC : Attr

def RankAMBIG : Rank := 0
def RankEXACT : Rank := 1
def AccessSetEMPTY : AccessSet := 0
def AccessREAD : AccessSet := 1
def AccessWRITE : AccessSet := 2
def RankSetEMPTY : RankSet := 0

/-! ## Bit sets (`BS_*`, `RefSet*`, `TraceSet*` of `mpm.h`)

Modelled from the spec (section 3): fixed-width bit sets with EMPTY, UNIV,
Single, Add, Del, IsMember, Union, Inter, Diff, Sub and Super. -/

/-- Complement of a word: the C operator `~` at width `w`. -/
def wordNot (w : Nat) (x : Word) : Word := 2 ^ w - 1 - x % 2 ^ w

def RefSetEMPTY : RefSet := 0
def RefSetUNIV (cfg : Config) : RefSet := 2 ^ cfg.MPS_WORD_WIDTH - 1
def RefSetUnion (a b : RefSet) : RefSet := a ||| b
def RefSetInter (a b : RefSet) : RefSet := a &&& b
def RefSetDiff (cfg : Config) (a b : RefSet) : RefSet := a &&& wordNot cfg.MPS_WORD_WIDTH b
/-- `RefSetSuper(a, b)`: `a` is a superset of `b`. -/
def RefSetSuper (a b : RefSet) : Bool := (a &&& b) == b
/-- `RefSetSub(a, b)`: `a` is a subset of `b`. -/
def RefSetSub (a b : RefSet) : Bool := (a &&& b) == a

def TraceSetEMPTY : TraceSet := 0
def TraceSetSingle (ti : TraceId) : TraceSet := 1 <<< ti
def TraceSetIsMember (ts : TraceSet) (ti : TraceId) : Bool := ts.testBit ti
def TraceSetAdd (ts : TraceSet) (ti : TraceId) : TraceSet := ts ||| (1 <<< ti)
def TraceSetDel (cfg : Config) (ts : TraceSet) (ti : TraceId) : TraceSet :=
  ts &&& wordNot cfg.MPS_WORD_WIDTH (1 <<< ti)
def TraceSetUnion (a b : TraceSet) : TraceSet := a ||| b
def TraceSetInter (a b : TraceSet) : TraceSet := a &&& b
def TraceSetDiff (cfg : Config) (a b : TraceSet) : TraceSet :=
  a &&& wordNot cfg.MPS_WORD_WIDTH b
def TraceSetSuper (a b : TraceSet) : Bool := (a &&& b) == b
def TraceSetSub (a b : TraceSet) : Bool := (a &&& b) == a

def RankSetIsMember (rs : RankSet) (r : Rank) : Bool := rs.testBit r

/-! ## The data model -/

/-- The fields of `TraceStruct` (the `arena` back pointer is the arena the
slot lives in). -/
structure TraceStruct where
  sig : Sig
  ti : TraceId
  white : RefSet
  mayMove : RefSet
  state : TraceState
  emergency : Bool
  condemned : Size
  foundation : Size
  rate : Size
  rootScanCount : Count
  rootScanSize : Size
  rootCopiedSize : Size
  segScanCount : Count
  segScanSize : Size
  segCopiedSize : Size
  singleScanCount : Count
  singleScanSize : Size
  singleCopiedSize : Size
  fixRefCount : Count
  segRefCount : Count
  whiteSegRefCount : Count
  nailCount : Count
  snapCount : Count
  forwardCount : Count
  faultCount : Count
  reclaimCount : Count
  reclaimSize : Size
  deriving DecidableEq, Repr

/-- The fields of `ScanStateStruct` (`arena` is the arena of the run). -/
structure ScanStateStruct where
  sig : Sig
  fix : FixMethod
  traces : TraceSet
  rank : Rank
  zoneShift : Nat
  white : RefSet
  unfixedSummary : RefSet
  fixedSummary : RefSet
  wasMarked : Bool
  fixRefCount : Count
  segRefCount : Count
  whiteSegRefCount : Count
  nailCount : Count
  snapCount : Count
  forwardCount : Count
  copiedSize : Size
  scannedSize : Size
  deriving DecidableEq, Repr

/-- What the tracer reads and writes of a segment. -/
structure SegStruct where
  base : Addr
  limit : Addr
  pool : PoolId
  rankSet : RankSet
  summary : RefSet
  grey : TraceSet
  white : TraceSet
  sm : AccessSet
  deriving DecidableEq, Repr

/-- What the tracer reads of a pool: the attributes of its class and its
buffer ring. -/
structure PoolStruct where
  id : PoolId
  attr : Attr
  buffers : List BufferId
  deriving DecidableEq, Repr

/-- What the tracer reads of a root. -/
structure RootStruct where
  id : RootId
  rank : Rank
  summary : RefSet
  deriving DecidableEq, Repr

/-- What the tracer reads and writes of the arena. `segs` is the segment
table in the order of `SegFirst`/`SegNext`; `pools` and `roots` are the pool
ring and the root ring. -/
structure ArenaStruct where
  busyTraces : TraceSet
  flippedTraces : TraceSet
  trace : TraceId → TraceStruct
  zoneShift : Nat
  segs : List SegStruct
  pools : List PoolStruct
  roots : List RootStruct

/-- Calls that leave `trace.c`. -/
inductive Event where
  | PoolWhiten (pool : PoolId) (ti : TraceId) (seg : Addr)
  | PoolGrey (pool : PoolId) (ti : TraceId) (seg : Addr)
  | PoolBlacken (pool : PoolId) (ts : TraceSet) (seg : Addr)
  | PoolScan (pool : PoolId) (seg : Addr) (fix : FixMethod) (rank : Rank)
  | PoolReclaim (pool : PoolId) (ti : TraceId) (seg : Addr)
  | RootGrey (root : RootId) (ti : TraceId)
  | RootScan (root : RootId) (rank : Rank)
  | BufferFlip (buffer : BufferId)
  | LDAge (rs : RefSet)
  | ShieldSuspend
  | ShieldResume
  | ShieldExpose (seg : Addr)
  | ShieldCover (seg : Addr)
  | ShieldRaise (seg : Addr) (mode : AccessSet)
  | PoolFix (pool : PoolId) (seg : Addr) (ref : Addr)
  | PoolFixEmergency (pool : PoolId) (seg : Addr) (ref : Addr)
  deriving DecidableEq, Repr

/-- The arena together with the record of the calls made so far. -/
structure MpsState where
  arena : ArenaStruct
  events : List Event

/-- The procedures of the pool, root, buffer and location-dependency modules
that `trace.c` calls. Each one may change the arena in any way. -/
structure Env where
  PoolWhiten : ArenaStruct → PoolId → TraceId → Addr → Res × ArenaStruct
  PoolGrey : ArenaStruct → PoolId → TraceId → Addr → ArenaStruct
  PoolBlacken : ArenaStruct → PoolId → TraceSet → Addr → ArenaStruct
  PoolScan : ArenaStruct → ScanStateStruct → PoolId → Addr →
    Res × Bool × ScanStateStruct × ArenaStruct
  PoolReclaim : ArenaStruct → PoolId → TraceId → Addr → ArenaStruct
  RootGrey : ArenaStruct → RootId → TraceId → ArenaStruct
  RootScan : ArenaStruct → ScanStateStruct → RootId → Res × ScanStateStruct × ArenaStruct
  BufferFlip : ArenaStruct → BufferId → ArenaStruct
  LDAge : ArenaStruct → RefSet → ArenaStruct
  PoolFix : ArenaStruct → ScanStateStruct → PoolId → Addr → Addr →
    Res × Addr × ScanStateStruct × ArenaStruct
  PoolFixEmergency : ArenaStruct → ScanStateStruct → PoolId → Addr → Addr →
    Addr × ScanStateStruct × ArenaStruct
  ArenaIsReservedAddr : ArenaStruct → Addr → Bool

/-! ## Access to the arena -/

/-- `AVER(cond)`. -/
def aver (c : Bool) : Except Fault Unit :=
  if c then .ok () else .error Fault.assertion

/-- `ArenaTrace(arena, ti)`. -/
def ArenaTrace (a : ArenaStruct) (ti : TraceId) : TraceStruct := a.trace ti

/-- Store into `arena->trace[ti]`. -/
def setTrace (a : ArenaStruct) (ti : TraceId) (t : TraceStruct) : ArenaStruct :=
  { a with trace := fun i => if i = ti then t else a.trace i }

def segFind (a : ArenaStruct) (seg : Addr) : Option SegStruct :=
  a.segs.find? (fun sg => sg.base == seg)

/-- Dereference a `Seg`. -/
def segGet (a : ArenaStruct) (seg : Addr) : Except Fault SegStruct :=
  match segFind a seg with
  | some sg => .ok sg
  | none => .error Fault.dangling

def poolGet (a : ArenaStruct) (pool : PoolId) : Except Fault PoolStruct :=
  match a.pools.find? (fun p => p.id == pool) with
  | some p => .ok p
  | none => .error Fault.dangling

def rootGet (a : ArenaStruct) (root : RootId) : Except Fault RootStruct :=
  match a.roots.find? (fun r => r.id == root) with
  | some r => .ok r
  | none => .error Fault.dangling

/-- Store into the fields of the segment at `seg`. -/
def segUpdate (a : ArenaStruct) (seg : Addr) (f : SegStruct → SegStruct) : ArenaStruct :=
  { a with segs := a.segs.map (fun sg => if sg.base == seg then f sg else sg) }

/-- Modelled from the spec: `SegFirst` (section 6, segment enumeration). -/
def SegFirst (a : ArenaStruct) : Option Addr := a.segs.head?.map (fun sg => sg.base)

/-- Modelled from the spec: `SegNext(&seg, arena, base)`, the first segment of
the enumeration that lies above `base`. -/
def SegNext (a : ArenaStruct) (base : Addr) : Option Addr :=
  (a.segs.find? (fun sg => decide (base < sg.base))).map (fun sg => sg.base)

/-- `SegSize(seg)`. -/
def SegSize (sg : SegStruct) : Size := sg.limit - sg.base

/-- Modelled from the spec: `RefSetOfSeg(arena, seg)` "returns the RefSet
covering all zones the segment intersects" (section 4.1); the zone of an
address is its stripe number `addr >> zoneShift` modulo the word width. -/
def RefSetOfSeg (cfg : Config) (a : ArenaStruct) (sg : SegStruct) : RefSet :=
  ((List.range (((sg.limit - 1) >>> a.zoneShift) + 1 - (sg.base >>> a.zoneShift))).map
      (fun k => 1 <<< (((sg.base >>> a.zoneShift) + k) % cfg.MPS_WORD_WIDTH))).foldl
    RefSetUnion RefSetEMPTY

/-- Append an event to the record. -/
def emit (s : MpsState) (e : Event) : MpsState :=
  { s with events := s.events ++ [e] }

/-! ## `TraceIdCheck`, `TraceSetCheck`, `TraceCheck` -/

def TraceIdCheck (cfg : Config) (ti : TraceId) : Bool :=
  ti == cfg.TraceIdNONE || decide (ti < cfg.TRACE_MAX)

def TraceSetCheck (cfg : Config) (ts : TraceSet) : Bool :=
  decide (ts < 1 <<< cfg.TRACE_MAX)

/-- `TraceCheck(trace)` for the slot `trace` of the arena `a`. -/
def TraceCheck (cfg : Config) (a : ArenaStruct) (trace : TraceId) : Bool :=
  let t := a.trace trace
  t.sig == Sig.TraceSig &&
  TraceIdCheck cfg t.ti &&
  t.ti == trace &&
  TraceSetIsMember a.busyTraces t.ti &&
  RefSetSub t.mayMove t.white &&
  (match t.state with
   | TraceState.TraceINIT => true
   | TraceState.TraceUNFLIPPED => !TraceSetIsMember a.flippedTraces t.ti
   | TraceState.TraceFLIPPED => TraceSetIsMember a.flippedTraces t.ti
   | TraceState.TraceRECLAIM => TraceSetIsMember a.flippedTraces t.ti
   | TraceState.TraceFINISHED => TraceSetIsMember a.flippedTraces t.ti)

/-! ## `TraceCreate`, `TraceDestroy` -/

/-- The trace as `TraceCreate` initialises it. -/
def traceInit (ti : TraceId) : TraceStruct :=
  { sig := Sig.TraceSig, ti := ti, white := RefSetEMPTY, mayMove := RefSetEMPTY,
    state := TraceState.TraceINIT, emergency := false,
    condemned := 0, foundation := 0, rate := 0,
    rootScanCount := 0, rootScanSize := 0, rootCopiedSize := 0,
    segScanCount := 0, segScanSize := 0, segCopiedSize := 0,
    singleScanCount := 0, singleScanSize := 0, singleCopiedSize := 0,
    fixRefCount := 0, segRefCount := 0, whiteSegRefCount := 0,
    nailCount := 0, snapCount := 0, forwardCount := 0,
    faultCount := 0, reclaimCount := 0, reclaimSize := 0 }

/-- `TraceCreate(&trace, arena)`: the result code, the trace written to
`*traceReturn` (if any) and the new state. -/
def TraceCreate (cfg : Config) (s : MpsState) :
    Except Fault (Res × Option TraceId × MpsState) := do
  aver (cfg.TRACE_MAX == 1)
  match (List.range cfg.TRACE_MAX).find? (fun ti => !TraceSetIsMember s.arena.busyTraces ti) with
  | none => pure (Res.LIMIT, none, s)
  | some ti =>
    aver ((ArenaTrace s.arena ti).sig == Sig.SigInvalid)
    let a1 := { s.arena with busyTraces := TraceSetAdd s.arena.busyTraces ti }
    let a2 := setTrace a1 ti (traceInit ti)
    aver (TraceCheck cfg a2 ti)
    pure (Res.OK, some ti, { s with arena := a2 })

/-- `TraceDestroy(trace)`. -/
def TraceDestroy (cfg : Config) (trace : TraceId) (s : MpsState) : Except Fault MpsState := do
  aver (TraceCheck cfg s.arena trace)
  aver ((s.arena.trace trace).state == TraceState.TraceFINISHED)
  let a1 := setTrace s.arena trace { s.arena.trace trace with sig := Sig.SigInvalid }
  let a2 := { a1 with busyTraces := TraceSetDel cfg a1.busyTraces (a1.trace trace).ti }
  let a3 := { a2 with flippedTraces := TraceSetDel cfg a2.flippedTraces (a2.trace trace).ti }
  pure { s with arena := a3 }

/-! ## Segment and shield operations used by the tracer -/

/-- Modelled from the spec: `SegSetGrey(seg, grey)` stores the grey set; the
read barrier of a segment is up exactly while the segment is grey for a
flipped trace (sections 4.5 and 4.9). -/
def SegSetGrey (cfg : Config) (a : ArenaStruct) (seg : Addr) (grey : TraceSet) : ArenaStruct :=
  segUpdate a seg (fun sg =>
    { sg with
      grey := grey
      sm := if TraceSetInter grey a.flippedTraces == TraceSetEMPTY
            then sg.sm &&& wordNot cfg.MPS_WORD_WIDTH AccessREAD
            else sg.sm ||| AccessREAD })

/-- Modelled from the spec: `SegSetSummary(seg, summary)` stores the summary;
widening it to UNIV clears the write barrier bit, a smaller summary raises the
write barrier (section 4.9 and scenario 6). -/
def SegSetSummary (cfg : Config) (a : ArenaStruct) (seg : Addr) (summary : RefSet) : ArenaStruct :=
  segUpdate a seg (fun sg =>
    { sg with
      summary := summary
      sm := if summary == RefSetUNIV cfg
            then sg.sm &&& wordNot cfg.MPS_WORD_WIDTH AccessWRITE
            else sg.sm ||| AccessWRITE })

/-- Modelled from the spec: `ShieldRaise(arena, seg, mode)` sets a barrier on
the segment (section 1, Shield). -/
def ShieldRaise (s : MpsState) (seg : Addr) (mode : AccessSet) : MpsState :=
  emit { s with arena := segUpdate s.arena seg (fun sg => { sg with sm := sg.sm ||| mode }) }
    (Event.ShieldRaise seg mode)

/-- Modelled from the spec: the grey ring of a rank holds the segments that
are grey for some trace and have that rank (section 3, Segment), here in
segment order. -/
def ArenaGreyRing (a : ArenaStruct) (rank : Rank) : List SegStruct :=
  a.segs.filter (fun sg => sg.grey != TraceSetEMPTY && RankSetIsMember sg.rankSet rank)

/-- The loop `if(SegFirst(&seg, arena)) do { base = SegBase(seg); body }
while(SegNext(&seg, arena, base))`, from the segment `seg` on. The body
answers `some res` when it returns `res` from the enclosing function. -/
def segLoop (body : Addr → MpsState → Except Fault (Option Res × MpsState)) :
    Nat → Addr → MpsState → Except Fault (Option Res × MpsState)
  | 0, _, _ => .error Fault.fuel
  | n + 1, seg, s =>
    match body seg s with
    | .error f => .error f
    | .ok (some r, s1) => .ok (some r, s1)
    | .ok (none, s1) =>
      match SegNext s1.arena seg with
      | none => .ok (none, s1)
      | some seg1 => segLoop body n seg1 s1

def forSegs (body : Addr → MpsState → Except Fault (Option Res × MpsState))
    (fuel : Nat) (s : MpsState) : Except Fault (Option Res × MpsState) :=
  match SegFirst s.arena with
  | none => .ok (none, s)
  | some seg => segLoop body fuel seg s

/-! ## Scan states -/

def RankCheck (cfg : Config) (rank : Rank) : Bool := decide (rank < cfg.RankMAX)

/-- The loop `for(ti = 0; ti < TRACE_MAX; ++ti) if(TraceSetIsMember(ts, ti))
white = RefSetUnion(white, ArenaTrace(arena, ti)->white)`. -/
def traceSetWhite (cfg : Config) (a : ArenaStruct) (ts : TraceSet) : RefSet :=
  (List.range cfg.TRACE_MAX).foldl
    (fun white ti =>
      if TraceSetIsMember ts ti then RefSetUnion white (ArenaTrace a ti).white else white)
    RefSetEMPTY

def ScanStateCheck (cfg : Config) (a : ArenaStruct) (ss : ScanStateStruct) : Bool :=
  ss.sig == Sig.ScanStateSig &&
  TraceSetCheck cfg ss.traces &&
  TraceSetSuper a.busyTraces ss.traces &&
  ss.white == traceSetWhite cfg a ss.traces &&
  ss.zoneShift == a.zoneShift &&
  RankCheck cfg ss.rank

/-- `ScanStateInit(&ss, ts, arena, rank, white)`. -/
def ScanStateInit (cfg : Config) (a : ArenaStruct) (ts : TraceSet) (rank : Rank)
    (white : RefSet) : Except Fault ScanStateStruct := do
  aver (RankCheck cfg rank)
  let fix := (List.range cfg.TRACE_MAX).foldl
    (fun fix ti =>
      if TraceSetIsMember ts ti && (ArenaTrace a ti).emergency
      then FixMethod.TraceFixEmergency else fix)
    FixMethod.TraceFix
  let ss : ScanStateStruct :=
    { sig := Sig.ScanStateSig, fix := fix, traces := ts, rank := rank,
      zoneShift := a.zoneShift, white := white,
      unfixedSummary := RefSetEMPTY, fixedSummary := RefSetEMPTY, wasMarked := true,
      fixRefCount := 0, segRefCount := 0, whiteSegRefCount := 0,
      nailCount := 0, snapCount := 0, forwardCount := 0,
      copiedSize := 0, scannedSize := 0 }
  aver (ScanStateCheck cfg a ss)
  pure ss

/-- `ScanStateFinish(&ss)`. -/
def ScanStateFinish (cfg : Config) (a : ArenaStruct) (ss : ScanStateStruct) :
    Except Fault ScanStateStruct := do
  aver (ScanStateCheck cfg a ss)
  pure { ss with sig := Sig.SigInvalid }

/-- `ScanStateSummary(ss)`. -/
def ScanStateSummary (cfg : Config) (a : ArenaStruct) (ss : ScanStateStruct) :
    Except Fault RefSet := do
  aver (ScanStateCheck cfg a ss)
  pure (TraceSetUnion ss.fixedSummary (TraceSetDiff cfg ss.unfixedSummary ss.white))

/-- `ScanStateSetSummary(ss, summary)`. -/
def ScanStateSetSummary (cfg : Config) (a : ArenaStruct) (ss : ScanStateStruct)
    (summary : RefSet) : Except Fault ScanStateStruct := do
  aver (ScanStateCheck cfg a ss)
  let ss1 := { ss with unfixedSummary := RefSetEMPTY }
  let ss2 := { ss1 with fixedSummary := summary }
  let sum ← ScanStateSummary cfg a ss2
  aver (sum == summary)
  pure ss2

/-- `TraceUpdateCounts(trace, ss, phase)`. -/
def TraceUpdateCounts (cfg : Config) (a : ArenaStruct) (trace : TraceId)
    (ss : ScanStateStruct) (phase : TraceAccountingPhase) : Except Fault ArenaStruct := do
  aver (TraceCheck cfg a trace)
  aver (ScanStateCheck cfg a ss)
  let t := a.trace trace
  let t1 : TraceStruct :=
    match phase with
    | TraceAccountingPhase.TraceAccountingPhaseRootScan =>
      { t with rootScanSize := t.rootScanSize + ss.scannedSize
               rootCopiedSize := t.rootCopiedSize + ss.copiedSize }
    | TraceAccountingPhase.TraceAccountingPhaseSegScan =>
      { t with segScanSize := t.segScanSize + ss.scannedSize
               segCopiedSize := t.segCopiedSize + ss.copiedSize }
    | TraceAccountingPhase.TraceAccountingPhaseSingleScan =>
      { t with singleScanSize := t.singleScanSize + ss.scannedSize
               singleCopiedSize := t.singleCopiedSize + ss.copiedSize }
  pure (setTrace a trace
    { t1 with fixRefCount := t1.fixRefCount + ss.fixRefCount
              segRefCount := t1.segRefCount + ss.segRefCount
              whiteSegRefCount := t1.whiteSegRefCount + ss.whiteSegRefCount
              nailCount := t1.nailCount + ss.nailCount
              snapCount := t1.snapCount + ss.snapCount
              forwardCount := t1.forwardCount + ss.forwardCount })

/-! ## Condemning: `TraceAddWhite`, `TraceCondemnRefSet` -/

/-- `TraceAddWhite(trace, seg)`. -/
def TraceAddWhite (cfg : Config) (env : Env) (trace : TraceId) (seg : Addr) (s : MpsState) :
    Except Fault (Res × MpsState) := do
  aver (TraceCheck cfg s.arena trace)
  let sg ← segGet s.arena seg
  aver (!TraceSetIsMember sg.white (s.arena.trace trace).ti)
  let pool := sg.pool
  let _ ← poolGet s.arena pool
  let (res, a1) := env.PoolWhiten s.arena pool trace seg
  let s1 := emit { s with arena := a1 } (Event.PoolWhiten pool trace seg)
  if res != Res.OK then
    pure (res, s1)
  else
    let sg1 ← segGet a1 seg
    if TraceSetIsMember sg1.white (a1.trace trace).ti then
      let t := a1.trace trace
      let t1 := { t with white := RefSetUnion t.white (RefSetOfSeg cfg a1 sg1) }
      let t2 := { t1 with condemned := (t1.condemned + SegSize sg1) % 2 ^ cfg.MPS_WORD_WIDTH }
      let p1 ← poolGet a1 pool
      let t3 := if p1.attr &&& cfg.AttrMOVINGGC != 0
                then { t2 with mayMove := RefSetUnion t2.mayMove (RefSetOfSeg cfg a1 sg1) }
                else t2
      pure (Res.OK, { s1 with arena := setTrace a1 trace t3 })
    else
      pure (Res.OK, s1)

/-- The body of the loop of `TraceCondemnRefSet`. -/
def condemnBody (cfg : Config) (env : Env) (trace : TraceId) (condemnedSet : RefSet)
    (seg : Addr) (s : MpsState) : Except Fault (Option Res × MpsState) := do
  let sg ← segGet s.arena seg
  aver (!TraceSetIsMember sg.grey (s.arena.trace trace).ti)
  aver (!TraceSetIsMember sg.white (s.arena.trace trace).ti)
  let p ← poolGet s.arena sg.pool
  if p.attr &&& cfg.AttrGC != 0 && RefSetSuper condemnedSet (RefSetOfSeg cfg s.arena sg) then
    let (res, s1) ← TraceAddWhite cfg env trace seg s
    if res != Res.OK then pure (some res, s1) else pure (none, s1)
  else
    pure (none, s)

/-- `TraceCondemnRefSet(trace, condemnedSet)`. -/
def TraceCondemnRefSet (cfg : Config) (env : Env) (fuel : Nat) (trace : TraceId)
    (condemnedSet : RefSet) (s : MpsState) : Except Fault (Res × MpsState) := do
  aver (TraceCheck cfg s.arena trace)
  aver (condemnedSet != RefSetEMPTY)
  aver ((s.arena.trace trace).state == TraceState.TraceINIT)
  aver ((s.arena.trace trace).white == RefSetEMPTY)
  let (ret, s1) ← forSegs (condemnBody cfg env trace condemnedSet) fuel s
  match ret with
  | some res => pure (res, s1)
  | none =>
    aver (RefSetSuper condemnedSet (s1.arena.trace trace).white)
    pure (Res.OK, s1)

/-! ## Starting a trace: `TraceFlip`, `TraceStart` -/

/-- `TraceFlipBuffers(arena)`: the inner loop over the buffer ring of one pool. -/
def flipPoolBuffers (env : Env) : List BufferId → MpsState → MpsState
  | [], s => s
  | b :: bs, s =>
    flipPoolBuffers env bs (emit { s with arena := env.BufferFlip s.arena b } (Event.BufferFlip b))

/-- `TraceFlipBuffers(arena)`: the outer loop over the pool ring. -/
def flipBuffersLoop (env : Env) : List PoolId → MpsState → Except Fault MpsState
  | [], s => .ok s
  | p :: ps, s =>
    match poolGet s.arena p with
    | .error f => .error f
    | .ok pool => flipBuffersLoop env ps (flipPoolBuffers env pool.buffers s)

def TraceFlipBuffers (env : Env) (s : MpsState) : Except Fault MpsState :=
  flipBuffersLoop env (s.arena.pools.map (fun p => p.id)) s

/-- The loop over the root ring inside `TraceFlip`, for the rank `ss.rank`. -/
def flipRoots (cfg : Config) (env : Env) (trace : TraceId) :
    List RootId → ScanStateStruct → MpsState →
    Except Fault (Option Res × ScanStateStruct × MpsState)
  | [], ss, s => .ok (none, ss, s)
  | r :: rs, ss, s => do
    let root ← rootGet s.arena r
    aver (decide (root.rank ≤ RankEXACT))
    if root.rank == ss.rank then
      let ss1 ← ScanStateSetSummary cfg s.arena ss RefSetEMPTY
      let (res, ss2, a1) := env.RootScan s.arena ss1 r
      let s1 := emit { s with arena := a1 } (Event.RootScan r ss1.rank)
      let t := s1.arena.trace trace
      let s2 := { s1 with arena := (setTrace s1.arena trace
                    { t with rootScanCount := t.rootScanCount + 1 }) }
      if res != Res.OK then
        pure (some res, ss2, s2)
      else
        flipRoots cfg env trace rs ss2 s2
    else
      flipRoots cfg env trace rs ss s

/-- The loop `for(ss.rank = RankAMBIG; ss.rank <= RankEXACT; ++ss.rank)` of
`TraceFlip`, after the assignment of `RankAMBIG`. -/
def flipRankLoop (cfg : Config) (env : Env) (trace : TraceId) :
    Nat → ScanStateStruct → MpsState →
    Except Fault (Option Res × ScanStateStruct × MpsState)
  | 0, _, _ => .error Fault.fuel
  | n + 1, ss, s =>
    if ss.rank ≤ RankEXACT then do
      aver (ScanStateCheck cfg s.arena ss)
      let (ret, ss1, s1) ← flipRoots cfg env trace (s.arena.roots.map (fun r => r.id)) ss s
      match ret with
      | some res => pure (some res, ss1, s1)
      | none => flipRankLoop cfg env trace n { ss1 with rank := ss1.rank + 1 } s1
    else
      pure (none, ss, s)

/-- The walk over one grey ring at the end of `TraceFlip`. -/
def flipRaiseRing (trace : TraceId) : List Addr → MpsState → Except Fault MpsState
  | [], s => .ok s
  | seg :: rest, s => do
    let sg ← segGet s.arena seg
    if TraceSetInter sg.grey s.arena.flippedTraces == TraceSetEMPTY &&
       TraceSetIsMember sg.grey (s.arena.trace trace).ti then
      flipRaiseRing trace rest (ShieldRaise s seg AccessREAD)
    else
      flipRaiseRing trace rest s

/-- The loop `for(rank = 0; rank < RankMAX; ++rank)` at the end of `TraceFlip`. -/
def flipRaise (trace : TraceId) : List Rank → MpsState → Except Fault MpsState
  | [], s => .ok s
  | rank :: ranks, s => do
    let s1 ← flipRaiseRing trace ((ArenaGreyRing s.arena rank).map (fun sg => sg.base)) s
    flipRaise trace ranks s1

/-- `TraceFlip(trace)`. -/
def TraceFlip (cfg : Config) (env : Env) (fuel : Nat) (trace : TraceId) (s : MpsState) :
    Except Fault (Res × MpsState) := do
  aver (TraceCheck cfg s.arena trace)
  let s0 := emit s Event.ShieldSuspend
  aver ((s0.arena.trace trace).state == TraceState.TraceUNFLIPPED)
  aver (!TraceSetIsMember s0.arena.flippedTraces (s0.arena.trace trace).ti)
  let s1 ← TraceFlipBuffers env s0
  let s2 :=
    if (s1.arena.trace trace).mayMove != RefSetEMPTY then
      emit { s1 with arena := env.LDAge s1.arena (s1.arena.trace trace).mayMove }
        (Event.LDAge (s1.arena.trace trace).mayMove)
    else s1
  let ss ← ScanStateInit cfg s2.arena (TraceSetSingle (s2.arena.trace trace).ti) RankAMBIG
    (s2.arena.trace trace).white
  let (ret, ss1, s3) ← flipRankLoop cfg env trace fuel { ss with rank := RankAMBIG } s2
  match ret with
  | some res => pure (res, s3)
  | none =>
    let a4 ← TraceUpdateCounts cfg s3.arena trace ss1
      TraceAccountingPhase.TraceAccountingPhaseRootScan
    let _ ← ScanStateFinish cfg a4 ss1
    let s5 ← flipRaise trace (List.range cfg.RankMAX) { s3 with arena := a4 }
    let a6 := setTrace s5.arena trace
      { s5.arena.trace trace with state := TraceState.TraceFLIPPED }
    let a7 := { a6 with flippedTraces := TraceSetAdd a6.flippedTraces (a6.trace trace).ti }
    pure (Res.OK, emit { s5 with arena := a7 } Event.ShieldResume)

/-- The body of the segment loop of `TraceStart`. -/
def startGreyBody (cfg : Config) (env : Env) (trace : TraceId) (seg : Addr) (s : MpsState) :
    Except Fault (Option Res × MpsState) := do
  let sg ← segGet s.arena seg
  aver (!TraceSetIsMember sg.grey (s.arena.trace trace).ti)
  if sg.rankSet != RankSetEMPTY then
    let p ← poolGet s.arena sg.pool
    aver (p.attr &&& cfg.AttrSCAN != 0)
    if RefSetInter sg.summary (s.arena.trace trace).white != RefSetEMPTY then
      let a1 := env.PoolGrey s.arena sg.pool trace seg
      let s1 := emit { s with arena := a1 } (Event.PoolGrey sg.pool trace seg)
      let sg1 ← segGet a1 seg
      if TraceSetIsMember sg1.grey (a1.trace trace).ti then
        let t := a1.trace trace
        pure (none, { s1 with arena := (setTrace a1 trace
                        { t with foundation :=
                            (t.foundation + SegSize sg1) % 2 ^ cfg.MPS_WORD_WIDTH }) })
      else
        pure (none, s1)
    else
      pure (none, s)
  else
    pure (none, s)

/-- The loop over the root ring of `TraceStart`. -/
def startGreyRoots (env : Env) (trace : TraceId) : List RootId → MpsState → Except Fault MpsState
  | [], s => .ok s
  | r :: rs, s => do
    let root ← rootGet s.arena r
    if RefSetInter root.summary (s.arena.trace trace).white != RefSetEMPTY then
      startGreyRoots env trace rs
        (emit { s with arena := env.RootGrey s.arena r trace } (Event.RootGrey r trace))
    else
      startGreyRoots env trace rs s

/-- The number of low bits of `n` that 53 significant bits cannot hold: the
least `e` with `n / 2 ^ e < 2 ^ 53` (the first argument bounds the search and
is `n` itself). -/
def excessBits : Nat → Nat → Nat
  | 0, _ => 0
  | k + 1, n => if n < 2 ^ 53 then 0 else 1 + excessBits k (n / 2)

/-- The value of a natural number as a `double` (IEEE 754 binary64, rounding
to nearest, ties to even): a number below `2 ^ 53` is held exactly, a larger
one keeps its 53 leading bits. The numbers met here are products of two
words at most, far below the largest `double`. -/
def toDouble (n : Nat) : Nat :=
  let e := excessBits n n
  let q := n / 2 ^ e
  let r := n % 2 ^ e
  let up := decide (2 ^ e < 2 * r) || (2 * r == 2 ^ e && q % 2 == 1)
  (if up then q + 1 else q) * 2 ^ e

/-- The rate computed by `TraceStart`. `surviving = condemned / 2` is a
division of `Size`s converted to `double`; `scan = foundation + surviving`
converts `foundation` and adds in `double`; `scan * ARENA_POLL_MAX` is a
product in `double`; the divisor `4096 * alloc` is `2 ^ 32`, and dividing a
`double` by a power of two is exact, so the cast to `Size`, which truncates,
yields the quotient of natural numbers; `1 + _` is an addition of `Size`s.
(The cast of a quotient that is not below `2 ^ MPS_WORD_WIDTH` is undefined
in C; the model then keeps its low bits.) -/
def traceRate (cfg : Config) (t : TraceStruct) : Size :=
  let surviving := toDouble (t.condemned / 2)
  let scan := toDouble (toDouble t.foundation + surviving)
  let alloc := toDouble (1024 * 1024)
  (1 + toDouble (scan * toDouble cfg.ARENA_POLL_MAX) / toDouble (4096 * alloc))
    % 2 ^ cfg.MPS_WORD_WIDTH

/-- `TraceStart(trace)`. -/
def TraceStart (cfg : Config) (env : Env) (fuel : Nat) (trace : TraceId) (s : MpsState) :
    Except Fault (Res × MpsState) := do
  aver (TraceCheck cfg s.arena trace)
  aver ((s.arena.trace trace).state == TraceState.TraceINIT)
  if (s.arena.trace trace).white == RefSetEMPTY then
    let a1 := { s.arena with
      flippedTraces := TraceSetAdd s.arena.flippedTraces (s.arena.trace trace).ti }
    let a2 := setTrace a1 trace { a1.trace trace with state := TraceState.TraceFINISHED }
    let a3 := setTrace a2 trace { a2.trace trace with rate := 1 }
    pure (Res.OK, { s with arena := a3 })
  else
    let (_, s1) ← forSegs (startGreyBody cfg env trace) fuel s
    let s2 ← startGreyRoots env trace (s1.arena.roots.map (fun r => r.id)) s1
    let a3 := setTrace s2.arena trace
      { s2.arena.trace trace with rate := traceRate cfg (s2.arena.trace trace) }
    let a4 := setTrace a3 trace { a3.trace trace with state := TraceState.TraceUNFLIPPED }
    TraceFlip cfg env fuel trace { s2 with arena := a4 }

/-! ## Reclaiming -/

/-- Modelled from the spec: `SegOfAddr(&seg, arena, addr)`, the segment whose
range holds the address (section 6, segment lookup). -/
def SegOfAddr (a : ArenaStruct) (addr : Addr) : Option SegStruct :=
  a.segs.find? (fun sg => decide (sg.base ≤ addr) && decide (addr < sg.limit))

/-- The body of the loop of `TraceReclaim`. -/
def reclaimBody (cfg : Config) (env : Env) (trace : TraceId) (seg : Addr) (s : MpsState) :
    Except Fault (Option Res × MpsState) := do
  let sg ← segGet s.arena seg
  aver (!TraceSetIsMember sg.grey (s.arena.trace trace).ti)
  if TraceSetIsMember sg.white (s.arena.trace trace).ti then
    let p ← poolGet s.arena sg.pool
    aver (p.attr &&& cfg.AttrGC != 0)
    let t := s.arena.trace trace
    let a1 := setTrace s.arena trace { t with reclaimCount := t.reclaimCount + 1 }
    let a2 := env.PoolReclaim a1 sg.pool trace seg
    let s2 := emit { s with arena := a2 } (Event.PoolReclaim sg.pool trace seg)
    aver (!(match SegOfAddr a2 seg with
            | some nonWhiteSeg => TraceSetIsMember nonWhiteSeg.white (a2.trace trace).ti
            | none => false))
    pure (none, s2)
  else
    pure (none, s)

/-- `TraceReclaim(trace)`. -/
def TraceReclaim (cfg : Config) (env : Env) (fuel : Nat) (trace : TraceId) (s : MpsState) :
    Except Fault MpsState := do
  aver (TraceCheck cfg s.arena trace)
  aver ((s.arena.trace trace).state == TraceState.TraceRECLAIM)
  let (_, s1) ← forSegs (reclaimBody cfg env trace) fuel s
  pure { s1 with arena := (setTrace s1.arena trace
           { s1.arena.trace trace with state := TraceState.TraceFINISHED }) }

/-! ## Scanning -/

/-- The walk of `traceFindGrey` over one grey ring. -/
def findGreyInRing (ti : TraceId) (rank : Rank) :
    List SegStruct → Except Fault (Option (Addr × Rank))
  | [] => .ok none
  | sg :: rest => do
    aver (sg.grey != TraceSetEMPTY)
    aver (RankSetIsMember sg.rankSet rank)
    if TraceSetIsMember sg.grey ti then pure (some (sg.base, rank))
    else findGreyInRing ti rank rest

/-- The loop `for(rank = 0; rank < RankMAX; ++rank)` of `traceFindGrey`. -/
def findGreyRanks (a : ArenaStruct) (ti : TraceId) :
    List Rank → Except Fault (Option (Addr × Rank))
  | [] => .ok none
  | rank :: ranks => do
    match ← findGreyInRing ti rank (ArenaGreyRing a rank) with
    | some found => pure (some found)
    | none => findGreyRanks a ti ranks

/-- `traceFindGrey(&seg, &rank, arena, ti)`: `none` is the result FALSE. -/
def traceFindGrey (cfg : Config) (a : ArenaStruct) (ti : TraceId) :
    Except Fault (Option (Addr × Rank)) := do
  aver (TraceIdCheck cfg ti)
  findGreyRanks a ti (List.range cfg.RankMAX)

/-- The loop over the traces of `ts` at the end of the scanning branch of
`TraceScan`. -/
def scanUpdateTraces (cfg : Config) (ts : TraceSet) (ss : ScanStateStruct) :
    List TraceId → ArenaStruct → Except Fault ArenaStruct
  | [], a => .ok a
  | ti :: tis, a =>
    if TraceSetIsMember ts ti then do
      let t := ArenaTrace a ti
      let a1 := setTrace a ti { t with segScanCount := t.segScanCount + 1 }
      let a2 ← TraceUpdateCounts cfg a1 ti ss TraceAccountingPhase.TraceAccountingPhaseSegScan
      scanUpdateTraces cfg ts ss tis a2
    else
      scanUpdateTraces cfg ts ss tis a

/-- The scanning branch of `TraceScan` ("scan it"): from `ScanStateInit` to
`ScanStateFinish`. -/
def scanSegment (cfg : Config) (env : Env) (ts : TraceSet) (rank : Rank) (seg : Addr)
    (pool : PoolId) (white : RefSet) (s : MpsState) : Except Fault (Res × MpsState) := do
  let ss ← ScanStateInit cfg s.arena ts rank white
  let s1 := emit s (Event.ShieldExpose seg)
  let (res, wasTotal, ss1, a1) := env.PoolScan s1.arena ss pool seg
  let s2 := emit { s1 with arena := a1 } (Event.PoolScan pool seg ss.fix ss.rank)
  let s3 := emit s2 (Event.ShieldCover seg)
  let sg1 ← segGet s3.arena seg
  aver (RefSetSub ss1.unfixedSummary sg1.summary)
  let sum ← ScanStateSummary cfg s3.arena ss1
  let a2 :=
    if res != Res.OK || !wasTotal then
      SegSetSummary cfg s3.arena seg (RefSetUnion sg1.summary sum)
    else
      SegSetSummary cfg s3.arena seg sum
  let a3 ← scanUpdateTraces cfg ts ss1 (List.range cfg.TRACE_MAX) a2
  let _ ← ScanStateFinish cfg a3 ss1
  pure (res, { s3 with arena := a3 })

/-- The end of `TraceScan`: `if(res == ResOK) SegSetGrey(seg,
TraceSetDiff(SegGrey(seg), ts)); return res`. -/
def scanFinish (cfg : Config) (ts : TraceSet) (seg : Addr) (res : Res) (s : MpsState) :
    Except Fault (Res × MpsState) :=
  if res == Res.OK then do
    let sg ← segGet s.arena seg
    pure (res, { s with arena := SegSetGrey cfg s.arena seg (TraceSetDiff cfg sg.grey ts) })
  else
    pure (res, s)

/-- `TraceScan(ts, rank, arena, seg)`. -/
def TraceScan (cfg : Config) (env : Env) (ts : TraceSet) (rank : Rank) (seg : Addr)
    (s : MpsState) : Except Fault (Res × MpsState) := do
  aver (TraceSetCheck cfg ts)
  aver (RankCheck cfg rank)
  let sg ← segGet s.arena seg
  aver (TraceSetInter ts sg.grey != TraceSetEMPTY)
  let white := traceSetWhite cfg s.arena ts
  let (res, s1) ←
    (if RefSetInter white sg.summary == RefSetEMPTY then
      pure (Res.OK,
        emit { s with arena := env.PoolBlacken s.arena sg.pool ts seg }
          (Event.PoolBlacken sg.pool ts seg))
    else
      scanSegment cfg env ts rank seg sg.pool white s)
  scanFinish cfg ts seg res s1

/-- The loop of `TraceAccess` that sets `emergency` on the traces of `traces`. -/
def accessEmergency (traces : TraceSet) : List TraceId → ArenaStruct → ArenaStruct
  | [], a => a
  | ti :: tis, a =>
    if TraceSetIsMember traces ti then
      accessEmergency traces tis (setTrace a ti { ArenaTrace a ti with emergency := true })
    else
      accessEmergency traces tis a

/-- The loop of `TraceAccess` that counts the fault on every busy trace. -/
def accessCountFaults : List TraceId → ArenaStruct → ArenaStruct
  | [], a => a
  | ti :: tis, a =>
    if TraceSetIsMember a.busyTraces ti then
      accessCountFaults tis
        (setTrace a ti { ArenaTrace a ti with faultCount := (ArenaTrace a ti).faultCount + 1 })
    else
      accessCountFaults tis a

/-- The second attempt of `TraceAccess`, in emergency mode. -/
def accessRetry (cfg : Config) (env : Env) (traces : TraceSet) (seg : Addr) (s : MpsState) :
    Except Fault MpsState := do
  let a1 := accessEmergency traces (List.range cfg.TRACE_MAX) s.arena
  let (res, s2) ← TraceScan cfg env traces RankEXACT seg { s with arena := a1 }
  aver (res == Res.OK)
  pure s2

/-- The read-barrier branch of `TraceAccess`. -/
def accessRead (cfg : Config) (env : Env) (seg : Addr) (s : MpsState) :
    Except Fault MpsState := do
  let traces := s.arena.busyTraces
  let (res, s1) ← TraceScan cfg env traces RankEXACT seg s
  let s2 ← (if res != Res.OK then accessRetry cfg env traces seg s1 else pure s1)
  let sg2 ← segGet s2.arena seg
  aver (TraceSetInter sg2.grey s2.arena.flippedTraces == TraceSetEMPTY)
  pure { s2 with arena := accessCountFaults (List.range cfg.TRACE_MAX) s2.arena }

/-- `TraceAccess(arena, seg, mode)`. -/
def TraceAccess (cfg : Config) (env : Env) (seg : Addr) (mode : AccessSet) (s : MpsState) :
    Except Fault MpsState := do
  let sg ← segGet s.arena seg
  aver (mode &&& sg.sm &&& AccessREAD == 0 ||
        TraceSetInter sg.grey s.arena.flippedTraces != TraceSetEMPTY)
  aver (mode &&& sg.sm &&& AccessWRITE == 0 || sg.summary != RefSetUNIV cfg)
  let s3 ← (if mode &&& sg.sm &&& AccessREAD != 0 then accessRead cfg env seg s else pure s)
  let sg3 ← segGet s3.arena seg
  let s4 :=
    if mode &&& sg3.sm &&& AccessWRITE != 0 then
      { s3 with arena := SegSetSummary cfg s3.arena seg (RefSetUNIV cfg) }
    else s3
  let sg4 ← segGet s4.arena seg
  aver (mode &&& sg4.sm == AccessSetEMPTY)
  pure s4

/-! ## Running a trace: `TraceRun`, `TraceStep`, `TraceExpedite`, `TracePoll` -/

/-- `TraceRun(trace)`. -/
def TraceRun (cfg : Config) (env : Env) (trace : TraceId) (s : MpsState) :
    Except Fault (Res × MpsState) := do
  aver (TraceCheck cfg s.arena trace)
  aver ((s.arena.trace trace).state == TraceState.TraceFLIPPED)
  match ← traceFindGrey cfg s.arena (s.arena.trace trace).ti with
  | some (seg, rank) =>
    let sg ← segGet s.arena seg
    let p ← poolGet s.arena sg.pool
    aver (p.attr &&& cfg.AttrSCAN != 0)
    let (res, s1) ← TraceScan cfg env (TraceSetSingle (s.arena.trace trace).ti) rank seg s
    if res != Res.OK then pure (res, s1) else pure (Res.OK, s1)
  | none =>
    pure (Res.OK, { s with arena := (setTrace s.arena trace
                      { s.arena.trace trace with state := TraceState.TraceRECLAIM }) })

/-- `TraceStep(trace)`. -/
def TraceStep (cfg : Config) (env : Env) (fuel : Nat) (trace : TraceId) (s : MpsState) :
    Except Fault (Res × MpsState) := do
  aver (TraceCheck cfg s.arena trace)
  match (s.arena.trace trace).state with
  | TraceState.TraceUNFLIPPED =>
    -- NOTREACHED
    .error Fault.assertion
  | TraceState.TraceFLIPPED =>
    let (res, s1) ← TraceRun cfg env trace s
    if res != Res.OK then pure (res, s1) else pure (Res.OK, s1)
  | TraceState.TraceRECLAIM =>
    let s1 ← TraceReclaim cfg env fuel trace s
    pure (Res.OK, s1)
  | TraceState.TraceFINISHED => pure (Res.OK, s)
  | TraceState.TraceINIT => pure (Res.OK, s)

/-- The loop `while(trace->state != TraceFINISHED)` of `TraceExpedite`. -/
def expediteLoop (cfg : Config) (env : Env) (fuel : Nat) (trace : TraceId) :
    Nat → MpsState → Except Fault MpsState
  | 0, _ => .error Fault.fuel
  | n + 1, s =>
    if (s.arena.trace trace).state != TraceState.TraceFINISHED then do
      let (res, s1) ← TraceStep cfg env fuel trace s
      aver (res == Res.OK)
      expediteLoop cfg env fuel trace n s1
    else
      pure s

/-- `TraceExpedite(trace)`. -/
def TraceExpedite (cfg : Config) (env : Env) (fuel : Nat) (trace : TraceId) (s : MpsState) :
    Except Fault MpsState := do
  aver (TraceCheck cfg s.arena trace)
  aver ((s.arena.trace trace).state != TraceState.TraceINIT)
  let s1 := { s with arena := (setTrace s.arena trace
                { s.arena.trace trace with emergency := true }) }
  expediteLoop cfg env fuel trace fuel s1

/-- `TracePoll(trace)`. -/
def TracePoll (cfg : Config) (env : Env) (fuel : Nat) (trace : TraceId) (s : MpsState) :
    Except Fault MpsState := do
  aver (TraceCheck cfg s.arena trace)
  let (res, s1) ← TraceStep cfg env fuel trace s
  if res != Res.OK then
    aver (res == Res.MEMORY || res == Res.RESOURCE)
    let s2 ← TraceExpedite cfg env fuel trace s1
    aver ((s2.arena.trace trace).state == TraceState.TraceFINISHED)
    pure s2
  else
    pure s1

/-! ## Sequences of tracer operations -/

/-- The entry points of the tracer, with their arguments. -/
inductive Op where
  | create
  | condemn (trace : TraceId) (condemnedSet : RefSet)
  | start (trace : TraceId)
  | step (trace : TraceId)
  | poll (trace : TraceId)
  | access (seg : Addr) (mode : AccessSet)
  | destroy (trace : TraceId)
  deriving DecidableEq, Repr

/-- One call of an entry point; result codes are dropped. -/
def applyOp (cfg : Config) (env : Env) (fuel : Nat) (op : Op) (s : MpsState) :
    Except Fault MpsState :=
  match op with
  | Op.create => (TraceCreate cfg s).map (fun r => r.2.2)
  | Op.condemn trace cs => (TraceCondemnRefSet cfg env fuel trace cs s).map (fun r => r.2)
  | Op.start trace => (TraceStart cfg env fuel trace s).map (fun r => r.2)
  | Op.step trace => (TraceStep cfg env fuel trace s).map (fun r => r.2)
  | Op.poll trace => TracePoll cfg env fuel trace s
  | Op.access seg mode => TraceAccess cfg env seg mode s
  | Op.destroy trace => TraceDestroy cfg trace s

/-- A sequence of calls, each on the state the previous one left. -/
def applyOps (cfg : Config) (env : Env) (fuel : Nat) : List Op → MpsState → Except Fault MpsState
  | [], s => .ok s
  | op :: ops, s =>
    match applyOp cfg env fuel op s with
    | .error f => .error f
    | .ok s1 => applyOps cfg env fuel ops s1

/-! ## Conditions on the environment and specification-level definitions -/

/-- The place of a segment: its range and its pool. -/
def segGeom (sg : SegStruct) : Addr × Addr × PoolId := (sg.base, sg.limit, sg.pool)

/-- The place of a segment and, for every segment but `seg`, whether it is
white for the trace `ti`. -/
def segKey (ti : TraceId) (seg : Addr) (sg : SegStruct) : Addr × Addr × PoolId × Bool :=
  (sg.base, sg.limit, sg.pool, sg.base == seg || TraceSetIsMember sg.white ti)

/-- `PoolWhiten` decides about colours only: it leaves the trace sets, the
trace slots, the zone shift and the pools alone and neither creates, removes
nor moves a segment. -/
def WhitenKeeps (env : Env) : Prop :=
  ∀ a pool ti seg,
    (env.PoolWhiten a pool ti seg).2.busyTraces = a.busyTraces ∧
    (env.PoolWhiten a pool ti seg).2.flippedTraces = a.flippedTraces ∧
    (env.PoolWhiten a pool ti seg).2.trace = a.trace ∧
    (env.PoolWhiten a pool ti seg).2.zoneShift = a.zoneShift ∧
    (env.PoolWhiten a pool ti seg).2.pools = a.pools ∧
    (env.PoolWhiten a pool ti seg).2.segs.map segGeom = a.segs.map segGeom

/-- `PoolWhiten(pool, trace, seg)` changes the whiteness for `trace` of no
segment but `seg`. -/
def WhitenLocal (env : Env) : Prop :=
  ∀ a pool ti seg,
    (env.PoolWhiten a pool ti seg).2.segs.map (segKey ti seg) = a.segs.map (segKey ti seg)

/-- The segment loop over a fixed list of segments instead of
`SegFirst`/`SegNext`. -/
def listLoop (body : Addr → MpsState → Except Fault (Option Res × MpsState)) :
    List Addr → MpsState → Except Fault (Option Res × MpsState)
  | [], s => .ok (none, s)
  | seg :: rest, s =>
    match body seg s with
    | .error f => .error f
    | .ok (some r, s1) => .ok (some r, s1)
    | .ok (none, s1) => listLoop body rest s1

/-- Section 4.3 in the words of the spec: call `TraceAddWhite` on each
segment of the list in turn; bail out on the first failure and propagate it. -/
def addWhiteEach (cfg : Config) (env : Env) (trace : TraceId) :
    List Addr → MpsState → Except Fault (Res × MpsState)
  | [], s => .ok (Res.OK, s)
  | seg :: rest, s =>
    match TraceAddWhite cfg env trace seg s with
    | .error f => .error f
    | .ok (res, s1) => if res != Res.OK then .ok (res, s1) else addWhiteEach cfg env trace rest s1

/-- The segments `TraceCondemnRefSet` offers for whitening: those of a pool
with the GC attribute that lie entirely within `condemnedSet`. -/
def condemnable (cfg : Config) (a : ArenaStruct) (condemnedSet : RefSet) (sg : SegStruct) : Bool :=
  (match a.pools.find? (fun p => p.id == sg.pool) with
   | some p => p.attr &&& cfg.AttrGC != 0
   | none => false) &&
  RefSetSuper condemnedSet (RefSetOfSeg cfg a sg)

/-- The total size of the segments that are white for the trace `ti`. -/
def whiteSize (ti : TraceId) (segs : List SegStruct) : Size :=
  ((segs.filter (fun sg => TraceSetIsMember sg.white ti)).map SegSize).sum

/-- `condemnable` for the segment at the address `seg`. -/
def condemnableAt (cfg : Config) (a : ArenaStruct) (condemnedSet : RefSet) (seg : Addr) : Bool :=
  match segFind a seg with
  | some sg => condemnable cfg a condemnedSet sg
  | none => false

/-- The call of `PoolWhiten` that `TraceAddWhite(trace, seg)` makes. -/
def whitenEvent (a : ArenaStruct) (trace : TraceId) (seg : Addr) : Event :=
  match segFind a seg with
  | some sg => Event.PoolWhiten sg.pool trace seg
  | none => Event.PoolWhiten 0 trace seg

/-- The total size of the segments among `bases` that are white for `ti`. -/
def whiteSizeIn (ti : TraceId) (bases : List Addr) (segs : List SegStruct) : Size :=
  ((segs.filter (fun sg => decide (sg.base ∈ bases) && TraceSetIsMember sg.white ti)).map
    SegSize).sum

/-- The parts of the arena that decide which segments are condemned. -/
def sameLayout (a a1 : ArenaStruct) : Prop :=
  a1.zoneShift = a.zoneShift ∧ a1.pools = a.pools ∧ a1.segs.map segGeom = a.segs.map segGeom

/-- The control fields of a trace, without `foundation`: what no procedure
of the environment writes. -/
def traceCtl (t : TraceStruct) : TraceId × TraceState × RefSet × RefSet × Size × Size :=
  (t.ti, t.state, t.white, t.mayMove, t.condemned, t.rate)

/-- The two arenas have the same trace sets and, in every trace slot, the
same control fields. -/
def sameCtl (a a1 : ArenaStruct) : Prop :=
  a1.busyTraces = a.busyTraces ∧ a1.flippedTraces = a.flippedTraces ∧
  ∀ i, traceCtl (a1.trace i) = traceCtl (a.trace i)

/-- As `sameCtl`, and the same `foundation` in every trace slot. -/
def sameAll (a a1 : ArenaStruct) : Prop :=
  sameCtl a a1 ∧ ∀ i, (a1.trace i).foundation = (a.trace i).foundation

/-- The procedures of the environment leave the trace sets and the control
fields of the traces alone (they may update the accounting counters, the
segments, the pools and the roots). -/
def EnvKeepsCtl (env : Env) : Prop :=
  (∀ a pool ti seg, sameAll a (env.PoolWhiten a pool ti seg).2) ∧
  (∀ a pool ti seg, sameAll a (env.PoolGrey a pool ti seg)) ∧
  (∀ a pool ts seg, sameAll a (env.PoolBlacken a pool ts seg)) ∧
  (∀ a ss pool seg, sameAll a (env.PoolScan a ss pool seg).2.2.2) ∧
  (∀ a pool ti seg, sameAll a (env.PoolReclaim a pool ti seg)) ∧
  (∀ a root ti, sameAll a (env.RootGrey a root ti)) ∧
  (∀ a ss root, sameAll a (env.RootScan a ss root).2.2) ∧
  (∀ a buffer, sameAll a (env.BufferFlip a buffer)) ∧
  (∀ a rs, sameAll a (env.LDAge a rs))

/-- `PoolReclaim` creates no segment: the table it leaves is a part of the
table it found, as far as the bases go. -/
def ReclaimNoNewSegs (env : Env) : Prop :=
  ∀ a pool ti seg,
    ((env.PoolReclaim a pool ti seg).segs.map (fun sg => sg.base)).Sublist
      (a.segs.map (fun sg => sg.base))

/-- The fields of a trace that only `TraceCreate`, `TraceAddWhite` and
`TraceStart` write. -/
def traceStatic (t : TraceStruct) : TraceId × RefSet × RefSet × Size × Size × Size :=
  (t.ti, t.white, t.mayMove, t.condemned, t.rate, t.foundation)

/-- Section 4.4 in the words of the spec: `rate = 1 + ⌈(foundation +
condemned/2) · ARENA_POLL_MAX / (4096 · 1 MiB)⌉`, over the rationals. -/
def traceRateSpec (cfg : Config) (foundation condemned : Size) : Nat :=
  1 + ⌈((foundation : ℚ) + (condemned : ℚ) / 2) * (cfg.ARENA_POLL_MAX : ℚ) / (4096 * 2 ^ 20)⌉₊

/-- The states in which `TraceCheck` wants the identifier of the trace in
`flippedTraces`. -/
def flippedPhase (st : TraceState) : Bool :=
  match st with
  | TraceState.TraceINIT => false
  | TraceState.TraceUNFLIPPED => false
  | TraceState.TraceFLIPPED => true
  | TraceState.TraceRECLAIM => true
  | TraceState.TraceFINISHED => true

/-- Progress of `trace`: the trace sets and the control fields are as
before, but that the state of `trace` may have moved from one state after
the flip to another. -/
def advCtl (trace : TraceId) (a a1 : ArenaStruct) : Prop :=
  a1.busyTraces = a.busyTraces ∧ a1.flippedTraces = a.flippedTraces ∧
  (∀ i, i ≠ trace → traceCtl (a1.trace i) = traceCtl (a.trace i)) ∧
  (a1.trace trace).ti = (a.trace trace).ti ∧
  (a1.trace trace).white = (a.trace trace).white ∧
  (a1.trace trace).mayMove = (a.trace trace).mayMove ∧
  ((a1.trace trace).state = (a.trace trace).state ∨
    (flippedPhase (a.trace trace).state = true ∧ flippedPhase (a1.trace trace).state = true))

/-- In every trace slot `mayMove` is a subset of `white`. -/
def mayMoveSubWhite (a : ArenaStruct) : Prop :=
  ∀ i, RefSetSub (a.trace i).mayMove (a.trace i).white = true

/-- No trace slot has another `white` or `mayMove` in `a1` than in `a`. -/
def sameWhite (a a1 : ArenaStruct) : Prop :=
  ∀ i, (a1.trace i).white = (a.trace i).white ∧ (a1.trace i).mayMove = (a.trace i).mayMove

/-- The trace sets and, in every slot, the identifier and the state are the
same; `mayMove ⊆ white` carries over from `a` to `a1`. -/
def condemnCtl (a a1 : ArenaStruct) : Prop :=
  a1.busyTraces = a.busyTraces ∧ a1.flippedTraces = a.flippedTraces ∧
  ∀ i, (a1.trace i).ti = (a.trace i).ti ∧ (a1.trace i).state = (a.trace i).state ∧
    (RefSetSub (a.trace i).mayMove (a.trace i).white = true →
      RefSetSub (a1.trace i).mayMove (a1.trace i).white = true)

/-- The consistency of the trace sets with the states: `flippedTraces ⊆
busyTraces`, and every busy slot holds the trace of its index, whose
identifier is in `flippedTraces` exactly in the states after the flip. -/
def busyFlippedInv (a : ArenaStruct) : Prop :=
  TraceSetSub a.flippedTraces a.busyTraces = true ∧
  ∀ i, TraceSetIsMember a.busyTraces i = true →
    (a.trace i).ti = i ∧
    TraceSetIsMember a.flippedTraces (a.trace i).ti = flippedPhase (a.trace i).state

/-- What the scanning branch of `TraceScan` adds to one trace of `ts`: one
segment scan, and the counters of the scan state under the phase SegScan. -/
def addSegScan (ss : ScanStateStruct) (t : TraceStruct) : TraceStruct :=
  { t with
    segScanCount := t.segScanCount + 1
    segScanSize := t.segScanSize + ss.scannedSize
    segCopiedSize := t.segCopiedSize + ss.copiedSize
    fixRefCount := t.fixRefCount + ss.fixRefCount
    segRefCount := t.segRefCount + ss.segRefCount
    whiteSegRefCount := t.whiteSegRefCount + ss.whiteSegRefCount
    nailCount := t.nailCount + ss.nailCount
    snapCount := t.snapCount + ss.snapCount
    forwardCount := t.forwardCount + ss.forwardCount }

/-- The arena with `addSegScan ss` applied to the traces of `ts` among the
slots of the list `l`. -/
def scanCounted (ts : TraceSet) (ss : ScanStateStruct) (l : List TraceId) (a : ArenaStruct) :
    ArenaStruct :=
  { a with trace := fun i =>
      if i ∈ l ∧ TraceSetIsMember ts i = true then addSegScan ss (a.trace i) else a.trace i }

/-- The value of `ScanStateSummary(ss)`: `fixedSummary ∪ (unfixedSummary \
white)`. -/
def scanSummary (cfg : Config) (ss : ScanStateStruct) : RefSet :=
  TraceSetUnion ss.fixedSummary (TraceSetDiff cfg ss.unfixedSummary ss.white)

/-- The summary that the scanning branch of `TraceScan` stores in the
segment: the scanned summary after a total successful scan, else its union
with the summary `old` of the segment. -/
def scannedSegSummary (cfg : Config) (res : Res) (wasTotal : Bool) (old : RefSet)
    (ss : ScanStateStruct) : RefSet :=
  if (res != Res.OK || !wasTotal) = true then RefSetUnion old (scanSummary cfg ss)
  else scanSummary cfg ss

/-- The arena `a1` shows, in every trace slot, the same value of the
component `π` as the arena `a`. -/
def keepsProj {α : Type} (π : TraceStruct → α) (a a1 : ArenaStruct) : Prop :=
  ∀ i, π (a1.trace i) = π (a.trace i)

/-- The pool procedures that `TraceStep` calls leave the component `π` of
every trace slot alone. -/
def StepKeeps {α : Type} (π : TraceStruct → α) (env : Env) : Prop :=
  (∀ a pool ts seg, keepsProj π a (env.PoolBlacken a pool ts seg)) ∧
  (∀ a ss pool seg, keepsProj π a (env.PoolScan a ss pool seg).2.2.2) ∧
  (∀ a pool ti seg, keepsProj π a (env.PoolReclaim a pool ti seg))

/-- The component `π` of a trace is none of the fields that `TraceStep`
writes: the counters of a segment scan, `reclaimCount` and `state`. -/
def stepBlind {α : Type} (π : TraceStruct → α) : Prop :=
  (∀ ss t, π (addSegScan ss t) = π t) ∧
  (∀ (t : TraceStruct) n, π { t with reclaimCount := n } = π t) ∧
  (∀ (t : TraceStruct) st, π { t with state := st } = π t)

/-- Repeated `TraceStep`: `n` calls in a row, each of which returns OK. -/
def stepN (cfg : Config) (env : Env) (fuel : Nat) (trace : TraceId) :
    Nat → MpsState → Except Fault MpsState
  | 0, s => .ok s
  | n + 1, s => do
    let (res, s1) ← TraceStep cfg env fuel trace s
    aver (res == Res.OK)
    stepN cfg env fuel trace n s1

/-- The bases of the segments of the table that are grey for the trace `ti`. -/
def greyBases (ti : TraceId) (segs : List SegStruct) : List Addr :=
  (segs.filter (fun sg => TraceSetIsMember sg.grey ti)).map (fun sg => sg.base)

/-- `PoolBlacken` and `PoolScan` grey no further segment: the segments that
are grey for a trace afterwards were grey for it before. -/
def ScanNoNewGrey (env : Env) : Prop :=
  (∀ a pool ts seg ti,
    (greyBases ti (env.PoolBlacken a pool ts seg).segs).Sublist (greyBases ti a.segs)) ∧
  (∀ a ss pool seg ti,
    (greyBases ti (env.PoolScan a ss pool seg).2.2.2.segs).Sublist (greyBases ti a.segs))

/-- `PoolBlacken` and `PoolScan` do not make the segment table longer. -/
def ScanNoNewSegs (env : Env) : Prop :=
  (∀ a pool ts seg, (env.PoolBlacken a pool ts seg).segs.length ≤ a.segs.length) ∧
  (∀ a ss pool seg, (env.PoolScan a ss pool seg).2.2.2.segs.length ≤ a.segs.length)

/-- The number of successful calls of `TraceStep` that a started trace is
away from FINISHED, at most: one for every grey segment, one for the move to
RECLAIM and one for the reclaim. -/
def stepMeasure (ti : TraceId) (a : ArenaStruct) : Nat :=
  match (a.trace ti).state with
  | TraceState.TraceFLIPPED => (greyBases ti a.segs).length + 2
  | TraceState.TraceRECLAIM => 1
  | _ => 0

/-- Modelled from the spec: `RefSetAdd(arena, rs, addr)` folds the zone of
the address into the set (section 4.1); the zone is taken as in
`RefSetOfSeg`. -/
def RefSetAdd (cfg : Config) (a : ArenaStruct) (rs : RefSet) (addr : Addr) : RefSet :=
  rs ||| (1 <<< ((addr >>> a.zoneShift) % cfg.MPS_WORD_WIDTH))

/-- The statement `if(SEG_OF_ADDR(&seg, ss->arena, ref)) ... else ...` of
`TraceFix`: `some res` is the early return of the error of `PoolFix`. The
reference, the scan state and the state are those the statement leaves. -/
def fixSeg (env : Env) (ss : ScanStateStruct) (ref : Addr) (s : MpsState) :
    Except Fault (Option Res × Addr × ScanStateStruct × MpsState) :=
  match SegOfAddr s.arena ref with
  | some sg =>
    let ss1 := { ss with segRefCount := ss.segRefCount + 1 }
    if TraceSetInter sg.white ss1.traces != TraceSetEMPTY then
      let ss2 := { ss1 with whiteSegRefCount := ss1.whiteSegRefCount + 1 }
      let out := env.PoolFix s.arena ss2 sg.pool sg.base ref
      let s1 := emit { s with arena := out.2.2.2 } (Event.PoolFix sg.pool sg.base ref)
      if out.1 != Res.OK then pure (some out.1, out.2.1, out.2.2.1, s1)
      else pure (none, out.2.1, out.2.2.1, s1)
    else
      pure (none, ref, ss1, s)
  | none => do
    aver (decide (ss.rank < RankEXACT) || !env.ArenaIsReservedAddr s.arena ref)
    pure (none, ref, ss, s)

/-- `TraceFix(ss, refIO)`: the result code, the reference left in `*refIO`,
the scan state and the state. -/
def TraceFix (cfg : Config) (env : Env) (ss : ScanStateStruct) (ref : Addr) (s : MpsState) :
    Except Fault (Res × Addr × ScanStateStruct × MpsState) := do
  aver (ScanStateCheck cfg s.arena ss)
  let ss1 := { ss with fixRefCount := ss.fixRefCount + 1 }
  let out ← fixSeg env ss1 ref s
  match out.1 with
  | some res => pure (res, out.2.1, out.2.2.1, out.2.2.2)
  | none =>
    pure (Res.OK, out.2.1,
      { out.2.2.1 with
        fixedSummary := RefSetAdd cfg out.2.2.2.arena out.2.2.1.fixedSummary out.2.1 },
      out.2.2.2)

/-- The statement `if(SEG_OF_ADDR(&seg, ss->arena, ref)) ... else ...` of
`TraceFixEmergency`. -/
def fixSegEmergency (env : Env) (ss : ScanStateStruct) (ref : Addr) (s : MpsState) :
    Except Fault (Addr × ScanStateStruct × MpsState) :=
  match SegOfAddr s.arena ref with
  | some sg =>
    let ss1 := { ss with segRefCount := ss.segRefCount + 1 }
    if TraceSetInter sg.white ss1.traces != TraceSetEMPTY then
      let ss2 := { ss1 with whiteSegRefCount := ss1.whiteSegRefCount + 1 }
      let out := env.PoolFixEmergency s.arena ss2 sg.pool sg.base ref
      pure (out.1, out.2.1,
        emit { s with arena := out.2.2 } (Event.PoolFixEmergency sg.pool sg.base ref))
    else
      pure (ref, ss1, s)
  | none => do
    aver (decide (ss.rank < RankEXACT) || !env.ArenaIsReservedAddr s.arena ref)
    pure (ref, ss, s)

/-- `TraceFixEmergency(ss, refIO)`. -/
def TraceFixEmergency (cfg : Config) (env : Env) (ss : ScanStateStruct) (ref : Addr)
    (s : MpsState) : Except Fault (Res × Addr × ScanStateStruct × MpsState) := do
  aver (ScanStateCheck cfg s.arena ss)
  let ss1 := { ss with fixRefCount := ss.fixRefCount + 1 }
  let out ← fixSegEmergency env ss1 ref s
  pure (Res.OK, out.1,
    { out.2.1 with fixedSummary := RefSetAdd cfg out.2.2.arena out.2.1.fixedSummary out.1 },
    out.2.2)

/-! ## Conditions on `PoolReclaim` -/

/-- The segment table is in address order. -/
def segsSorted (a : ArenaStruct) : Prop :=
  (a.segs.map (fun sg => sg.base)).Pairwise (fun x y => x < y)

/-- `BufferFlip`, `LDAge` and `RootScan` leave the trace slots and the root
ring alone, and `RootScan` leaves the rank of the scan state alone. -/
def FlipKeeps (env : Env) : Prop :=
  (∀ a b, (env.BufferFlip a b).trace = a.trace ∧ (env.BufferFlip a b).roots = a.roots) ∧
  (∀ a rs, (env.LDAge a rs).trace = a.trace ∧ (env.LDAge a rs).roots = a.roots) ∧
  (∀ a ss root, (env.RootScan a ss root).2.2.trace = a.trace ∧
    (env.RootScan a ss root).2.2.roots = a.roots ∧
    (env.RootScan a ss root).2.1.rank = ss.rank)

/-- The calls of `RootScan` for the roots of the list that have the rank
`rank`, in the order of the list. -/
def rootScans (roots : List RootStruct) (rank : Rank) : List Event :=
  (roots.filter (fun r => r.rank == rank)).map (fun r => Event.RootScan r.id rank)

/-- The identifiers of the roots are distinct and each root is found at its
identifier. -/
def rootsDistinct (a : ArenaStruct) : Prop :=
  (a.roots.map (fun r => r.id)).Nodup

/-- What `TraceUpdateCounts(trace, ss, TraceAccountingPhaseRootScan)` adds to
the trace. -/
def addRootScan (ss : ScanStateStruct) (t : TraceStruct) : TraceStruct :=
  { t with
    rootScanSize := t.rootScanSize + ss.scannedSize
    rootCopiedSize := t.rootCopiedSize + ss.copiedSize
    fixRefCount := t.fixRefCount + ss.fixRefCount
    segRefCount := t.segRefCount + ss.segRefCount
    whiteSegRefCount := t.whiteSegRefCount + ss.whiteSegRefCount
    nailCount := t.nailCount + ss.nailCount
    snapCount := t.snapCount + ss.snapCount
    forwardCount := t.forwardCount + ss.forwardCount }

/-! ## Conditions on `PoolGrey` and `RootGrey` -/

/-- What `TraceStart` reads of a segment and, for every segment but `seg`,
whether it is grey for the trace `ti`. -/
def segGreyKey (ti : TraceId) (seg : Addr) (sg : SegStruct) :
    Addr × Addr × PoolId × RankSet × RefSet × Bool :=
  (sg.base, sg.limit, sg.pool, sg.rankSet, sg.summary,
    sg.base == seg || TraceSetIsMember sg.grey ti)

/-- `PoolGrey(pool, trace, seg)` decides about the greyness of `seg` for
`trace` only: it leaves the trace slots, the pools and the roots alone, it
leaves the place, the rank set and the summary of every segment alone, and it
leaves the greyness for the trace of every other segment alone. -/
def GreyLocal (env : Env) : Prop :=
  ∀ a pool ti seg,
    (env.PoolGrey a pool ti seg).trace = a.trace ∧
    (env.PoolGrey a pool ti seg).pools = a.pools ∧
    (env.PoolGrey a pool ti seg).roots = a.roots ∧
    (env.PoolGrey a pool ti seg).segs.map (segGreyKey ti seg) = a.segs.map (segGreyKey ti seg)

/-- `RootGrey` leaves the trace slots and the root ring alone. -/
def RootGreyKeeps (env : Env) : Prop :=
  ∀ a root ti, (env.RootGrey a root ti).trace = a.trace ∧ (env.RootGrey a root ti).roots = a.roots

/-- The segments `TraceStart` offers for greying: those with a non-empty rank
set whose summary meets the white set. -/
def greyable (white : RefSet) (sg : SegStruct) : Bool :=
  sg.rankSet != RankSetEMPTY && RefSetInter sg.summary white != RefSetEMPTY

/-- The call of `PoolGrey` that `TraceStart` makes, if any, when it visits
the segment at the address `seg`. -/
def greyCallAt (a : ArenaStruct) (trace : TraceId) (white : RefSet) (seg : Addr) : List Event :=
  match segFind a seg with
  | some sg => if greyable white sg then [Event.PoolGrey sg.pool trace seg] else []
  | none => []

/-- The total size of the segments among `bases` that were offered for
greying and are grey for `ti`. -/
def greyedSizeIn (ti : TraceId) (white : RefSet) (bases : List Addr) (segs : List SegStruct) :
    Size :=
  ((segs.filter (fun sg =>
      decide (sg.base ∈ bases) && (greyable white sg && TraceSetIsMember sg.grey ti))).map
    SegSize).sum

/-- The total size of the segments that were offered for greying and are grey
for `ti`. -/
def greyedSize (ti : TraceId) (white : RefSet) (segs : List SegStruct) : Size :=
  ((segs.filter (fun sg => greyable white sg && TraceSetIsMember sg.grey ti)).map SegSize).sum

/-- The call of `RootGrey` that `TraceStart` makes, if any, when it visits
the root `root`. -/
def rootGreyCallAt (a : ArenaStruct) (trace : TraceId) (white : RefSet) (root : RootId) :
    List Event :=
  match a.roots.find? (fun r => r.id == root) with
  | some r => if RefSetInter r.summary white != RefSetEMPTY then [Event.RootGrey root trace]
              else []
  | none => []

/-- The calls that `TraceFlip` makes: to the shield, `BufferFlip`, `LDAge`
and `RootScan`. -/
def flipCall : Event → Bool
  | Event.ShieldSuspend => true
  | Event.ShieldResume => true
  | Event.BufferFlip _ => true
  | Event.LDAge _ => true
  | Event.RootScan _ _ => true
  | Event.ShieldRaise _ _ => true
  | _ => false

/-! ## Scanning areas: `TraceScanArea`, `TraceScanAreaTagged`, `TraceScanAreaMasked` -/

/-- The scanning macros of `mpm.h` that the area scanners use, over a state
`σ` that holds whatever they read and write (the scan state and its cached
copy, the area being scanned, the arena). `load st p` is `*p`;
`TRACE_FIX1 st ref` is the first-stage test of the reference `ref`;
`TRACE_FIX2 st p` fixes the word at the address `p`. -/
structure ScanMacros (σ : Type) where
  load : σ → Addr → Word
  TRACE_SCAN_BEGIN : σ → σ
  TRACE_FIX1 : σ → Word → Bool × σ
  TRACE_FIX2 : σ → Addr → Res × σ
  TRACE_SCAN_END : σ → σ

/-- The loop of `TraceScanArea`, from the label `loop` with the pointer at
`p`: `none` is the jump to `out`, `some res` is `return res`. -/
def scanAreaLoop {σ : Type} (m : ScanMacros σ) (limit : Addr) :
    Nat → Addr → σ → Except Fault (Option Res × Addr × σ)
  | 0, _, _ => .error Fault.fuel
  | n + 1, p, st =>
    if p ≥ limit then .ok (none, p, st)
    else
      let ref := m.load st p
      let p1 := p + 1
      let (pass, st1) := m.TRACE_FIX1 st ref
      if !pass then scanAreaLoop m limit n p1 st1
      else
        let (res, st2) := m.TRACE_FIX2 st1 (p1 - 1)
        if res == Res.OK then scanAreaLoop m limit n p1 st2
        else .ok (some res, p1, st2)

/-- `TraceScanArea(ss, base, limit)`. -/
def TraceScanArea {σ : Type} (m : ScanMacros σ) (fuel : Nat) (base limit : Addr) (st : σ) :
    Except Fault (Res × σ) := do
  aver (base != 0)
  aver (limit != 0)
  aver (decide (base < limit))
  let st0 := m.TRACE_SCAN_BEGIN st
  let (ret, p, st1) ← scanAreaLoop m limit fuel base st0
  match ret with
  | some res => pure (res, st1)
  | none =>
    aver (p == limit)
    pure (Res.OK, m.TRACE_SCAN_END st1)

/-- The loop of `TraceScanAreaMasked`, from the label `loop` with the pointer
at `p`: `none` is the jump to `out`, `some res` is `return res`. -/
def scanAreaMaskedLoop {σ : Type} (m : ScanMacros σ) (limit : Addr) (mask : Word) :
    Nat → Addr → σ → Except Fault (Option Res × Addr × σ)
  | 0, _, _ => .error Fault.fuel
  | n + 1, p, st =>
    if p ≥ limit then .ok (none, p, st)
    else
      let ref := m.load st p
      let p1 := p + 1
      if ref &&& mask != 0 then scanAreaMaskedLoop m limit mask n p1 st
      else
        let (pass, st1) := m.TRACE_FIX1 st ref
        if !pass then scanAreaMaskedLoop m limit mask n p1 st1
        else
          let (res, st2) := m.TRACE_FIX2 st1 (p1 - 1)
          if res == Res.OK then scanAreaMaskedLoop m limit mask n p1 st2
          else .ok (some res, p1, st2)

/-- `TraceScanAreaMasked(ss, base, limit, mask)`. -/
def TraceScanAreaMasked {σ : Type} (m : ScanMacros σ) (fuel : Nat) (base limit : Addr)
    (mask : Word) (st : σ) : Except Fault (Res × σ) := do
  aver (base != 0)
  aver (limit != 0)
  aver (decide (base < limit))
  let st0 := m.TRACE_SCAN_BEGIN st
  let (ret, p, st1) ← scanAreaMaskedLoop m limit mask fuel base st0
  match ret with
  | some res => pure (res, st1)
  | none =>
    aver (p == limit)
    pure (Res.OK, m.TRACE_SCAN_END st1)

/-- `TraceScanAreaTagged(ss, base, limit)`. -/
def TraceScanAreaTagged {σ : Type} (m : ScanMacros σ) (fuel : Nat) (base limit : Addr)
    (st : σ) : Except Fault (Res × σ) :=
  TraceScanAreaMasked m fuel base limit 3 st

/-- The area scan in the words of the claim: consider the words at the
addresses of the list in order; apply the fix only to a word whose value
ANDed with `mask` is zero and that passes the first-stage filter; stop at the
first fix that fails and return its error, and return OK otherwise. -/
def scanWordsMasked {σ : Type} (m : ScanMacros σ) (mask : Word) : List Addr → σ → Res × σ
  | [], st => (Res.OK, st)
  | p :: ps, st =>
    if m.load st p &&& mask = 0 then
      if (m.TRACE_FIX1 st (m.load st p)).1 = true then
        if (m.TRACE_FIX2 (m.TRACE_FIX1 st (m.load st p)).2 p).1 = Res.OK then
          scanWordsMasked m mask ps (m.TRACE_FIX2 (m.TRACE_FIX1 st (m.load st p)).2 p).2
        else m.TRACE_FIX2 (m.TRACE_FIX1 st (m.load st p)).2 p
      else scanWordsMasked m mask ps (m.TRACE_FIX1 st (m.load st p)).2
    else scanWordsMasked m mask ps st

/-! ## The write barrier and the summary -/

/-- The write barrier of a segment agrees with its summary: it is up exactly
while the summary is not UNIV (section 4.9). -/
def writeBarrierOK (cfg : Config) (sg : SegStruct) : Prop :=
  sg.sm &&& AccessWRITE ≠ 0 ↔ sg.summary ≠ RefSetUNIV cfg

/-- `PoolBlacken` leaves the write barrier of its segment in agreement with
the summary of the segment. -/
def BlackenKeepsBarrier (cfg : Config) (env : Env) : Prop :=
  ∀ (a : ArenaStruct) (pool : PoolId) (ts : TraceSet) (seg : Addr) (sg sg2 : SegStruct),
    segGet a seg = .ok sg → segGet (env.PoolBlacken a pool ts seg) seg = .ok sg2 →
    writeBarrierOK cfg sg → writeBarrierOK cfg sg2

/-! ## A concrete configuration and arena

Used to evaluate the definitions on explicit inputs. -/

/-- A 64-bit configuration with a single trace slot. -/
def cfg0 : Config :=
  { TRACE_MAX := 1, MPS_WORD_WIDTH := 64, ARENA_POLL_MAX := 65536,
    TraceIdNONE := 2 ^ 64 - 1, RankMAX := 4,
    AttrSCAN := 2, AttrGC := 512, AttrMOVINGGC := 4096 }

/-- A trace slot that is not in use. -/
def traceFree : TraceStruct := { traceInit 0 with sig := Sig.SigInvalid }

/-- An arena with no trace, no segment, no pool and no root. -/
def arenaEmpty : ArenaStruct :=
  { busyTraces := TraceSetEMPTY, flippedTraces := TraceSetEMPTY, trace := fun _ => traceFree,
    zoneShift := 20, segs := [], pools := [], roots := [] }

def stateEmpty : MpsState := { arena := arenaEmpty, events := [] }

/-- An environment whose procedures change nothing and always succeed. -/
def envIdle : Env :=
  { PoolWhiten := fun a _ _ _ => (Res.OK, a)
    PoolGrey := fun a _ _ _ => a
    PoolBlacken := fun a _ _ _ => a
    PoolScan := fun a ss _ _ => (Res.OK, true, ss, a)
    PoolReclaim := fun a _ _ _ => a
    RootGrey := fun a _ _ => a
    RootScan := fun a ss _ => (Res.OK, ss, a)
    BufferFlip := fun a _ => a
    LDAge := fun a _ => a
    PoolFix := fun a ss _ _ ref => (Res.OK, ref, ss, a)
    PoolFixEmergency := fun a ss _ _ ref => (ref, ss, a)
    ArenaIsReservedAddr := fun _ _ => false }

/-- The empty arena after `TraceCreate`. -/
def stateCreated : MpsState :=
  { stateEmpty with
    arena := setTrace { arenaEmpty with busyTraces := TraceSetAdd TraceSetEMPTY 0 } 0
      (traceInit 0) }

/-- A pool with the GC and SCAN attributes, and one of its segments. -/
def poolGC : PoolStruct := { id := 7, attr := 514, buffers := [] }

def segOne : SegStruct :=
  { base := 1048576, limit := 2097152, pool := 7, rankSet := 2, summary := 2 ^ 64 - 1,
    grey := 0, white := 0, sm := 0 }

/-- An environment whose `PoolWhiten` accepts every segment and whose
`PoolGrey` greys every segment; the other procedures change nothing. -/
def envWhiten : Env :=
  { envIdle with
    PoolWhiten := fun a _ ti seg =>
      (Res.OK, segUpdate a seg (fun sg => { sg with white := TraceSetAdd sg.white ti }))
    PoolGrey := fun a _ ti seg =>
      segUpdate a seg (fun sg => { sg with grey := TraceSetAdd sg.grey ti }) }

/-- An arena with one pool and one segment, after `TraceCreate`. -/
def stateOneSeg : MpsState :=
  { stateCreated with
    arena := { stateCreated.arena with segs := [segOne], pools := [poolGC] } }

/-- A segment of one page (4096 bytes) of the pool `poolGC`. -/
def segPage : SegStruct :=
  { base := 1048576, limit := 1052672, pool := 7, rankSet := 2, summary := 2 ^ 64 - 1,
    grey := 0, white := 0, sm := 0 }

/-- An arena with one pool and one segment of one page, after `TraceCreate`. -/
def statePage : MpsState :=
  { stateCreated with
    arena := { stateCreated.arena with segs := [segPage], pools := [poolGC] } }

/-- The arena `statePage` after its segment has been condemned. -/
def statePageCondemned : MpsState :=
  { statePage with
    arena := setTrace
      (segUpdate statePage.arena 1048576 (fun sg => { sg with white := 1 })) 0
      { traceInit 0 with white := 2, condemned := 4096 } }

/-- The arena `statePageCondemned` after `TraceStart`: the trace is FLIPPED
and the segment is grey for it. -/
def statePageFlipped : MpsState :=
  match TraceStart cfg0 envWhiten 3 0 statePageCondemned with
  | .ok (_, s) => s
  | .error _ => stateEmpty

/-- A pool as `poolGC` that also moves objects (attribute MOVINGGC). -/
def poolMoving : PoolStruct := { id := 7, attr := 4610, buffers := [] }

/-- The arena `statePage` with its segment in the moving pool. -/
def statePageMoving : MpsState :=
  { statePage with arena := { statePage.arena with pools := [poolMoving] } }

/-- An arena with one pool and one segment of one page and no trace yet. -/
def stateFresh : MpsState :=
  { stateEmpty with arena := { arenaEmpty with segs := [segPage], pools := [poolGC] } }

/-- An environment as `envWhiten` whose `PoolReclaim` takes the whiteness for
the trace off its segment. -/
def envCollect : Env :=
  { envWhiten with
    PoolReclaim := fun a _ ti seg =>
      segUpdate a seg (fun sg => { sg with white := TraceSetDel cfg0 sg.white ti }) }

/-- An environment as `envCollect` whose `PoolScan` gives up with RESOURCE
after three references and 1024 bytes unless the scan state fixes in
emergency mode, in which case it scans the whole page, eight references. -/
def envFailing : Env :=
  { envCollect with
    PoolScan := fun a ss _ _ =>
      if ss.fix = FixMethod.TraceFix then
        (Res.RESOURCE, false,
          { ss with scannedSize := ss.scannedSize + 1024, fixRefCount := ss.fixRefCount + 3,
                    segRefCount := ss.segRefCount + 3,
                    whiteSegRefCount := ss.whiteSegRefCount + 3 }, a)
      else
        (Res.OK, true,
          { ss with scannedSize := ss.scannedSize + 4096, fixRefCount := ss.fixRefCount + 8,
                    segRefCount := ss.segRefCount + 8,
                    whiteSegRefCount := ss.whiteSegRefCount + 8 }, a) }

/-- The state `s` with the emergency flag set in the trace 0, as
`TraceExpedite` sets it. -/
def withEmergency (s : MpsState) : MpsState :=
  { s with arena := setTrace s.arena 0 { s.arena.trace 0 with emergency := true } }

/-- The scan state that `TraceScan` sets up for the trace 0 at rank EXACT in
the arena `statePageFlipped`. -/
def ssPage : ScanStateStruct :=
  { sig := Sig.ScanStateSig, fix := FixMethod.TraceFix, traces := TraceSetSingle 0,
    rank := RankEXACT, zoneShift := 20, white := 2,
    unfixedSummary := RefSetEMPTY, fixedSummary := RefSetEMPTY, wasMarked := true,
    fixRefCount := 0, segRefCount := 0, whiteSegRefCount := 0,
    nailCount := 0, snapCount := 0, forwardCount := 0,
    copiedSize := 0, scannedSize := 0 }

/-- An environment whose `PoolFix` does what its `PoolFixEmergency` does:
both mark the object, counting one nailed object, and leave the reference. -/
def envMark : Env :=
  { envCollect with
    PoolFix := fun a ss _ _ ref => (Res.OK, ref, { ss with nailCount := ss.nailCount + 1 }, a)
    PoolFixEmergency := fun a ss _ _ ref => (ref, { ss with nailCount := ss.nailCount + 1 }, a) }

/-- The arena `statePageFlipped` after the summary of its page has been
narrowed to the zone of the white set, which raises the write barrier. -/
def statePageBarrier : MpsState :=
  { statePageFlipped with arena := SegSetSummary cfg0 statePageFlipped.arena 1048576 2 }

/-- The arena `statePageFlipped` after the summary of its page has been
narrowed to zone 2, away from the white set, which raises the write barrier. -/
def statePageAway : MpsState :=
  { statePageFlipped with arena := SegSetSummary cfg0 statePageFlipped.arena 1048576 4 }

/-- The arena `statePageAway` after an access for reading and writing. -/
def statePageAccessed : MpsState :=
  match TraceAccess cfg0 envCollect 1048576 3 statePageAway with
  | .ok s => s
  | .error _ => stateEmpty

/-- A second page, of rank AMBIG, grey for the trace 0 and behind the read
barrier. -/
def segAmbig : SegStruct :=
  { base := 2097152, limit := 2101248, pool := 7, rankSet := 1, summary := 2 ^ 64 - 1,
    grey := 1, white := 0, sm := 1 }

/-- The arena `statePageFlipped` with the page `segAmbig` after its page of
rank EXACT. -/
def stateTwoRanks : MpsState :=
  { statePageFlipped with
    arena := { statePageFlipped.arena with segs := statePageFlipped.arena.segs ++ [segAmbig] } }

/-- Three roots: an EXACT root that refers to the zone of the white set, an
AMBIG root that may refer anywhere, and an EXACT root that refers nowhere. -/
def rootsThree : List RootStruct :=
  [{ id := 1, rank := RankEXACT, summary := 2 },
   { id := 2, rank := RankAMBIG, summary := 2 ^ 64 - 1 },
   { id := 3, rank := RankEXACT, summary := 0 }]

/-- The arena `statePageCondemned` with the three roots. -/
def stateRoots : MpsState :=
  { statePageCondemned with arena := { statePageCondemned.arena with roots := rootsThree } }

/-- An environment as `envCollect` whose `RootScan` scans 64 bytes and fixes
two references into the zone of the white set. -/
def envRoots : Env :=
  { envCollect with
    RootScan := fun a ss _ =>
      (Res.OK,
        { ss with scannedSize := ss.scannedSize + 64, fixRefCount := ss.fixRefCount + 2,
                  fixedSummary := RefSetUnion ss.fixedSummary 2 }, a) }

/-- An environment as `envRoots` whose `RootScan` gives up with RESOURCE on
the root 1, after 16 bytes and one reference. -/
def envRootFail : Env :=
  { envRoots with
    RootScan := fun a ss root =>
      if root = 1 then
        (Res.RESOURCE,
          { ss with scannedSize := ss.scannedSize + 16, fixRefCount := ss.fixRefCount + 1 }, a)
      else envRoots.RootScan a ss root }

/-- The state in which `TraceStart` calls `TraceFlip` on the arena
`stateRoots`: the page and the roots 1 and 2 are grey and the trace is
UNFLIPPED. -/
def stateRootsUnflipped : MpsState :=
  match forSegs (startGreyBody cfg0 envRoots 0) 3 stateRoots with
  | .ok (_, s1) =>
    match startGreyRoots envRoots 0 (s1.arena.roots.map (fun r => r.id)) s1 with
    | .ok s2 =>
      { s2 with arena := (setTrace
          (setTrace s2.arena 0
            { s2.arena.trace 0 with rate := traceRate cfg0 (s2.arena.trace 0) }) 0
          { (setTrace s2.arena 0
              { s2.arena.trace 0 with rate := traceRate cfg0 (s2.arena.trace 0) }).trace 0 with
            state := TraceState.TraceUNFLIPPED }) }
    | .error _ => stateEmpty
  | .error _ => stateEmpty

/-- The arena `stateRootsUnflipped` after a `TraceFlip` in which the scan of
the root 1 fails. -/
def stateRootsFailed : MpsState :=
  match TraceFlip cfg0 envRootFail 3 0 stateRootsUnflipped with
  | .ok (_, s) => s
  | .error _ => stateEmpty

/-- A segment without references: its rank set is empty. -/
def segLeaf : SegStruct :=
  { base := 2097152, limit := 2105344, pool := 7, rankSet := 0, summary := 0,
    grey := 0, white := 0, sm := 0 }

/-- The arena `stateRoots` with the segment `segLeaf` after its page. -/
def stateLeaf : MpsState :=
  { stateRoots with arena := { stateRoots.arena with segs := stateRoots.arena.segs ++ [segLeaf] } }

/-- The arena `stateLeaf` after `TraceStart`. -/
def stateLeafStarted : MpsState :=
  match TraceStart cfg0 envRoots 3 0 stateLeaf with
  | .ok (_, s) => s
  | .error _ => stateEmpty

/-- An area of words with a record of what the scanning macros were asked:
the words given to `TRACE_FIX1`, the addresses given to `TRACE_FIX2`, and
whether the scan is between `TRACE_SCAN_BEGIN` and `TRACE_SCAN_END`. -/
structure AreaState where
  mem : List Word
  tested : List Word
  fixed : List Addr
  scanning : Bool
  deriving DecidableEq, Repr

/-- Scanning macros over `AreaState`: the first stage lets through the words
from 4096 on, and the fix fails with RESOURCE on the word 12288. -/
def macrosLog : ScanMacros AreaState :=
  { load := fun st p => st.mem.getD p 0
    TRACE_SCAN_BEGIN := fun st => { st with scanning := true }
    TRACE_FIX1 := fun st w => (decide (4096 ≤ w), { st with tested := st.tested ++ [w] })
    TRACE_FIX2 := fun st p =>
      (if st.mem.getD p 0 = 12288 then Res.RESOURCE else Res.OK,
        { st with fixed := st.fixed ++ [p] })
    TRACE_SCAN_END := fun st => { st with scanning := false } }

/-- An area of six words at the addresses 1 to 6. -/
def areaSix : AreaState :=
  { mem := [0, 4096, 4097, 16, 8192, 12288, 4096], tested := [], fixed := [], scanning := false }

/-! ## Bit-set lemmas -/

theorem testBit_wordNot (w : Nat) (x : Nat) (i : Nat) :
    (wordNot w x).testBit i = (decide (i < w) && !x.testBit i) := by
  unfold wordNot
  have hlt : x % 2 ^ w < 2 ^ w := Nat.mod_lt _ (by positivity)
  have h := Nat.testBit_two_pow_sub_succ hlt i
  have e : 2 ^ w - 1 - x % 2 ^ w = 2 ^ w - (x % 2 ^ w + 1) := by
    have hp : 0 < 2 ^ w := by positivity
    generalize x % 2 ^ w = y at hlt
    generalize 2 ^ w = n at hlt hp
    omega
  rw [e, h, Nat.testBit_mod_two_pow]
  cases decide (i < w) <;> simp

theorem testBit_one_shiftLeft (ti i : Nat) : (1 <<< ti : Nat).testBit i = decide (ti = i) := by
  rw [Nat.one_shiftLeft, Nat.testBit_two_pow]

theorem isMember_TraceSetAdd (ts : TraceSet) (ti i : TraceId) :
    TraceSetIsMember (TraceSetAdd ts ti) i = (TraceSetIsMember ts i || decide (ti = i)) := by
  simp only [TraceSetIsMember, TraceSetAdd, Nat.testBit_lor, testBit_one_shiftLeft]

theorem isMember_TraceSetDel (cfg : Config) (ts : TraceSet) (ti i : TraceId) :
    TraceSetIsMember (TraceSetDel cfg ts ti) i =
      (TraceSetIsMember ts i && (decide (i < cfg.MPS_WORD_WIDTH) && !decide (ti = i))) := by
  simp only [TraceSetIsMember, TraceSetDel, Nat.testBit_land, testBit_wordNot,
    testBit_one_shiftLeft]

theorem isMember_TraceSetSingle (ti i : TraceId) :
    TraceSetIsMember (TraceSetSingle ti) i = decide (ti = i) := by
  simp only [TraceSetIsMember, TraceSetSingle, testBit_one_shiftLeft]

theorem isMember_lt_of_lt_two_pow {ts : TraceSet} {w i : Nat} (h : ts < 2 ^ w)
    (hm : TraceSetIsMember ts i = true) : i < w := by
  by_contra hc
  have hge : w ≤ i := Nat.le_of_not_lt hc
  have hlt : ts < 2 ^ i := lt_of_lt_of_le h (Nat.pow_le_pow_right (by decide) hge)
  have := Nat.testBit_lt_two_pow hlt
  simp [TraceSetIsMember] at hm
  simp [this] at hm

/-- Subset test by bits. -/
theorem RefSetSub_iff (a b : RefSet) :
    RefSetSub a b = true ↔ ∀ i, a.testBit i = true → b.testBit i = true := by
  unfold RefSetSub
  rw [beq_iff_eq]
  constructor
  · intro h i hi
    have := congrArg (fun x => x.testBit i) h
    simp [Nat.testBit_land, hi] at this
    exact this
  · intro h
    apply Nat.eq_of_testBit_eq
    intro i
    rw [Nat.testBit_land]
    cases ha : a.testBit i
    · simp
    · simp [h i ha]

theorem RefSetSuper_iff (a b : RefSet) :
    RefSetSuper a b = true ↔ ∀ i, b.testBit i = true → a.testBit i = true := by
  unfold RefSetSuper
  rw [beq_iff_eq]
  constructor
  · intro h i hi
    have := congrArg (fun x => x.testBit i) h
    simp [Nat.testBit_land, hi] at this
    exact this
  · intro h
    apply Nat.eq_of_testBit_eq
    intro i
    rw [Nat.testBit_land]
    cases hb : b.testBit i
    · simp
    · simp [h i hb]

theorem testBit_RefSetUnion (a b : RefSet) (i : Nat) :
    (RefSetUnion a b).testBit i = (a.testBit i || b.testBit i) := by
  simp [RefSetUnion, Nat.testBit_lor]

theorem RefSetSub_empty (b : RefSet) : RefSetSub RefSetEMPTY b = true := by
  simp [RefSetSub, RefSetEMPTY]

/-- Adding an absent member and deleting it again gives the set back. -/
theorem TraceSetDel_TraceSetAdd (cfg : Config) (ts : TraceSet) (ti : TraceId)
    (hts : ts < 2 ^ cfg.MPS_WORD_WIDTH) (hti : TraceSetIsMember ts ti = false) :
    TraceSetDel cfg (TraceSetAdd ts ti) ti = ts := by
  apply Nat.eq_of_testBit_eq
  intro i
  have h1 := isMember_TraceSetDel cfg (TraceSetAdd ts ti) ti i
  rw [isMember_TraceSetAdd] at h1
  simp only [TraceSetIsMember] at h1 hti
  rw [h1]
  by_cases hi : ti = i
  · subst hi; simp [hti]
  · cases hb : ts.testBit i
    · simp [hi]
    · have := isMember_lt_of_lt_two_pow hts (i := i) (by simpa [TraceSetIsMember] using hb)
      simp [hi, this]

theorem TraceSetSuper_iff (a b : TraceSet) :
    TraceSetSuper a b = true ↔ ∀ i, TraceSetIsMember b i = true → TraceSetIsMember a i = true :=
  RefSetSuper_iff a b

/-! ## Running checks -/

theorem bind_ok_iff {ε α β : Type} (m : Except ε α) (f : α → Except ε β) (b : β) :
    (m >>= f) = .ok b ↔ ∃ a, m = .ok a ∧ f a = .ok b := by
  cases m with
  | error e => simp [bind, Except.bind]
  | ok a => simp [bind, Except.bind]

theorem aver_ok_iff (c : Bool) (u : Unit) : aver c = .ok u ↔ c = true := by
  cases c <;> simp [aver]

theorem aver_bind_ok_iff {β : Type} (c : Bool) (f : Unit → Except Fault β) (b : β) :
    (aver c >>= f) = .ok b ↔ c = true ∧ f () = .ok b := by
  cases c <;> simp [aver, bind, Except.bind]

theorem aver_true_bind {β : Type} (c : Bool) (f : Unit → Except Fault β) (h : c = true) :
    (aver c >>= f) = f () := by
  subst h
  simp [aver, bind, Except.bind]

theorem pure_ok_iff {α : Type} (a b : α) : (pure a : Except Fault α) = .ok b ↔ a = b := by
  simp [pure, Except.pure]

theorem map_ok_iff {α β : Type} (m : Except Fault α) (f : α → β) (b : β) :
    m.map f = .ok b ↔ ∃ a, m = .ok a ∧ f a = b := by
  cases m with
  | error e => simp [Except.map]
  | ok a => simp [Except.map]

theorem exists_aver_ok_iff (c : Bool) (P : Unit → Prop) :
    (∃ u, aver c = .ok u ∧ P u) ↔ c = true ∧ P () := by
  cases c
  · simp [aver]
  · simp only [aver, if_true, Except.ok.injEq, true_and]
    constructor
    · rintro ⟨⟨⟩, h⟩
      exact h
    · intro h
      exact ⟨(), h⟩

/-! ## Stores into the arena -/

@[simp] theorem setTrace_trace_same (a : ArenaStruct) (ti : TraceId) (t : TraceStruct) :
    (setTrace a ti t).trace ti = t := by
  simp [setTrace]

theorem setTrace_trace_ne (a : ArenaStruct) (ti i : TraceId) (t : TraceStruct) (h : i ≠ ti) :
    (setTrace a ti t).trace i = a.trace i := by
  simp [setTrace, h]

theorem setTrace_trace (a : ArenaStruct) (ti i : TraceId) (t : TraceStruct) :
    (setTrace a ti t).trace i = if i = ti then t else a.trace i := by
  simp [setTrace]

@[simp] theorem setTrace_setTrace (a : ArenaStruct) (ti : TraceId) (t t1 : TraceStruct) :
    setTrace (setTrace a ti t) ti t1 = setTrace a ti t1 := by
  simp only [setTrace]
  congr 1
  funext i
  by_cases hi : i = ti <;> simp [hi]

@[simp] theorem setTrace_busyTraces (a : ArenaStruct) (ti : TraceId) (t : TraceStruct) :
    (setTrace a ti t).busyTraces = a.busyTraces := rfl

@[simp] theorem setTrace_flippedTraces (a : ArenaStruct) (ti : TraceId) (t : TraceStruct) :
    (setTrace a ti t).flippedTraces = a.flippedTraces := rfl

@[simp] theorem setTrace_segs (a : ArenaStruct) (ti : TraceId) (t : TraceStruct) :
    (setTrace a ti t).segs = a.segs := rfl

@[simp] theorem setTrace_pools (a : ArenaStruct) (ti : TraceId) (t : TraceStruct) :
    (setTrace a ti t).pools = a.pools := rfl

@[simp] theorem setTrace_roots (a : ArenaStruct) (ti : TraceId) (t : TraceStruct) :
    (setTrace a ti t).roots = a.roots := rfl

@[simp] theorem setTrace_zoneShift (a : ArenaStruct) (ti : TraceId) (t : TraceStruct) :
    (setTrace a ti t).zoneShift = a.zoneShift := rfl

@[simp] theorem emit_arena (s : MpsState) (e : Event) : (emit s e).arena = s.arena := rfl

@[simp] theorem emit_events (s : MpsState) (e : Event) : (emit s e).events = s.events ++ [e] := rfl

/-! ## The segment loop -/

/-- A property that every completed run of the body keeps is kept by the loop. -/
theorem segLoop_inv (body : Addr → MpsState → Except Fault (Option Res × MpsState))
    (P : MpsState → Prop)
    (hbody : ∀ seg s r s1, P s → body seg s = .ok (r, s1) → P s1) :
    ∀ fuel seg s r s1, P s → segLoop body fuel seg s = .ok (r, s1) → P s1 := by
  intro fuel
  induction fuel with
  | zero =>
    intro seg s r s1 _ h
    simp [segLoop] at h
  | succ n ih =>
    intro seg s r s1 hP h
    simp only [segLoop] at h
    cases hb : body seg s with
    | error f => simp [hb] at h
    | ok res =>
      obtain ⟨ret, s2⟩ := res
      have hP2 := hbody seg s ret s2 hP hb
      cases ret with
      | some r2 =>
        simp only [hb, Except.ok.injEq, Prod.mk.injEq] at h
        rw [← h.2]
        exact hP2
      | none =>
        simp only [hb] at h
        cases hn : SegNext s2.arena seg with
        | none =>
          simp only [hn, Except.ok.injEq, Prod.mk.injEq] at h
          rw [← h.2]
          exact hP2
        | some seg1 =>
          simp only [hn] at h
          exact ih seg1 s2 r s1 hP2 h

theorem forSegs_inv (body : Addr → MpsState → Except Fault (Option Res × MpsState))
    (P : MpsState → Prop)
    (hbody : ∀ seg s r s1, P s → body seg s = .ok (r, s1) → P s1)
    (fuel : Nat) (s : MpsState) (r : Option Res) (s1 : MpsState)
    (hP : P s) (h : forSegs body fuel s = .ok (r, s1)) : P s1 := by
  unfold forSegs at h
  cases hf : SegFirst s.arena with
  | none =>
    simp only [hf, Except.ok.injEq, Prod.mk.injEq] at h
    rw [← h.2]
    exact hP
  | some seg =>
    simp only [hf] at h
    exact segLoop_inv body P hbody fuel seg s r s1 hP h

theorem listLoop_inv (body : Addr → MpsState → Except Fault (Option Res × MpsState))
    (P : MpsState → Prop)
    (hbody : ∀ seg s r s1, P s → body seg s = .ok (r, s1) → P s1) :
    ∀ l s r s1, P s → listLoop body l s = .ok (r, s1) → P s1 := by
  intro l
  induction l with
  | nil =>
    intro s r s1 hP h
    simp only [listLoop, Except.ok.injEq, Prod.mk.injEq] at h
    rw [← h.2]
    exact hP
  | cons seg rest ih =>
    intro s r s1 hP h
    simp only [listLoop] at h
    cases hb : body seg s with
    | error f => simp [hb] at h
    | ok res =>
      obtain ⟨ret, s2⟩ := res
      have hP2 := hbody seg s ret s2 hP hb
      cases ret with
      | some r2 =>
        simp only [hb, Except.ok.injEq, Prod.mk.injEq] at h
        rw [← h.2]
        exact hP2
      | none =>
        simp only [hb] at h
        exact ih s2 r s1 hP2 h

/-- In a table sorted by base address `SegNext` steps to the next entry. -/
theorem find_above_sorted (pre : List Nat) (x : Nat) (rest : List Nat)
    (hs : (pre ++ x :: rest).Pairwise (fun a b => a < b)) :
    (pre ++ x :: rest).find? (fun b => decide (x < b)) = rest.head? := by
  rw [List.pairwise_append] at hs
  obtain ⟨_, hx, hpre⟩ := hs
  rw [List.find?_append]
  have hnone : pre.find? (fun b => decide (x < b)) = none := by
    rw [List.find?_eq_none]
    intro y hy
    have := hpre y hy x (by simp)
    simpa using Nat.le_of_lt this
  rw [hnone]
  simp only [Option.none_or, List.find?_cons, lt_self_iff_false, decide_False]
  cases rest with
  | nil => simp
  | cons y ys =>
    simp only [List.pairwise_cons] at hx
    have := hx.1 y (by simp)
    simp [this]

theorem SegNext_sorted (a : ArenaStruct) (pre : List Addr) (seg : Addr) (rest : List Addr)
    (h : a.segs.map (fun sg => sg.base) = pre ++ seg :: rest)
    (hs : (pre ++ seg :: rest).Pairwise (fun a b => a < b)) :
    SegNext a seg = rest.head? := by
  unfold SegNext
  have h1 : (a.segs.map (fun sg => sg.base)).find? (fun b => decide (seg < b)) =
      (a.segs.find? ((fun b => decide (seg < b)) ∘ fun sg => sg.base)).map (fun sg => sg.base) :=
    List.find?_map (fun sg : SegStruct => sg.base) a.segs
  rw [h, find_above_sorted pre seg rest hs] at h1
  rw [h1]
  rfl

theorem SegFirst_eq (a : ArenaStruct) : SegFirst a = (a.segs.map (fun sg => sg.base)).head? := by
  unfold SegFirst
  cases a.segs <;> simp

/-- On a sorted segment table that the body does not rearrange, the loop over
`SegFirst`/`SegNext` is the loop over the list of the segments, given fuel for
each of them. -/
theorem segLoop_eq_listLoop (body : Addr → MpsState → Except Fault (Option Res × MpsState))
    (hb : ∀ seg s r s1, body seg s = .ok (r, s1) →
      s1.arena.segs.map (fun sg => sg.base) = s.arena.segs.map (fun sg => sg.base)) :
    ∀ (rest pre : List Addr) (seg : Addr) (fuel : Nat) (s : MpsState),
      s.arena.segs.map (fun sg => sg.base) = pre ++ seg :: rest →
      (pre ++ seg :: rest).Pairwise (fun a b => a < b) →
      rest.length < fuel →
      segLoop body fuel seg s = listLoop body (seg :: rest) s := by
  intro rest
  induction rest with
  | nil =>
    intro pre seg fuel s hbases hs hfuel
    obtain ⟨n, rfl⟩ : ∃ n, fuel = n + 1 := ⟨fuel - 1, by simp at hfuel; omega⟩
    simp only [segLoop, listLoop]
    cases hbody : body seg s with
    | error f => rfl
    | ok res =>
      obtain ⟨ret, s1⟩ := res
      cases ret with
      | some r => rfl
      | none =>
        simp only []
        rw [SegNext_sorted s1.arena pre seg [] (by rw [hb seg s none s1 hbody, hbases]) hs]
        rfl
  | cons y ys ih =>
    intro pre seg fuel s hbases hs hfuel
    obtain ⟨n, rfl⟩ : ∃ n, fuel = n + 1 := ⟨fuel - 1, by simp at hfuel; omega⟩
    simp only [segLoop]
    rw [listLoop]
    cases hbody : body seg s with
    | error f => rfl
    | ok res =>
      obtain ⟨ret, s1⟩ := res
      cases ret with
      | some r => rfl
      | none =>
        simp only []
        have hb1 : s1.arena.segs.map (fun sg => sg.base) = pre ++ seg :: y :: ys := by
          rw [hb seg s none s1 hbody, hbases]
        rw [SegNext_sorted s1.arena pre seg (y :: ys) hb1 hs]
        simp only [List.head?_cons]
        apply ih (pre ++ [seg]) y n s1
        · simpa using hb1
        · simpa using hs
        · simp at hfuel
          omega

theorem forSegs_eq_listLoop (body : Addr → MpsState → Except Fault (Option Res × MpsState))
    (hb : ∀ seg s r s1, body seg s = .ok (r, s1) →
      s1.arena.segs.map (fun sg => sg.base) = s.arena.segs.map (fun sg => sg.base))
    (fuel : Nat) (s : MpsState)
    (hs : (s.arena.segs.map (fun sg => sg.base)).Pairwise (fun a b => a < b))
    (hfuel : s.arena.segs.length ≤ fuel) :
    forSegs body fuel s = listLoop body (s.arena.segs.map (fun sg => sg.base)) s := by
  unfold forSegs
  rw [SegFirst_eq]
  cases hl : s.arena.segs.map (fun sg => sg.base) with
  | nil => simp [listLoop]
  | cons seg rest =>
    simp only [List.head?_cons]
    have hlen : (s.arena.segs.map (fun sg => sg.base)).length = s.arena.segs.length := by simp
    rw [hl] at hlen hs
    apply segLoop_eq_listLoop body hb rest [] seg fuel s
    · simpa using hl
    · simpa using hs
    · simp at hlen
      omega

/-! ## The white segments after a store into a segment -/

/-- The state `TraceCreate` leaves when it takes the slot `ti`. -/
theorem TraceCheck_created (cfg : Config) (a : ArenaStruct) (ti : TraceId)
    (hti : ti < cfg.TRACE_MAX) :
    TraceCheck cfg (setTrace { a with busyTraces := TraceSetAdd a.busyTraces ti } ti
      (traceInit ti)) ti = true := by
  simp [TraceCheck, setTrace, traceInit, TraceIdCheck, hti, isMember_TraceSetAdd,
    RefSetSub_empty]

theorem TraceCreate_full (cfg : Config) (s : MpsState) (hmax : cfg.TRACE_MAX = 1)
    (h : ∀ ti, ti < cfg.TRACE_MAX → TraceSetIsMember s.arena.busyTraces ti = true) :
    TraceCreate cfg s = .ok (Res.LIMIT, none, s) := by
  have hfull : (List.range cfg.TRACE_MAX).find?
      (fun ti => !TraceSetIsMember s.arena.busyTraces ti) = none := by
    rw [List.find?_eq_none]
    intro x hx
    simp [h x (List.mem_range.mp hx)]
  unfold TraceCreate
  simp only [hfull]
  simp [aver, hmax, bind, Except.bind, pure, Except.pure]

theorem TraceCreate_free (cfg : Config) (s : MpsState) (hmax : cfg.TRACE_MAX = 1)
    (ti : TraceId) (hti : ti < cfg.TRACE_MAX)
    (hfr : TraceSetIsMember s.arena.busyTraces ti = false)
    (hsm : ∀ tj, tj < ti → TraceSetIsMember s.arena.busyTraces tj = true)
    (hsig : (s.arena.trace ti).sig = Sig.SigInvalid) :
    TraceCreate cfg s = .ok (Res.OK, some ti,
      { s with arena := setTrace { s.arena with
          busyTraces := TraceSetAdd s.arena.busyTraces ti } ti (traceInit ti) }) := by
  have hfree : (List.range cfg.TRACE_MAX).find?
      (fun ti => !TraceSetIsMember s.arena.busyTraces ti) = some ti := by
    rw [List.find?_range_eq_some]
    refine ⟨by simp [hfr], List.mem_range.mpr hti, ?_⟩
    intro j hj
    simp [hsm j hj]
  unfold TraceCreate
  simp only [hfree]
  simp [aver, hmax, ArenaTrace, hsig, TraceCheck_created cfg s.arena ti hti, bind, Except.bind,
    pure, Except.pure]

/-- Every result of `TraceCreate` is one of the two above. -/
theorem TraceCreate_ok_inv (cfg : Config) (s : MpsState) (r : Res) (t : Option TraceId)
    (s1 : MpsState) (h : TraceCreate cfg s = .ok (r, t, s1)) :
    (r = Res.LIMIT ∧ t = none ∧ s1 = s ∧
      ∀ ti, ti < cfg.TRACE_MAX → TraceSetIsMember s.arena.busyTraces ti = true) ∨
    (∃ ti, r = Res.OK ∧ t = some ti ∧ ti < cfg.TRACE_MAX ∧
      TraceSetIsMember s.arena.busyTraces ti = false ∧
      (∀ tj, tj < ti → TraceSetIsMember s.arena.busyTraces tj = true) ∧
      s1 = { s with arena := setTrace { s.arena with
          busyTraces := TraceSetAdd s.arena.busyTraces ti } ti (traceInit ti) }) := by
  unfold TraceCreate at h
  simp only [aver_bind_ok_iff] at h
  obtain ⟨_, h⟩ := h
  cases hfind : (List.range cfg.TRACE_MAX).find?
      (fun ti => !TraceSetIsMember s.arena.busyTraces ti) with
  | none =>
    left
    simp only [hfind, pure_ok_iff, Prod.mk.injEq] at h
    refine ⟨h.1.symm, h.2.1.symm, h.2.2.symm, ?_⟩
    intro ti hti
    rw [List.find?_eq_none] at hfind
    have := hfind ti (List.mem_range.mpr hti)
    simpa using this
  | some ti =>
    right
    simp only [hfind, aver_bind_ok_iff, pure_ok_iff, Prod.mk.injEq] at h
    rw [List.find?_range_eq_some] at hfind
    obtain ⟨hp, hmem, hsm⟩ := hfind
    refine ⟨ti, h.2.2.1.symm, h.2.2.2.1.symm, List.mem_range.mp hmem, by simpa using hp, ?_,
      h.2.2.2.2.symm⟩
    intro tj htj
    simpa using hsm tj htj

/-- Every result of `TraceDestroy`. -/
theorem TraceDestroy_ok_inv (cfg : Config) (trace : TraceId) (s s1 : MpsState)
    (h : TraceDestroy cfg trace s = .ok s1) :
    TraceCheck cfg s.arena trace = true ∧
    (s.arena.trace trace).state = TraceState.TraceFINISHED ∧
    s1.arena.busyTraces = TraceSetDel cfg s.arena.busyTraces (s.arena.trace trace).ti ∧
    s1.arena.flippedTraces = TraceSetDel cfg s.arena.flippedTraces (s.arena.trace trace).ti ∧
    s1.arena.trace trace = { s.arena.trace trace with sig := Sig.SigInvalid } ∧
    (∀ tj, tj ≠ trace → s1.arena.trace tj = s.arena.trace tj) ∧
    s1.arena.segs = s.arena.segs ∧ s1.events = s.events := by
  unfold TraceDestroy at h
  simp only [aver_bind_ok_iff, pure_ok_iff, beq_iff_eq] at h
  obtain ⟨h1, h2, h3⟩ := h
  subst h3
  refine ⟨h1, h2, ?_, ?_, ?_, ?_, rfl, rfl⟩
  · simp [setTrace]
  · simp [setTrace]
  · simp [setTrace]
  · intro tj htj
    simp [setTrace, htj]

theorem TraceCheck_ti (cfg : Config) (a : ArenaStruct) (trace : TraceId)
    (h : TraceCheck cfg a trace = true) : (a.trace trace).ti = trace := by
  simp only [TraceCheck, Bool.and_eq_true, beq_iff_eq] at h
  exact h.1.1.1.2

theorem TraceDestroy_ok (cfg : Config) (trace : TraceId) (s : MpsState)
    (hc : TraceCheck cfg s.arena trace = true)
    (hs : (s.arena.trace trace).state = TraceState.TraceFINISHED) :
    ∃ s1, TraceDestroy cfg trace s = .ok s1 := by
  unfold TraceDestroy
  rw [aver_true_bind _ _ hc, aver_true_bind _ _ (by simp [hs])]
  exact ⟨_, rfl⟩

/-! ## `TraceStart` with nothing condemned, `TraceStep` without progress -/

/-- The state `TraceStart` leaves when the white set of the trace is empty. -/
theorem TraceStart_empty_inv (cfg : Config) (env : Env) (fuel : Nat) (trace : TraceId)
    (s s1 : MpsState) (r : Res)
    (hw : (s.arena.trace trace).white = RefSetEMPTY)
    (h : TraceStart cfg env fuel trace s = .ok (r, s1)) :
    TraceCheck cfg s.arena trace = true ∧
    (s.arena.trace trace).state = TraceState.TraceINIT ∧ r = Res.OK ∧
    s1 = { s with arena := (setTrace { s.arena with
        flippedTraces := TraceSetAdd s.arena.flippedTraces (s.arena.trace trace).ti } trace
      { s.arena.trace trace with state := TraceState.TraceFINISHED, rate := 1 }) } := by
  unfold TraceStart at h
  simp only [aver_bind_ok_iff, beq_iff_eq] at h
  obtain ⟨h1, h2, h3⟩ := h
  rw [if_pos hw] at h3
  simp only [pure_ok_iff, Prod.mk.injEq, setTrace_trace_same, setTrace_setTrace] at h3
  exact ⟨h1, h2, h3.1.symm, h3.2.symm⟩

theorem TraceStart_empty (cfg : Config) (env : Env) (fuel : Nat) (trace : TraceId)
    (s : MpsState)
    (hc : TraceCheck cfg s.arena trace = true)
    (hs : (s.arena.trace trace).state = TraceState.TraceINIT)
    (hw : (s.arena.trace trace).white = RefSetEMPTY) :
    TraceStart cfg env fuel trace s = .ok (Res.OK, { s with arena := (setTrace { s.arena with
        flippedTraces := TraceSetAdd s.arena.flippedTraces (s.arena.trace trace).ti } trace
      { s.arena.trace trace with state := TraceState.TraceFINISHED, rate := 1 }) }) := by
  unfold TraceStart
  rw [aver_true_bind _ _ hc, aver_true_bind _ _ (by simp [hs])]
  rw [if_pos (by simp [hw])]
  simp only [pure, Except.pure, setTrace_trace_same, setTrace_setTrace]

/-- In the states INIT and FINISHED `TraceStep` makes no progress. -/
theorem TraceStep_noprogress (cfg : Config) (env : Env) (fuel : Nat) (trace : TraceId)
    (s : MpsState)
    (hc : TraceCheck cfg s.arena trace = true)
    (hs : (s.arena.trace trace).state = TraceState.TraceINIT ∨
      (s.arena.trace trace).state = TraceState.TraceFINISHED) :
    TraceStep cfg env fuel trace s = .ok (Res.OK, s) := by
  unfold TraceStep
  rw [aver_true_bind _ _ hc]
  rcases hs with hs | hs <;> simp [hs, pure, Except.pure]

theorem TraceStep_check (cfg : Config) (env : Env) (fuel : Nat) (trace : TraceId)
    (s s1 : MpsState) (r : Res) (h : TraceStep cfg env fuel trace s = .ok (r, s1)) :
    TraceCheck cfg s.arena trace = true := by
  unfold TraceStep at h
  simp only [aver_bind_ok_iff] at h
  exact h.1

theorem TracePoll_check (cfg : Config) (env : Env) (fuel : Nat) (trace : TraceId)
    (s s1 : MpsState) (h : TracePoll cfg env fuel trace s = .ok s1) :
    TraceCheck cfg s.arena trace = true := by
  unfold TracePoll at h
  simp only [aver_bind_ok_iff] at h
  exact h.1

theorem TracePoll_noprogress (cfg : Config) (env : Env) (fuel : Nat) (trace : TraceId)
    (s : MpsState)
    (hc : TraceCheck cfg s.arena trace = true)
    (hs : (s.arena.trace trace).state = TraceState.TraceINIT ∨
      (s.arena.trace trace).state = TraceState.TraceFINISHED) :
    TracePoll cfg env fuel trace s = .ok s := by
  unfold TracePoll
  rw [aver_true_bind _ _ hc, TraceStep_noprogress cfg env fuel trace s hc hs]
  simp [bind, Except.bind, pure, Except.pure]

/-! ## Condemning in an arena without segments -/

theorem forSegs_nil (body : Addr → MpsState → Except Fault (Option Res × MpsState))
    (fuel : Nat) (s : MpsState) (h : s.arena.segs = []) :
    forSegs body fuel s = .ok (none, s) := by
  simp [forSegs, SegFirst, h]

theorem RefSetSuper_empty (a : RefSet) : RefSetSuper a RefSetEMPTY = true := by
  simp [RefSetSuper, RefSetEMPTY]

theorem TraceCondemnRefSet_nil (cfg : Config) (env : Env) (fuel : Nat) (trace : TraceId)
    (cs : RefSet) (s : MpsState)
    (hc : TraceCheck cfg s.arena trace = true) (hcs : cs ≠ RefSetEMPTY)
    (hs : (s.arena.trace trace).state = TraceState.TraceINIT)
    (hw : (s.arena.trace trace).white = RefSetEMPTY)
    (hsegs : s.arena.segs = []) :
    TraceCondemnRefSet cfg env fuel trace cs s = .ok (Res.OK, s) := by
  unfold TraceCondemnRefSet
  rw [aver_true_bind _ _ hc, aver_true_bind _ _ (by simp [hcs]),
    aver_true_bind _ _ (by simp [hs]), aver_true_bind _ _ (by simp [hw]),
    forSegs_nil _ _ _ hsegs]
  simp only [bind, Except.bind]
  rw [hw, RefSetSuper_empty]
  simp [aver, pure, Except.pure]

theorem RefSetUNIV_ne_empty (cfg : Config) (h : 0 < cfg.MPS_WORD_WIDTH) :
    RefSetUNIV cfg ≠ RefSetEMPTY := by
  unfold RefSetUNIV RefSetEMPTY
  show (2 ^ cfg.MPS_WORD_WIDTH - 1 : Nat) ≠ 0
  have h1 : 2 ^ 1 ≤ 2 ^ cfg.MPS_WORD_WIDTH := Nat.pow_le_pow_right (by decide) h
  generalize 2 ^ cfg.MPS_WORD_WIDTH = n at h1
  omega

/-! ## `TraceAddWhite` -/

theorem segGet_ok_iff (a : ArenaStruct) (seg : Addr) (sg : SegStruct) :
    segGet a seg = .ok sg ↔ segFind a seg = some sg := by
  unfold segGet
  cases segFind a seg <;> simp

theorem poolGet_ok_iff (a : ArenaStruct) (pool : PoolId) (p : PoolStruct) :
    poolGet a pool = .ok p ↔ a.pools.find? (fun p => p.id == pool) = some p := by
  unfold poolGet
  cases a.pools.find? (fun p => p.id == pool) <;> simp

theorem segFind_base (a : ArenaStruct) (seg : Addr) (sg : SegStruct)
    (h : segFind a seg = some sg) : sg.base = seg := by
  have := List.find?_some h
  simpa using this

/-- What `TraceAddWhite` does once its checks have passed and `PoolWhiten`
has answered `res` and left the arena `a1`. -/
theorem TraceAddWhite_run (cfg : Config) (env : Env) (trace : TraceId) (seg : Addr)
    (s : MpsState) (sg : SegStruct) (p : PoolStruct) (res : Res) (a1 : ArenaStruct)
    (hc : TraceCheck cfg s.arena trace = true)
    (hseg : segGet s.arena seg = .ok sg)
    (hnw : TraceSetIsMember sg.white (s.arena.trace trace).ti = false)
    (hpool : poolGet s.arena sg.pool = .ok p)
    (hw : env.PoolWhiten s.arena sg.pool trace seg = (res, a1)) :
    TraceAddWhite cfg env trace seg s =
      (if res != Res.OK then
        .ok (res, { arena := a1, events := s.events ++ [Event.PoolWhiten sg.pool trace seg] })
      else
        segGet a1 seg >>= fun sg1 =>
        if TraceSetIsMember sg1.white (a1.trace trace).ti then
          poolGet a1 sg.pool >>= fun p1 =>
          .ok (Res.OK,
            { arena := setTrace a1 trace
                { a1.trace trace with
                  white := RefSetUnion (a1.trace trace).white (RefSetOfSeg cfg a1 sg1)
                  condemned :=
                    ((a1.trace trace).condemned + SegSize sg1) % 2 ^ cfg.MPS_WORD_WIDTH
                  mayMove :=
                    if p1.attr &&& cfg.AttrMOVINGGC != 0 then
                      RefSetUnion (a1.trace trace).mayMove (RefSetOfSeg cfg a1 sg1)
                    else (a1.trace trace).mayMove }
              events := s.events ++ [Event.PoolWhiten sg.pool trace seg] })
        else
          .ok (Res.OK,
            { arena := a1, events := s.events ++ [Event.PoolWhiten sg.pool trace seg] })) := by
  unfold TraceAddWhite
  rw [aver_true_bind _ _ hc, hseg]
  simp only [bind, Except.bind]
  rw [show aver (!TraceSetIsMember sg.white (s.arena.trace trace).ti) = .ok () by
    simp [aver, hnw], hpool]
  simp only [hw, pure, Except.pure]
  by_cases hr : res = Res.OK
  · subst hr
    simp only [bne_self_eq_false, Bool.false_eq_true, if_false]
    cases hs1 : segGet a1 seg with
    | error f => rfl
    | ok sg1 =>
      simp only []
      by_cases hm : TraceSetIsMember sg1.white (a1.trace trace).ti = true
      · simp only [hm, if_true]
        cases hp1 : poolGet a1 sg.pool with
        | error f => rfl
        | ok p1 =>
          simp only []
          by_cases hmv : p1.attr &&& cfg.AttrMOVINGGC != 0
          · simp [hmv, emit]
          · simp [hmv, emit]
      · simp only [hm, if_false]
        rfl
  · simp [hr, emit]

/-- Every completed run of `TraceAddWhite`: the pool failed (A), declined (B)
or whitened the segment (C). -/
theorem TraceAddWhite_ok_inv (cfg : Config) (env : Env) (trace : TraceId) (seg : Addr)
    (s s1 : MpsState) (r : Res) (h : TraceAddWhite cfg env trace seg s = .ok (r, s1)) :
    ∃ sg p, TraceCheck cfg s.arena trace = true ∧ segGet s.arena seg = .ok sg ∧
      TraceSetIsMember sg.white (s.arena.trace trace).ti = false ∧
      poolGet s.arena sg.pool = .ok p ∧
      r = (env.PoolWhiten s.arena sg.pool trace seg).1 ∧
      s1.events = s.events ++ [Event.PoolWhiten sg.pool trace seg] ∧
      ((r ≠ Res.OK ∧ s1.arena = (env.PoolWhiten s.arena sg.pool trace seg).2) ∨
       (r = Res.OK ∧ ∃ sg1, segGet (env.PoolWhiten s.arena sg.pool trace seg).2 seg = .ok sg1 ∧
          TraceSetIsMember sg1.white
            ((env.PoolWhiten s.arena sg.pool trace seg).2.trace trace).ti = false ∧
          s1.arena = (env.PoolWhiten s.arena sg.pool trace seg).2) ∨
       (r = Res.OK ∧ ∃ sg1 p1,
          segGet (env.PoolWhiten s.arena sg.pool trace seg).2 seg = .ok sg1 ∧
          TraceSetIsMember sg1.white
            ((env.PoolWhiten s.arena sg.pool trace seg).2.trace trace).ti = true ∧
          poolGet (env.PoolWhiten s.arena sg.pool trace seg).2 sg.pool = .ok p1 ∧
          s1.arena = setTrace (env.PoolWhiten s.arena sg.pool trace seg).2 trace
            { (env.PoolWhiten s.arena sg.pool trace seg).2.trace trace with
              white := RefSetUnion
                ((env.PoolWhiten s.arena sg.pool trace seg).2.trace trace).white
                (RefSetOfSeg cfg (env.PoolWhiten s.arena sg.pool trace seg).2 sg1)
              condemned :=
                (((env.PoolWhiten s.arena sg.pool trace seg).2.trace trace).condemned
                  + SegSize sg1) % 2 ^ cfg.MPS_WORD_WIDTH
              mayMove :=
                if p1.attr &&& cfg.AttrMOVINGGC != 0 then
                  RefSetUnion
                    ((env.PoolWhiten s.arena sg.pool trace seg).2.trace trace).mayMove
                    (RefSetOfSeg cfg (env.PoolWhiten s.arena sg.pool trace seg).2 sg1)
                else ((env.PoolWhiten s.arena sg.pool trace seg).2.trace trace).mayMove })) := by
  have h0 := h
  unfold TraceAddWhite at h0
  simp only [bind_ok_iff, exists_aver_ok_iff] at h0
  obtain ⟨hc, sg, hseg, hnw, p, hpool, _⟩ := h0
  simp only [Bool.not_eq_true'] at hnw
  refine ⟨sg, p, hc, hseg, hnw, hpool, ?_⟩
  rcases hw : env.PoolWhiten s.arena sg.pool trace seg with ⟨res, a1⟩
  rw [TraceAddWhite_run cfg env trace seg s sg p res a1 hc hseg hnw hpool hw] at h
  by_cases hr : res = Res.OK
  · subst hr
    simp only [bne_self_eq_false, Bool.false_eq_true, if_false, bind_ok_iff] at h
    obtain ⟨sg1, hseg1, h⟩ := h
    by_cases hm : TraceSetIsMember sg1.white (a1.trace trace).ti = true
    · simp only [hm, if_true, bind_ok_iff, Except.ok.injEq, Prod.mk.injEq] at h
      obtain ⟨p1, hp1, hr, hs1⟩ := h
      refine ⟨hr.symm, by rw [← hs1], Or.inr (Or.inr ⟨hr.symm, sg1, p1, hseg1, hm, hp1, ?_⟩)⟩
      rw [← hs1]
    · simp only [hm, Bool.false_eq_true, if_false, Except.ok.injEq, Prod.mk.injEq] at h
      refine ⟨h.1.symm, by rw [← h.2], Or.inr (Or.inl ⟨h.1.symm, sg1, hseg1, ?_, by rw [← h.2]⟩)⟩
      simpa using hm
  · simp only [bne_iff_ne, ne_eq, hr, not_false_eq_true, if_true, Except.ok.injEq,
      Prod.mk.injEq] at h
    refine ⟨h.1.symm, by rw [← h.2], Or.inl ⟨?_, by rw [← h.2]⟩⟩
    rw [← h.1]
    exact hr

/-! ## What `PoolWhiten` keeps -/

theorem find_map_congr {α β : Type} (g : α → β) (q : β → Bool) :
    ∀ (l1 l2 : List α), l1.map g = l2.map g →
      (l1.find? (fun x => q (g x))).map g = (l2.find? (fun x => q (g x))).map g := by
  intro l1 l2 h
  have e1 := List.find?_map (p := q) g l1
  have e2 := List.find?_map (p := q) g l2
  simp only [Function.comp_def] at e1 e2
  rw [← e1, ← e2, h]

theorem segFind_geom (a a1 : ArenaStruct) (seg : Addr)
    (h : a1.segs.map segGeom = a.segs.map segGeom) :
    (segFind a1 seg).map segGeom = (segFind a seg).map segGeom :=
  find_map_congr segGeom (fun g => g.1 == seg) a1.segs a.segs h

theorem RefSetOfSeg_congr (cfg : Config) (a a1 : ArenaStruct) (sg sg1 : SegStruct)
    (hz : a1.zoneShift = a.zoneShift) (hg : segGeom sg1 = segGeom sg) :
    RefSetOfSeg cfg a1 sg1 = RefSetOfSeg cfg a sg := by
  simp only [segGeom, Prod.mk.injEq] at hg
  unfold RefSetOfSeg
  rw [hz, hg.1, hg.2.1]

theorem SegSize_congr (sg sg1 : SegStruct) (hg : segGeom sg1 = segGeom sg) :
    SegSize sg1 = SegSize sg := by
  simp only [segGeom, Prod.mk.injEq] at hg
  unfold SegSize
  rw [hg.1, hg.2.1]

theorem map_base_of_geom (l1 l2 : List SegStruct) (h : l1.map segGeom = l2.map segGeom) :
    l1.map (fun sg => sg.base) = l2.map (fun sg => sg.base) := by
  have := congrArg (List.map (fun g : Addr × Addr × PoolId => g.1)) h
  simpa [List.map_map, Function.comp_def, segGeom] using this

theorem RefSetSuper_union (cs a b : RefSet) (ha : RefSetSuper cs a = true)
    (hb : RefSetSuper cs b = true) : RefSetSuper cs (RefSetUnion a b) = true := by
  rw [RefSetSuper_iff] at *
  intro i hi
  rw [testBit_RefSetUnion, Bool.or_eq_true] at hi
  rcases hi with hi | hi
  · exact ha i hi
  · exact hb i hi

/-- `TraceAddWhite` with a pool that decides about colours only. -/
theorem TraceAddWhite_keeps (cfg : Config) (env : Env) (hk : WhitenKeeps env)
    (trace : TraceId) (seg : Addr) (s s1 : MpsState) (r : Res)
    (h : TraceAddWhite cfg env trace seg s = .ok (r, s1)) :
    ∃ sg p sg1, segGet s.arena seg = .ok sg ∧ poolGet s.arena sg.pool = .ok p ∧
      segGet s1.arena seg = .ok sg1 ∧ segGeom sg1 = segGeom sg ∧
      TraceCheck cfg s.arena trace = true ∧
      TraceSetIsMember sg.white trace = false ∧
      r = (env.PoolWhiten s.arena sg.pool trace seg).1 ∧
      s1.events = s.events ++ [Event.PoolWhiten sg.pool trace seg] ∧
      s1.arena.busyTraces = s.arena.busyTraces ∧
      s1.arena.flippedTraces = s.arena.flippedTraces ∧
      s1.arena.zoneShift = s.arena.zoneShift ∧
      s1.arena.pools = s.arena.pools ∧
      s1.arena.segs = (env.PoolWhiten s.arena sg.pool trace seg).2.segs ∧
      s1.arena.segs.map segGeom = s.arena.segs.map segGeom ∧
      (∀ i, i ≠ trace → s1.arena.trace i = s.arena.trace i) ∧
      ((¬(r = Res.OK ∧ TraceSetIsMember sg1.white trace = true) ∧
          s1.arena.trace trace = s.arena.trace trace) ∨
       (r = Res.OK ∧ TraceSetIsMember sg1.white trace = true ∧
          s1.arena.trace trace =
            { s.arena.trace trace with
              white := RefSetUnion (s.arena.trace trace).white (RefSetOfSeg cfg s.arena sg)
              condemned :=
                ((s.arena.trace trace).condemned + SegSize sg) % 2 ^ cfg.MPS_WORD_WIDTH
              mayMove :=
                if p.attr &&& cfg.AttrMOVINGGC != 0 then
                  RefSetUnion (s.arena.trace trace).mayMove (RefSetOfSeg cfg s.arena sg)
                else (s.arena.trace trace).mayMove })) := by
  obtain ⟨sg, p, hc, hseg, hnw, hpool, hr, hev, hcases⟩ :=
    TraceAddWhite_ok_inv cfg env trace seg s s1 r h
  have hti := TraceCheck_ti cfg _ _ hc
  obtain ⟨kb, kf, kt, kz, kp, kg⟩ := hk s.arena sg.pool trace seg
  rw [hti] at hnw
  -- the segment is still there, at the same place
  have hgeom := segFind_geom s.arena (env.PoolWhiten s.arena sg.pool trace seg).2 seg kg
  rw [(segGet_ok_iff _ _ _).mp hseg] at hgeom
  obtain ⟨sg1, hsg1, hg1⟩ : ∃ sg1,
      segFind (env.PoolWhiten s.arena sg.pool trace seg).2 seg = some sg1 ∧
        segGeom sg1 = segGeom sg := by
    cases hf : segFind (env.PoolWhiten s.arena sg.pool trace seg).2 seg with
    | none => simp [hf] at hgeom
    | some x =>
      refine ⟨x, rfl, ?_⟩
      simpa [hf] using hgeom
  have hget1 := (segGet_ok_iff _ _ _).mpr hsg1
  rcases hcases with ⟨hne, ha⟩ | ⟨hok, sg2, hs2, hm2, ha⟩ | ⟨hok, sg2, p1, hs2, hm2, hp1, ha⟩
  · refine ⟨sg, p, sg1, hseg, hpool, by rw [ha]; exact hget1, hg1, hc, hnw, hr, hev,
      by rw [ha, kb], by rw [ha, kf], by rw [ha, kz], by rw [ha, kp], by rw [ha],
      by rw [ha, kg], ?_, Or.inl ⟨fun hh => hne hh.1, by rw [ha, kt]⟩⟩
    intro i _
    rw [ha, kt]
  · rw [hget1] at hs2
    simp only [Except.ok.injEq] at hs2
    subst hs2
    rw [kt, hti] at hm2
    refine ⟨sg, p, sg1, hseg, hpool, by rw [ha]; exact hget1, hg1, hc, hnw, hr, hev,
      by rw [ha, kb], by rw [ha, kf], by rw [ha, kz], by rw [ha, kp], by rw [ha],
      by rw [ha, kg], ?_, Or.inl ⟨(fun hh => by rw [hm2] at hh; cases hh.2), by rw [ha, kt]⟩⟩
    intro i _
    rw [ha, kt]
  · rw [hget1] at hs2
    simp only [Except.ok.injEq] at hs2
    subst hs2
    rw [kt, hti] at hm2
    have hp1eq : p1 = p := by
      have h1 := (poolGet_ok_iff _ _ _).mp hp1
      have h2 := (poolGet_ok_iff _ _ _).mp hpool
      rw [kp, h2] at h1
      exact (Option.some.inj h1).symm
    subst hp1eq
    have hR := RefSetOfSeg_congr cfg s.arena (env.PoolWhiten s.arena sg.pool trace seg).2
      sg sg1 kz hg1
    have hS := SegSize_congr sg sg1 hg1
    refine ⟨sg, p1, sg1, hseg, hpool, by rw [ha]; exact hget1, hg1, hc, hnw, hr, hev,
      by rw [ha]; simp [kb], by rw [ha]; simp [kf], by rw [ha]; simp [kz],
      by rw [ha]; simp [kp], by rw [ha]; simp, by rw [ha]; simp [kg], ?_,
      Or.inr ⟨hok, hm2, ?_⟩⟩
    · intro i hi
      rw [ha, setTrace_trace_ne _ _ _ _ hi, kt]
    · rw [ha, setTrace_trace_same, kt, hR, hS]

/-! ## `TraceCondemnRefSet` -/

theorem condemnable_eq (cfg : Config) (a : ArenaStruct) (cs : RefSet) (sg : SegStruct)
    (p : PoolStruct) (hp : poolGet a sg.pool = .ok p) :
    condemnable cfg a cs sg =
      (p.attr &&& cfg.AttrGC != 0 && RefSetSuper cs (RefSetOfSeg cfg a sg)) := by
  unfold condemnable
  rw [(poolGet_ok_iff _ _ _).mp hp]

/-- Every completed run of the body of the loop of `TraceCondemnRefSet`. -/
theorem condemnBody_ok_inv (cfg : Config) (env : Env) (trace : TraceId) (cs : RefSet)
    (seg : Addr) (s s1 : MpsState) (ret : Option Res)
    (h : condemnBody cfg env trace cs seg s = .ok (ret, s1)) :
    ∃ sg p, segGet s.arena seg = .ok sg ∧
      TraceSetIsMember sg.grey (s.arena.trace trace).ti = false ∧
      TraceSetIsMember sg.white (s.arena.trace trace).ti = false ∧
      poolGet s.arena sg.pool = .ok p ∧
      ((condemnable cfg s.arena cs sg = false ∧ ret = none ∧ s1 = s) ∨
       (condemnable cfg s.arena cs sg = true ∧
        ∃ r, TraceAddWhite cfg env trace seg s = .ok (r, s1) ∧
          ret = if r != Res.OK then some r else none)) := by
  unfold condemnBody at h
  simp only [bind_ok_iff, exists_aver_ok_iff, Bool.not_eq_true'] at h
  obtain ⟨sg, hseg, hg, hw, p, hpool, h⟩ := h
  refine ⟨sg, p, hseg, hg, hw, hpool, ?_⟩
  rw [condemnable_eq cfg s.arena cs sg p hpool]
  by_cases hcond : (p.attr &&& cfg.AttrGC != 0 && RefSetSuper cs (RefSetOfSeg cfg s.arena sg))
      = true
  · right
    rw [if_pos hcond] at h
    simp only [bind_ok_iff] at h
    obtain ⟨⟨r, s2⟩, hadd, h⟩ := h
    refine ⟨hcond, r, ?_, ?_⟩
    · by_cases hr : r = Res.OK
      · subst hr
        simp only [bne_self_eq_false, Bool.false_eq_true, if_false, pure_ok_iff,
          Prod.mk.injEq] at h
        rw [← h.2]
        exact hadd
      · simp only [bne_iff_ne, ne_eq, hr, not_false_eq_true, if_true, pure_ok_iff,
          Prod.mk.injEq] at h
        rw [← h.2]
        exact hadd
    · by_cases hr : r = Res.OK
      · subst hr
        simp only [bne_self_eq_false, Bool.false_eq_true, if_false, pure_ok_iff,
          Prod.mk.injEq] at h
        simp [← h.1]
      · simp only [bne_iff_ne, ne_eq, hr, not_false_eq_true, if_true, pure_ok_iff,
          Prod.mk.injEq] at h
        simp [← h.1, hr]
  · left
    rw [if_neg hcond] at h
    simp only [pure_ok_iff, Prod.mk.injEq] at h
    exact ⟨by simpa using hcond, h.1.symm, h.2.symm⟩

/-- The body keeps the white set of the trace inside the condemned set. -/
theorem condemnBody_white_sub (cfg : Config) (env : Env) (hk : WhitenKeeps env)
    (trace : TraceId) (cs : RefSet) (seg : Addr) (s s1 : MpsState) (ret : Option Res)
    (hP : RefSetSuper cs (s.arena.trace trace).white = true)
    (h : condemnBody cfg env trace cs seg s = .ok (ret, s1)) :
    RefSetSuper cs (s1.arena.trace trace).white = true := by
  obtain ⟨sg, p, hseg, _, _, hpool, hcases⟩ := condemnBody_ok_inv cfg env trace cs seg s s1 ret h
  rcases hcases with ⟨_, _, hs⟩ | ⟨hcond, r, hadd, _⟩
  · rw [hs]
    exact hP
  · obtain ⟨sg2, p2, sg1, hseg2, _, _, _, _, _, _, _, _, _, _, _, _, _, _, hc⟩ :=
      TraceAddWhite_keeps cfg env hk trace seg s s1 r hadd
    rw [hseg] at hseg2
    simp only [Except.ok.injEq] at hseg2
    subst hseg2
    rcases hc with ⟨_, ht⟩ | ⟨_, _, ht⟩
    · rw [ht]
      exact hP
    · rw [ht]
      simp only []
      rw [condemnable_eq cfg s.arena cs sg p hpool, Bool.and_eq_true] at hcond
      exact RefSetSuper_union cs _ _ hP hcond.2

theorem sameLayout_refl (a : ArenaStruct) : sameLayout a a := ⟨rfl, rfl, rfl⟩

theorem sameLayout_trans (a a1 a2 : ArenaStruct) (h1 : sameLayout a a1)
    (h2 : sameLayout a1 a2) : sameLayout a a2 :=
  ⟨h2.1.trans h1.1, h2.2.1.trans h1.2.1, h2.2.2.trans h1.2.2⟩

theorem condemnBody_layout (cfg : Config) (env : Env) (hk : WhitenKeeps env)
    (trace : TraceId) (cs : RefSet) (seg : Addr) (s s1 : MpsState) (ret : Option Res)
    (h : condemnBody cfg env trace cs seg s = .ok (ret, s1)) :
    sameLayout s.arena s1.arena := by
  obtain ⟨sg, p, _, _, _, _, hcases⟩ := condemnBody_ok_inv cfg env trace cs seg s s1 ret h
  rcases hcases with ⟨_, _, hs⟩ | ⟨_, r, hadd, _⟩
  · rw [hs]
    exact sameLayout_refl _
  · obtain ⟨_, _, _, _, _, _, _, _, _, _, _, _, _, hz, hp, _, hg, _, _⟩ :=
      TraceAddWhite_keeps cfg env hk trace seg s s1 r hadd
    exact ⟨hz, hp, hg⟩

theorem condemnableAt_congr (cfg : Config) (a a1 : ArenaStruct) (cs : RefSet) (seg : Addr)
    (h : sameLayout a a1) : condemnableAt cfg a1 cs seg = condemnableAt cfg a cs seg := by
  obtain ⟨hz, hp, hg⟩ := h
  have hgeom := segFind_geom a a1 seg hg
  unfold condemnableAt
  cases h1 : segFind a1 seg with
  | none =>
    cases h0 : segFind a seg with
    | none => rfl
    | some sg => simp [h1, h0] at hgeom
  | some sg1 =>
    cases h0 : segFind a seg with
    | none => simp [h1, h0] at hgeom
    | some sg =>
      simp only [h1, h0, Option.map_some', Option.some.injEq] at hgeom
      simp only []
      unfold condemnable
      rw [hp, RefSetOfSeg_congr cfg a a1 sg sg1 hz hgeom]
      simp only [segGeom, Prod.mk.injEq] at hgeom
      rw [hgeom.2.2]

theorem whitenEvent_congr (a a1 : ArenaStruct) (trace : TraceId) (seg : Addr)
    (h : sameLayout a a1) : whitenEvent a1 trace seg = whitenEvent a trace seg := by
  have hgeom := segFind_geom a a1 seg h.2.2
  unfold whitenEvent
  cases h1 : segFind a1 seg with
  | none =>
    cases h0 : segFind a seg with
    | none => rfl
    | some sg => simp [h1, h0] at hgeom
  | some sg1 =>
    cases h0 : segFind a seg with
    | none => simp [h1, h0] at hgeom
    | some sg =>
      simp only [h1, h0, Option.map_some', Option.some.injEq, segGeom, Prod.mk.injEq] at hgeom
      simp only []
      rw [hgeom.2.2]

/-- Over a list of segments, the loop of `TraceCondemnRefSet` is
`addWhiteEach` on the condemnable ones. -/
theorem listLoop_condemn_refines (cfg : Config) (env : Env) (hk : WhitenKeeps env)
    (trace : TraceId) (cs : RefSet) :
    ∀ (l : List Addr) (s s1 : MpsState) (ret : Option Res),
      listLoop (condemnBody cfg env trace cs) l s = .ok (ret, s1) →
      addWhiteEach cfg env trace (l.filter (condemnableAt cfg s.arena cs)) s =
          .ok (ret.getD Res.OK, s1) ∧
        (∀ r, ret = some r → r ≠ Res.OK) := by
  intro l
  induction l with
  | nil =>
    intro s s1 ret h
    simp only [listLoop, Except.ok.injEq, Prod.mk.injEq] at h
    obtain ⟨h1, h2⟩ := h
    subst h1 h2
    simp [addWhiteEach]
  | cons x rest ih =>
    intro s s1 ret h
    simp only [listLoop] at h
    cases hb : condemnBody cfg env trace cs x s with
    | error f => simp [hb] at h
    | ok res =>
      obtain ⟨ret1, s2⟩ := res
      have hlay := condemnBody_layout cfg env hk trace cs x s s2 ret1 hb
      have hfilt : rest.filter (condemnableAt cfg s2.arena cs) =
          rest.filter (condemnableAt cfg s.arena cs) := by
        congr 1
        funext b
        exact condemnableAt_congr cfg s.arena s2.arena cs b hlay
      obtain ⟨sg, p, hseg, _, _, hpool, hcases⟩ :=
        condemnBody_ok_inv cfg env trace cs x s s2 ret1 hb
      have hat : condemnableAt cfg s.arena cs x = condemnable cfg s.arena cs sg := by
        unfold condemnableAt
        rw [(segGet_ok_iff _ _ _).mp hseg]
      rcases hcases with ⟨hcond, hret, hs⟩ | ⟨hcond, r, hadd, hret⟩
      · subst hret
        have hs2 := hs.symm
        subst hs2
        simp only [hb] at h
        rw [List.filter_cons, hat, hcond]
        simp only [Bool.false_eq_true, if_false]
        exact ih s s1 ret h
      · rw [List.filter_cons, hat, hcond]
        simp only [if_true, addWhiteEach, hadd]
        by_cases hr : r = Res.OK
        · subst hr
          simp only [bne_self_eq_false, Bool.false_eq_true, if_false] at hret ⊢
          subst hret
          simp only [hb] at h
          rw [← hfilt]
          exact ih s2 s1 ret h
        · simp only [bne_iff_ne, ne_eq, hr, not_false_eq_true, if_true] at hret ⊢
          subst hret
          simp only [hb, Except.ok.injEq, Prod.mk.injEq] at h
          obtain ⟨h1, h2⟩ := h
          subst h1 h2
          refine ⟨rfl, ?_⟩
          intro r1 hr1
          simp only [Option.some.injEq] at hr1
          rw [← hr1]
          exact hr

theorem TraceAddWhite_event (cfg : Config) (env : Env) (hk : WhitenKeeps env)
    (trace : TraceId) (seg : Addr) (s s1 : MpsState) (r : Res)
    (h : TraceAddWhite cfg env trace seg s = .ok (r, s1)) :
    s1.events = s.events ++ [whitenEvent s.arena trace seg] ∧ sameLayout s.arena s1.arena := by
  obtain ⟨sg, _, _, hseg, _, _, _, _, _, _, hev, _, _, hz, hp, _, hg, _, _⟩ :=
    TraceAddWhite_keeps cfg env hk trace seg s s1 r h
  refine ⟨?_, hz, hp, hg⟩
  rw [hev]
  unfold whitenEvent
  rw [(segGet_ok_iff _ _ _).mp hseg]

/-- The calls `addWhiteEach` makes: one `PoolWhiten` for each segment of a
prefix of the list, the whole list when the result is OK. -/
theorem addWhiteEach_events (cfg : Config) (env : Env) (hk : WhitenKeeps env)
    (trace : TraceId) :
    ∀ (l : List Addr) (s s1 : MpsState) (r : Res),
      addWhiteEach cfg env trace l s = .ok (r, s1) →
      ∃ k, k ≤ l.length ∧
        s1.events = s.events ++ (l.take k).map (whitenEvent s.arena trace) ∧
        (r = Res.OK → k = l.length) ∧ (r ≠ Res.OK → 0 < k) := by
  intro l
  induction l with
  | nil =>
    intro s s1 r h
    simp only [addWhiteEach, Except.ok.injEq, Prod.mk.injEq] at h
    refine ⟨0, Nat.le_refl _, by simp [← h.2], fun _ => rfl, fun hr => absurd h.1.symm hr⟩
  | cons x rest ih =>
    intro s s1 r h
    simp only [addWhiteEach] at h
    cases hadd : TraceAddWhite cfg env trace x s with
    | error f => simp [hadd] at h
    | ok res =>
      obtain ⟨r1, s2⟩ := res
      obtain ⟨hev, hlay⟩ := TraceAddWhite_event cfg env hk trace x s s2 r1 hadd
      simp only [hadd] at h
      by_cases hr1 : r1 = Res.OK
      · subst hr1
        simp only [bne_self_eq_false, Bool.false_eq_true, if_false] at h
        obtain ⟨k, hk1, hk2, hk3, hk4⟩ := ih s2 s1 r h
        refine ⟨k + 1, by simpa using hk1, ?_, ?_, fun _ => Nat.succ_pos k⟩
        · rw [hk2, hev]
          have : (fun b => whitenEvent s2.arena trace b) = fun b => whitenEvent s.arena trace b := by
            funext b
            exact whitenEvent_congr s.arena s2.arena trace b hlay
          simp only [List.take_succ_cons, List.map_cons, List.append_assoc, List.singleton_append]
          rw [show whitenEvent s2.arena trace = whitenEvent s.arena trace from this]
        · intro hr
          simp [hk3 hr]
      · simp only [bne_iff_ne, ne_eq, hr1, not_false_eq_true, if_true, Except.ok.injEq,
          Prod.mk.injEq] at h
        refine ⟨1, by simp, ?_, ?_, fun _ => Nat.one_pos⟩
        · rw [← h.2, hev]
          simp
        · intro hr
          rw [← h.1] at hr
          exact absurd hr hr1

/-- In a table without two segments at one address, a segment is found at
its base. -/
theorem segFind_of_mem (l : List SegStruct) (sg : SegStruct)
    (hn : (l.map (fun x => x.base)).Nodup) (hm : sg ∈ l) :
    l.find? (fun x => x.base == sg.base) = some sg := by
  induction l with
  | nil => cases hm
  | cons y ys ih =>
    simp only [List.map_cons, List.nodup_cons] at hn
    rcases List.mem_cons.mp hm with h | h
    · subst h
      simp
    · have hne : y.base ≠ sg.base := by
        intro he
        apply hn.1
        rw [he]
        exact List.mem_map_of_mem _ h
      simp only [List.find?_cons, beq_iff_eq, hne, ite_false]
      rw [show (y.base == sg.base) = false by simpa using hne]
      exact ih hn.2 h

theorem filter_condemnableAt (cfg : Config) (a : ArenaStruct) (cs : RefSet)
    (hn : (a.segs.map (fun x => x.base)).Nodup) :
    ∀ l : List SegStruct, (∀ sg ∈ l, sg ∈ a.segs) →
      (l.map (fun x => x.base)).filter (condemnableAt cfg a cs) =
        (l.filter (condemnable cfg a cs)).map (fun x => x.base) := by
  intro l
  induction l with
  | nil => intro _; rfl
  | cons y ys ih =>
    intro hsub
    have hy : condemnableAt cfg a cs y.base = condemnable cfg a cs y := by
      unfold condemnableAt segFind
      rw [segFind_of_mem a.segs y hn (hsub y (List.mem_cons_self _ _))]
    simp only [List.map_cons, List.filter_cons, hy]
    rw [ih (fun sg h => hsub sg (List.mem_cons_of_mem _ h))]
    cases condemnable cfg a cs y <;> simp

theorem map_whitenEvent (a : ArenaStruct) (trace : TraceId)
    (hn : (a.segs.map (fun x => x.base)).Nodup) :
    ∀ l : List SegStruct, (∀ sg ∈ l, sg ∈ a.segs) →
      (l.map (fun x => x.base)).map (whitenEvent a trace) =
        l.map (fun sg => Event.PoolWhiten sg.pool trace sg.base) := by
  intro l hsub
  rw [List.map_map]
  apply List.map_congr_left
  intro sg hsg
  simp only [Function.comp, whitenEvent, segFind]
  rw [segFind_of_mem a.segs sg hn (hsub sg hsg)]

/-! ## The condemned size -/

theorem whiteSizeIn_cons (ti : TraceId) (bases : List Addr) (y : SegStruct)
    (ys : List SegStruct) :
    whiteSizeIn ti bases (y :: ys) =
      (if (decide (y.base ∈ bases) && TraceSetIsMember y.white ti) = true then SegSize y else 0)
        + whiteSizeIn ti bases ys := by
  unfold whiteSizeIn
  by_cases h : (decide (y.base ∈ bases) && TraceSetIsMember y.white ti) = true
  · simp [List.filter_cons, h]
  · simp [List.filter_cons, h]

theorem whiteSizeIn_nil_bases (ti : TraceId) (segs : List SegStruct) :
    whiteSizeIn ti [] segs = 0 := by
  simp [whiteSizeIn]

theorem whiteSizeIn_all (ti : TraceId) (segs : List SegStruct) :
    whiteSizeIn ti (segs.map (fun sg => sg.base)) segs = whiteSize ti segs := by
  unfold whiteSizeIn whiteSize
  congr 2
  apply List.filter_congr
  intro sg hsg
  have : sg.base ∈ segs.map (fun sg => sg.base) := List.mem_map_of_mem _ hsg
  simp [this]

/-- The size of the white segments among `visited ++ [x]` after a change of
the table that leaves the places of the segments and the whiteness of all
segments but the one at `x` as they were. -/
theorem whiteSizeIn_step (ti : TraceId) (x : Addr) (visited : List Addr) (hx : x ∉ visited) :
    ∀ (l l1 : List SegStruct), l1.map (segKey ti x) = l.map (segKey ti x) →
      (l.map (fun sg => sg.base)).Nodup →
      whiteSizeIn ti (visited ++ [x]) l1 =
        whiteSizeIn ti visited l +
          (match l1.find? (fun sg => sg.base == x) with
           | some sg1 => if TraceSetIsMember sg1.white ti then SegSize sg1 else 0
           | none => 0) := by
  intro l
  induction l with
  | nil =>
    intro l1 h _
    simp only [List.map_nil, List.map_eq_nil_iff] at h
    subst h
    simp [whiteSizeIn]
  | cons y ys ih =>
    intro l1 h hn
    cases l1 with
    | nil => simp at h
    | cons y1 ys1 =>
      simp only [List.map_cons, List.cons.injEq] at h
      obtain ⟨hkey, htail⟩ := h
      simp only [List.map_cons, List.nodup_cons] at hn
      simp only [segKey, Prod.mk.injEq] at hkey
      obtain ⟨hbase, hlim, _, hwh⟩ := hkey
      have hsize : SegSize y1 = SegSize y := by
        unfold SegSize
        rw [hbase, hlim]
      rw [whiteSizeIn_cons, whiteSizeIn_cons, ih ys1 htail hn.2]
      by_cases hyx : y.base = x
      · -- the segment at `x`
        have hy1x : y1.base = x := by rw [hbase, hyx]
        have hnone : ys1.find? (fun sg => sg.base == x) = none := by
          rw [List.find?_eq_none]
          intro z hz hzx
          simp only [beq_iff_eq] at hzx
          apply hn.1
          have hb : ys1.map (fun sg => sg.base) = ys.map (fun sg => sg.base) := by
            have := congrArg (List.map (fun k : Addr × Addr × PoolId × Bool => k.1)) htail
            simpa [List.map_map, Function.comp_def, segKey] using this
          rw [hyx, ← hzx, ← hb]
          exact List.mem_map_of_mem _ hz
        have hnv : decide (y.base ∈ visited) = false := by
          rw [hyx]
          simpa using hx
        simp only [List.find?_cons, hy1x, beq_self_eq_true, hnone, hnv, Bool.false_and,
          Bool.false_eq_true, if_false, List.mem_append, List.mem_singleton, or_true,
          decide_True, Bool.true_and, Nat.zero_add, Nat.add_zero]
        exact Nat.add_comm _ _
      · have hy1x : y1.base ≠ x := by rw [hbase]; exact hyx
        have hw : TraceSetIsMember y1.white ti = TraceSetIsMember y.white ti := by
          have e1 : (y1.base == x) = false := by simpa using hy1x
          have e2 : (y.base == x) = false := by simpa using hyx
          simpa [e1, e2] using hwh
        have hmem : decide (y1.base ∈ visited ++ [x]) = decide (y.base ∈ visited) := by
          rw [hbase]
          simp [hyx]
        have e1 : (y1.base == x) = false := by simpa using hy1x
        simp only [List.find?_cons, e1, hmem, hw, hsize]
        exact (Nat.add_assoc _ _ _).symm

/-- The loop of `TraceCondemnRefSet` adds to `condemned`, modulo
`2 ^ MPS_WORD_WIDTH`, the size of the segments it has visited and that are
white for the trace. -/
theorem listLoop_condemn_sum (cfg : Config) (env : Env) (hk : WhitenKeeps env)
    (hl : WhitenLocal env) (trace : TraceId) (cs : RefSet) (c0 : Size) :
    ∀ (rest visited : List Addr) (s s1 : MpsState),
      (s.arena.segs.map (fun sg => sg.base)).Nodup → rest.Nodup →
      (∀ b ∈ rest, b ∉ visited) →
      (s.arena.trace trace).ti = trace →
      (s.arena.trace trace).condemned =
        (c0 + whiteSizeIn trace visited s.arena.segs) % 2 ^ cfg.MPS_WORD_WIDTH →
      listLoop (condemnBody cfg env trace cs) rest s = .ok (none, s1) →
      (s1.arena.trace trace).condemned =
          (c0 + whiteSizeIn trace (visited ++ rest) s1.arena.segs) % 2 ^ cfg.MPS_WORD_WIDTH ∧
        s1.arena.segs.map (fun sg => sg.base) = s.arena.segs.map (fun sg => sg.base) := by
  intro rest
  induction rest with
  | nil =>
    intro visited s s1 _ _ _ _ hJ h
    simp only [listLoop, Except.ok.injEq, Prod.mk.injEq, true_and] at h
    subst h
    simpa using hJ
  | cons x rest ih =>
    intro visited s s1 hn hrest hvis hti hJ h
    simp only [listLoop] at h
    have hx : x ∉ visited := hvis x (List.mem_cons_self _ _)
    have hrest2 : rest.Nodup := (List.nodup_cons.mp hrest).2
    have hvis2 : ∀ b ∈ rest, b ∉ visited ++ [x] := by
      intro b hb hmem
      rcases List.mem_append.mp hmem with h1 | h1
      · exact hvis b (List.mem_cons_of_mem _ hb) h1
      · simp only [List.mem_singleton] at h1
        subst h1
        exact (List.nodup_cons.mp hrest).1 hb
    cases hb : condemnBody cfg env trace cs x s with
    | error f => simp [hb] at h
    | ok res =>
      obtain ⟨ret1, s2⟩ := res
      cases ret1 with
      | some r1 => simp [hb] at h
      | none =>
        simp only [hb] at h
        obtain ⟨sg, p, hseg, _, hnw, _, hcases⟩ :=
          condemnBody_ok_inv cfg env trace cs x s s2 none hb
        rw [hti] at hnw
        have hfind : s.arena.segs.find? (fun sg => sg.base == x) = some sg :=
          (segGet_ok_iff _ _ _).mp hseg
        -- the state after the body satisfies the invariant for `visited ++ [x]`
        have hstep : (s2.arena.segs.map (fun sg => sg.base)).Nodup ∧
            s2.arena.segs.map (fun sg => sg.base) = s.arena.segs.map (fun sg => sg.base) ∧
            (s2.arena.trace trace).ti = trace ∧
            (s2.arena.trace trace).condemned =
              (c0 + whiteSizeIn trace (visited ++ [x]) s2.arena.segs)
                % 2 ^ cfg.MPS_WORD_WIDTH := by
          rcases hcases with ⟨_, _, hs⟩ | ⟨_, r, hadd, hret⟩
          · have hs2 := hs.symm
            subst hs2
            refine ⟨hn, rfl, hti, ?_⟩
            rw [whiteSizeIn_step trace x visited hx s.arena.segs s.arena.segs rfl hn, hfind]
            simp only [hnw, Bool.false_eq_true, if_false, Nat.add_zero]
            exact hJ
          · have hrok : r = Res.OK := by
              by_contra hne
              simp [hne] at hret
            subst hrok
            obtain ⟨sg2, p2, sg1, hseg2, _, hseg1, hgeom, _, _, _, _, _, _, _, _, hsegs, hg,
              _, hc⟩ := TraceAddWhite_keeps cfg env hk trace x s s2 Res.OK hadd
            rw [hseg] at hseg2
            simp only [Except.ok.injEq] at hseg2
            subst hseg2
            have hbases := map_base_of_geom _ _ hg
            have hkey : s2.arena.segs.map (segKey trace x) = s.arena.segs.map (segKey trace x) := by
              rw [hsegs]
              exact hl s.arena sg.pool trace x
            have hfind1 : s2.arena.segs.find? (fun sg => sg.base == x) = some sg1 :=
              (segGet_ok_iff _ _ _).mp hseg1
            refine ⟨by rw [hbases]; exact hn, hbases, ?_, ?_⟩
            · rcases hc with ⟨_, ht⟩ | ⟨_, _, ht⟩
              · rw [ht]
                exact hti
              · rw [ht]
                exact hti
            · rw [whiteSizeIn_step trace x visited hx s.arena.segs s2.arena.segs hkey hn, hfind1]
              rcases hc with ⟨hnot, ht⟩ | ⟨_, hm, ht⟩
              · have hm : TraceSetIsMember sg1.white trace = false := by
                  cases hmm : TraceSetIsMember sg1.white trace
                  · rfl
                  · exact absurd ⟨rfl, hmm⟩ hnot
                rw [ht]
                simp only [hm, Bool.false_eq_true, if_false, Nat.add_zero]
                exact hJ
              · rw [ht]
                simp only [hm, if_true]
                rw [hJ, SegSize_congr sg sg1 hgeom, Nat.mod_add_mod, Nat.add_assoc]
        obtain ⟨hn2, hb2, hti2, hJ2⟩ := hstep
        obtain ⟨hres, hbres⟩ := ih (visited ++ [x]) s2 s1 hn2 hrest2 hvis2 hti2 hJ2 h
        refine ⟨?_, hbres.trans hb2⟩
        rw [hres]
        simp

/-! ## Fuel -/

theorem bind_error_iff {α β : Type} (m : Except Fault α) (f : α → Except Fault β) (e : Fault) :
    (m >>= f) = .error e ↔ m = .error e ∨ ∃ a, m = .ok a ∧ f a = .error e := by
  cases m with
  | error e1 => simp [bind, Except.bind]
  | ok a => simp [bind, Except.bind]

theorem aver_ne_fuel (c : Bool) : aver c ≠ .error Fault.fuel := by
  cases c <;> simp [aver]

theorem segGet_ne_fuel (a : ArenaStruct) (seg : Addr) : segGet a seg ≠ .error Fault.fuel := by
  unfold segGet
  cases segFind a seg <;> simp

theorem poolGet_ne_fuel (a : ArenaStruct) (pool : PoolId) :
    poolGet a pool ≠ .error Fault.fuel := by
  unfold poolGet
  cases a.pools.find? (fun p => p.id == pool) <;> simp

theorem listLoop_ne_fuel (body : Addr → MpsState → Except Fault (Option Res × MpsState))
    (hb : ∀ seg s, body seg s ≠ .error Fault.fuel) :
    ∀ l s, listLoop body l s ≠ .error Fault.fuel := by
  intro l
  induction l with
  | nil => intro s; simp [listLoop]
  | cons x rest ih =>
    intro s
    simp only [listLoop]
    cases hbx : body x s with
    | error f =>
      simp only [ne_eq, Except.error.injEq]
      intro hf
      subst hf
      exact hb x s hbx
    | ok res =>
      obtain ⟨ret, s1⟩ := res
      cases ret with
      | some r => simp
      | none => exact ih s1

theorem bind_ne_fuel {α β : Type} (m : Except Fault α) (f : α → Except Fault β)
    (hm : m ≠ .error Fault.fuel) (hf : ∀ a, f a ≠ .error Fault.fuel) :
    (m >>= f) ≠ .error Fault.fuel := by
  intro h
  rcases (bind_error_iff m f Fault.fuel).mp h with h1 | ⟨a, _, h2⟩
  · exact hm h1
  · exact hf a h2

theorem pure_ne_fuel {α : Type} (a : α) : (pure a : Except Fault α) ≠ .error Fault.fuel := by
  simp [pure, Except.pure]

theorem TraceAddWhite_ne_fuel (cfg : Config) (env : Env) (trace : TraceId) (seg : Addr)
    (s : MpsState) : TraceAddWhite cfg env trace seg s ≠ .error Fault.fuel := by
  unfold TraceAddWhite
  refine bind_ne_fuel _ _ (aver_ne_fuel _) (fun _ => ?_)
  refine bind_ne_fuel _ _ (segGet_ne_fuel _ _) (fun sg => ?_)
  refine bind_ne_fuel _ _ (aver_ne_fuel _) (fun _ => ?_)
  refine bind_ne_fuel _ _ (poolGet_ne_fuel _ _) (fun _ => ?_)
  split
  split
  · exact pure_ne_fuel _
  · refine bind_ne_fuel _ _ (segGet_ne_fuel _ _) (fun sg1 => ?_)
    split
    · refine bind_ne_fuel _ _ (poolGet_ne_fuel _ _) (fun _ => ?_)
      exact pure_ne_fuel _
    · exact pure_ne_fuel _

theorem condemnBody_ne_fuel (cfg : Config) (env : Env) (trace : TraceId) (cs : RefSet)
    (seg : Addr) (s : MpsState) : condemnBody cfg env trace cs seg s ≠ .error Fault.fuel := by
  unfold condemnBody
  refine bind_ne_fuel _ _ (segGet_ne_fuel _ _) (fun sg => ?_)
  refine bind_ne_fuel _ _ (aver_ne_fuel _) (fun _ => ?_)
  refine bind_ne_fuel _ _ (aver_ne_fuel _) (fun _ => ?_)
  refine bind_ne_fuel _ _ (poolGet_ne_fuel _ _) (fun _ => ?_)
  split
  · refine bind_ne_fuel _ _ (TraceAddWhite_ne_fuel _ _ _ _ _) (fun r => ?_)
    split
    split
    · exact pure_ne_fuel _
    · exact pure_ne_fuel _
  · exact pure_ne_fuel _

/-! ## The concrete environments meet the conditions -/

theorem segUpdate_geom (a : ArenaStruct) (seg : Addr) (f : SegStruct → SegStruct)
    (hf : ∀ sg, segGeom (f sg) = segGeom sg) :
    (segUpdate a seg f).segs.map segGeom = a.segs.map segGeom := by
  simp only [segUpdate, List.map_map]
  apply List.map_congr_left
  intro sg _
  simp only [Function.comp]
  split
  · exact hf sg
  · rfl

theorem envWhiten_keeps : WhitenKeeps envWhiten := by
  intro a pool ti seg
  refine ⟨rfl, rfl, rfl, rfl, rfl, ?_⟩
  exact segUpdate_geom a seg _ (fun sg => rfl)

theorem envWhiten_local : WhitenLocal envWhiten := by
  intro a pool ti seg
  simp only [envWhiten, segUpdate, List.map_map]
  apply List.map_congr_left
  intro sg _
  simp only [Function.comp]
  split
  · rename_i hb
    simp [segKey, hb]
  · rfl

theorem envIdle_keeps : WhitenKeeps envIdle := by
  intro a pool ti seg
  exact ⟨rfl, rfl, rfl, rfl, rfl, rfl⟩

theorem envIdle_local : WhitenLocal envIdle := by
  intro a pool ti seg
  rfl

theorem envWhiten_keepsCtl : EnvKeepsCtl envWhiten := by
  refine ⟨fun a pool ti seg => ?_, fun a pool ti seg => ?_, fun a pool ts seg => ?_,
    fun a ss pool seg => ?_, fun a pool ti seg => ?_, fun a root ti => ?_,
    fun a ss root => ?_, fun a buffer => ?_, fun a rs => ?_⟩
  · exact ⟨⟨rfl, rfl, fun _ => rfl⟩, fun _ => rfl⟩
  · exact ⟨⟨rfl, rfl, fun _ => rfl⟩, fun _ => rfl⟩
  all_goals exact ⟨⟨rfl, rfl, fun _ => rfl⟩, fun _ => rfl⟩

theorem envIdle_keepsCtl : EnvKeepsCtl envIdle := by
  refine ⟨fun a pool ti seg => ?_, fun a pool ti seg => ?_, fun a pool ts seg => ?_,
    fun a ss pool seg => ?_, fun a pool ti seg => ?_, fun a root ti => ?_,
    fun a ss root => ?_, fun a buffer => ?_, fun a rs => ?_⟩
  all_goals exact ⟨⟨rfl, rfl, fun _ => rfl⟩, fun _ => rfl⟩

theorem envCollect_keepsCtl : EnvKeepsCtl envCollect := by
  refine ⟨fun a pool ti seg => ?_, fun a pool ti seg => ?_, fun a pool ts seg => ?_,
    fun a ss pool seg => ?_, fun a pool ti seg => ?_, fun a root ti => ?_,
    fun a ss root => ?_, fun a buffer => ?_, fun a rs => ?_⟩
  all_goals exact ⟨⟨rfl, rfl, fun _ => rfl⟩, fun _ => rfl⟩

theorem envCollect_noNewGrey : ScanNoNewGrey envCollect :=
  ⟨fun _ _ _ _ _ => List.Sublist.refl _, fun _ _ _ _ _ => List.Sublist.refl _⟩

theorem envCollect_noNewSegs : ScanNoNewSegs envCollect :=
  ⟨fun _ _ _ _ => Nat.le_refl _, fun _ _ _ _ => Nat.le_refl _⟩

theorem envCollect_reclaimNoNewSegs : ReclaimNoNewSegs envCollect := by
  intro a pool ti seg
  simp only [envCollect, segUpdate, List.map_map]
  rw [List.map_congr_left]
  intro sg _
  simp only [Function.comp]
  split <;> rfl

theorem sameCtl_refl (a : ArenaStruct) : sameCtl a a := ⟨rfl, rfl, fun _ => rfl⟩

theorem sameCtl_trans {a a1 a2 : ArenaStruct} (h1 : sameCtl a a1) (h2 : sameCtl a1 a2) :
    sameCtl a a2 :=
  ⟨h2.1.trans h1.1, h2.2.1.trans h1.2.1, fun i => (h2.2.2 i).trans (h1.2.2 i)⟩

theorem sameAll_refl (a : ArenaStruct) : sameAll a a := ⟨sameCtl_refl a, fun _ => rfl⟩

theorem sameAll_trans {a a1 a2 : ArenaStruct} (h1 : sameAll a a1) (h2 : sameAll a1 a2) :
    sameAll a a2 :=
  ⟨sameCtl_trans h1.1 h2.1, fun i => (h2.2 i).trans (h1.2 i)⟩

/-- A store into a trace slot that changes neither a control field nor
`foundation`. -/
theorem sameAll_setTrace (a : ArenaStruct) (ti : TraceId) (t : TraceStruct)
    (hc : traceCtl t = traceCtl (a.trace ti)) (hf : t.foundation = (a.trace ti).foundation) :
    sameAll a (setTrace a ti t) := by
  refine ⟨⟨rfl, rfl, ?_⟩, ?_⟩
  · intro i
    rw [setTrace_trace]
    split
    · rename_i h
      rw [h]
      exact hc
    · rfl
  · intro i
    rw [setTrace_trace]
    split
    · rename_i h
      rw [h]
      exact hf
    · rfl

theorem sameAll_segUpdate (a : ArenaStruct) (seg : Addr) (f : SegStruct → SegStruct) :
    sameAll a (segUpdate a seg f) := ⟨⟨rfl, rfl, fun _ => rfl⟩, fun _ => rfl⟩

theorem sameAll_SegSetSummary (cfg : Config) (a : ArenaStruct) (seg : Addr) (rs : RefSet) :
    sameAll a (SegSetSummary cfg a seg rs) := sameAll_segUpdate a seg _

theorem sameAll_SegSetGrey (cfg : Config) (a : ArenaStruct) (seg : Addr) (ts : TraceSet) :
    sameAll a (SegSetGrey cfg a seg ts) := sameAll_segUpdate a seg _

theorem sameAll_ShieldRaise (s : MpsState) (seg : Addr) (mode : AccessSet) :
    sameAll s.arena (ShieldRaise s seg mode).arena := sameAll_segUpdate s.arena seg _

/-- `TraceUpdateCounts` writes accounting counters only. -/
theorem TraceUpdateCounts_keeps (cfg : Config) (a a1 : ArenaStruct) (trace : TraceId)
    (ss : ScanStateStruct) (phase : TraceAccountingPhase)
    (h : TraceUpdateCounts cfg a trace ss phase = .ok a1) : sameAll a a1 := by
  unfold TraceUpdateCounts at h
  simp only [bind_ok_iff, exists_aver_ok_iff, pure_ok_iff] at h
  obtain ⟨_, _, h⟩ := h
  rw [← h]
  apply sameAll_setTrace
  · cases phase <;> rfl
  · cases phase <;> rfl

theorem scanUpdateTraces_keeps (cfg : Config) (ts : TraceSet) (ss : ScanStateStruct) :
    ∀ (l : List TraceId) (a a1 : ArenaStruct),
      scanUpdateTraces cfg ts ss l a = .ok a1 → sameAll a a1 := by
  intro l
  induction l with
  | nil =>
    intro a a1 h
    simp only [scanUpdateTraces, Except.ok.injEq] at h
    rw [← h]
    exact sameAll_refl a
  | cons ti tis ih =>
    intro a a1 h
    simp only [scanUpdateTraces] at h
    split at h
    · simp only [bind_ok_iff] at h
      obtain ⟨a2, hu, h⟩ := h
      have h1 : sameAll a (setTrace a ti
          { ArenaTrace a ti with segScanCount := (ArenaTrace a ti).segScanCount + 1 }) :=
        sameAll_setTrace a ti _ rfl rfl
      exact sameAll_trans (sameAll_trans h1 (TraceUpdateCounts_keeps cfg _ _ _ _ _ hu))
        (ih a2 a1 h)
    · exact ih a a1 h

theorem scanSegment_keeps (cfg : Config) (env : Env) (hk : EnvKeepsCtl env) (ts : TraceSet)
    (rank : Rank) (seg : Addr) (pool : PoolId) (white : RefSet) (s s1 : MpsState) (r : Res)
    (h : scanSegment cfg env ts rank seg pool white s = .ok (r, s1)) :
    sameAll s.arena s1.arena := by
  obtain ⟨_, _, _, kScan, _⟩ := hk
  unfold scanSegment at h
  simp only [bind_ok_iff] at h
  obtain ⟨ss, _, h⟩ := h
  have k1 := kScan (emit s (Event.ShieldExpose seg)).arena ss pool seg
  rcases hps : env.PoolScan (emit s (Event.ShieldExpose seg)).arena ss pool seg with
    ⟨res1, wasTotal, ss1, a1⟩
  rw [hps] at k1
  simp only [hps, bind_ok_iff, exists_aver_ok_iff, pure_ok_iff, Prod.mk.injEq] at h
  obtain ⟨sg1, _, _, sum, _, a3, hupd, _, _, _, hs4⟩ := h
  rw [← hs4]
  simp only [emit_arena] at hupd k1 ⊢
  refine sameAll_trans (sameAll_trans k1 ?_) (scanUpdateTraces_keeps cfg ts ss1 _ _ _ hupd)
  split
  · exact sameAll_SegSetSummary cfg a1 seg _
  · exact sameAll_SegSetSummary cfg a1 seg _

theorem scanFinish_keeps (cfg : Config) (ts : TraceSet) (seg : Addr) (res r : Res)
    (s s1 : MpsState) (h : scanFinish cfg ts seg res s = .ok (r, s1)) :
    r = res ∧ sameAll s.arena s1.arena := by
  unfold scanFinish at h
  split at h
  · simp only [bind_ok_iff, pure_ok_iff, Prod.mk.injEq] at h
    obtain ⟨sg, _, hr, hs1⟩ := h
    rw [← hs1]
    exact ⟨hr.symm, sameAll_SegSetGrey cfg _ _ _⟩
  · simp only [pure_ok_iff, Prod.mk.injEq] at h
    rw [← h.2]
    exact ⟨h.1.symm, sameAll_refl _⟩

/-- `TraceScan` leaves the trace sets and the control fields of all traces
alone. -/
theorem TraceScan_keeps (cfg : Config) (env : Env) (hk : EnvKeepsCtl env) (ts : TraceSet)
    (rank : Rank) (seg : Addr) (s s1 : MpsState) (r : Res)
    (h : TraceScan cfg env ts rank seg s = .ok (r, s1)) : sameAll s.arena s1.arena := by
  have kBlacken := hk.2.2.1
  unfold TraceScan at h
  simp only [bind_ok_iff, exists_aver_ok_iff] at h
  obtain ⟨_, _, sg, _, _, ⟨res, s4⟩, hmid, h⟩ := h
  have hmid4 : sameAll s.arena s4.arena := by
    split at hmid
    · simp only [pure_ok_iff, Prod.mk.injEq] at hmid
      rw [← hmid.2]
      exact kBlacken _ _ _ _
    · exact scanSegment_keeps cfg env hk ts rank seg sg.pool _ s s4 res hmid
  exact sameAll_trans hmid4 (scanFinish_keeps cfg ts seg res r s4 s1 h).2

theorem flipPoolBuffers_keeps (env : Env) (hk : EnvKeepsCtl env) :
    ∀ (bs : List BufferId) (s : MpsState), sameAll s.arena (flipPoolBuffers env bs s).arena := by
  intro bs
  induction bs with
  | nil => intro s; exact sameAll_refl _
  | cons b bs ih =>
    intro s
    simp only [flipPoolBuffers]
    exact sameAll_trans (hk.2.2.2.2.2.2.2.1 s.arena b) (ih _)

theorem flipBuffersLoop_keeps (env : Env) (hk : EnvKeepsCtl env) :
    ∀ (ps : List PoolId) (s s1 : MpsState), flipBuffersLoop env ps s = .ok s1 →
      sameAll s.arena s1.arena := by
  intro ps
  induction ps with
  | nil =>
    intro s s1 h
    simp only [flipBuffersLoop, Except.ok.injEq] at h
    rw [← h]
    exact sameAll_refl _
  | cons p ps ih =>
    intro s s1 h
    simp only [flipBuffersLoop] at h
    cases hp : poolGet s.arena p with
    | error f => simp [hp] at h
    | ok pool =>
      simp only [hp] at h
      exact sameAll_trans (flipPoolBuffers_keeps env hk pool.buffers s) (ih _ _ h)

theorem TraceFlipBuffers_keeps (env : Env) (hk : EnvKeepsCtl env) (s s1 : MpsState)
    (h : TraceFlipBuffers env s = .ok s1) : sameAll s.arena s1.arena :=
  flipBuffersLoop_keeps env hk _ s s1 h

theorem flipRoots_keeps (cfg : Config) (env : Env) (hk : EnvKeepsCtl env) (trace : TraceId) :
    ∀ (rs : List RootId) (ss ss1 : ScanStateStruct) (s s1 : MpsState) (ret : Option Res),
      flipRoots cfg env trace rs ss s = .ok (ret, ss1, s1) → sameAll s.arena s1.arena := by
  intro rs
  induction rs with
  | nil =>
    intro ss ss1 s s1 ret h
    simp only [flipRoots, Except.ok.injEq, Prod.mk.injEq] at h
    rw [← h.2.2]
    exact sameAll_refl _
  | cons r rs ih =>
    intro ss ss1 s s1 ret h
    simp only [flipRoots, bind_ok_iff, exists_aver_ok_iff] at h
    obtain ⟨root, _, _, h⟩ := h
    split at h
    · simp only [bind_ok_iff] at h
      obtain ⟨ssa, _, h⟩ := h
      have k1 := hk.2.2.2.2.2.2.1 s.arena ssa r
      rcases hrs : env.RootScan s.arena ssa r with ⟨res, ss2, a1⟩
      rw [hrs] at k1
      simp only [hrs] at h
      have k2 : sameAll s.arena (setTrace a1 trace
          { a1.trace trace with rootScanCount := (a1.trace trace).rootScanCount + 1 }) :=
        sameAll_trans k1 (sameAll_setTrace a1 trace _ rfl rfl)
      split at h
      · simp only [pure_ok_iff, Prod.mk.injEq] at h
        rw [← h.2.2]
        exact k2
      · exact sameAll_trans k2 (ih _ _ _ _ _ h)
    · exact ih _ _ _ _ _ h

theorem flipRankLoop_keeps (cfg : Config) (env : Env) (hk : EnvKeepsCtl env) (trace : TraceId) :
    ∀ (fuel : Nat) (ss ss1 : ScanStateStruct) (s s1 : MpsState) (ret : Option Res),
      flipRankLoop cfg env trace fuel ss s = .ok (ret, ss1, s1) → sameAll s.arena s1.arena := by
  intro fuel
  induction fuel with
  | zero =>
    intro ss ss1 s s1 ret h
    simp [flipRankLoop] at h
  | succ n ih =>
    intro ss ss1 s s1 ret h
    simp only [flipRankLoop] at h
    split at h
    · simp only [bind_ok_iff, exists_aver_ok_iff] at h
      obtain ⟨_, ⟨ret1, ss2, s2⟩, hroots, h⟩ := h
      have k1 := flipRoots_keeps cfg env hk trace _ _ _ _ _ _ hroots
      cases ret1 with
      | some res =>
        simp only [pure_ok_iff, Prod.mk.injEq] at h
        rw [← h.2.2]
        exact k1
      | none => exact sameAll_trans k1 (ih _ _ _ _ _ h)
    · simp only [pure_ok_iff, Prod.mk.injEq] at h
      rw [← h.2.2]
      exact sameAll_refl _

theorem flipRaiseRing_keeps (trace : TraceId) :
    ∀ (l : List Addr) (s s1 : MpsState), flipRaiseRing trace l s = .ok s1 →
      sameAll s.arena s1.arena := by
  intro l
  induction l with
  | nil =>
    intro s s1 h
    simp only [flipRaiseRing, Except.ok.injEq] at h
    rw [← h]
    exact sameAll_refl _
  | cons seg rest ih =>
    intro s s1 h
    simp only [flipRaiseRing, bind_ok_iff] at h
    obtain ⟨sg, _, h⟩ := h
    split at h
    · exact sameAll_trans (sameAll_ShieldRaise s seg AccessREAD) (ih _ _ h)
    · exact ih _ _ h

theorem flipRaise_keeps (trace : TraceId) :
    ∀ (ranks : List Rank) (s s1 : MpsState), flipRaise trace ranks s = .ok s1 →
      sameAll s.arena s1.arena := by
  intro ranks
  induction ranks with
  | nil =>
    intro s s1 h
    simp only [flipRaise, Except.ok.injEq] at h
    rw [← h]
    exact sameAll_refl _
  | cons rank ranks ih =>
    intro s s1 h
    simp only [flipRaise, bind_ok_iff] at h
    obtain ⟨s2, h1, h2⟩ := h
    exact sameAll_trans (flipRaiseRing_keeps trace _ _ _ h1) (ih _ _ h2)

theorem sameAll_static {a a1 : ArenaStruct} (h : sameAll a a1) (i : TraceId) :
    traceStatic (a1.trace i) = traceStatic (a.trace i) := by
  have h1 := h.1.2.2 i
  have h2 := h.2 i
  simp only [traceCtl, Prod.mk.injEq] at h1
  simp only [traceStatic, Prod.mk.injEq]
  exact ⟨h1.1, h1.2.2.1, h1.2.2.2.1, h1.2.2.2.2.1, h1.2.2.2.2.2, h2⟩

theorem sameAll_state {a a1 : ArenaStruct} (h : sameAll a a1) (i : TraceId) :
    (a1.trace i).state = (a.trace i).state := by
  have h1 := h.1.2.2 i
  simp only [traceCtl, Prod.mk.injEq] at h1
  exact h1.2.1

theorem sameCtl_state {a a1 : ArenaStruct} (h : sameCtl a a1) (i : TraceId) :
    (a1.trace i).state = (a.trace i).state := by
  have h1 := h.2.2 i
  simp only [traceCtl, Prod.mk.injEq] at h1
  exact h1.2.1

theorem flipRoots_some (cfg : Config) (env : Env) (trace : TraceId) :
    ∀ (rs : List RootId) (ss ss1 : ScanStateStruct) (s s1 : MpsState) (res : Res),
      flipRoots cfg env trace rs ss s = .ok (some res, ss1, s1) → res ≠ Res.OK := by
  intro rs
  induction rs with
  | nil =>
    intro ss ss1 s s1 res h
    simp [flipRoots] at h
  | cons r rs ih =>
    intro ss ss1 s s1 res h
    simp only [flipRoots, bind_ok_iff, exists_aver_ok_iff] at h
    obtain ⟨root, _, _, h⟩ := h
    split at h
    · simp only [bind_ok_iff] at h
      obtain ⟨ssa, _, h⟩ := h
      rcases hrs : env.RootScan s.arena ssa r with ⟨res1, ss2, a1⟩
      simp only [hrs] at h
      split at h
      · rename_i hne
        simp only [pure_ok_iff, Prod.mk.injEq, Option.some.injEq] at h
        rw [← h.1]
        simpa using hne
      · exact ih _ _ _ _ _ h
    · exact ih _ _ _ _ _ h

theorem flipRankLoop_some (cfg : Config) (env : Env) (trace : TraceId) :
    ∀ (fuel : Nat) (ss ss1 : ScanStateStruct) (s s1 : MpsState) (res : Res),
      flipRankLoop cfg env trace fuel ss s = .ok (some res, ss1, s1) → res ≠ Res.OK := by
  intro fuel
  induction fuel with
  | zero =>
    intro ss ss1 s s1 res h
    simp [flipRankLoop] at h
  | succ n ih =>
    intro ss ss1 s s1 res h
    simp only [flipRankLoop] at h
    split at h
    · simp only [bind_ok_iff, exists_aver_ok_iff] at h
      obtain ⟨_, ⟨ret1, ss2, s2⟩, hroots, h⟩ := h
      cases ret1 with
      | some res1 =>
        simp only [pure_ok_iff, Prod.mk.injEq, Option.some.injEq] at h
        rw [← h.1]
        exact flipRoots_some cfg env trace _ _ _ _ _ _ hroots
      | none => exact ih _ _ _ _ _ h
    · simp [pure, Except.pure] at h

/-- What `TraceFlip` does to the trace sets and the control fields. -/
theorem TraceFlip_effect (cfg : Config) (env : Env) (hk : EnvKeepsCtl env) (fuel : Nat)
    (trace : TraceId) (s s1 : MpsState) (r : Res)
    (h : TraceFlip cfg env fuel trace s = .ok (r, s1)) :
    TraceCheck cfg s.arena trace = true ∧
    (s.arena.trace trace).state = TraceState.TraceUNFLIPPED ∧
    TraceSetIsMember s.arena.flippedTraces trace = false ∧
    s1.arena.busyTraces = s.arena.busyTraces ∧
    (∀ i, traceStatic (s1.arena.trace i) = traceStatic (s.arena.trace i)) ∧
    (∀ i, i ≠ trace → (s1.arena.trace i).state = (s.arena.trace i).state) ∧
    ((r ≠ Res.OK ∧ s1.arena.flippedTraces = s.arena.flippedTraces ∧
        (s1.arena.trace trace).state = TraceState.TraceUNFLIPPED) ∨
     (r = Res.OK ∧ s1.arena.flippedTraces = TraceSetAdd s.arena.flippedTraces trace ∧
        (s1.arena.trace trace).state = TraceState.TraceFLIPPED)) := by
  unfold TraceFlip at h
  simp only [bind_ok_iff, exists_aver_ok_iff, emit_arena] at h
  obtain ⟨hc, hst, hnf, sa, hbuf, ss, _, ⟨ret, ss1, s3⟩, hloop, h⟩ := h
  have hti := TraceCheck_ti cfg _ _ hc
  simp only [beq_iff_eq] at hst
  simp only [Bool.not_eq_true', hti] at hnf
  have k1 : sameAll s.arena sa.arena := by
    have := TraceFlipBuffers_keeps env hk _ _ hbuf
    simpa using this
  have k2 : sameAll s.arena s3.arena := by
    refine sameAll_trans (sameAll_trans k1 ?_) (flipRankLoop_keeps cfg env hk trace _ _ _ _ _ _ hloop)
    split
    · exact hk.2.2.2.2.2.2.2.2 _ _
    · exact sameAll_refl _
  cases ret with
  | some res =>
    simp only [pure_ok_iff, Prod.mk.injEq] at h
    obtain ⟨hr, hs⟩ := h
    subst hr hs
    refine ⟨hc, hst, hnf, k2.1.1, sameAll_static k2, fun i _ => sameAll_state k2 i,
      Or.inl ⟨flipRankLoop_some cfg env trace _ _ _ _ _ _ hloop, k2.1.2.1, ?_⟩⟩
    rw [sameAll_state k2, hst]
  | none =>
    simp only [bind_ok_iff, pure_ok_iff, Prod.mk.injEq] at h
    obtain ⟨a4, hupd, _, _, s5, hraise, hr, hs1⟩ := h
    have k5 : sameAll s.arena s5.arena :=
      sameAll_trans (sameAll_trans k2 (TraceUpdateCounts_keeps cfg _ _ _ _ _ hupd))
        (by simpa using flipRaise_keeps trace _ _ _ hraise)
    have hti5 : (s5.arena.trace trace).ti = trace := by
      have := sameAll_static k5 trace
      simp only [traceStatic, Prod.mk.injEq] at this
      rw [this.1, hti]
    subst hr
    rw [← hs1]
    refine ⟨hc, hst, hnf, ?_, ?_, ?_, Or.inr ⟨rfl, ?_, ?_⟩⟩
    · simpa using k5.1.1
    · intro i
      simp only [emit_arena]
      rw [setTrace_trace]
      split
      · rename_i hi
        rw [hi, ← sameAll_static k5 trace]
        rfl
      · exact sameAll_static k5 i
    · intro i hi
      simp only [emit_arena]
      rw [setTrace_trace_ne _ _ _ _ hi]
      exact sameAll_state k5 i
    · simp only [emit_arena, setTrace_trace_same, setTrace_flippedTraces]
      rw [hti5, k5.1.2.1]
    · simp

theorem sameCtl_setTrace (a : ArenaStruct) (ti : TraceId) (t : TraceStruct)
    (hc : traceCtl t = traceCtl (a.trace ti)) : sameCtl a (setTrace a ti t) := by
  refine ⟨rfl, rfl, ?_⟩
  intro i
  rw [setTrace_trace]
  split
  · rename_i h
    rw [h]
    exact hc
  · rfl

/-- The body of the segment loop of `TraceStart` writes `foundation` only. -/
theorem startGreyBody_keeps (cfg : Config) (env : Env) (hk : EnvKeepsCtl env) (trace : TraceId)
    (seg : Addr) (s s1 : MpsState) (ret : Option Res)
    (h : startGreyBody cfg env trace seg s = .ok (ret, s1)) : sameCtl s.arena s1.arena := by
  unfold startGreyBody at h
  simp only [bind_ok_iff, exists_aver_ok_iff] at h
  obtain ⟨sg, _, _, h⟩ := h
  split at h
  · simp only [bind_ok_iff, exists_aver_ok_iff] at h
    obtain ⟨p, _, _, h⟩ := h
    split at h
    · simp only [bind_ok_iff, emit_arena] at h
      obtain ⟨sg1, _, h⟩ := h
      have k1 := (hk.2.1 s.arena sg.pool trace seg).1
      split at h
      · simp only [pure_ok_iff, Prod.mk.injEq] at h
        rw [← h.2]
        exact sameCtl_trans k1 (sameCtl_setTrace _ _ _ rfl)
      · simp only [pure_ok_iff, Prod.mk.injEq] at h
        rw [← h.2]
        exact k1
    · simp only [pure_ok_iff, Prod.mk.injEq] at h
      rw [← h.2]
      exact sameCtl_refl _
  · simp only [pure_ok_iff, Prod.mk.injEq] at h
    rw [← h.2]
    exact sameCtl_refl _

theorem startGreyRoots_keeps (env : Env) (hk : EnvKeepsCtl env) (trace : TraceId) :
    ∀ (rs : List RootId) (s s1 : MpsState), startGreyRoots env trace rs s = .ok s1 →
      sameAll s.arena s1.arena := by
  intro rs
  induction rs with
  | nil =>
    intro s s1 h
    simp only [startGreyRoots, Except.ok.injEq] at h
    rw [← h]
    exact sameAll_refl _
  | cons r rs ih =>
    intro s s1 h
    simp only [startGreyRoots, bind_ok_iff] at h
    obtain ⟨root, _, h⟩ := h
    split at h
    · exact sameAll_trans (hk.2.2.2.2.2.1 s.arena r trace) (by simpa using ih _ _ h)
    · exact ih _ _ h

theorem traceRate_congr (cfg : Config) (t t1 : TraceStruct)
    (h : traceStatic t1 = traceStatic t) : traceRate cfg t1 = traceRate cfg t := by
  simp only [traceStatic, Prod.mk.injEq] at h
  unfold traceRate
  rw [h.2.2.2.1, h.2.2.2.2.2]

/-- What `TraceStart` does to the trace sets and the control fields when
something has been condemned. -/
theorem TraceStart_effect (cfg : Config) (env : Env) (hk : EnvKeepsCtl env) (fuel : Nat)
    (trace : TraceId) (s s1 : MpsState) (r : Res)
    (hw : (s.arena.trace trace).white ≠ RefSetEMPTY)
    (h : TraceStart cfg env fuel trace s = .ok (r, s1)) :
    TraceCheck cfg s.arena trace = true ∧
    (s.arena.trace trace).state = TraceState.TraceINIT ∧
    TraceSetIsMember s.arena.flippedTraces trace = false ∧
    s1.arena.busyTraces = s.arena.busyTraces ∧
    (∀ i, i ≠ trace → traceCtl (s1.arena.trace i) = traceCtl (s.arena.trace i)) ∧
    (s1.arena.trace trace).ti = (s.arena.trace trace).ti ∧
    (s1.arena.trace trace).white = (s.arena.trace trace).white ∧
    (s1.arena.trace trace).mayMove = (s.arena.trace trace).mayMove ∧
    (s1.arena.trace trace).condemned = (s.arena.trace trace).condemned ∧
    (s1.arena.trace trace).rate = traceRate cfg (s1.arena.trace trace) ∧
    ((r ≠ Res.OK ∧ s1.arena.flippedTraces = s.arena.flippedTraces ∧
        (s1.arena.trace trace).state = TraceState.TraceUNFLIPPED) ∨
     (r = Res.OK ∧ s1.arena.flippedTraces = TraceSetAdd s.arena.flippedTraces trace ∧
        (s1.arena.trace trace).state = TraceState.TraceFLIPPED)) := by
  unfold TraceStart at h
  simp only [bind_ok_iff, exists_aver_ok_iff, beq_iff_eq] at h
  obtain ⟨hc, hst, h⟩ := h
  rw [if_neg hw] at h
  simp only [bind_ok_iff] at h
  obtain ⟨⟨ret, sA⟩, hsegs, sB, hroots, hflip⟩ := h
  have kA : sameCtl s.arena sA.arena :=
    forSegs_inv _ (fun st => sameCtl s.arena st.arena)
      (fun seg st r st1 hp hb => sameCtl_trans hp (startGreyBody_keeps cfg env hk trace seg st st1 r hb))
      fuel s ret sA (sameCtl_refl _) hsegs
  have kB : sameCtl s.arena sB.arena :=
    sameCtl_trans kA (startGreyRoots_keeps env hk trace _ _ _ hroots).1
  simp only [setTrace_trace_same, setTrace_setTrace] at hflip
  obtain ⟨_, _, hnf, hbusy, hstatic, hstates, hcases⟩ :=
    TraceFlip_effect cfg env hk fuel trace _ s1 r hflip
  simp only [setTrace_busyTraces, setTrace_flippedTraces] at hnf hbusy hcases
  have hB := kB.2.2 trace
  simp only [traceCtl, Prod.mk.injEq] at hB
  have h1 := hstatic trace
  simp only [setTrace_trace_same, traceStatic, Prod.mk.injEq] at h1
  refine ⟨hc, hst, by rw [← kB.2.1]; exact hnf, by rw [hbusy, kB.1], ?_, ?_, ?_, ?_, ?_, ?_, ?_⟩
  · intro i hi
    have hs := hstatic i
    have hst2 := hstates i hi
    rw [setTrace_trace_ne _ _ _ _ hi] at hs hst2
    have hBi := kB.2.2 i
    simp only [traceCtl, traceStatic, Prod.mk.injEq] at hs hBi ⊢
    exact ⟨hs.1.trans hBi.1, hst2.trans hBi.2.1, hs.2.1.trans hBi.2.2.1,
      hs.2.2.1.trans hBi.2.2.2.1, hs.2.2.2.1.trans hBi.2.2.2.2.1,
      hs.2.2.2.2.1.trans hBi.2.2.2.2.2⟩
  · exact h1.1.trans hB.1
  · exact h1.2.1.trans hB.2.2.1
  · exact h1.2.2.1.trans hB.2.2.2.1
  · exact h1.2.2.2.1.trans hB.2.2.2.2.1
  · rw [h1.2.2.2.2.1]
    unfold traceRate
    rw [h1.2.2.2.2.2, h1.2.2.2.1]
  · rw [kB.2.1] at hcases
    exact hcases

/-! ## `traceFindGrey`, `TraceRun`, `TraceStep` -/

theorem isMember_ne_empty (ts : TraceSet) (ti : TraceId) (h : TraceSetIsMember ts ti = true) :
    (ts != TraceSetEMPTY) = true := by
  simp only [bne_iff_ne, ne_eq, TraceSetEMPTY]
  intro h0
  rw [h0] at h
  simp [TraceSetIsMember] at h

/-- On a grey ring, `traceFindGrey` stops at the first segment that is grey
for the trace. -/
theorem findGreyInRing_eq (ti : TraceId) (rank : Rank) :
    ∀ ring : List SegStruct,
      (∀ sg ∈ ring, (sg.grey != TraceSetEMPTY) = true ∧ RankSetIsMember sg.rankSet rank = true) →
      findGreyInRing ti rank ring =
        .ok ((ring.find? (fun sg => TraceSetIsMember sg.grey ti)).map (fun sg => (sg.base, rank))) := by
  intro ring
  induction ring with
  | nil => intro _; rfl
  | cons sg rest ih =>
    intro h
    have hsg := h sg (List.mem_cons_self _ _)
    simp only [findGreyInRing]
    rw [aver_true_bind _ _ hsg.1, aver_true_bind _ _ hsg.2]
    by_cases hm : TraceSetIsMember sg.grey ti = true
    · simp [hm, pure, Except.pure]
    · simp only [hm, Bool.false_eq_true, if_false, List.find?_cons]
      rw [ih (fun x hx => h x (List.mem_cons_of_mem _ hx))]

theorem ArenaGreyRing_mem (a : ArenaStruct) (rank : Rank) (sg : SegStruct)
    (h : sg ∈ ArenaGreyRing a rank) :
    sg ∈ a.segs ∧ (sg.grey != TraceSetEMPTY) = true ∧ RankSetIsMember sg.rankSet rank = true := by
  unfold ArenaGreyRing at h
  rw [List.mem_filter, Bool.and_eq_true] at h
  exact ⟨h.1, h.2.1, h.2.2⟩

theorem findGreyRing_eq (a : ArenaStruct) (ti : TraceId) (rank : Rank) :
    findGreyInRing ti rank (ArenaGreyRing a rank) =
      .ok (((ArenaGreyRing a rank).find? (fun sg => TraceSetIsMember sg.grey ti)).map
        (fun sg => (sg.base, rank))) :=
  findGreyInRing_eq ti rank _ (fun sg h => (ArenaGreyRing_mem a rank sg h).2)

/-- With no segment grey for the trace, `traceFindGrey` answers FALSE. -/
theorem findGreyRanks_none (a : ArenaStruct) (ti : TraceId)
    (h : ∀ sg ∈ a.segs, TraceSetIsMember sg.grey ti = false) :
    ∀ ranks : List Rank, findGreyRanks a ti ranks = .ok none := by
  intro ranks
  induction ranks with
  | nil => rfl
  | cons rank ranks ih =>
    simp only [findGreyRanks, findGreyRing_eq]
    have hnone : (ArenaGreyRing a rank).find? (fun sg => TraceSetIsMember sg.grey ti) = none := by
      rw [List.find?_eq_none]
      intro sg hsg
      rw [h sg (ArenaGreyRing_mem a rank sg hsg).1]
      simp
    rw [hnone]
    simp only [Option.map_none', bind, Except.bind]
    exact ih

/-- With a segment on a grey ring that is grey for the trace, `traceFindGrey`
finds such a segment. -/
theorem findGreyRanks_some (a : ArenaStruct) (ti : TraceId) :
    ∀ ranks : List Rank,
      (∃ sg ∈ a.segs, TraceSetIsMember sg.grey ti = true ∧
        ∃ rank ∈ ranks, RankSetIsMember sg.rankSet rank = true) →
      ∃ sg ∈ a.segs, ∃ rank ∈ ranks, TraceSetIsMember sg.grey ti = true ∧
        RankSetIsMember sg.rankSet rank = true ∧
        findGreyRanks a ti ranks = .ok (some (sg.base, rank)) := by
  intro ranks
  induction ranks with
  | nil =>
    rintro ⟨sg, _, _, rank, hr, _⟩
    cases hr
  | cons rank ranks ih =>
    intro hex
    simp only [findGreyRanks, findGreyRing_eq]
    cases hf : (ArenaGreyRing a rank).find? (fun sg => TraceSetIsMember sg.grey ti) with
    | some sg =>
      have hmem := ArenaGreyRing_mem a rank sg (List.mem_of_find?_eq_some hf)
      have hgrey := List.find?_some hf
      exact ⟨sg, hmem.1, rank, List.mem_cons_self _ _, hgrey, hmem.2.2, rfl⟩
    | none =>
      simp only [Option.map_none', bind, Except.bind]
      rw [List.find?_eq_none] at hf
      obtain ⟨sg, hsg, hg, rank1, hr1, hrs⟩ := hex
      have hne : rank1 ≠ rank := by
        intro he
        subst he
        apply hf sg _ hg
        unfold ArenaGreyRing
        rw [List.mem_filter, Bool.and_eq_true]
        exact ⟨hsg, isMember_ne_empty _ _ hg, hrs⟩
      have hr2 : rank1 ∈ ranks := by
        rcases List.mem_cons.mp hr1 with h | h
        · exact absurd h hne
        · exact h
      obtain ⟨sg2, hsg2, rank2, hr2m, hg2, hrs2, hfind⟩ := ih ⟨sg, hsg, hg, rank1, hr2, hrs⟩
      exact ⟨sg2, hsg2, rank2, List.mem_cons_of_mem _ hr2m, hg2, hrs2, hfind⟩

theorem TraceCheck_idcheck (cfg : Config) (a : ArenaStruct) (trace : TraceId)
    (h : TraceCheck cfg a trace = true) : TraceIdCheck cfg trace = true := by
  have hti := TraceCheck_ti cfg a trace h
  simp only [TraceCheck, Bool.and_eq_true] at h
  rw [← hti]
  exact h.1.1.1.1.2

/-- The end of `TraceRun` and of the FLIPPED case of `TraceStep`,
`if(res != ResOK) return res; return ResOK`, returns `res`. -/
theorem bind_return_res (m : Except Fault (Res × MpsState)) :
    (m >>= fun x => if x.1 != Res.OK then pure (x.1, x.2) else pure (Res.OK, x.2)) = m := by
  cases m with
  | error f => rfl
  | ok x =>
    obtain ⟨r, s⟩ := x
    simp only [bind, Except.bind, pure, Except.pure]
    by_cases h : r = Res.OK
    · simp [h]
    · simp [h]

/-- `TraceStep` on a FLIPPED trace is `TraceRun`. -/
theorem TraceStep_flipped (cfg : Config) (env : Env) (fuel : Nat) (trace : TraceId)
    (s : MpsState) (hc : TraceCheck cfg s.arena trace = true)
    (hs : (s.arena.trace trace).state = TraceState.TraceFLIPPED) :
    TraceStep cfg env fuel trace s = TraceRun cfg env trace s := by
  unfold TraceStep
  rw [aver_true_bind _ _ hc]
  simp only [hs]
  exact bind_return_res _

/-- `TraceRun` when `traceFindGrey` answers FALSE. -/
theorem TraceRun_none (cfg : Config) (env : Env) (trace : TraceId) (s : MpsState)
    (hc : TraceCheck cfg s.arena trace = true)
    (hs : (s.arena.trace trace).state = TraceState.TraceFLIPPED)
    (hf : traceFindGrey cfg s.arena trace = .ok none) :
    TraceRun cfg env trace s =
      .ok (Res.OK, { s with arena := (setTrace s.arena trace
        { s.arena.trace trace with state := TraceState.TraceRECLAIM }) }) := by
  unfold TraceRun
  rw [aver_true_bind _ _ hc, aver_true_bind _ _ (by simp [hs]), TraceCheck_ti cfg _ _ hc, hf]
  rfl

/-- `TraceRun` when `traceFindGrey` answers with a segment. -/
theorem TraceRun_some (cfg : Config) (env : Env) (trace : TraceId) (s : MpsState)
    (seg : Addr) (rank : Rank)
    (hc : TraceCheck cfg s.arena trace = true)
    (hs : (s.arena.trace trace).state = TraceState.TraceFLIPPED)
    (hf : traceFindGrey cfg s.arena trace = .ok (some (seg, rank))) :
    TraceRun cfg env trace s =
      (segGet s.arena seg >>= fun sg =>
        poolGet s.arena sg.pool >>= fun p =>
        aver (p.attr &&& cfg.AttrSCAN != 0) >>= fun _ =>
        TraceScan cfg env (TraceSetSingle trace) rank seg s) := by
  unfold TraceRun
  rw [aver_true_bind _ _ hc, aver_true_bind _ _ (by simp [hs]), TraceCheck_ti cfg _ _ hc, hf]
  simp only [bind, Except.bind]
  cases segGet s.arena seg with
  | error f => rfl
  | ok sg =>
    simp only []
    cases poolGet s.arena sg.pool with
    | error f => rfl
    | ok p =>
      simp only []
      cases aver (p.attr &&& cfg.AttrSCAN != 0) with
      | error f => rfl
      | ok u =>
        simp only []
        exact bind_return_res _

/-! ## Fuel for a loop whose body creates no segment -/

theorem filter_above_lt (l : List Nat) (seg seg1 : Nat) (h : seg < seg1) (hm : seg1 ∈ l) :
    (l.filter (fun b => decide (seg1 < b))).length < (l.filter (fun b => decide (seg < b))).length := by
  have e : l.filter (fun b => decide (seg1 < b)) =
      (l.filter (fun b => decide (seg < b))).filter (fun b => decide (seg1 < b)) := by
    rw [List.filter_filter]
    apply List.filter_congr
    intro x _
    by_cases hx : seg1 < x
    · have : seg < x := Nat.lt_trans h hx
      simp [hx, this]
    · simp [hx]
  rw [e, List.length_filter_lt_length_iff_exists]
  refine ⟨seg1, ?_, by simp⟩
  rw [List.mem_filter]
  exact ⟨hm, by simpa using h⟩

theorem segLoop_ne_fuel (body : Addr → MpsState → Except Fault (Option Res × MpsState))
    (hbf : ∀ seg s, body seg s ≠ .error Fault.fuel)
    (hsub : ∀ seg s r s1, body seg s = .ok (r, s1) →
      (s1.arena.segs.map (fun sg => sg.base)).Sublist (s.arena.segs.map (fun sg => sg.base))) :
    ∀ (fuel : Nat) (seg : Addr) (s : MpsState),
      ((s.arena.segs.map (fun sg => sg.base)).filter (fun b => decide (seg < b))).length < fuel →
      segLoop body fuel seg s ≠ .error Fault.fuel := by
  intro fuel
  induction fuel with
  | zero =>
    intro seg s h
    exact absurd h (Nat.not_lt_zero _)
  | succ n ih =>
    intro seg s h
    simp only [segLoop]
    cases hb : body seg s with
    | error f =>
      simp only [ne_eq, Except.error.injEq]
      intro hf
      subst hf
      exact hbf seg s hb
    | ok res =>
      obtain ⟨ret, s1⟩ := res
      cases ret with
      | some r => simp
      | none =>
        simp only []
        cases hn : SegNext s1.arena seg with
        | none => simp
        | some seg1 =>
          simp only []
          apply ih
          unfold SegNext at hn
          simp only [Option.map_eq_some'] at hn
          obtain ⟨sg, hfind, hbase⟩ := hn
          have hlt : seg < seg1 := by
            have := List.find?_some hfind
            rw [← hbase]
            simpa using this
          have hmem1 : seg1 ∈ s1.arena.segs.map (fun sg => sg.base) := by
            rw [← hbase]
            exact List.mem_map_of_mem _ (List.mem_of_find?_eq_some hfind)
          have hs := hsub seg s none s1 hb
          have h1 := (hs.filter (fun b => decide (seg1 < b))).length_le
          have h2 := filter_above_lt _ seg seg1 hlt (hs.subset hmem1)
          exact Nat.lt_of_le_of_lt h1 (Nat.lt_of_lt_of_le h2 (Nat.le_of_lt_succ h))

theorem forSegs_ne_fuel (body : Addr → MpsState → Except Fault (Option Res × MpsState))
    (hbf : ∀ seg s, body seg s ≠ .error Fault.fuel)
    (hsub : ∀ seg s r s1, body seg s = .ok (r, s1) →
      (s1.arena.segs.map (fun sg => sg.base)).Sublist (s.arena.segs.map (fun sg => sg.base)))
    (fuel : Nat) (s : MpsState) (hfuel : s.arena.segs.length ≤ fuel) :
    forSegs body fuel s ≠ .error Fault.fuel := by
  unfold forSegs
  rw [SegFirst_eq]
  cases hl : s.arena.segs.map (fun sg => sg.base) with
  | nil => simp
  | cons seg rest =>
    simp only [List.head?_cons]
    apply segLoop_ne_fuel body hbf hsub
    rw [hl]
    have hlen : (seg :: rest).length = s.arena.segs.length := by
      rw [← hl]
      simp
    have : ((seg :: rest).filter (fun b => decide (seg < b))).length < (seg :: rest).length := by
      rw [List.length_filter_lt_length_iff_exists]
      exact ⟨seg, List.mem_cons_self _ _, by simp⟩
    omega

theorem reclaimBody_ne_fuel (cfg : Config) (env : Env) (trace : TraceId) (seg : Addr)
    (s : MpsState) : reclaimBody cfg env trace seg s ≠ .error Fault.fuel := by
  unfold reclaimBody
  refine bind_ne_fuel _ _ (segGet_ne_fuel _ _) (fun sg => ?_)
  refine bind_ne_fuel _ _ (aver_ne_fuel _) (fun _ => ?_)
  split
  · refine bind_ne_fuel _ _ (poolGet_ne_fuel _ _) (fun _ => ?_)
    refine bind_ne_fuel _ _ (aver_ne_fuel _) (fun _ => ?_)
    refine bind_ne_fuel _ _ (aver_ne_fuel _) (fun _ => ?_)
    exact pure_ne_fuel _
  · exact pure_ne_fuel _

theorem reclaimBody_sublist (cfg : Config) (env : Env) (hn : ReclaimNoNewSegs env)
    (trace : TraceId) (seg : Addr) (s s1 : MpsState) (ret : Option Res)
    (h : reclaimBody cfg env trace seg s = .ok (ret, s1)) :
    (s1.arena.segs.map (fun sg => sg.base)).Sublist (s.arena.segs.map (fun sg => sg.base)) := by
  unfold reclaimBody at h
  simp only [bind_ok_iff, exists_aver_ok_iff] at h
  obtain ⟨sg, _, _, h⟩ := h
  split at h
  · simp only [bind_ok_iff, exists_aver_ok_iff, pure_ok_iff, Prod.mk.injEq] at h
    obtain ⟨p, _, _, _, _, hs1⟩ := h
    rw [← hs1]
    simp only [emit_arena]
    have := hn (setTrace s.arena trace
      { s.arena.trace trace with reclaimCount := (s.arena.trace trace).reclaimCount + 1 })
      sg.pool trace seg
    simpa using this
  · simp only [pure_ok_iff, Prod.mk.injEq] at h
    rw [← h.2]

/-- With fuel for every segment and a `PoolReclaim` that creates no segment,
`TraceReclaim` does not run out of fuel. -/
theorem TraceReclaim_ne_fuel (cfg : Config) (env : Env) (hn : ReclaimNoNewSegs env)
    (fuel : Nat) (trace : TraceId) (s : MpsState) (hfuel : s.arena.segs.length ≤ fuel) :
    TraceReclaim cfg env fuel trace s ≠ .error Fault.fuel := by
  unfold TraceReclaim
  refine bind_ne_fuel _ _ (aver_ne_fuel _) (fun _ => ?_)
  refine bind_ne_fuel _ _ (aver_ne_fuel _) (fun _ => ?_)
  refine bind_ne_fuel _ _ (forSegs_ne_fuel _ (reclaimBody_ne_fuel cfg env trace)
    (fun seg st r st1 hb => reclaimBody_sublist cfg env hn trace seg st st1 r hb) fuel s hfuel)
    (fun res => ?_)
  split
  exact pure_ne_fuel _

/-- Every completed `TraceReclaim` leaves the trace FINISHED. -/
theorem TraceReclaim_finished (cfg : Config) (env : Env) (fuel : Nat) (trace : TraceId)
    (s s1 : MpsState) (h : TraceReclaim cfg env fuel trace s = .ok s1) :
    (s1.arena.trace trace).state = TraceState.TraceFINISHED := by
  unfold TraceReclaim at h
  simp only [bind_ok_iff, exists_aver_ok_iff, pure_ok_iff] at h
  obtain ⟨_, _, ⟨ret, s2⟩, _, h⟩ := h
  rw [← h]
  simp

/-- `TraceStep` on a trace in state RECLAIM is `TraceReclaim`, with result OK. -/
theorem TraceStep_reclaim (cfg : Config) (env : Env) (fuel : Nat) (trace : TraceId)
    (s : MpsState) (hc : TraceCheck cfg s.arena trace = true)
    (hs : (s.arena.trace trace).state = TraceState.TraceRECLAIM) :
    TraceStep cfg env fuel trace s =
      (TraceReclaim cfg env fuel trace s).map (fun s1 => (Res.OK, s1)) := by
  unfold TraceStep
  rw [aver_true_bind _ _ hc]
  simp only [hs]
  cases TraceReclaim cfg env fuel trace s <;> rfl

/-! ## What `TraceReclaim`, `TraceStep`, `TracePoll` and `TraceAccess` keep -/

theorem advCtl_refl (trace : TraceId) (a : ArenaStruct) : advCtl trace a a :=
  ⟨rfl, rfl, fun _ _ => rfl, rfl, rfl, rfl, Or.inl rfl⟩

theorem advCtl_trans {trace : TraceId} {a a1 a2 : ArenaStruct} (h1 : advCtl trace a a1)
    (h2 : advCtl trace a1 a2) : advCtl trace a a2 := by
  obtain ⟨b1, f1, o1, t1, w1, m1, s1⟩ := h1
  obtain ⟨b2, f2, o2, t2, w2, m2, s2⟩ := h2
  refine ⟨b2.trans b1, f2.trans f1, fun i hi => (o2 i hi).trans (o1 i hi), t2.trans t1,
    w2.trans w1, m2.trans m1, ?_⟩
  rcases s1 with s1 | s1
  · rcases s2 with s2 | s2
    · exact Or.inl (s2.trans s1)
    · rw [s1] at s2
      exact Or.inr s2
  · rcases s2 with s2 | s2
    · rw [← s2] at s1
      exact Or.inr s1
    · exact Or.inr ⟨s1.1, s2.2⟩

theorem advCtl_of_sameCtl (trace : TraceId) {a a1 : ArenaStruct} (h : sameCtl a a1) :
    advCtl trace a a1 := by
  obtain ⟨hb, hf, ht⟩ := h
  have e := ht trace
  simp only [traceCtl, Prod.mk.injEq] at e
  exact ⟨hb, hf, fun i _ => ht i, e.1, e.2.2.1, e.2.2.2.1, Or.inl e.2.1⟩

/-- A store of a new state after the flip into the slot `trace`. -/
theorem advCtl_setState (trace : TraceId) (a : ArenaStruct) (st : TraceState)
    (h0 : flippedPhase (a.trace trace).state = true) (h1 : flippedPhase st = true) :
    advCtl trace a (setTrace a trace { a.trace trace with state := st }) := by
  refine ⟨rfl, rfl, ?_, ?_, ?_, ?_, Or.inr ⟨h0, ?_⟩⟩
  · intro i hi
    rw [setTrace_trace_ne _ _ _ _ hi]
  all_goals simp [setTrace_trace_same]
  exact h1

theorem reclaimBody_keeps (cfg : Config) (env : Env) (hk : EnvKeepsCtl env) (trace : TraceId)
    (seg : Addr) (s s1 : MpsState) (ret : Option Res)
    (h : reclaimBody cfg env trace seg s = .ok (ret, s1)) : sameAll s.arena s1.arena := by
  unfold reclaimBody at h
  simp only [bind_ok_iff, exists_aver_ok_iff] at h
  obtain ⟨sg, _, _, h⟩ := h
  split at h
  · simp only [bind_ok_iff, exists_aver_ok_iff, emit_arena, pure_ok_iff, Prod.mk.injEq] at h
    obtain ⟨p, _, _, _, _, h⟩ := h
    rw [← h]
    simp only [emit_arena]
    refine sameAll_trans ?_ (hk.2.2.2.2.1 _ _ _ _)
    exact sameAll_setTrace _ _ _ rfl rfl
  · simp only [pure_ok_iff, Prod.mk.injEq] at h
    rw [← h.2]
    exact sameAll_refl _

theorem TraceReclaim_adv (cfg : Config) (env : Env) (hk : EnvKeepsCtl env) (fuel : Nat)
    (trace : TraceId) (s s1 : MpsState) (h : TraceReclaim cfg env fuel trace s = .ok s1) :
    advCtl trace s.arena s1.arena := by
  unfold TraceReclaim at h
  simp only [bind_ok_iff, exists_aver_ok_iff, beq_iff_eq, pure_ok_iff] at h
  obtain ⟨_, hst, ⟨ret, s2⟩, hloop, h⟩ := h
  have k : sameAll s.arena s2.arena :=
    forSegs_inv _ (fun st => sameAll s.arena st.arena)
      (fun seg st r st1 hP hb =>
        sameAll_trans hP (reclaimBody_keeps cfg env hk trace seg st st1 r hb))
      fuel s ret s2 (sameAll_refl _) hloop
  rw [← h]
  apply advCtl_trans (advCtl_of_sameCtl trace k.1)
  apply advCtl_setState
  · rw [sameAll_state k, hst]
    rfl
  · rfl

theorem TraceRun_adv (cfg : Config) (env : Env) (hk : EnvKeepsCtl env) (trace : TraceId)
    (s s1 : MpsState) (r : Res) (h : TraceRun cfg env trace s = .ok (r, s1)) :
    advCtl trace s.arena s1.arena := by
  unfold TraceRun at h
  simp only [bind_ok_iff, exists_aver_ok_iff, beq_iff_eq] at h
  obtain ⟨_, hst, found, _, h⟩ := h
  cases found with
  | none =>
    simp only [pure_ok_iff, Prod.mk.injEq] at h
    rw [← h.2]
    apply advCtl_setState
    · rw [hst]
      rfl
    · rfl
  | some x =>
    obtain ⟨seg, rank⟩ := x
    simp only [bind_ok_iff, exists_aver_ok_iff] at h
    obtain ⟨sg, _, p, _, _, ⟨res, s2⟩, hscan, h⟩ := h
    have k := TraceScan_keeps cfg env hk _ _ _ _ _ _ hscan
    split at h <;>
    · simp only [pure_ok_iff, Prod.mk.injEq] at h
      rw [← h.2]
      exact advCtl_of_sameCtl trace k.1

theorem TraceStep_adv (cfg : Config) (env : Env) (hk : EnvKeepsCtl env) (fuel : Nat)
    (trace : TraceId) (s s1 : MpsState) (r : Res)
    (h : TraceStep cfg env fuel trace s = .ok (r, s1)) :
    advCtl trace s.arena s1.arena := by
  unfold TraceStep at h
  simp only [bind_ok_iff, exists_aver_ok_iff] at h
  obtain ⟨_, h⟩ := h
  split at h
  · cases h
  · simp only [bind_ok_iff] at h
    obtain ⟨⟨res, s2⟩, hrun, h⟩ := h
    have k := TraceRun_adv cfg env hk trace s s2 res hrun
    split at h <;>
    · simp only [pure_ok_iff, Prod.mk.injEq] at h
      rw [← h.2]
      exact k
  · simp only [bind_ok_iff, pure_ok_iff, Prod.mk.injEq] at h
    obtain ⟨s2, hrec, h⟩ := h
    rw [← h.2]
    exact TraceReclaim_adv cfg env hk fuel trace s s2 hrec
  · simp only [pure_ok_iff, Prod.mk.injEq] at h
    rw [← h.2]
    exact advCtl_refl _ _
  · simp only [pure_ok_iff, Prod.mk.injEq] at h
    rw [← h.2]
    exact advCtl_refl _ _

theorem expediteLoop_adv (cfg : Config) (env : Env) (hk : EnvKeepsCtl env) (fuel : Nat)
    (trace : TraceId) :
    ∀ (n : Nat) (s s1 : MpsState), expediteLoop cfg env fuel trace n s = .ok s1 →
      advCtl trace s.arena s1.arena := by
  intro n
  induction n with
  | zero =>
    intro s s1 h
    simp [expediteLoop] at h
  | succ n ih =>
    intro s s1 h
    simp only [expediteLoop] at h
    split at h
    · simp only [bind_ok_iff, exists_aver_ok_iff] at h
      obtain ⟨⟨res, s2⟩, hstep, _, h⟩ := h
      exact advCtl_trans (TraceStep_adv cfg env hk fuel trace s s2 res hstep) (ih s2 s1 h)
    · simp only [pure_ok_iff] at h
      rw [← h]
      exact advCtl_refl _ _

theorem TraceExpedite_adv (cfg : Config) (env : Env) (hk : EnvKeepsCtl env) (fuel : Nat)
    (trace : TraceId) (s s1 : MpsState) (h : TraceExpedite cfg env fuel trace s = .ok s1) :
    advCtl trace s.arena s1.arena := by
  unfold TraceExpedite at h
  simp only [bind_ok_iff, exists_aver_ok_iff] at h
  obtain ⟨_, _, h⟩ := h
  refine advCtl_trans ?_ (expediteLoop_adv cfg env hk fuel trace fuel _ s1 h)
  exact advCtl_of_sameCtl trace (sameCtl_setTrace _ _ _ rfl)

theorem TracePoll_adv (cfg : Config) (env : Env) (hk : EnvKeepsCtl env) (fuel : Nat)
    (trace : TraceId) (s s1 : MpsState) (h : TracePoll cfg env fuel trace s = .ok s1) :
    advCtl trace s.arena s1.arena := by
  unfold TracePoll at h
  simp only [bind_ok_iff, exists_aver_ok_iff] at h
  obtain ⟨_, ⟨res, s2⟩, hstep, h⟩ := h
  have k := TraceStep_adv cfg env hk fuel trace s s2 res hstep
  split at h
  · simp only [bind_ok_iff, exists_aver_ok_iff, pure_ok_iff] at h
    obtain ⟨_, s3, hexp, _, h⟩ := h
    rw [← h]
    exact advCtl_trans k (TraceExpedite_adv cfg env hk fuel trace s2 s3 hexp)
  · simp only [pure_ok_iff] at h
    rw [← h]
    exact k

/-! ## What `TraceAccess` keeps -/

theorem accessEmergency_keeps (traces : TraceSet) :
    ∀ (l : List TraceId) (a : ArenaStruct), sameAll a (accessEmergency traces l a) := by
  intro l
  induction l with
  | nil =>
    intro a
    exact sameAll_refl a
  | cons ti tis ih =>
    intro a
    simp only [accessEmergency]
    split
    · refine sameAll_trans ?_ (ih _)
      exact sameAll_setTrace _ _ _ rfl rfl
    · exact ih a

theorem accessCountFaults_keeps :
    ∀ (l : List TraceId) (a : ArenaStruct), sameAll a (accessCountFaults l a) := by
  intro l
  induction l with
  | nil =>
    intro a
    exact sameAll_refl a
  | cons ti tis ih =>
    intro a
    simp only [accessCountFaults]
    split
    · refine sameAll_trans ?_ (ih _)
      exact sameAll_setTrace _ _ _ rfl rfl
    · exact ih a

theorem accessRetry_keeps (cfg : Config) (env : Env) (hk : EnvKeepsCtl env) (traces : TraceSet)
    (seg : Addr) (s s1 : MpsState) (h : accessRetry cfg env traces seg s = .ok s1) :
    sameAll s.arena s1.arena := by
  unfold accessRetry at h
  simp only [bind_ok_iff, exists_aver_ok_iff, pure_ok_iff] at h
  obtain ⟨⟨res, s2⟩, hscan, _, h⟩ := h
  rw [← h]
  exact sameAll_trans (accessEmergency_keeps traces _ s.arena)
    (TraceScan_keeps cfg env hk _ _ _ _ _ _ hscan)

theorem accessRead_keeps (cfg : Config) (env : Env) (hk : EnvKeepsCtl env)
    (seg : Addr) (s s1 : MpsState) (h : accessRead cfg env seg s = .ok s1) :
    sameAll s.arena s1.arena := by
  unfold accessRead at h
  simp only [bind_ok_iff, exists_aver_ok_iff, pure_ok_iff] at h
  obtain ⟨⟨res, s2⟩, hscan, s3, hretry, sg2, _, _, h⟩ := h
  have k1 := TraceScan_keeps cfg env hk _ _ _ _ _ _ hscan
  have k2 : sameAll s2.arena s3.arena := by
    split at hretry
    · exact accessRetry_keeps cfg env hk _ seg s2 s3 hretry
    · simp only [pure_ok_iff] at hretry
      rw [← hretry]
      exact sameAll_refl _
  rw [← h]
  exact sameAll_trans (sameAll_trans k1 k2) (accessCountFaults_keeps _ s3.arena)

theorem TraceAccess_keeps (cfg : Config) (env : Env) (hk : EnvKeepsCtl env)
    (seg : Addr) (mode : AccessSet) (s s1 : MpsState)
    (h : TraceAccess cfg env seg mode s = .ok s1) : sameAll s.arena s1.arena := by
  unfold TraceAccess at h
  simp only [bind_ok_iff, exists_aver_ok_iff, pure_ok_iff] at h
  obtain ⟨sg, _, _, _, s3, hread, sg3, _, sg4, _, _, h⟩ := h
  have k1 : sameAll s.arena s3.arena := by
    split at hread
    · exact accessRead_keeps cfg env hk seg s s3 hread
    · simp only [pure_ok_iff] at hread
      rw [← hread]
      exact sameAll_refl _
  rw [← h]
  split
  · exact sameAll_trans k1 (sameAll_SegSetSummary cfg s3.arena seg _)
  · exact k1

/-! ## What `TraceAddWhite` and `TraceCondemnRefSet` do to the control fields -/

theorem condemnCtl_refl (a : ArenaStruct) : condemnCtl a a :=
  ⟨rfl, rfl, fun _ => ⟨rfl, rfl, fun h => h⟩⟩

theorem condemnCtl_trans {a a1 a2 : ArenaStruct} (h1 : condemnCtl a a1)
    (h2 : condemnCtl a1 a2) : condemnCtl a a2 :=
  ⟨h2.1.trans h1.1, h2.2.1.trans h1.2.1, fun i =>
    ⟨(h2.2.2 i).1.trans (h1.2.2 i).1, (h2.2.2 i).2.1.trans (h1.2.2 i).2.1,
      fun h => (h2.2.2 i).2.2 ((h1.2.2 i).2.2 h)⟩⟩

theorem condemnCtl_of_sameCtl {a a1 : ArenaStruct} (h : sameCtl a a1) : condemnCtl a a1 := by
  obtain ⟨hb, hf, ht⟩ := h
  refine ⟨hb, hf, fun i => ?_⟩
  have e := ht i
  simp only [traceCtl, Prod.mk.injEq] at e
  refine ⟨e.1, e.2.1, ?_⟩
  rw [e.2.2.1, e.2.2.2.1]
  exact fun h => h

theorem RefSetSub_union (m w r : RefSet) (c : Bool) (h : RefSetSub m w = true) :
    RefSetSub (if c = true then RefSetUnion m r else m) (RefSetUnion w r) = true := by
  rw [RefSetSub_iff] at *
  intro i hi
  rw [testBit_RefSetUnion, Bool.or_eq_true]
  split at hi
  · rw [testBit_RefSetUnion, Bool.or_eq_true] at hi
    rcases hi with hi | hi
    · exact Or.inl (h i hi)
    · exact Or.inr hi
  · exact Or.inl (h i hi)

/-- `TraceAddWhite` keeps the trace sets, the identifiers and the states; in
the slot of the trace it adds the zones of the segment to `white` and, for a
pool that moves objects, the same zones to `mayMove`, so that `mayMove ⊆
white` is kept, whatever `PoolWhiten` answers. -/
theorem TraceAddWhite_ctl (cfg : Config) (env : Env) (hk : EnvKeepsCtl env) (trace : TraceId)
    (seg : Addr) (s s1 : MpsState) (r : Res)
    (h : TraceAddWhite cfg env trace seg s = .ok (r, s1)) :
    condemnCtl s.arena s1.arena := by
  obtain ⟨sg, p, _, _, _, _, _, _, hcases⟩ := TraceAddWhite_ok_inv cfg env trace seg s s1 r h
  have k := (hk.1 s.arena sg.pool trace seg).1
  rcases hcases with ⟨_, hs1⟩ | ⟨_, _, _, _, hs1⟩ | ⟨_, sg1, p1, _, _, _, hs1⟩
  · rw [hs1]
    exact condemnCtl_of_sameCtl k
  · rw [hs1]
    exact condemnCtl_of_sameCtl k
  · rw [hs1]
    refine condemnCtl_trans (condemnCtl_of_sameCtl k) ⟨rfl, rfl, fun i => ?_⟩
    by_cases hi : i = trace
    · subst hi
      simp only [setTrace_trace_same, true_and]
      exact RefSetSub_union _ _ _ _
    · rw [setTrace_trace_ne _ _ _ _ hi]
      exact ⟨rfl, rfl, fun h => h⟩

theorem condemnBody_ctl (cfg : Config) (env : Env) (hk : EnvKeepsCtl env) (trace : TraceId)
    (cs : RefSet) (seg : Addr) (s s1 : MpsState) (ret : Option Res)
    (h : condemnBody cfg env trace cs seg s = .ok (ret, s1)) :
    condemnCtl s.arena s1.arena := by
  obtain ⟨sg, p, _, _, _, _, hcases⟩ := condemnBody_ok_inv cfg env trace cs seg s s1 ret h
  rcases hcases with ⟨_, _, hs⟩ | ⟨_, r, hadd, _⟩
  · rw [hs]
    exact condemnCtl_refl _
  · exact TraceAddWhite_ctl cfg env hk trace seg s s1 r hadd

theorem TraceCondemnRefSet_ctl (cfg : Config) (env : Env) (hk : EnvKeepsCtl env) (fuel : Nat)
    (trace : TraceId) (cs : RefSet) (s s1 : MpsState) (r : Res)
    (h : TraceCondemnRefSet cfg env fuel trace cs s = .ok (r, s1)) :
    condemnCtl s.arena s1.arena := by
  unfold TraceCondemnRefSet at h
  simp only [bind_ok_iff, exists_aver_ok_iff] at h
  obtain ⟨_, _, _, _, ⟨ret, s2⟩, hloop, h⟩ := h
  have k : condemnCtl s.arena s2.arena :=
    forSegs_inv _ (fun st => condemnCtl s.arena st.arena)
      (fun seg st r st1 hP hb =>
        condemnCtl_trans hP (condemnBody_ctl cfg env hk trace cs seg st st1 r hb))
      fuel s ret s2 (condemnCtl_refl _) hloop
  cases ret with
  | some res =>
    simp only [pure_ok_iff, Prod.mk.injEq] at h
    rw [← h.2]
    exact k
  | none =>
    simp only [bind_ok_iff, exists_aver_ok_iff, pure_ok_iff, Prod.mk.injEq] at h
    rw [← h.2.2]
    exact k

/-! ## The operations that write neither `white` nor `mayMove` -/

theorem sameWhite_of_sameCtl {a a1 : ArenaStruct} (h : sameCtl a a1) : sameWhite a a1 := by
  intro i
  have e := h.2.2 i
  simp only [traceCtl, Prod.mk.injEq] at e
  exact ⟨e.2.2.1, e.2.2.2.1⟩

theorem sameWhite_of_advCtl {trace : TraceId} {a a1 : ArenaStruct} (h : advCtl trace a a1) :
    sameWhite a a1 := by
  obtain ⟨_, _, ho, _, hw, hm, _⟩ := h
  intro i
  by_cases hi : i = trace
  · subst hi
    exact ⟨hw, hm⟩
  · have e := ho i hi
    simp only [traceCtl, Prod.mk.injEq] at e
    exact ⟨e.2.2.1, e.2.2.2.1⟩

theorem mayMoveSubWhite_of_sameWhite {a a1 : ArenaStruct} (h : sameWhite a a1)
    (hs : mayMoveSubWhite a) : mayMoveSubWhite a1 := by
  intro i
  rw [(h i).1, (h i).2]
  exact hs i

theorem TraceStart_sameWhite (cfg : Config) (env : Env) (hk : EnvKeepsCtl env) (fuel : Nat)
    (trace : TraceId) (s s1 : MpsState) (r : Res)
    (h : TraceStart cfg env fuel trace s = .ok (r, s1)) : sameWhite s.arena s1.arena := by
  by_cases hw : (s.arena.trace trace).white = RefSetEMPTY
  · obtain ⟨_, _, _, hs1⟩ := TraceStart_empty_inv cfg env fuel trace s s1 r hw h
    rw [hs1]
    intro i
    by_cases hi : i = trace
    · subst hi
      simp only [setTrace_trace_same, and_self]
    · simp only [setTrace_trace_ne _ _ _ _ hi, and_self]
  · obtain ⟨_, _, _, _, ho, _, hwh, hmm, _⟩ :=
      TraceStart_effect cfg env hk fuel trace s s1 r hw h
    intro i
    by_cases hi : i = trace
    · subst hi
      exact ⟨hwh, hmm⟩
    · have e := ho i hi
      simp only [traceCtl, Prod.mk.injEq] at e
      exact ⟨e.2.2.1, e.2.2.2.1⟩

theorem TraceFlip_sameWhite (cfg : Config) (env : Env) (hk : EnvKeepsCtl env) (fuel : Nat)
    (trace : TraceId) (s s1 : MpsState) (r : Res)
    (h : TraceFlip cfg env fuel trace s = .ok (r, s1)) : sameWhite s.arena s1.arena := by
  obtain ⟨_, _, _, _, hst, _⟩ := TraceFlip_effect cfg env hk fuel trace s s1 r h
  intro i
  have e := hst i
  simp only [traceStatic, Prod.mk.injEq] at e
  exact ⟨e.2.1, e.2.2.1⟩

theorem TraceDestroy_sameWhite (cfg : Config) (trace : TraceId) (s s1 : MpsState)
    (h : TraceDestroy cfg trace s = .ok s1) : sameWhite s.arena s1.arena := by
  obtain ⟨_, _, _, _, ht, ho, _⟩ := TraceDestroy_ok_inv cfg trace s s1 h
  intro i
  by_cases hi : i = trace
  · subst hi
    rw [ht]
    exact ⟨rfl, rfl⟩
  · rw [ho i hi]
    exact ⟨rfl, rfl⟩

theorem TraceCreate_mayMoveSubWhite (cfg : Config) (s s1 : MpsState) (r : Res)
    (t : Option TraceId) (h : TraceCreate cfg s = .ok (r, t, s1))
    (hs : mayMoveSubWhite s.arena) : mayMoveSubWhite s1.arena := by
  rcases TraceCreate_ok_inv cfg s r t s1 h with ⟨_, _, hs1, _⟩ | ⟨ti, _, _, _, _, _, hs1⟩
  · rw [hs1]
    exact hs
  · rw [hs1]
    intro i
    by_cases hi : i = ti
    · subst hi
      simp only [setTrace_trace_same]
      exact RefSetSub_empty _
    · simp only [setTrace_trace_ne _ _ _ _ hi]
      exact hs i

theorem mayMoveSubWhite_of_condemnCtl {a a1 : ArenaStruct} (h : condemnCtl a a1)
    (hs : mayMoveSubWhite a) : mayMoveSubWhite a1 :=
  fun i => (h.2.2 i).2.2 (hs i)

theorem applyOp_mayMoveSubWhite (cfg : Config) (env : Env) (hk : EnvKeepsCtl env) (fuel : Nat)
    (op : Op) (s s1 : MpsState) (h : applyOp cfg env fuel op s = .ok s1)
    (hs : mayMoveSubWhite s.arena) : mayMoveSubWhite s1.arena := by
  cases op with
  | create =>
    simp only [applyOp, map_ok_iff] at h
    obtain ⟨⟨r, t, s2⟩, hc, h⟩ := h
    simp only at h
    rw [← h]
    exact TraceCreate_mayMoveSubWhite cfg s s2 r t hc hs
  | condemn trace cs =>
    simp only [applyOp, map_ok_iff] at h
    obtain ⟨⟨r, s2⟩, hc, h⟩ := h
    simp only at h
    rw [← h]
    exact mayMoveSubWhite_of_condemnCtl (TraceCondemnRefSet_ctl cfg env hk fuel trace cs s s2 r hc) hs
  | start trace =>
    simp only [applyOp, map_ok_iff] at h
    obtain ⟨⟨r, s2⟩, hc, h⟩ := h
    simp only at h
    rw [← h]
    exact mayMoveSubWhite_of_sameWhite (TraceStart_sameWhite cfg env hk fuel trace s s2 r hc) hs
  | step trace =>
    simp only [applyOp, map_ok_iff] at h
    obtain ⟨⟨r, s2⟩, hc, h⟩ := h
    simp only at h
    rw [← h]
    exact mayMoveSubWhite_of_sameWhite
      (sameWhite_of_advCtl (TraceStep_adv cfg env hk fuel trace s s2 r hc)) hs
  | poll trace =>
    simp only [applyOp] at h
    exact mayMoveSubWhite_of_sameWhite
      (sameWhite_of_advCtl (TracePoll_adv cfg env hk fuel trace s s1 h)) hs
  | access seg mode =>
    simp only [applyOp] at h
    exact mayMoveSubWhite_of_sameWhite
      (sameWhite_of_sameCtl (TraceAccess_keeps cfg env hk seg mode s s1 h).1) hs
  | destroy trace =>
    simp only [applyOp] at h
    exact mayMoveSubWhite_of_sameWhite (TraceDestroy_sameWhite cfg trace s s1 h) hs

/-- An invariant of every operation is an invariant of every sequence. -/
theorem applyOps_inv (cfg : Config) (env : Env) (fuel : Nat) (P : MpsState → Prop)
    (hop : ∀ op s s1, applyOp cfg env fuel op s = .ok s1 → P s → P s1) :
    ∀ (ops : List Op) (s s1 : MpsState), applyOps cfg env fuel ops s = .ok s1 → P s → P s1 := by
  intro ops
  induction ops with
  | nil =>
    intro s s1 h hP
    simp only [applyOps, Except.ok.injEq] at h
    rw [← h]
    exact hP
  | cons op ops ih =>
    intro s s1 h hP
    simp only [applyOps] at h
    cases hop1 : applyOp cfg env fuel op s with
    | error f =>
      rw [hop1] at h
      cases h
    | ok s2 =>
      rw [hop1] at h
      exact ih s2 s1 h (hop op s s2 hop1 hP)

/-! ## The consistency of the trace sets with the states -/

theorem TraceSetSub_iff (a b : TraceSet) :
    TraceSetSub a b = true ↔ ∀ i, TraceSetIsMember a i = true → TraceSetIsMember b i = true :=
  RefSetSub_iff a b

theorem TraceCheck_busy (cfg : Config) (a : ArenaStruct) (trace : TraceId)
    (h : TraceCheck cfg a trace = true) : TraceSetIsMember a.busyTraces trace = true := by
  have hti := TraceCheck_ti cfg a trace h
  unfold TraceCheck at h
  simp only [Bool.and_eq_true] at h
  rw [← hti]
  exact h.1.1.2

theorem busyFlippedInv_empty (a : ArenaStruct) (hb : a.busyTraces = TraceSetEMPTY)
    (hf : a.flippedTraces = TraceSetEMPTY) : busyFlippedInv a := by
  refine ⟨?_, ?_⟩
  · rw [hb, hf]
    rfl
  · intro i hi
    rw [hb] at hi
    simp [TraceSetIsMember, TraceSetEMPTY] at hi

theorem busyFlippedInv_of_advCtl {trace : TraceId} {a a1 : ArenaStruct}
    (h : advCtl trace a a1) (hinv : busyFlippedInv a) : busyFlippedInv a1 := by
  obtain ⟨hb, hf, ho, hti, _, _, hst⟩ := h
  obtain ⟨hsub, hrule⟩ := hinv
  refine ⟨by rw [hb, hf]; exact hsub, ?_⟩
  intro i hi
  rw [hb] at hi
  obtain ⟨h1, h2⟩ := hrule i hi
  rw [hf]
  by_cases hit : i = trace
  · subst hit
    rw [hti]
    refine ⟨h1, ?_⟩
    rw [h2]
    rcases hst with hst | hst
    · rw [hst]
    · rw [hst.1, hst.2]
  · have e := ho i hit
    simp only [traceCtl, Prod.mk.injEq] at e
    rw [e.1, e.2.1]
    exact ⟨h1, h2⟩

theorem busyFlippedInv_of_condemnCtl {a a1 : ArenaStruct}
    (h : condemnCtl a a1) (hinv : busyFlippedInv a) : busyFlippedInv a1 := by
  obtain ⟨hb, hf, ht⟩ := h
  obtain ⟨hsub, hrule⟩ := hinv
  refine ⟨by rw [hb, hf]; exact hsub, ?_⟩
  intro i hi
  rw [hb] at hi
  rw [hf, (ht i).1, (ht i).2.1]
  exact hrule i hi

theorem busyFlippedInv_of_sameCtl {a a1 : ArenaStruct}
    (h : sameCtl a a1) (hinv : busyFlippedInv a) : busyFlippedInv a1 :=
  busyFlippedInv_of_condemnCtl (condemnCtl_of_sameCtl h) hinv

theorem TraceCreate_busyFlippedInv (cfg : Config) (s s1 : MpsState) (r : Res)
    (t : Option TraceId) (h : TraceCreate cfg s = .ok (r, t, s1))
    (hinv : busyFlippedInv s.arena) : busyFlippedInv s1.arena := by
  rcases TraceCreate_ok_inv cfg s r t s1 h with ⟨_, _, hs1, _⟩ | ⟨ti, _, _, _, hfree, _, hs1⟩
  · rw [hs1]
    exact hinv
  · obtain ⟨hsub, hrule⟩ := hinv
    rw [TraceSetSub_iff] at hsub
    rw [hs1]
    refine ⟨?_, ?_⟩
    · rw [TraceSetSub_iff]
      intro i hi
      simp only [setTrace_flippedTraces] at hi
      simp only [setTrace_busyTraces, isMember_TraceSetAdd, Bool.or_eq_true]
      exact Or.inl (hsub i hi)
    · intro i hi
      simp only [setTrace_busyTraces, isMember_TraceSetAdd, Bool.or_eq_true,
        decide_eq_true_eq] at hi
      simp only [setTrace_flippedTraces]
      by_cases hit : i = ti
      · subst hit
        simp only [setTrace_trace_same]
        refine ⟨rfl, ?_⟩
        show TraceSetIsMember s.arena.flippedTraces i = false
        cases hm : TraceSetIsMember s.arena.flippedTraces i with
        | false => rfl
        | true =>
          rw [hsub i hm] at hfree
          cases hfree
      · simp only [setTrace_trace_ne _ _ _ _ hit]
        rcases hi with hi | hi
        · exact hrule i hi
        · exact absurd hi.symm hit

theorem TraceDestroy_busyFlippedInv (cfg : Config) (trace : TraceId) (s s1 : MpsState)
    (h : TraceDestroy cfg trace s = .ok s1)
    (hinv : busyFlippedInv s.arena) : busyFlippedInv s1.arena := by
  obtain ⟨hc, _, hb, hf, _, ho, _⟩ := TraceDestroy_ok_inv cfg trace s s1 h
  rw [TraceCheck_ti cfg _ _ hc] at hb hf
  obtain ⟨hsub, hrule⟩ := hinv
  rw [TraceSetSub_iff] at hsub
  refine ⟨?_, ?_⟩
  · rw [TraceSetSub_iff, hb, hf]
    intro i hi
    rw [isMember_TraceSetDel, Bool.and_eq_true] at hi ⊢
    exact ⟨hsub i hi.1, hi.2⟩
  · intro i hi
    rw [hb, isMember_TraceSetDel, Bool.and_eq_true] at hi
    have hit : i ≠ trace := by
      intro e
      subst e
      simp at hi
    rw [ho i hit, hf]
    obtain ⟨h1, h2⟩ := hrule i hi.1
    refine ⟨h1, ?_⟩
    rw [← h2, h1, isMember_TraceSetDel, hi.2, Bool.and_true]

theorem TraceStart_busyFlippedInv (cfg : Config) (env : Env) (hk : EnvKeepsCtl env)
    (fuel : Nat) (trace : TraceId) (s s1 : MpsState) (r : Res)
    (h : TraceStart cfg env fuel trace s = .ok (r, s1))
    (hinv : busyFlippedInv s.arena) : busyFlippedInv s1.arena := by
  obtain ⟨hsub, hrule⟩ := hinv
  rw [TraceSetSub_iff] at hsub
  -- what the two ways through `TraceStart` have in common
  have key : TraceCheck cfg s.arena trace = true ∧
      s1.arena.busyTraces = s.arena.busyTraces ∧
      (∀ i, i ≠ trace → (s1.arena.trace i).ti = (s.arena.trace i).ti ∧
        (s1.arena.trace i).state = (s.arena.trace i).state) ∧
      (s1.arena.trace trace).ti = trace ∧
      ((s1.arena.flippedTraces = s.arena.flippedTraces ∧
          TraceSetIsMember s.arena.flippedTraces trace = false ∧
          flippedPhase (s1.arena.trace trace).state = false) ∨
       (s1.arena.flippedTraces = TraceSetAdd s.arena.flippedTraces trace ∧
          flippedPhase (s1.arena.trace trace).state = true)) := by
    by_cases hw : (s.arena.trace trace).white = RefSetEMPTY
    · obtain ⟨hc, _, _, hs1⟩ := TraceStart_empty_inv cfg env fuel trace s s1 r hw h
      have hti := TraceCheck_ti cfg _ _ hc
      rw [hs1]
      refine ⟨hc, rfl, ?_, ?_, Or.inr ⟨?_, ?_⟩⟩
      · intro i hi
        simp only [setTrace_trace_ne _ _ _ _ hi, and_self]
      · simp only [setTrace_trace_same]
        exact hti
      · simp only [setTrace_flippedTraces, hti]
      · simp only [setTrace_trace_same]
        rfl
    · obtain ⟨hc, _, hnf, hb, ho, hti, _, _, _, _, hcases⟩ :=
        TraceStart_effect cfg env hk fuel trace s s1 r hw h
      refine ⟨hc, hb, ?_, ?_, ?_⟩
      · intro i hi
        have e := ho i hi
        simp only [traceCtl, Prod.mk.injEq] at e
        exact ⟨e.1, e.2.1⟩
      · rw [hti]
        exact TraceCheck_ti cfg _ _ hc
      · rcases hcases with ⟨_, hf, hst⟩ | ⟨_, hf, hst⟩
        · exact Or.inl ⟨hf, hnf, by rw [hst]; rfl⟩
        · exact Or.inr ⟨hf, by rw [hst]; rfl⟩
  obtain ⟨hc, hb, ho, hti, hcases⟩ := key
  have hbusy := TraceCheck_busy cfg _ _ hc
  refine ⟨?_, ?_⟩
  · rw [TraceSetSub_iff, hb]
    intro i hi
    rcases hcases with ⟨hf, _, _⟩ | ⟨hf, _⟩
    · rw [hf] at hi
      exact hsub i hi
    · rw [hf, isMember_TraceSetAdd, Bool.or_eq_true, decide_eq_true_eq] at hi
      rcases hi with hi | hi
      · exact hsub i hi
      · rw [← hi]
        exact hbusy
  · intro i hi
    rw [hb] at hi
    obtain ⟨h1, h2⟩ := hrule i hi
    by_cases hit : i = trace
    · subst hit
      refine ⟨hti, ?_⟩
      rw [hti]
      rcases hcases with ⟨hf, hnf, hst⟩ | ⟨hf, hst⟩
      · rw [hf, hnf, hst]
      · rw [hf, hst, isMember_TraceSetAdd]
        simp
    · rw [(ho i hit).1, (ho i hit).2]
      refine ⟨h1, ?_⟩
      rw [← h2, h1]
      rcases hcases with ⟨hf, _, _⟩ | ⟨hf, _⟩
      · rw [hf]
      · rw [hf, isMember_TraceSetAdd]
        have : ¬ trace = i := fun e => hit e.symm
        simp [this]

theorem applyOp_busyFlippedInv (cfg : Config) (env : Env) (hk : EnvKeepsCtl env) (fuel : Nat)
    (op : Op) (s s1 : MpsState) (h : applyOp cfg env fuel op s = .ok s1)
    (hs : busyFlippedInv s.arena) : busyFlippedInv s1.arena := by
  cases op with
  | create =>
    simp only [applyOp, map_ok_iff] at h
    obtain ⟨⟨r, t, s2⟩, hc, h⟩ := h
    simp only at h
    rw [← h]
    exact TraceCreate_busyFlippedInv cfg s s2 r t hc hs
  | condemn trace cs =>
    simp only [applyOp, map_ok_iff] at h
    obtain ⟨⟨r, s2⟩, hc, h⟩ := h
    simp only at h
    rw [← h]
    exact busyFlippedInv_of_condemnCtl
      (TraceCondemnRefSet_ctl cfg env hk fuel trace cs s s2 r hc) hs
  | start trace =>
    simp only [applyOp, map_ok_iff] at h
    obtain ⟨⟨r, s2⟩, hc, h⟩ := h
    simp only at h
    rw [← h]
    exact TraceStart_busyFlippedInv cfg env hk fuel trace s s2 r hc hs
  | step trace =>
    simp only [applyOp, map_ok_iff] at h
    obtain ⟨⟨r, s2⟩, hc, h⟩ := h
    simp only at h
    rw [← h]
    exact busyFlippedInv_of_advCtl (TraceStep_adv cfg env hk fuel trace s s2 r hc) hs
  | poll trace =>
    simp only [applyOp] at h
    exact busyFlippedInv_of_advCtl (TracePoll_adv cfg env hk fuel trace s s1 h) hs
  | access seg mode =>
    simp only [applyOp] at h
    exact busyFlippedInv_of_sameCtl (TraceAccess_keeps cfg env hk seg mode s s1 h).1 hs
  | destroy trace =>
    simp only [applyOp] at h
    exact TraceDestroy_busyFlippedInv cfg trace s s1 h hs

/-! ## The exact effect of `TraceScan` -/

theorem TraceUpdateCounts_segScan (cfg : Config) (a a1 : ArenaStruct) (trace : TraceId)
    (ss : ScanStateStruct)
    (h : TraceUpdateCounts cfg
      (setTrace a trace { a.trace trace with segScanCount := (a.trace trace).segScanCount + 1 })
      trace ss TraceAccountingPhase.TraceAccountingPhaseSegScan = .ok a1) :
    a1 = setTrace a trace (addSegScan ss (a.trace trace)) := by
  unfold TraceUpdateCounts at h
  simp only [bind_ok_iff, exists_aver_ok_iff, pure_ok_iff] at h
  obtain ⟨_, _, h⟩ := h
  rw [← h]
  simp only [setTrace_trace_same, setTrace_setTrace]
  rfl

theorem scanCounted_nil (ts : TraceSet) (ss : ScanStateStruct) (a : ArenaStruct) :
    scanCounted ts ss [] a = a := by
  simp [scanCounted]

theorem scanUpdateTraces_eq (cfg : Config) (ts : TraceSet) (ss : ScanStateStruct) :
    ∀ (l : List TraceId) (a a1 : ArenaStruct), l.Nodup →
      scanUpdateTraces cfg ts ss l a = .ok a1 → a1 = scanCounted ts ss l a := by
  intro l
  induction l with
  | nil =>
    intro a a1 _ h
    simp only [scanUpdateTraces, Except.ok.injEq] at h
    rw [← h, scanCounted_nil]
  | cons ti tis ih =>
    intro a a1 hn h
    rw [List.nodup_cons] at hn
    simp only [scanUpdateTraces] at h
    split at h
    · rename_i hm
      simp only [bind_ok_iff] at h
      obtain ⟨a2, hu, h⟩ := h
      have e2 := TraceUpdateCounts_segScan cfg a a2 ti ss hu
      rw [ih a2 a1 hn.2 h, e2]
      simp only [scanCounted, setTrace]
      congr 1
      funext i
      by_cases hi : i = ti
      · subst hi
        simp [hn.1, hm]
      · simp [hi]
    · rename_i hm
      rw [ih a a1 hn.2 h]
      simp only [scanCounted]
      congr 1
      funext i
      by_cases hi : i = ti
      · subst hi
        simp [hn.1, hm]
      · simp [hi]

theorem ScanStateSummary_ok_iff (cfg : Config) (a : ArenaStruct) (ss : ScanStateStruct)
    (sum : RefSet) :
    ScanStateSummary cfg a ss = .ok sum ↔
      ScanStateCheck cfg a ss = true ∧ sum = scanSummary cfg ss := by
  unfold ScanStateSummary
  simp only [bind_ok_iff, exists_aver_ok_iff, pure_ok_iff, scanSummary]
  constructor
  · rintro ⟨h1, h2⟩
    exact ⟨h1, h2.symm⟩
  · rintro ⟨h1, h2⟩
    exact ⟨h1, h2.symm⟩

/-- The scanning branch of `TraceScan`, step by step. -/
theorem scanSegment_ok_inv (cfg : Config) (env : Env) (ts : TraceSet) (rank : Rank)
    (seg : Addr) (pool : PoolId) (white : RefSet) (s s1 : MpsState) (r : Res)
    (h : scanSegment cfg env ts rank seg pool white s = .ok (r, s1)) :
    ∃ ss res wasTotal ss1 a1 sg1,
      ScanStateInit cfg s.arena ts rank white = .ok ss ∧
      env.PoolScan s.arena ss pool seg = (res, wasTotal, ss1, a1) ∧
      r = res ∧ segGet a1 seg = .ok sg1 ∧
      RefSetSub ss1.unfixedSummary sg1.summary = true ∧
      ScanStateCheck cfg a1 ss1 = true ∧
      s1.events = s.events ++ [Event.ShieldExpose seg, Event.PoolScan pool seg ss.fix ss.rank,
        Event.ShieldCover seg] ∧
      s1.arena = scanCounted ts ss1 (List.range cfg.TRACE_MAX)
        (SegSetSummary cfg a1 seg (scannedSegSummary cfg res wasTotal sg1.summary ss1)) := by
  unfold scanSegment at h
  simp only [bind_ok_iff] at h
  obtain ⟨ss, hinit, h⟩ := h
  rcases hps : env.PoolScan s.arena ss pool seg with ⟨res, wasTotal, ss1, a1⟩
  simp only [emit_arena, hps, bind_ok_iff, exists_aver_ok_iff, pure_ok_iff, Prod.mk.injEq,
    ScanStateSummary_ok_iff] at h
  obtain ⟨sg1, hsg1, hsub, sum, ⟨hchk, hsum⟩, a3, hupd, _, _, hr, hs1⟩ := h
  refine ⟨ss, res, wasTotal, ss1, a1, sg1, hinit, hps, hr.symm, hsg1, hsub, hchk, ?_, ?_⟩
  · rw [← hs1]
    simp [emit]
  · have e := scanUpdateTraces_eq cfg ts ss1 _ _ _ (List.nodup_range _) hupd
    rw [← hs1]
    simp only [emit_arena]
    rw [e, hsum]
    unfold scannedSegSummary
    split <;> rfl

/-- `TraceScan`, step by step: the checks, then either `PoolBlacken` or the
scanning branch, then the removal of the greyness if the result is OK. -/
theorem TraceScan_ok_inv (cfg : Config) (env : Env) (ts : TraceSet) (rank : Rank)
    (seg : Addr) (s s1 : MpsState) (r : Res)
    (h : TraceScan cfg env ts rank seg s = .ok (r, s1)) :
    ∃ sg, TraceSetCheck cfg ts = true ∧ RankCheck cfg rank = true ∧
      segGet s.arena seg = .ok sg ∧ TraceSetInter ts sg.grey ≠ TraceSetEMPTY ∧
      ((RefSetInter (traceSetWhite cfg s.arena ts) sg.summary = RefSetEMPTY ∧ r = Res.OK ∧
          ∃ sg2, segGet (env.PoolBlacken s.arena sg.pool ts seg) seg = .ok sg2 ∧
            s1 = { arena := SegSetGrey cfg (env.PoolBlacken s.arena sg.pool ts seg) seg
                     (TraceSetDiff cfg sg2.grey ts),
                   events := s.events ++ [Event.PoolBlacken sg.pool ts seg] }) ∨
       (RefSetInter (traceSetWhite cfg s.arena ts) sg.summary ≠ RefSetEMPTY ∧
          ∃ ss res wasTotal ss1 a1 sg1,
            ScanStateInit cfg s.arena ts rank (traceSetWhite cfg s.arena ts) = .ok ss ∧
            env.PoolScan s.arena ss sg.pool seg = (res, wasTotal, ss1, a1) ∧
            r = res ∧ segGet a1 seg = .ok sg1 ∧
            RefSetSub ss1.unfixedSummary sg1.summary = true ∧
            ScanStateCheck cfg a1 ss1 = true ∧
            s1.events = s.events ++ [Event.ShieldExpose seg,
              Event.PoolScan sg.pool seg ss.fix ss.rank, Event.ShieldCover seg] ∧
            ((res ≠ Res.OK ∧
                s1.arena = scanCounted ts ss1 (List.range cfg.TRACE_MAX)
                  (SegSetSummary cfg a1 seg
                    (scannedSegSummary cfg res wasTotal sg1.summary ss1))) ∨
             (res = Res.OK ∧ ∃ sg3,
                segGet (scanCounted ts ss1 (List.range cfg.TRACE_MAX)
                  (SegSetSummary cfg a1 seg
                    (scannedSegSummary cfg res wasTotal sg1.summary ss1))) seg = .ok sg3 ∧
                s1.arena = SegSetGrey cfg
                  (scanCounted ts ss1 (List.range cfg.TRACE_MAX)
                    (SegSetSummary cfg a1 seg
                      (scannedSegSummary cfg res wasTotal sg1.summary ss1)))
                  seg (TraceSetDiff cfg sg3.grey ts))))) := by
  unfold TraceScan at h
  simp only [bind_ok_iff, exists_aver_ok_iff, bne_iff_ne, ne_eq] at h
  obtain ⟨hts, hrank, sg, hsg, hgrey, ⟨res, s2⟩, hbranch, hfin⟩ := h
  refine ⟨sg, hts, hrank, hsg, hgrey, ?_⟩
  split at hbranch
  · rename_i hw
    simp only [beq_iff_eq] at hw
    simp only [pure_ok_iff, Prod.mk.injEq] at hbranch
    obtain ⟨hres, hs2⟩ := hbranch
    subst hres
    unfold scanFinish at hfin
    simp only [beq_self_eq_true, if_true, bind_ok_iff, pure_ok_iff, Prod.mk.injEq] at hfin
    obtain ⟨sg2, hsg2, hr, hs1⟩ := hfin
    rw [← hs2] at hsg2 hs1
    simp only [emit_arena] at hsg2 hs1
    refine Or.inl ⟨hw, hr.symm, sg2, hsg2, ?_⟩
    rw [← hs1]
    simp [emit]
  · rename_i hw
    simp only [beq_iff_eq] at hw
    obtain ⟨ss, res1, wasTotal, ss1, a1, sg1, hinit, hps, hr1, hsg1, hsub, hchk, hev, har⟩ :=
      scanSegment_ok_inv cfg env ts rank seg sg.pool _ s s2 res hbranch
    subst hr1
    refine Or.inr ⟨hw, ss, res, wasTotal, ss1, a1, sg1, hinit, hps, ?_, hsg1, hsub, hchk, ?_, ?_⟩
    · unfold scanFinish at hfin
      split at hfin
      · simp only [bind_ok_iff, pure_ok_iff, Prod.mk.injEq] at hfin
        obtain ⟨_, _, hr, _⟩ := hfin
        exact hr.symm
      · simp only [pure_ok_iff, Prod.mk.injEq] at hfin
        exact hfin.1.symm
    · unfold scanFinish at hfin
      split at hfin
      · simp only [bind_ok_iff, pure_ok_iff, Prod.mk.injEq] at hfin
        obtain ⟨_, _, _, hs1⟩ := hfin
        rw [← hs1]
        exact hev
      · simp only [pure_ok_iff, Prod.mk.injEq] at hfin
        rw [← hfin.2]
        exact hev
    · unfold scanFinish at hfin
      split at hfin
      · rename_i hok
        simp only [beq_iff_eq] at hok
        simp only [bind_ok_iff, pure_ok_iff, Prod.mk.injEq] at hfin
        obtain ⟨sg3, hsg3, _, hs1⟩ := hfin
        rw [har] at hsg3
        refine Or.inr ⟨hok, sg3, hsg3, ?_⟩
        rw [← hs1, har]
      · rename_i hok
        simp only [beq_iff_eq] at hok
        simp only [pure_ok_iff, Prod.mk.injEq] at hfin
        refine Or.inl ⟨hok, ?_⟩
        rw [← hfin.2, har]

/-! ## Components of the traces that `TraceStep` does not write -/

theorem keepsProj_refl {α : Type} (π : TraceStruct → α) (a : ArenaStruct) : keepsProj π a a :=
  fun _ => rfl

theorem keepsProj_trans {α : Type} {π : TraceStruct → α} {a a1 a2 : ArenaStruct}
    (h1 : keepsProj π a a1) (h2 : keepsProj π a1 a2) : keepsProj π a a2 :=
  fun i => (h2 i).trans (h1 i)

theorem keepsProj_of_trace {α : Type} (π : TraceStruct → α) {a a1 : ArenaStruct}
    (h : a1.trace = a.trace) : keepsProj π a a1 := by
  intro i
  rw [h]

theorem keepsProj_setTrace {α : Type} (π : TraceStruct → α) (a : ArenaStruct) (ti : TraceId)
    (t : TraceStruct) (h : π t = π (a.trace ti)) : keepsProj π a (setTrace a ti t) := by
  intro i
  by_cases hi : i = ti
  · subst hi
    rw [setTrace_trace_same, h]
  · rw [setTrace_trace_ne _ _ _ _ hi]

theorem keepsProj_scanCounted {α : Type} (π : TraceStruct → α)
    (hπ : ∀ ss t, π (addSegScan ss t) = π t) (ts : TraceSet) (ss : ScanStateStruct)
    (l : List TraceId) (a : ArenaStruct) : keepsProj π a (scanCounted ts ss l a) := by
  intro i
  simp only [scanCounted]
  split
  · exact hπ ss _
  · rfl

theorem TraceScan_proj {α : Type} (π : TraceStruct → α) (hπ : stepBlind π) (cfg : Config)
    (env : Env) (hk : StepKeeps π env) (ts : TraceSet) (rank : Rank) (seg : Addr)
    (s s1 : MpsState) (r : Res) (h : TraceScan cfg env ts rank seg s = .ok (r, s1)) :
    keepsProj π s.arena s1.arena := by
  obtain ⟨sg, _, _, _, _, hcases⟩ := TraceScan_ok_inv cfg env ts rank seg s s1 r h
  rcases hcases with ⟨_, _, sg2, _, hs1⟩ |
    ⟨_, ss, res, wasTotal, ss1, a1, sg1, _, hps, _, _, _, _, _, hcases⟩
  · rw [hs1]
    exact keepsProj_trans (hk.1 s.arena sg.pool ts seg) (keepsProj_of_trace π rfl)
  · have k1 := hk.2.1 s.arena ss sg.pool seg
    rw [hps] at k1
    have k2 : keepsProj π s.arena (scanCounted ts ss1 (List.range cfg.TRACE_MAX)
        (SegSetSummary cfg a1 seg (scannedSegSummary cfg res wasTotal sg1.summary ss1))) :=
      keepsProj_trans (keepsProj_trans k1 (keepsProj_of_trace π rfl))
        (keepsProj_scanCounted π hπ.1 _ _ _ _)
    rcases hcases with ⟨_, hs1⟩ | ⟨_, sg3, _, hs1⟩
    · rw [hs1]
      exact k2
    · rw [hs1]
      exact keepsProj_trans k2 (keepsProj_of_trace π rfl)

theorem reclaimBody_proj {α : Type} (π : TraceStruct → α) (hπ : stepBlind π) (cfg : Config)
    (env : Env) (hk : StepKeeps π env) (trace : TraceId) (seg : Addr) (s s1 : MpsState)
    (ret : Option Res) (h : reclaimBody cfg env trace seg s = .ok (ret, s1)) :
    keepsProj π s.arena s1.arena := by
  unfold reclaimBody at h
  simp only [bind_ok_iff, exists_aver_ok_iff] at h
  obtain ⟨sg, _, _, h⟩ := h
  split at h
  · simp only [bind_ok_iff, exists_aver_ok_iff, emit_arena, pure_ok_iff, Prod.mk.injEq] at h
    obtain ⟨p, _, _, _, _, h⟩ := h
    rw [← h]
    simp only [emit_arena]
    refine keepsProj_trans ?_ (hk.2.2 _ _ _ _)
    exact keepsProj_setTrace π _ _ _ (hπ.2.1 _ _)
  · simp only [pure_ok_iff, Prod.mk.injEq] at h
    rw [← h.2]
    exact keepsProj_refl π _

theorem TraceReclaim_proj {α : Type} (π : TraceStruct → α) (hπ : stepBlind π) (cfg : Config)
    (env : Env) (hk : StepKeeps π env) (fuel : Nat) (trace : TraceId) (s s1 : MpsState)
    (h : TraceReclaim cfg env fuel trace s = .ok s1) : keepsProj π s.arena s1.arena := by
  unfold TraceReclaim at h
  simp only [bind_ok_iff, exists_aver_ok_iff, beq_iff_eq, pure_ok_iff] at h
  obtain ⟨_, _, ⟨ret, s2⟩, hloop, h⟩ := h
  have k : keepsProj π s.arena s2.arena :=
    forSegs_inv _ (fun st => keepsProj π s.arena st.arena)
      (fun seg st r st1 hP hb =>
        keepsProj_trans hP (reclaimBody_proj π hπ cfg env hk trace seg st st1 r hb))
      fuel s ret s2 (keepsProj_refl π _) hloop
  rw [← h]
  exact keepsProj_trans k (keepsProj_setTrace π _ _ _ (hπ.2.2 _ _))

theorem TraceRun_proj {α : Type} (π : TraceStruct → α) (hπ : stepBlind π) (cfg : Config)
    (env : Env) (hk : StepKeeps π env) (trace : TraceId) (s s1 : MpsState) (r : Res)
    (h : TraceRun cfg env trace s = .ok (r, s1)) : keepsProj π s.arena s1.arena := by
  unfold TraceRun at h
  simp only [bind_ok_iff, exists_aver_ok_iff, beq_iff_eq] at h
  obtain ⟨_, _, found, _, h⟩ := h
  cases found with
  | none =>
    simp only [pure_ok_iff, Prod.mk.injEq] at h
    rw [← h.2]
    exact keepsProj_setTrace π _ _ _ (hπ.2.2 _ _)
  | some x =>
    obtain ⟨seg, rank⟩ := x
    simp only [bind_ok_iff, exists_aver_ok_iff] at h
    obtain ⟨sg, _, p, _, _, ⟨res, s2⟩, hscan, h⟩ := h
    have k := TraceScan_proj π hπ cfg env hk _ _ _ _ _ _ hscan
    split at h <;>
    · simp only [pure_ok_iff, Prod.mk.injEq] at h
      rw [← h.2]
      exact k

theorem TraceStep_proj {α : Type} (π : TraceStruct → α) (hπ : stepBlind π) (cfg : Config)
    (env : Env) (hk : StepKeeps π env) (fuel : Nat) (trace : TraceId) (s s1 : MpsState)
    (r : Res) (h : TraceStep cfg env fuel trace s = .ok (r, s1)) :
    keepsProj π s.arena s1.arena := by
  unfold TraceStep at h
  simp only [bind_ok_iff, exists_aver_ok_iff] at h
  obtain ⟨_, h⟩ := h
  split at h
  · cases h
  · simp only [bind_ok_iff] at h
    obtain ⟨⟨res, s2⟩, hrun, h⟩ := h
    have k := TraceRun_proj π hπ cfg env hk trace s s2 res hrun
    split at h <;>
    · simp only [pure_ok_iff, Prod.mk.injEq] at h
      rw [← h.2]
      exact k
  · simp only [bind_ok_iff, pure_ok_iff, Prod.mk.injEq] at h
    obtain ⟨s2, hrec, h⟩ := h
    rw [← h.2]
    exact TraceReclaim_proj π hπ cfg env hk fuel trace s s2 hrec
  · simp only [pure_ok_iff, Prod.mk.injEq] at h
    rw [← h.2]
    exact keepsProj_refl π _
  · simp only [pure_ok_iff, Prod.mk.injEq] at h
    rw [← h.2]
    exact keepsProj_refl π _

theorem expediteLoop_proj {α : Type} (π : TraceStruct → α) (hπ : stepBlind π) (cfg : Config)
    (env : Env) (hk : StepKeeps π env) (fuel : Nat) (trace : TraceId) :
    ∀ (n : Nat) (s s1 : MpsState), expediteLoop cfg env fuel trace n s = .ok s1 →
      keepsProj π s.arena s1.arena ∧
      (s1.arena.trace trace).state = TraceState.TraceFINISHED := by
  intro n
  induction n with
  | zero =>
    intro s s1 h
    simp [expediteLoop] at h
  | succ n ih =>
    intro s s1 h
    simp only [expediteLoop] at h
    split at h
    · simp only [bind_ok_iff, exists_aver_ok_iff] at h
      obtain ⟨⟨res, s2⟩, hstep, _, h⟩ := h
      obtain ⟨k2, hfin⟩ := ih s2 s1 h
      exact ⟨keepsProj_trans (TraceStep_proj π hπ cfg env hk fuel trace s s2 res hstep) k2,
        hfin⟩
    · rename_i hst
      simp only [pure_ok_iff] at h
      rw [← h]
      refine ⟨keepsProj_refl π _, ?_⟩
      simpa using hst

theorem stepBlind_emergency : stepBlind (fun t => t.emergency) :=
  ⟨fun _ _ => rfl, fun _ _ => rfl, fun _ _ => rfl⟩

/-! ## `TracePoll` and `TraceExpedite` -/

/-- The loop of `TraceExpedite` is a number of calls of `TraceStep`, each
returning OK, the last of which leaves the trace FINISHED. -/
theorem expediteLoop_stepN (cfg : Config) (env : Env) (fuel : Nat) (trace : TraceId) :
    ∀ (n : Nat) (s s1 : MpsState), expediteLoop cfg env fuel trace n s = .ok s1 →
      ∃ k, k < n ∧ stepN cfg env fuel trace k s = .ok s1 := by
  intro n
  induction n with
  | zero =>
    intro s s1 h
    simp [expediteLoop] at h
  | succ n ih =>
    intro s s1 h
    simp only [expediteLoop] at h
    split at h
    · simp only [bind_ok_iff, exists_aver_ok_iff] at h
      obtain ⟨⟨res, s2⟩, hstep, hres, h⟩ := h
      obtain ⟨k, hk, hsteps⟩ := ih s2 s1 h
      refine ⟨k + 1, Nat.succ_lt_succ hk, ?_⟩
      simp only [stepN, bind_ok_iff, exists_aver_ok_iff]
      exact ⟨(res, s2), hstep, hres, hsteps⟩
    · simp only [pure_ok_iff] at h
      exact ⟨0, Nat.succ_pos n, by rw [← h]; rfl⟩

theorem TraceStep_ok_check (cfg : Config) (env : Env) (fuel : Nat) (trace : TraceId)
    (s s1 : MpsState) (r : Res) (h : TraceStep cfg env fuel trace s = .ok (r, s1)) :
    TraceCheck cfg s.arena trace = true := by
  unfold TraceStep at h
  simp only [bind_ok_iff, exists_aver_ok_iff] at h
  exact h.1

theorem TraceExpedite_ok_inv (cfg : Config) (env : Env) (fuel : Nat) (trace : TraceId)
    (s s1 : MpsState) (h : TraceExpedite cfg env fuel trace s = .ok s1) :
    TraceCheck cfg s.arena trace = true ∧
    (s.arena.trace trace).state ≠ TraceState.TraceINIT ∧
    expediteLoop cfg env fuel trace fuel
      { s with arena := (setTrace s.arena trace
          { s.arena.trace trace with emergency := true }) } = .ok s1 := by
  unfold TraceExpedite at h
  simp only [bind_ok_iff, exists_aver_ok_iff, bne_iff_ne, ne_eq] at h
  exact h

theorem expediteLoop_finished (cfg : Config) (env : Env) (fuel : Nat) (trace : TraceId) :
    ∀ (n : Nat) (s s1 : MpsState), expediteLoop cfg env fuel trace n s = .ok s1 →
      (s1.arena.trace trace).state = TraceState.TraceFINISHED := by
  intro n
  induction n with
  | zero =>
    intro s s1 h
    simp [expediteLoop] at h
  | succ n ih =>
    intro s s1 h
    simp only [expediteLoop] at h
    split at h
    · simp only [bind_ok_iff, exists_aver_ok_iff] at h
      obtain ⟨⟨res, s2⟩, _, _, h⟩ := h
      exact ih s2 s1 h
    · rename_i hst
      simp only [pure_ok_iff] at h
      rw [← h]
      simpa using hst

/-! ## The grey segments of a trace under `TraceScan` -/

theorem greyBases_map_keep (ti : TraceId) (seg : Addr) (f : SegStruct → SegStruct)
    (hb : ∀ sg, (f sg).base = sg.base) (hg : ∀ sg, (f sg).grey = sg.grey) :
    ∀ l : List SegStruct,
      greyBases ti (l.map (fun sg => if sg.base == seg then f sg else sg)) = greyBases ti l := by
  intro l
  induction l with
  | nil => rfl
  | cons x xs ih =>
    simp only [greyBases, List.map_cons, List.filter_cons] at ih ⊢
    by_cases hx : (x.base == seg) = true
    · simp only [hx, if_true, hg, hb]
      split
      · simp only [List.map_cons, hb, ih]
      · exact ih
    · simp only [hx, Bool.false_eq_true, if_false]
      split
      · simp only [List.map_cons, ih]
      · exact ih

theorem greyBases_map_clear (ti : TraceId) (seg : Addr) (f : SegStruct → SegStruct)
    (hg : ∀ sg, TraceSetIsMember (f sg).grey ti = false) :
    ∀ l : List SegStruct,
      greyBases ti (l.map (fun sg => if sg.base == seg then f sg else sg)) =
        (greyBases ti l).filter (fun b => b != seg) := by
  intro l
  induction l with
  | nil => rfl
  | cons x xs ih =>
    simp only [greyBases, List.map_cons, List.filter_cons] at ih ⊢
    by_cases hx : (x.base == seg) = true
    · simp only [hx, if_true, hg, Bool.false_eq_true, if_false]
      rw [ih]
      have hx1 : x.base = seg := by simpa using hx
      split
      · simp [List.filter_cons, hx1]
      · rfl
    · simp only [hx, Bool.false_eq_true, if_false]
      split
      · simp only [List.map_cons, List.filter_cons, ih]
        have : (x.base != seg) = true := by simpa using hx
        simp [this]
      · exact ih

theorem isMember_TraceSetDiff_single (cfg : Config) (g : TraceSet) (ti : TraceId) :
    TraceSetIsMember (TraceSetDiff cfg g (TraceSetSingle ti)) ti = false := by
  simp only [TraceSetIsMember, TraceSetDiff, TraceSetSingle, Nat.testBit_land, testBit_wordNot,
    testBit_one_shiftLeft]
  simp

theorem isMember_TraceSetDiff (cfg : Config) (g ts : TraceSet) (i : TraceId) :
    TraceSetIsMember (TraceSetDiff cfg g ts) i =
      (TraceSetIsMember g i && (decide (i < cfg.MPS_WORD_WIDTH) && !TraceSetIsMember ts i)) := by
  simp only [TraceSetIsMember, TraceSetDiff, Nat.testBit_land, testBit_wordNot]

theorem greyBases_SegSetSummary (cfg : Config) (ti : TraceId) (a : ArenaStruct) (seg : Addr)
    (rs : RefSet) : greyBases ti (SegSetSummary cfg a seg rs).segs = greyBases ti a.segs := by
  unfold SegSetSummary segUpdate
  apply greyBases_map_keep
  · intro _
    rfl
  · intro _
    rfl

theorem greyBases_SegSetGrey_clear (cfg : Config) (ti : TraceId) (a : ArenaStruct) (seg : Addr)
    (g : TraceSet) :
    greyBases ti (SegSetGrey cfg a seg (TraceSetDiff cfg g (TraceSetSingle ti))).segs =
      (greyBases ti a.segs).filter (fun b => b != seg) := by
  unfold SegSetGrey segUpdate
  apply greyBases_map_clear
  intro _
  exact isMember_TraceSetDiff_single cfg g ti

theorem length_filter_ne_lt (l1 l : List Addr) (x : Addr) (hs : l1.Sublist l) (hx : x ∈ l) :
    (l1.filter (fun b => b != x)).length < l.length := by
  have h1 : (l1.filter (fun b => b != x)).length ≤ (l.filter (fun b => b != x)).length :=
    (hs.filter _).length_le
  have h2 : (l.filter (fun b => b != x)).length < l.length := by
    rw [List.length_filter_lt_length_iff_exists]
    exact ⟨x, hx, by simp⟩
  exact Nat.lt_of_le_of_lt h1 h2

theorem mem_greyBases_of_segGet (ti : TraceId) (a : ArenaStruct) (seg : Addr) (sg : SegStruct)
    (h : segGet a seg = .ok sg) (hg : TraceSetIsMember sg.grey ti = true) :
    seg ∈ greyBases ti a.segs := by
  rw [segGet_ok_iff] at h
  have hb := segFind_base a seg sg h
  have hm : sg ∈ a.segs := List.mem_of_find?_eq_some h
  simp only [greyBases, List.mem_map, List.mem_filter]
  exact ⟨sg, ⟨hm, hg⟩, hb⟩

theorem isMember_of_inter_single (g : TraceSet) (ti : TraceId)
    (h : TraceSetInter (TraceSetSingle ti) g ≠ TraceSetEMPTY) :
    TraceSetIsMember g ti = true := by
  cases hm : TraceSetIsMember g ti with
  | true => rfl
  | false =>
    exfalso
    apply h
    apply Nat.eq_of_testBit_eq
    intro i
    simp only [TraceSetInter, TraceSetSingle, TraceSetEMPTY, Nat.testBit_land,
      testBit_one_shiftLeft, Nat.zero_testBit]
    by_cases hi : ti = i
    · subst hi
      simpa [TraceSetIsMember] using hm
    · simp [hi]

/-- A `TraceScan` for the single trace `ti` that returns OK takes the
greyness for `ti` off its segment, and with pool procedures that grey no
further segment the grey segments of `ti` become fewer. -/
theorem TraceScan_single_grey (cfg : Config) (env : Env) (hg : ScanNoNewGrey env)
    (ti : TraceId) (rank : Rank) (seg : Addr) (s s1 : MpsState)
    (h : TraceScan cfg env (TraceSetSingle ti) rank seg s = .ok (Res.OK, s1)) :
    seg ∈ greyBases ti s.arena.segs ∧ seg ∉ greyBases ti s1.arena.segs ∧
    (greyBases ti s1.arena.segs).Sublist (greyBases ti s.arena.segs) ∧
    (greyBases ti s1.arena.segs).length < (greyBases ti s.arena.segs).length := by
  obtain ⟨sg, _, _, hsg, hgrey, hcases⟩ :=
    TraceScan_ok_inv cfg env (TraceSetSingle ti) rank seg s s1 Res.OK h
  have hmem := mem_greyBases_of_segGet ti s.arena seg sg hsg
    (isMember_of_inter_single sg.grey ti hgrey)
  have key : ∃ l1 : List Addr, l1.Sublist (greyBases ti s.arena.segs) ∧
      greyBases ti s1.arena.segs = l1.filter (fun b => b != seg) := by
    rcases hcases with ⟨_, _, sg2, _, hs1⟩ |
      ⟨_, ss, res, wasTotal, ss1, a1, sg1, _, hps, hres, _, _, _, _, hcases⟩
    · refine ⟨_, hg.1 s.arena sg.pool (TraceSetSingle ti) seg ti, ?_⟩
      rw [hs1]
      exact greyBases_SegSetGrey_clear cfg ti _ seg _
    · have k1 := hg.2 s.arena ss sg.pool seg ti
      rw [hps] at k1
      rcases hcases with ⟨hne, _⟩ | ⟨_, sg3, _, hs1⟩
      · exact absurd hres.symm hne
      · refine ⟨_, k1, ?_⟩
        rw [hs1, greyBases_SegSetGrey_clear]
        show (greyBases ti (SegSetSummary cfg a1 seg _).segs).filter _ = _
        rw [greyBases_SegSetSummary]
  obtain ⟨l1, hsub, heq⟩ := key
  refine ⟨hmem, ?_, ?_, ?_⟩
  · rw [heq]
    simp
  · rw [heq]
    exact (List.filter_sublist _).trans hsub
  · rw [heq]
    exact length_filter_ne_lt l1 _ seg hsub hmem

/-! ## Progress of `TraceStep` -/

theorem TraceRun_ok_inv (cfg : Config) (env : Env) (trace : TraceId) (s s1 : MpsState)
    (r : Res) (h : TraceRun cfg env trace s = .ok (r, s1)) :
    TraceCheck cfg s.arena trace = true ∧
    (s.arena.trace trace).state = TraceState.TraceFLIPPED ∧
    ((traceFindGrey cfg s.arena trace = .ok none ∧ r = Res.OK ∧
        s1 = { s with arena := (setTrace s.arena trace
          { s.arena.trace trace with state := TraceState.TraceRECLAIM }) }) ∨
     (∃ seg rank sg p, traceFindGrey cfg s.arena trace = .ok (some (seg, rank)) ∧
        segGet s.arena seg = .ok sg ∧ poolGet s.arena sg.pool = .ok p ∧
        p.attr &&& cfg.AttrSCAN ≠ 0 ∧
        TraceScan cfg env (TraceSetSingle trace) rank seg s = .ok (r, s1))) := by
  unfold TraceRun at h
  simp only [bind_ok_iff, exists_aver_ok_iff, beq_iff_eq] at h
  obtain ⟨hc, hst, found, hfind, h⟩ := h
  have hti := TraceCheck_ti cfg _ _ hc
  rw [hti] at hfind
  refine ⟨hc, hst, ?_⟩
  cases found with
  | none =>
    simp only [pure_ok_iff, Prod.mk.injEq] at h
    exact Or.inl ⟨hfind, h.1.symm, h.2.symm⟩
  | some x =>
    obtain ⟨seg, rank⟩ := x
    simp only [bind_ok_iff, exists_aver_ok_iff, bne_iff_ne, ne_eq] at h
    obtain ⟨sg, hsg, p, hp, hattr, ⟨res, s2⟩, hscan, h⟩ := h
    rw [hti] at hscan
    refine Or.inr ⟨seg, rank, sg, p, hfind, hsg, hp, hattr, ?_⟩
    split at h
    · simp only [pure_ok_iff, Prod.mk.injEq] at h
      rw [hscan, ← h.1, ← h.2]
    · rename_i hres
      simp only [pure_ok_iff, Prod.mk.injEq] at h
      have e : res = Res.OK := by simpa using hres
      rw [hscan, ← h.1, ← h.2, e]

theorem TraceStep_ok_inv (cfg : Config) (env : Env) (fuel : Nat) (trace : TraceId)
    (s s1 : MpsState) (r : Res) (h : TraceStep cfg env fuel trace s = .ok (r, s1)) :
    TraceCheck cfg s.arena trace = true ∧
    (((s.arena.trace trace).state = TraceState.TraceINIT ∨
        (s.arena.trace trace).state = TraceState.TraceFINISHED) ∧ r = Res.OK ∧ s1 = s ∨
     (s.arena.trace trace).state = TraceState.TraceFLIPPED ∧
        TraceRun cfg env trace s = .ok (r, s1) ∨
     (s.arena.trace trace).state = TraceState.TraceRECLAIM ∧ r = Res.OK ∧
        TraceReclaim cfg env fuel trace s = .ok s1) := by
  have hc := TraceStep_ok_check cfg env fuel trace s s1 r h
  refine ⟨hc, ?_⟩
  cases hst : (s.arena.trace trace).state with
  | TraceINIT =>
    rw [TraceStep_noprogress cfg env fuel trace s hc (Or.inl hst)] at h
    simp only [Except.ok.injEq, Prod.mk.injEq] at h
    exact Or.inl ⟨Or.inl rfl, h.1.symm, h.2.symm⟩
  | TraceFINISHED =>
    rw [TraceStep_noprogress cfg env fuel trace s hc (Or.inr hst)] at h
    simp only [Except.ok.injEq, Prod.mk.injEq] at h
    exact Or.inl ⟨Or.inr rfl, h.1.symm, h.2.symm⟩
  | TraceUNFLIPPED =>
    unfold TraceStep at h
    rw [aver_true_bind _ _ hc] at h
    simp only [hst] at h
    cases h
  | TraceFLIPPED =>
    rw [TraceStep_flipped cfg env fuel trace s hc hst] at h
    exact Or.inr (Or.inl ⟨rfl, h⟩)
  | TraceRECLAIM =>
    rw [TraceStep_reclaim cfg env fuel trace s hc hst, map_ok_iff] at h
    obtain ⟨s2, hrec, h⟩ := h
    simp only [Prod.mk.injEq] at h
    rw [← h.2]
    exact Or.inr (Or.inr ⟨rfl, h.1.symm, hrec⟩)

/-- A call of `TraceStep` that returns OK on a started trace that is not yet
FINISHED brings the trace nearer to FINISHED. -/
theorem TraceStep_measure (cfg : Config) (env : Env) (hk : EnvKeepsCtl env)
    (hg : ScanNoNewGrey env) (fuel : Nat) (trace : TraceId) (s s1 : MpsState)
    (h : TraceStep cfg env fuel trace s = .ok (Res.OK, s1))
    (hph : flippedPhase (s.arena.trace trace).state = true)
    (hnf : (s.arena.trace trace).state ≠ TraceState.TraceFINISHED) :
    flippedPhase (s1.arena.trace trace).state = true ∧
    stepMeasure trace s1.arena < stepMeasure trace s.arena := by
  obtain ⟨hc, hcases⟩ := TraceStep_ok_inv cfg env fuel trace s s1 Res.OK h
  rcases hcases with ⟨hst, _, _⟩ | ⟨hst, hrun⟩ | ⟨hst, _, hrec⟩
  · rcases hst with hst | hst
    · rw [hst] at hph
      cases hph
    · exact absurd hst hnf
  · obtain ⟨_, _, hrun⟩ := TraceRun_ok_inv cfg env trace s s1 Res.OK hrun
    rcases hrun with ⟨_, _, hs1⟩ | ⟨seg, rank, sg, p, _, _, _, _, hscan⟩
    · rw [hs1]
      simp only [stepMeasure, setTrace_trace_same, hst]
      exact ⟨rfl, Nat.succ_lt_succ (Nat.succ_pos _)⟩
    · have hs := sameAll_state (TraceScan_keeps cfg env hk _ _ _ _ _ _ hscan) trace
      have hlt := (TraceScan_single_grey cfg env hg trace rank seg s s1 hscan).2.2.2
      simp only [stepMeasure, hs, hst]
      exact ⟨rfl, Nat.add_lt_add_right hlt 2⟩
  · have hfin := TraceReclaim_finished cfg env fuel trace s s1 hrec
    simp only [stepMeasure, hfin, hst]
    exact ⟨rfl, Nat.zero_lt_one⟩

theorem stepMeasure_zero (trace : TraceId) (a : ArenaStruct)
    (hph : flippedPhase (a.trace trace).state = true) (h : stepMeasure trace a = 0) :
    (a.trace trace).state = TraceState.TraceFINISHED := by
  unfold stepMeasure at h
  cases hst : (a.trace trace).state <;> rw [hst] at h hph <;> simp_all [flippedPhase]

/-- After as many successful steps as the measure says, the trace is
FINISHED. -/
theorem stepN_finished (cfg : Config) (env : Env) (hk : EnvKeepsCtl env)
    (hg : ScanNoNewGrey env) (fuel : Nat) (trace : TraceId) :
    ∀ (n : Nat) (s s1 : MpsState), flippedPhase (s.arena.trace trace).state = true →
      stepMeasure trace s.arena ≤ n → stepN cfg env fuel trace n s = .ok s1 →
      (s1.arena.trace trace).state = TraceState.TraceFINISHED := by
  intro n
  induction n with
  | zero =>
    intro s s1 hph hm h
    simp only [stepN, Except.ok.injEq] at h
    rw [← h]
    exact stepMeasure_zero trace s.arena hph (Nat.le_zero.mp hm)
  | succ n ih =>
    intro s s1 hph hm h
    simp only [stepN, bind_ok_iff, exists_aver_ok_iff, beq_iff_eq] at h
    obtain ⟨⟨res, s2⟩, hstep, hres, h⟩ := h
    simp only at hres
    subst hres
    by_cases hfin : (s.arena.trace trace).state = TraceState.TraceFINISHED
    · have hc := TraceStep_ok_check cfg env fuel trace s s2 Res.OK hstep
      rw [TraceStep_noprogress cfg env fuel trace s hc (Or.inr hfin)] at hstep
      simp only [Except.ok.injEq, Prod.mk.injEq, true_and] at hstep
      rw [← hstep] at h
      refine ih s s1 hph ?_ h
      unfold stepMeasure
      rw [hfin]
      exact Nat.zero_le n
    · obtain ⟨hph2, hlt⟩ := TraceStep_measure cfg env hk hg fuel trace s s2 hstep hph hfin
      exact ih s2 s1 hph2 (Nat.le_of_lt_succ (Nat.lt_of_lt_of_le hlt hm)) h

/-! ## `TraceStep` and the fuel of the model -/

theorem findGreyInRing_ne_fuel (ti : TraceId) (rank : Rank) :
    ∀ ring : List SegStruct, findGreyInRing ti rank ring ≠ .error Fault.fuel := by
  intro ring
  induction ring with
  | nil => simp [findGreyInRing]
  | cons sg rest ih =>
    simp only [findGreyInRing]
    refine bind_ne_fuel _ _ (aver_ne_fuel _) (fun _ => ?_)
    refine bind_ne_fuel _ _ (aver_ne_fuel _) (fun _ => ?_)
    split
    · exact pure_ne_fuel _
    · exact ih

theorem findGreyRanks_ne_fuel (a : ArenaStruct) (ti : TraceId) :
    ∀ ranks : List Rank, findGreyRanks a ti ranks ≠ .error Fault.fuel := by
  intro ranks
  induction ranks with
  | nil => simp [findGreyRanks]
  | cons rank rest ih =>
    simp only [findGreyRanks]
    refine bind_ne_fuel _ _ (findGreyInRing_ne_fuel _ _ _) (fun found => ?_)
    cases found with
    | some x => exact pure_ne_fuel _
    | none => exact ih

theorem traceFindGrey_ne_fuel (cfg : Config) (a : ArenaStruct) (ti : TraceId) :
    traceFindGrey cfg a ti ≠ .error Fault.fuel := by
  unfold traceFindGrey
  exact bind_ne_fuel _ _ (aver_ne_fuel _) (fun _ => findGreyRanks_ne_fuel a ti _)

theorem ScanStateInit_ne_fuel (cfg : Config) (a : ArenaStruct) (ts : TraceSet) (rank : Rank)
    (white : RefSet) : ScanStateInit cfg a ts rank white ≠ .error Fault.fuel := by
  unfold ScanStateInit
  refine bind_ne_fuel _ _ (aver_ne_fuel _) (fun _ => ?_)
  refine bind_ne_fuel _ _ (aver_ne_fuel _) (fun _ => ?_)
  exact pure_ne_fuel _

theorem ScanStateSummary_ne_fuel (cfg : Config) (a : ArenaStruct) (ss : ScanStateStruct) :
    ScanStateSummary cfg a ss ≠ .error Fault.fuel := by
  unfold ScanStateSummary
  exact bind_ne_fuel _ _ (aver_ne_fuel _) (fun _ => pure_ne_fuel _)

theorem ScanStateFinish_ne_fuel (cfg : Config) (a : ArenaStruct) (ss : ScanStateStruct) :
    ScanStateFinish cfg a ss ≠ .error Fault.fuel := by
  unfold ScanStateFinish
  exact bind_ne_fuel _ _ (aver_ne_fuel _) (fun _ => pure_ne_fuel _)

theorem TraceUpdateCounts_ne_fuel (cfg : Config) (a : ArenaStruct) (trace : TraceId)
    (ss : ScanStateStruct) (phase : TraceAccountingPhase) :
    TraceUpdateCounts cfg a trace ss phase ≠ .error Fault.fuel := by
  unfold TraceUpdateCounts
  refine bind_ne_fuel _ _ (aver_ne_fuel _) (fun _ => ?_)
  refine bind_ne_fuel _ _ (aver_ne_fuel _) (fun _ => ?_)
  exact pure_ne_fuel _

theorem scanUpdateTraces_ne_fuel (cfg : Config) (ts : TraceSet) (ss : ScanStateStruct) :
    ∀ (l : List TraceId) (a : ArenaStruct),
      scanUpdateTraces cfg ts ss l a ≠ .error Fault.fuel := by
  intro l
  induction l with
  | nil =>
    intro a
    simp [scanUpdateTraces]
  | cons ti tis ih =>
    intro a
    simp only [scanUpdateTraces]
    split
    · exact bind_ne_fuel _ _ (TraceUpdateCounts_ne_fuel _ _ _ _ _) (fun a2 => ih a2)
    · exact ih a

theorem scanSegment_ne_fuel (cfg : Config) (env : Env) (ts : TraceSet) (rank : Rank)
    (seg : Addr) (pool : PoolId) (white : RefSet) (s : MpsState) :
    scanSegment cfg env ts rank seg pool white s ≠ .error Fault.fuel := by
  unfold scanSegment
  refine bind_ne_fuel _ _ (ScanStateInit_ne_fuel _ _ _ _ _) (fun ss => ?_)
  rcases env.PoolScan (emit s (Event.ShieldExpose seg)).arena ss pool seg with
    ⟨res, wasTotal, ss1, a1⟩
  simp only
  refine bind_ne_fuel _ _ (segGet_ne_fuel _ _) (fun sg1 => ?_)
  refine bind_ne_fuel _ _ (aver_ne_fuel _) (fun _ => ?_)
  refine bind_ne_fuel _ _ (ScanStateSummary_ne_fuel _ _ _) (fun sum => ?_)
  refine bind_ne_fuel _ _ (scanUpdateTraces_ne_fuel _ _ _ _ _) (fun a3 => ?_)
  refine bind_ne_fuel _ _ (ScanStateFinish_ne_fuel _ _ _) (fun _ => ?_)
  exact pure_ne_fuel _

theorem scanFinish_ne_fuel (cfg : Config) (ts : TraceSet) (seg : Addr) (res : Res)
    (s : MpsState) : scanFinish cfg ts seg res s ≠ .error Fault.fuel := by
  unfold scanFinish
  split
  · exact bind_ne_fuel _ _ (segGet_ne_fuel _ _) (fun _ => pure_ne_fuel _)
  · exact pure_ne_fuel _

theorem TraceScan_ne_fuel (cfg : Config) (env : Env) (ts : TraceSet) (rank : Rank)
    (seg : Addr) (s : MpsState) : TraceScan cfg env ts rank seg s ≠ .error Fault.fuel := by
  unfold TraceScan
  refine bind_ne_fuel _ _ (aver_ne_fuel _) (fun _ => ?_)
  refine bind_ne_fuel _ _ (aver_ne_fuel _) (fun _ => ?_)
  refine bind_ne_fuel _ _ (segGet_ne_fuel _ _) (fun sg => ?_)
  refine bind_ne_fuel _ _ (aver_ne_fuel _) (fun _ => ?_)
  refine bind_ne_fuel _ _ ?_ (fun x => ?_)
  · split
    · exact pure_ne_fuel _
    · exact scanSegment_ne_fuel _ _ _ _ _ _ _ _
  · split
    exact scanFinish_ne_fuel _ _ _ _ _

theorem TraceRun_ne_fuel (cfg : Config) (env : Env) (trace : TraceId) (s : MpsState) :
    TraceRun cfg env trace s ≠ .error Fault.fuel := by
  unfold TraceRun
  refine bind_ne_fuel _ _ (aver_ne_fuel _) (fun _ => ?_)
  refine bind_ne_fuel _ _ (aver_ne_fuel _) (fun _ => ?_)
  refine bind_ne_fuel _ _ (traceFindGrey_ne_fuel _ _ _) (fun found => ?_)
  cases found with
  | none => exact pure_ne_fuel _
  | some x =>
    obtain ⟨seg, rank⟩ := x
    simp only
    refine bind_ne_fuel _ _ (segGet_ne_fuel _ _) (fun sg => ?_)
    refine bind_ne_fuel _ _ (poolGet_ne_fuel _ _) (fun _ => ?_)
    refine bind_ne_fuel _ _ (aver_ne_fuel _) (fun _ => ?_)
    refine bind_ne_fuel _ _ (TraceScan_ne_fuel _ _ _ _ _ _) (fun x => ?_)
    split
    · exact pure_ne_fuel _
    · exact pure_ne_fuel _

/-- With fuel for every segment and a `PoolReclaim` that creates no segment,
`TraceStep` does not run out of fuel. -/
theorem TraceStep_ne_fuel (cfg : Config) (env : Env) (hn : ReclaimNoNewSegs env)
    (fuel : Nat) (trace : TraceId) (s : MpsState) (hfuel : s.arena.segs.length ≤ fuel) :
    TraceStep cfg env fuel trace s ≠ .error Fault.fuel := by
  unfold TraceStep
  refine bind_ne_fuel _ _ (aver_ne_fuel _) (fun _ => ?_)
  split
  · simp
  · refine bind_ne_fuel _ _ (TraceRun_ne_fuel _ _ _ _) (fun x => ?_)
    split
    split
    · exact pure_ne_fuel _
    · exact pure_ne_fuel _
  · exact bind_ne_fuel _ _ (TraceReclaim_ne_fuel cfg env hn fuel trace s hfuel)
      (fun _ => pure_ne_fuel _)
  · exact pure_ne_fuel _
  · exact pure_ne_fuel _

theorem TraceScan_segs_le (cfg : Config) (env : Env) (hs : ScanNoNewSegs env) (ts : TraceSet)
    (rank : Rank) (seg : Addr) (s s1 : MpsState) (r : Res)
    (h : TraceScan cfg env ts rank seg s = .ok (r, s1)) :
    s1.arena.segs.length ≤ s.arena.segs.length := by
  obtain ⟨sg, _, _, _, _, hcases⟩ := TraceScan_ok_inv cfg env ts rank seg s s1 r h
  rcases hcases with ⟨_, _, sg2, _, hs1⟩ |
    ⟨_, ss, res, wasTotal, ss1, a1, sg1, _, hps, _, _, _, _, _, hcases⟩
  · rw [hs1]
    simp only [SegSetGrey, segUpdate, List.length_map]
    exact hs.1 s.arena sg.pool ts seg
  · have k1 := hs.2 s.arena ss sg.pool seg
    rw [hps] at k1
    rcases hcases with ⟨_, hs1⟩ | ⟨_, sg3, _, hs1⟩
    · rw [hs1]
      simp only [scanCounted, SegSetSummary, segUpdate, List.length_map]
      exact k1
    · rw [hs1]
      simp only [scanCounted, SegSetGrey, SegSetSummary, segUpdate, List.length_map]
      exact k1

theorem TraceReclaim_segs_le (cfg : Config) (env : Env) (hn : ReclaimNoNewSegs env)
    (fuel : Nat) (trace : TraceId) (s s1 : MpsState)
    (h : TraceReclaim cfg env fuel trace s = .ok s1) :
    s1.arena.segs.length ≤ s.arena.segs.length := by
  unfold TraceReclaim at h
  simp only [bind_ok_iff, exists_aver_ok_iff, beq_iff_eq, pure_ok_iff] at h
  obtain ⟨_, _, ⟨ret, s2⟩, hloop, h⟩ := h
  have k : s2.arena.segs.length ≤ s.arena.segs.length :=
    forSegs_inv _ (fun st => st.arena.segs.length ≤ s.arena.segs.length)
      (fun seg st r st1 hP hb => by
        have hsub := (reclaimBody_sublist cfg env hn trace seg st st1 r hb).length_le
        simp only [List.length_map] at hsub
        exact Nat.le_trans hsub hP)
      fuel s ret s2 (Nat.le_refl _) hloop
  rw [← h]
  exact k

theorem TraceStep_segs_le (cfg : Config) (env : Env) (hn : ReclaimNoNewSegs env)
    (hs : ScanNoNewSegs env) (fuel : Nat) (trace : TraceId) (s s1 : MpsState) (r : Res)
    (h : TraceStep cfg env fuel trace s = .ok (r, s1)) :
    s1.arena.segs.length ≤ s.arena.segs.length := by
  obtain ⟨_, hcases⟩ := TraceStep_ok_inv cfg env fuel trace s s1 r h
  rcases hcases with ⟨_, _, hs1⟩ | ⟨_, hrun⟩ | ⟨_, _, hrec⟩
  · rw [hs1]
  · obtain ⟨_, _, hrun⟩ := TraceRun_ok_inv cfg env trace s s1 r hrun
    rcases hrun with ⟨_, _, hs1⟩ | ⟨seg, rank, sg, p, _, _, _, _, hscan⟩
    · rw [hs1]
      exact Nat.le_refl _
    · exact TraceScan_segs_le cfg env hs _ rank seg s s1 r hscan
  · exact TraceReclaim_segs_le cfg env hn fuel trace s s1 hrec

/-- The loop of `TraceExpedite` ends within the measure: with more rounds
than the measure and fuel for every segment it does not run out of fuel. -/
theorem expediteLoop_ne_fuel (cfg : Config) (env : Env) (hk : EnvKeepsCtl env)
    (hg : ScanNoNewGrey env) (hs : ScanNoNewSegs env) (hn : ReclaimNoNewSegs env)
    (fuel : Nat) (trace : TraceId) :
    ∀ (n : Nat) (s : MpsState), flippedPhase (s.arena.trace trace).state = true →
      stepMeasure trace s.arena < n → s.arena.segs.length ≤ fuel →
      expediteLoop cfg env fuel trace n s ≠ .error Fault.fuel := by
  intro n
  induction n with
  | zero =>
    intro s _ hm _
    exact absurd hm (Nat.not_lt_zero _)
  | succ n ih =>
    intro s hph hm hfuel
    simp only [expediteLoop]
    split
    · rename_i hst
      have hnf : (s.arena.trace trace).state ≠ TraceState.TraceFINISHED := by simpa using hst
      cases hstep : TraceStep cfg env fuel trace s with
      | error f =>
        simp only [bind, Except.bind, ne_eq, Except.error.injEq]
        intro hf
        subst hf
        exact TraceStep_ne_fuel cfg env hn fuel trace s hfuel hstep
      | ok x =>
        obtain ⟨res, s2⟩ := x
        simp only [bind, Except.bind]
        by_cases hres : res = Res.OK
        · subst hres
          obtain ⟨hph2, hlt⟩ := TraceStep_measure cfg env hk hg fuel trace s s2 hstep hph hnf
          have hle := TraceStep_segs_le cfg env hn hs fuel trace s s2 Res.OK hstep
          have := ih s2 hph2 (Nat.lt_of_lt_of_le hlt (Nat.le_of_lt_succ hm))
            (Nat.le_trans hle hfuel)
          simpa [aver] using this
        · have : (res == Res.OK) = false := by simpa using hres
          simp [aver, this]
    · exact pure_ne_fuel _

/-! ## Reading a segment after a store into it -/

theorem segFind_segUpdate (a : ArenaStruct) (seg : Addr) (f : SegStruct → SegStruct)
    (hb : ∀ sg, (f sg).base = sg.base) (seg2 : Addr) :
    segFind (segUpdate a seg f) seg2 =
      (segFind a seg2).map (fun sg => if sg.base == seg then f sg else sg) := by
  unfold segFind segUpdate
  simp only [List.find?_map]
  congr 1
  have e : ((fun sg => sg.base == seg2) ∘ fun sg : SegStruct =>
      if sg.base == seg then f sg else sg) = fun sg => sg.base == seg2 := by
    funext sg
    simp only [Function.comp]
    split
    · rw [hb]
    · rfl
  rw [e]

theorem segGet_segUpdate_same (a : ArenaStruct) (seg : Addr) (f : SegStruct → SegStruct)
    (hb : ∀ sg, (f sg).base = sg.base) (sg : SegStruct) (h : segGet a seg = .ok sg) :
    segGet (segUpdate a seg f) seg = .ok (f sg) := by
  rw [segGet_ok_iff] at h ⊢
  rw [segFind_segUpdate a seg f hb seg, h]
  simp [segFind_base a seg sg h]

theorem segGet_segUpdate_inv (a : ArenaStruct) (seg : Addr) (f : SegStruct → SegStruct)
    (hb : ∀ sg, (f sg).base = sg.base) (sg1 : SegStruct)
    (h : segGet (segUpdate a seg f) seg = .ok sg1) :
    ∃ sg, segGet a seg = .ok sg ∧ sg1 = f sg := by
  rw [segGet_ok_iff, segFind_segUpdate a seg f hb seg] at h
  cases hf : segFind a seg with
  | none =>
    rw [hf] at h
    cases h
  | some sg =>
    rw [hf] at h
    refine ⟨sg, (segGet_ok_iff _ _ _).mpr hf, ?_⟩
    simp only [Option.map_some', segFind_base a seg sg hf, beq_self_eq_true, if_true,
      Option.some.injEq] at h
    exact h.symm

theorem segGet_scanCounted (ts : TraceSet) (ss : ScanStateStruct) (l : List TraceId)
    (a : ArenaStruct) (seg : Addr) : segGet (scanCounted ts ss l a) seg = segGet a seg := rfl

theorem RefSetSuper_union_right (a b : RefSet) : RefSetSuper (RefSetUnion a b) b = true := by
  rw [RefSetSuper_iff]
  intro i hi
  rw [testBit_RefSetUnion, hi, Bool.or_true]

theorem RefSetSuper_union_left (a b : RefSet) : RefSetSuper (RefSetUnion a b) a = true := by
  rw [RefSetSuper_iff]
  intro i hi
  rw [testBit_RefSetUnion, hi, Bool.true_or]

theorem RefSetSuper_refl (a : RefSet) : RefSetSuper a a = true := by
  rw [RefSetSuper_iff]
  exact fun _ h => h

theorem segGet_SegSetGrey (cfg : Config) (a : ArenaStruct) (seg : Addr) (g : TraceSet)
    (sg : SegStruct) (h : segGet a seg = .ok sg) :
    segGet (SegSetGrey cfg a seg g) seg =
      .ok { sg with
        grey := g
        sm := if TraceSetInter g a.flippedTraces == TraceSetEMPTY
              then sg.sm &&& wordNot cfg.MPS_WORD_WIDTH AccessREAD
              else sg.sm ||| AccessREAD } :=
  segGet_segUpdate_same a seg
    (fun sg => { sg with
      grey := g
      sm := if TraceSetInter g a.flippedTraces == TraceSetEMPTY
            then sg.sm &&& wordNot cfg.MPS_WORD_WIDTH AccessREAD
            else sg.sm ||| AccessREAD })
    (fun _ => rfl) sg h

theorem segGet_SegSetSummary (cfg : Config) (a : ArenaStruct) (seg : Addr) (rs : RefSet)
    (sg : SegStruct) (h : segGet a seg = .ok sg) :
    segGet (SegSetSummary cfg a seg rs) seg =
      .ok { sg with
        summary := rs
        sm := if rs == RefSetUNIV cfg
              then sg.sm &&& wordNot cfg.MPS_WORD_WIDTH AccessWRITE
              else sg.sm ||| AccessWRITE } :=
  segGet_segUpdate_same a seg
    (fun sg => { sg with
      summary := rs
      sm := if rs == RefSetUNIV cfg
            then sg.sm &&& wordNot cfg.MPS_WORD_WIDTH AccessWRITE
            else sg.sm ||| AccessWRITE })
    (fun _ => rfl) sg h

/-! ## The segment and the traces after `TraceScan` -/

/-- What `TraceScan` leaves: in the blacken branch the segment as
`PoolBlacken` left it, less the greyness for `ts`; in the scanning branch the
segment as `PoolScan` left it, with the new summary and, if the result is
OK, less the greyness for `ts`, and the traces of `ts` with the scan
counted. -/
theorem TraceScan_seg_inv (cfg : Config) (env : Env) (ts : TraceSet) (rank : Rank)
    (seg : Addr) (s s1 : MpsState) (r : Res)
    (h : TraceScan cfg env ts rank seg s = .ok (r, s1)) :
    ∃ sg, segGet s.arena seg = .ok sg ∧ TraceSetInter ts sg.grey ≠ TraceSetEMPTY ∧
      TraceSetCheck cfg ts = true ∧
      ((RefSetInter (traceSetWhite cfg s.arena ts) sg.summary = RefSetEMPTY ∧ r = Res.OK ∧
          ∃ sg2 sgF, segGet (env.PoolBlacken s.arena sg.pool ts seg) seg = .ok sg2 ∧
            segGet s1.arena seg = .ok sgF ∧
            sgF.summary = sg2.summary ∧ sgF.grey = TraceSetDiff cfg sg2.grey ts ∧
            s1.arena.trace = (env.PoolBlacken s.arena sg.pool ts seg).trace ∧
            s1.arena.busyTraces = (env.PoolBlacken s.arena sg.pool ts seg).busyTraces ∧
            s1.arena.flippedTraces = (env.PoolBlacken s.arena sg.pool ts seg).flippedTraces ∧
            s1.events = s.events ++ [Event.PoolBlacken sg.pool ts seg]) ∨
       (RefSetInter (traceSetWhite cfg s.arena ts) sg.summary ≠ RefSetEMPTY ∧
          ∃ ss res wasTotal ss1 a1 sg1 sgF,
            ScanStateInit cfg s.arena ts rank (traceSetWhite cfg s.arena ts) = .ok ss ∧
            env.PoolScan s.arena ss sg.pool seg = (res, wasTotal, ss1, a1) ∧
            r = res ∧ segGet a1 seg = .ok sg1 ∧
            RefSetSub ss1.unfixedSummary sg1.summary = true ∧
            ScanStateSummary cfg a1 ss1 = .ok (scanSummary cfg ss1) ∧
            segGet s1.arena seg = .ok sgF ∧
            sgF.summary = scannedSegSummary cfg res wasTotal sg1.summary ss1 ∧
            sgF.grey = (if res = Res.OK then TraceSetDiff cfg sg1.grey ts else sg1.grey) ∧
            s1.arena.trace = (scanCounted ts ss1 (List.range cfg.TRACE_MAX) a1).trace ∧
            s1.arena.busyTraces = a1.busyTraces ∧
            s1.arena.flippedTraces = a1.flippedTraces ∧
            s1.events = s.events ++ [Event.ShieldExpose seg,
              Event.PoolScan sg.pool seg ss.fix ss.rank, Event.ShieldCover seg])) := by
  obtain ⟨sg, hts, _, hsg, hgrey, hcases⟩ := TraceScan_ok_inv cfg env ts rank seg s s1 r h
  refine ⟨sg, hsg, hgrey, hts, ?_⟩
  rcases hcases with ⟨hw, hr, sg2, hsg2, hs1⟩ |
    ⟨hw, ss, res, wasTotal, ss1, a1, sg1, hinit, hps, hr, hsg1, hsub, hchk, hev, hcases⟩
  · have hF := segGet_SegSetGrey cfg _ seg (TraceSetDiff cfg sg2.grey ts) sg2 hsg2
    rw [hs1]
    exact Or.inl ⟨hw, hr, sg2, _, hsg2, hF, rfl, rfl, rfl, rfl, rfl, rfl⟩
  · have hsum : ScanStateSummary cfg a1 ss1 = .ok (scanSummary cfg ss1) :=
      (ScanStateSummary_ok_iff cfg a1 ss1 _).mpr ⟨hchk, rfl⟩
    have hS : segGet (scanCounted ts ss1 (List.range cfg.TRACE_MAX)
        (SegSetSummary cfg a1 seg (scannedSegSummary cfg res wasTotal sg1.summary ss1))) seg =
        _ := segGet_SegSetSummary cfg a1 seg _ sg1 hsg1
    rcases hcases with ⟨hne, hs1⟩ | ⟨hok, sg3, hsg3, hs1⟩
    · rw [← hs1] at hS
      exact Or.inr ⟨hw, ss, res, wasTotal, ss1, a1, sg1, _, hinit, hps, hr, hsg1, hsub, hsum, hS,
        rfl, by rw [if_neg hne], by rw [hs1]; rfl, by rw [hs1]; rfl, by rw [hs1]; rfl, hev⟩
    · rw [hS] at hsg3
      simp only [Except.ok.injEq] at hsg3
      have hF := segGet_SegSetGrey cfg _ seg (TraceSetDiff cfg sg3.grey ts) _ hS
      rw [← hs1] at hF
      exact Or.inr ⟨hw, ss, res, wasTotal, ss1, a1, sg1, _, hinit, hps, hr, hsg1, hsub, hsum, hF,
        rfl, by rw [if_pos hok, ← hsg3], by rw [hs1]; rfl, by rw [hs1]; rfl, by rw [hs1]; rfl,
        hev⟩

/-! ## The counters of the traces under `TraceScan` -/

theorem accessEmergency_frame (traces : TraceSet) :
    ∀ (l : List TraceId) (a : ArenaStruct),
      (accessEmergency traces l a).busyTraces = a.busyTraces ∧
      (accessEmergency traces l a).flippedTraces = a.flippedTraces ∧
      (accessEmergency traces l a).segs = a.segs := by
  intro l
  induction l with
  | nil =>
    intro a
    exact ⟨rfl, rfl, rfl⟩
  | cons ti tis ih =>
    intro a
    simp only [accessEmergency]
    split
    · exact ih _
    · exact ih a

theorem accessCountFaults_frame :
    ∀ (l : List TraceId) (a : ArenaStruct),
      (accessCountFaults l a).busyTraces = a.busyTraces ∧
      (accessCountFaults l a).flippedTraces = a.flippedTraces ∧
      (accessCountFaults l a).segs = a.segs := by
  intro l
  induction l with
  | nil =>
    intro a
    exact ⟨rfl, rfl, rfl⟩
  | cons ti tis ih =>
    intro a
    simp only [accessCountFaults]
    split
    · exact ih _
    · exact ih a

theorem isMember_lt_TRACE_MAX (cfg : Config) (ts : TraceSet) (i : TraceId)
    (hc : TraceSetCheck cfg ts = true) (hm : TraceSetIsMember ts i = true) :
    i < cfg.TRACE_MAX := by
  unfold TraceSetCheck at hc
  simp only [decide_eq_true_eq, Nat.one_shiftLeft] at hc
  exact isMember_lt_of_lt_two_pow hc hm

/-- The read-barrier branch of `TraceAccess`, step by step. -/
theorem accessRead_ok_inv (cfg : Config) (env : Env) (seg : Addr) (s s3 : MpsState)
    (h : accessRead cfg env seg s = .ok s3) :
    ∃ r1 s1 s2 sg2, TraceScan cfg env s.arena.busyTraces RankEXACT seg s = .ok (r1, s1) ∧
      ((r1 = Res.OK ∧ s2 = s1) ∨
       (r1 ≠ Res.OK ∧
         TraceScan cfg env s.arena.busyTraces RankEXACT seg
           { s1 with arena := (accessEmergency s.arena.busyTraces (List.range cfg.TRACE_MAX)
               s1.arena) } = .ok (Res.OK, s2))) ∧
      segGet s2.arena seg = .ok sg2 ∧
      TraceSetInter sg2.grey s2.arena.flippedTraces = TraceSetEMPTY ∧
      s3 = { s2 with arena := accessCountFaults (List.range cfg.TRACE_MAX) s2.arena } := by
  unfold accessRead at h
  simp only [bind_ok_iff, exists_aver_ok_iff, pure_ok_iff, beq_iff_eq] at h
  obtain ⟨⟨r1, s1⟩, hscan, s2, hretry, sg2, hsg2, hgrey, hs3⟩ := h
  refine ⟨r1, s1, s2, sg2, hscan, ?_, hsg2, hgrey, hs3.symm⟩
  split at hretry
  · rename_i hne
    have hne1 : r1 ≠ Res.OK := by simpa using hne
    unfold accessRetry at hretry
    simp only [bind_ok_iff, exists_aver_ok_iff, pure_ok_iff, beq_iff_eq] at hretry
    obtain ⟨⟨r2, s2a⟩, hscan2, hr2, hs2⟩ := hretry
    simp only at hr2 hs2
    subst hr2 hs2
    exact Or.inr ⟨hne1, hscan2⟩
  · rename_i hne
    have hok : r1 = Res.OK := by simpa using hne
    simp only [pure_ok_iff] at hretry
    exact Or.inl ⟨hok, hretry.symm⟩

/-- The loop of `ScanStateInit` that chooses the fix method: it ends with
`TraceFixEmergency` exactly when it started with it or some trace of the list
is in `ts` and in emergency mode. -/
theorem fixChoice_eq (a : ArenaStruct) (ts : TraceSet) (l : List TraceId) (f0 : FixMethod) :
    l.foldl (fun fix ti =>
        if TraceSetIsMember ts ti && (ArenaTrace a ti).emergency
        then FixMethod.TraceFixEmergency else fix) f0 = FixMethod.TraceFixEmergency ↔
      f0 = FixMethod.TraceFixEmergency ∨
        ∃ ti, ti ∈ l ∧ TraceSetIsMember ts ti = true ∧ (ArenaTrace a ti).emergency = true := by
  induction l generalizing f0 with
  | nil => simp
  | cons x xs ih =>
    rw [List.foldl_cons, ih]
    by_cases hx : (TraceSetIsMember ts x && (ArenaTrace a x).emergency) = true
    · rw [if_pos hx]
      simp only [Bool.and_eq_true] at hx
      simp only [true_or, true_iff]
      exact Or.inr ⟨x, List.mem_cons_self _ _, hx.1, hx.2⟩
    · rw [if_neg hx]
      simp only [Bool.and_eq_true] at hx
      constructor
      · rintro (h | ⟨ti, hti, h1, h2⟩)
        · exact Or.inl h
        · exact Or.inr ⟨ti, List.mem_cons_of_mem _ hti, h1, h2⟩
      · rintro (h | ⟨ti, hti, h1, h2⟩)
        · exact Or.inl h
        · rcases List.mem_cons.mp hti with heq | hmem
          · subst heq
            exact absurd ⟨h1, h2⟩ hx
          · exact Or.inr ⟨ti, hmem, h1, h2⟩

/-! ## The write barrier in `TraceAccess` -/

/-- A refset of one word meets UNIV in itself. -/
theorem RefSetInter_UNIV (cfg : Config) (rs : RefSet) (h : rs < 2 ^ cfg.MPS_WORD_WIDTH) :
    RefSetInter rs (RefSetUNIV cfg) = rs := by
  unfold RefSetInter RefSetUNIV
  rw [Nat.and_pow_two_sub_one_eq_mod, Nat.mod_eq_of_lt h]

/-- What a `TraceAccess` that returns has done. -/
theorem TraceAccess_ok_inv (cfg : Config) (env : Env) (seg : Addr) (mode : AccessSet)
    (s s4 : MpsState) (h : TraceAccess cfg env seg mode s = .ok s4) :
    ∃ sg s3 sg3 sg4, segGet s.arena seg = .ok sg ∧
      (mode &&& sg.sm &&& AccessREAD = 0 ∨
        TraceSetInter sg.grey s.arena.flippedTraces ≠ TraceSetEMPTY) ∧
      (mode &&& sg.sm &&& AccessWRITE = 0 ∨ sg.summary ≠ RefSetUNIV cfg) ∧
      (if mode &&& sg.sm &&& AccessREAD ≠ 0 then accessRead cfg env seg s else pure s) =
        .ok s3 ∧
      segGet s3.arena seg = .ok sg3 ∧
      s4 = (if mode &&& sg3.sm &&& AccessWRITE ≠ 0 then
              { s3 with arena := SegSetSummary cfg s3.arena seg (RefSetUNIV cfg) }
            else s3) ∧
      segGet s4.arena seg = .ok sg4 ∧ mode &&& sg4.sm = AccessSetEMPTY := by
  unfold TraceAccess at h
  simp only [bind_ok_iff, exists_aver_ok_iff, pure_ok_iff, Bool.or_eq_true, beq_iff_eq,
    bne_iff_ne, ne_eq] at h
  obtain ⟨sg, hsg, hpre1, hpre2, s3, hbranch, sg3, hsg3, sg4, hsg4, hacc, hs4⟩ := h
  rw [hs4] at hsg4
  exact ⟨sg, s3, sg3, sg4, hsg, hpre1, hpre2, hbranch, hsg3, hs4.symm, hsg4, hacc⟩

/-- `TraceScan` of a segment whose summary meets the white set of the traces
takes the scanning branch. -/
theorem TraceScan_scans (cfg : Config) (env : Env) (ts : TraceSet) (rank : Rank) (seg : Addr)
    (s : MpsState) (sg : SegStruct) (hsg : segGet s.arena seg = .ok sg)
    (hts : TraceSetCheck cfg ts = true) (hrank : RankCheck cfg rank = true)
    (hgrey : TraceSetInter ts sg.grey ≠ TraceSetEMPTY)
    (hw : RefSetInter (traceSetWhite cfg s.arena ts) sg.summary ≠ RefSetEMPTY) :
    TraceScan cfg env ts rank seg s =
      (scanSegment cfg env ts rank seg sg.pool (traceSetWhite cfg s.arena ts) s >>=
        fun p => scanFinish cfg ts seg p.1 p.2) := by
  unfold TraceScan
  rw [aver_true_bind _ _ hts, aver_true_bind _ _ hrank, hsg]
  simp only [Except.bind, bind]
  have hg : (TraceSetInter ts sg.grey != TraceSetEMPTY) = true := by
    simp only [bne_iff_ne, ne_eq]
    exact hgrey
  have hb : (RefSetInter (traceSetWhite cfg s.arena ts) sg.summary == RefSetEMPTY) = false := by
    simp only [beq_eq_false_iff_ne, ne_eq]
    exact hw
  have ha : aver (TraceSetInter ts sg.grey != TraceSetEMPTY) = .ok () := by
    rw [hg]
    rfl
  rw [ha, hb]
  rfl

/-! ### The write barrier stays in agreement with the summary -/

theorem and_two_eq_zero_iff (x : Nat) : x &&& 2 = 0 ↔ x.testBit 1 = false := by
  constructor
  · intro h
    have e := congrArg (fun n : Nat => n.testBit 1) h
    simp only [Nat.testBit_land, Nat.zero_testBit] at e
    rw [show (2 : Nat).testBit 1 = true from by decide, Bool.and_true] at e
    exact e
  · intro h
    apply Nat.eq_of_testBit_eq
    intro i
    rw [Nat.testBit_land, Nat.zero_testBit, show (2 : Nat) = 1 <<< 1 from rfl,
      testBit_one_shiftLeft]
    by_cases hi : 1 = i
    · subst hi
      simp [h]
    · simp [hi]

theorem and_two_ne_zero_iff (x : Nat) : x &&& 2 ≠ 0 ↔ x.testBit 1 = true := by
  rw [ne_eq, and_two_eq_zero_iff]
  cases x.testBit 1 <;> simp

theorem and_and_two_ne_zero_iff (m x : Nat) :
    m &&& x &&& 2 ≠ 0 ↔ m.testBit 1 = true ∧ x.testBit 1 = true := by
  rw [and_two_ne_zero_iff, Nat.testBit_land, Bool.and_eq_true]

theorem writeBarrierOK_iff (cfg : Config) (sg : SegStruct) :
    writeBarrierOK cfg sg ↔ (sg.sm.testBit 1 = true ↔ sg.summary ≠ RefSetUNIV cfg) := by
  unfold writeBarrierOK AccessWRITE
  rw [and_two_ne_zero_iff]

/-- `SegSetSummary` leaves the write barrier in agreement with the summary. -/
theorem writeBarrierOK_SegSetSummary (cfg : Config) (sg : SegStruct) (rs : RefSet) :
    writeBarrierOK cfg
      { sg with
        summary := rs
        sm := if rs == RefSetUNIV cfg
              then sg.sm &&& wordNot cfg.MPS_WORD_WIDTH AccessWRITE
              else sg.sm ||| AccessWRITE } := by
  rw [writeBarrierOK_iff]
  by_cases h : rs = RefSetUNIV cfg
  · subst h
    simp only [beq_self_eq_true, if_true, Nat.testBit_land, testBit_wordNot, AccessWRITE,
      show (2 : Nat).testBit 1 = true from by decide, Bool.not_true, Bool.and_false, ne_eq,
      not_true_eq_false, Bool.false_eq_true]
  · have hb : (rs == RefSetUNIV cfg) = false := by simpa using h
    simp only [hb, Bool.false_eq_true, if_false, Nat.testBit_lor, AccessWRITE,
      show (2 : Nat).testBit 1 = true from by decide, Bool.or_true, ne_eq, h,
      not_false_eq_true]

/-- `SegSetGrey` leaves the write barrier alone. -/
theorem writeBarrierOK_SegSetGrey (cfg : Config) (hW : 1 < cfg.MPS_WORD_WIDTH)
    (sg : SegStruct) (g : TraceSet) (c : Bool) (h : writeBarrierOK cfg sg) :
    writeBarrierOK cfg
      { sg with
        grey := g
        sm := if c then sg.sm &&& wordNot cfg.MPS_WORD_WIDTH AccessREAD
              else sg.sm ||| AccessREAD } := by
  rw [writeBarrierOK_iff] at h ⊢
  have e : (if c = true then sg.sm &&& wordNot cfg.MPS_WORD_WIDTH AccessREAD
      else sg.sm ||| AccessREAD).testBit 1 = sg.sm.testBit 1 := by
    cases c
    · simp only [Bool.false_eq_true, if_false, Nat.testBit_lor, AccessREAD,
        show (1 : Nat).testBit 1 = false from by decide, Bool.or_false]
    · simp only [if_true, Nat.testBit_land, testBit_wordNot, AccessREAD, hW, decide_True,
        show (1 : Nat).testBit 1 = false from by decide, Bool.not_false, Bool.and_true]
  simp only [e]
  exact h

theorem accessEmergency_segs (traces : TraceSet) :
    ∀ (l : List TraceId) (a : ArenaStruct), (accessEmergency traces l a).segs = a.segs := by
  intro l
  induction l with
  | nil =>
    intro a
    rfl
  | cons ti tis ih =>
    intro a
    simp only [accessEmergency]
    split
    · rw [ih, setTrace_segs]
    · exact ih a

theorem accessCountFaults_segs :
    ∀ (l : List TraceId) (a : ArenaStruct), (accessCountFaults l a).segs = a.segs := by
  intro l
  induction l with
  | nil =>
    intro a
    rfl
  | cons ti tis ih =>
    intro a
    simp only [accessCountFaults]
    split
    · rw [ih, setTrace_segs]
    · exact ih a

theorem segGet_of_segs (a a1 : ArenaStruct) (seg : Addr) (h : a1.segs = a.segs) :
    segGet a1 seg = segGet a seg := by
  unfold segGet segFind
  rw [h]

/-- `TraceScan` leaves the write barrier of the segment in agreement with
its summary, if `PoolBlacken` does. -/
theorem TraceScan_barrier (cfg : Config) (env : Env) (hW : 1 < cfg.MPS_WORD_WIDTH)
    (hb : BlackenKeepsBarrier cfg env) (ts : TraceSet) (rank : Rank) (seg : Addr)
    (s s1 : MpsState) (r : Res) (sg : SegStruct) (hsg : segGet s.arena seg = .ok sg)
    (hok : writeBarrierOK cfg sg)
    (h : TraceScan cfg env ts rank seg s = .ok (r, s1)) :
    ∃ sgF, segGet s1.arena seg = .ok sgF ∧ writeBarrierOK cfg sgF := by
  obtain ⟨sg0, _, _, hsg0, _, hcases⟩ := TraceScan_ok_inv cfg env ts rank seg s s1 r h
  rw [hsg] at hsg0
  simp only [Except.ok.injEq] at hsg0
  subst hsg0
  rcases hcases with ⟨_, _, sg2, hsg2, hs1⟩ |
    ⟨_, ss, res, wasTotal, ss1, a1, sg1, _, _, _, hsg1, _, _, _, hcases⟩
  · have hF := segGet_SegSetGrey cfg _ seg (TraceSetDiff cfg sg2.grey ts) sg2 hsg2
    rw [hs1]
    exact ⟨_, hF, writeBarrierOK_SegSetGrey cfg hW sg2 _ _ (hb _ _ _ _ _ _ hsg hsg2 hok)⟩
  · have hS : segGet (scanCounted ts ss1 (List.range cfg.TRACE_MAX)
        (SegSetSummary cfg a1 seg (scannedSegSummary cfg res wasTotal sg1.summary ss1))) seg =
        _ := segGet_SegSetSummary cfg a1 seg _ sg1 hsg1
    rcases hcases with ⟨_, hs1⟩ | ⟨_, sg3, _, hs1⟩
    · rw [hs1]
      exact ⟨_, hS, writeBarrierOK_SegSetSummary cfg sg1 _⟩
    · have hF := segGet_SegSetGrey cfg _ seg (TraceSetDiff cfg sg3.grey ts) _ hS
      rw [hs1]
      exact ⟨_, hF, writeBarrierOK_SegSetGrey cfg hW _ _ _
        (writeBarrierOK_SegSetSummary cfg sg1 _)⟩

/-- The read-barrier branch of `TraceAccess` leaves the write barrier of the
segment in agreement with its summary, if `PoolBlacken` does. -/
theorem accessRead_barrier (cfg : Config) (env : Env) (hW : 1 < cfg.MPS_WORD_WIDTH)
    (hb : BlackenKeepsBarrier cfg env) (seg : Addr) (s s3 : MpsState) (sg : SegStruct)
    (hsg : segGet s.arena seg = .ok sg) (hok : writeBarrierOK cfg sg)
    (h : accessRead cfg env seg s = .ok s3) :
    ∃ sg3, segGet s3.arena seg = .ok sg3 ∧ writeBarrierOK cfg sg3 := by
  obtain ⟨r1, s1, s2, _, hscan, hcases, _, _, hs3⟩ := accessRead_ok_inv cfg env seg s s3 h
  obtain ⟨sgA, hA, hokA⟩ := TraceScan_barrier cfg env hW hb _ _ seg s s1 r1 sg hsg hok hscan
  have h2 : ∃ sg2, segGet s2.arena seg = .ok sg2 ∧ writeBarrierOK cfg sg2 := by
    rcases hcases with ⟨_, hs2⟩ | ⟨_, hscan2⟩
    · rw [hs2]
      exact ⟨sgA, hA, hokA⟩
    · refine TraceScan_barrier cfg env hW hb _ _ seg _ s2 Res.OK sgA ?_ hokA hscan2
      show segGet (accessEmergency s.arena.busyTraces (List.range cfg.TRACE_MAX) s1.arena) seg
        = .ok sgA
      rw [segGet_of_segs _ _ seg (accessEmergency_segs _ _ _)]
      exact hA
  obtain ⟨sg2, h2a, h2b⟩ := h2
  refine ⟨sg2, ?_, h2b⟩
  rw [hs3]
  show segGet (accessCountFaults (List.range cfg.TRACE_MAX) s2.arena) seg = .ok sg2
  rw [segGet_of_segs _ _ seg (accessCountFaults_segs _ _)]
  exact h2a

/-! ## `traceFindGrey` -/

/-- The loop of `traceFindGrey` over an increasing list of ranks: it returns,
it answers `none` only when no ring of the list holds a segment grey for the
trace, and it answers a segment of the first ring of the list that holds
one. -/
theorem findGreyRanks_spec (a : ArenaStruct) (ti : TraceId) :
    ∀ ranks : List Rank, ranks.Pairwise (fun x y => x < y) →
      ∃ found, findGreyRanks a ti ranks = .ok found ∧
        (found = none → ∀ r ∈ ranks, ∀ sg ∈ ArenaGreyRing a r,
          TraceSetIsMember sg.grey ti = false) ∧
        (∀ seg r, found = some (seg, r) →
          r ∈ ranks ∧
          (∃ sg ∈ ArenaGreyRing a r, sg.base = seg ∧ TraceSetIsMember sg.grey ti = true) ∧
          ∀ q ∈ ranks, q < r → ∀ sg ∈ ArenaGreyRing a q,
            TraceSetIsMember sg.grey ti = false) := by
  intro ranks
  induction ranks with
  | nil =>
    intro _
    refine ⟨none, rfl, fun _ r hr => ?_, fun seg r h => ?_⟩
    · cases hr
    · cases h
  | cons rank ranks ih =>
    intro hp
    rw [List.pairwise_cons] at hp
    simp only [findGreyRanks, findGreyRing_eq]
    cases hf : (ArenaGreyRing a rank).find? (fun sg => TraceSetIsMember sg.grey ti) with
    | some sg =>
      have hmem := List.mem_of_find?_eq_some hf
      have hgrey := List.find?_some hf
      refine ⟨some (sg.base, rank), rfl, fun h => ?_, fun seg r h => ?_⟩
      · cases h
      · simp only [Option.some.injEq, Prod.mk.injEq] at h
        obtain ⟨h1, h2⟩ := h
        subst h1 h2
        refine ⟨List.mem_cons_self _ _, ⟨sg, hmem, rfl, hgrey⟩, fun q hq hlt => ?_⟩
        rcases List.mem_cons.mp hq with heq | hin
        · exact absurd hlt (by rw [heq]; exact Nat.lt_irrefl _)
        · exact absurd hlt (Nat.lt_asymm (hp.1 q hin))
    | none =>
      have hnone : ∀ sg ∈ ArenaGreyRing a rank, TraceSetIsMember sg.grey ti = false := by
        intro sg hsg
        have := List.find?_eq_none.mp hf sg hsg
        simpa using this
      obtain ⟨found, hfound, hN, hS⟩ := ih hp.2
      refine ⟨found, ?_, fun h r hr => ?_, fun seg r h => ?_⟩
      · simp only [Option.map_none', bind, Except.bind]
        exact hfound
      · rcases List.mem_cons.mp hr with heq | hin
        · rw [heq]
          exact hnone
        · exact hN h r hin
      · obtain ⟨hr, hex, hlow⟩ := hS seg r h
        refine ⟨List.mem_cons_of_mem _ hr, hex, fun q hq hlt => ?_⟩
        rcases List.mem_cons.mp hq with heq | hin
        · rw [heq]
          exact hnone
        · exact hlow q hin hlt

/-- `traceFindGrey` returns; it answers FALSE only when no grey ring holds a
segment grey for the trace, and a segment of rank `r` only when the ring of
rank `r` holds it, grey for the trace, and no ring of a lower rank holds a
segment grey for the trace. -/
theorem traceFindGrey_spec (cfg : Config) (a : ArenaStruct) (ti : TraceId)
    (hti : TraceIdCheck cfg ti = true) :
    ∃ found, traceFindGrey cfg a ti = .ok found ∧
      (found = none → ∀ r, r < cfg.RankMAX → ∀ sg ∈ ArenaGreyRing a r,
        TraceSetIsMember sg.grey ti = false) ∧
      (∀ seg r, found = some (seg, r) →
        r < cfg.RankMAX ∧
        (∃ sg ∈ ArenaGreyRing a r, sg.base = seg ∧ TraceSetIsMember sg.grey ti = true) ∧
        ∀ q, q < r → ∀ sg ∈ ArenaGreyRing a q, TraceSetIsMember sg.grey ti = false) := by
  obtain ⟨found, hfound, hN, hS⟩ :=
    findGreyRanks_spec a ti (List.range cfg.RankMAX)
      (List.pairwise_lt_range _)
  refine ⟨found, ?_, fun h r hr => hN h r (List.mem_range.mpr hr), fun seg r h => ?_⟩
  · unfold traceFindGrey
    rw [aver_true_bind _ _ hti]
    exact hfound
  · obtain ⟨hr, hex, hlow⟩ := hS seg r h
    have hr1 := List.mem_range.mp hr
    exact ⟨hr1, hex, fun q hq => hlow q (List.mem_range.mpr (Nat.lt_trans hq hr1)) hq⟩

/-! ## The root scan of `TraceFlip` -/

theorem rootGet_congr (a a1 : ArenaStruct) (h : a1.roots = a.roots) (r : RootId) :
    rootGet a1 r = rootGet a r := by
  unfold rootGet
  rw [h]

theorem find_root_of_mem (r : RootStruct) :
    ∀ l : List RootStruct, (l.map (fun x => x.id)).Nodup → r ∈ l →
      l.find? (fun x => x.id == r.id) = some r := by
  intro l
  induction l with
  | nil =>
    intro _ hm
    cases hm
  | cons y ys ih =>
    intro hd hm
    simp only [List.map_cons, List.nodup_cons] at hd
    rcases List.mem_cons.mp hm with h | h
    · subst h
      simp
    · have hne : y.id ≠ r.id := by
        intro he
        apply hd.1
        rw [he]
        exact List.mem_map_of_mem _ h
      rw [List.find?_cons, show (y.id == r.id) = false by simpa using hne]
      exact ih hd.2 h

/-- In a root ring with distinct identifiers a root is found at its
identifier. -/
theorem rootGet_of_mem (a : ArenaStruct) (hd : rootsDistinct a) (r : RootStruct)
    (hm : r ∈ a.roots) : rootGet a r.id = .ok r := by
  unfold rootGet
  rw [find_root_of_mem r a.roots hd hm]

theorem ScanStateSetSummary_ok_inv (cfg : Config) (a : ArenaStruct) (ss ss1 : ScanStateStruct)
    (summary : RefSet) (h : ScanStateSetSummary cfg a ss summary = .ok ss1) :
    ScanStateCheck cfg a ss = true ∧
    ss1 = { ss with unfixedSummary := RefSetEMPTY, fixedSummary := summary } := by
  unfold ScanStateSetSummary at h
  simp only [bind_ok_iff, exists_aver_ok_iff, pure_ok_iff] at h
  obtain ⟨hc, _, _, _, h⟩ := h
  exact ⟨hc, h.symm⟩

/-- What the walk of `TraceFlip` over the root ring does for one rank: it
calls `RootScan` on the roots of that rank, in order, up to the first one
that fails, and counts each call in `rootScanCount`. -/
theorem flipRoots_run (cfg : Config) (env : Env) (hk : FlipKeeps env) (trace : TraceId) :
    ∀ (l : List RootStruct) (ss ss1 : ScanStateStruct) (s s1 : MpsState) (ret : Option Res),
      (∀ r ∈ l, rootGet s.arena r.id = .ok r) →
      flipRoots cfg env trace (l.map (fun r => r.id)) ss s = .ok (ret, ss1, s1) →
      ∃ k, k ≤ (rootScans l ss.rank).length ∧
        s1.events = s.events ++ (rootScans l ss.rank).take k ∧
        (∀ i, i ≠ trace → s1.arena.trace i = s.arena.trace i) ∧
        s1.arena.trace trace =
          { s.arena.trace trace with
            rootScanCount := (s.arena.trace trace).rootScanCount + k } ∧
        s1.arena.roots = s.arena.roots ∧ ss1.rank = ss.rank ∧
        (ret = none → k = (rootScans l ss.rank).length ∧ ∀ r ∈ l, r.rank ≤ RankEXACT) ∧
        (∀ res, ret = some res → 0 < k ∧ res ≠ Res.OK ∧
          ∃ a0 ss0 r0, (env.RootScan a0 ss0 r0).1 = res ∧
            ss0.fixedSummary = RefSetEMPTY ∧ ss0.unfixedSummary = RefSetEMPTY ∧
            ((rootScans l ss.rank).take k).getLast? = some (Event.RootScan r0 ss.rank)) := by
  intro l
  induction l with
  | nil =>
    intro ss ss1 s s1 ret _ h
    simp only [List.map_nil, flipRoots, Except.ok.injEq, Prod.mk.injEq] at h
    obtain ⟨h1, h2, h3⟩ := h
    subst h1 h2 h3
    refine ⟨0, Nat.zero_le _, by simp, fun _ _ => rfl, rfl, rfl, rfl,
      fun _ => ⟨rfl, fun r hr => (by cases hr)⟩, fun res hres => (by cases hres)⟩
  | cons r rest ih =>
    intro ss ss1 s s1 ret hget h
    simp only [List.map_cons, flipRoots, bind_ok_iff, exists_aver_ok_iff] at h
    obtain ⟨root, hroot, hrank, h⟩ := h
    rw [hget r (List.mem_cons_self _ _)] at hroot
    simp only [Except.ok.injEq] at hroot
    subst hroot
    simp only [decide_eq_true_eq] at hrank
    split at h
    · rename_i hmatch
      simp only [bind_ok_iff] at h
      obtain ⟨ssa, hset, h⟩ := h
      obtain ⟨_, hssa⟩ := ScanStateSetSummary_ok_inv cfg _ _ _ _ hset
      have hka := hk.2.2 s.arena ssa r.id
      rcases hrs : env.RootScan s.arena ssa r.id with ⟨res, ss2, a1⟩
      rw [hrs] at hka
      simp only at hka
      obtain ⟨hkt, hkr, hkk⟩ := hka
      simp only [hrs] at h
      have hrk : ssa.rank = ss.rank := by rw [hssa]
      have hfil : rootScans (r :: rest) ss.rank =
          Event.RootScan r.id ss.rank :: rootScans rest ss.rank := by
        simp only [rootScans, List.filter_cons, hmatch, if_true, List.map_cons]
      split at h
      · rename_i hne
        simp only [pure_ok_iff, Prod.mk.injEq] at h
        obtain ⟨h1, h2, h3⟩ := h
        subst h1 h2 h3
        refine ⟨1, by rw [hfil]; simp, ?_, ?_, ?_, hkr, by rw [hkk, hrk], fun hn => (by cases hn),
          fun res1 hres => ?_⟩
        · rw [hfil]
          simp [hrk]
        · intro i hi
          simp only [emit_arena]
          rw [setTrace_trace_ne _ _ _ _ hi, hkt]
        · simp only [emit_arena, setTrace_trace_same, hkt]
        · simp only [Option.some.injEq] at hres
          subst hres
          refine ⟨Nat.one_pos, by simpa using hne, s.arena, ssa, r.id, by rw [hrs], by rw [hssa],
            by rw [hssa], ?_⟩
          rw [hfil]
          simp
      · have hget2 : ∀ x ∈ rest, rootGet
            ({ (emit { s with arena := a1 } (Event.RootScan r.id ssa.rank)) with
                arena := setTrace (emit { s with arena := a1 }
                    (Event.RootScan r.id ssa.rank)).arena trace
                  { (emit { s with arena := a1 } (Event.RootScan r.id ssa.rank)).arena.trace
                      trace with
                    rootScanCount :=
                      ((emit { s with arena := a1 } (Event.RootScan r.id ssa.rank)).arena.trace
                        trace).rootScanCount + 1 } } : MpsState).arena x.id = .ok x := by
          intro x hx
          rw [rootGet_congr s.arena _ (by simpa using hkr)]
          exact hget x (List.mem_cons_of_mem _ hx)
        obtain ⟨k, hk1, hev, hoth, hthis, hroots, hssr, hnone, hsome⟩ :=
          ih ss2 ss1 _ s1 ret hget2 h
        have hr2 : ss2.rank = ss.rank := by rw [hkk, hrk]
        rw [hr2] at hk1 hev hnone hsome
        refine ⟨k + 1, by rw [hfil]; simpa using hk1, ?_, ?_, ?_, ?_, by rw [hssr, hr2],
          fun hn => ?_, fun res1 hres => ?_⟩
        · rw [hev, hfil]
          simp [hrk]
        · intro i hi
          rw [hoth i hi]
          simp only [emit_arena]
          rw [setTrace_trace_ne _ _ _ _ hi, hkt]
        · rw [hthis]
          simp only [emit_arena, setTrace_trace_same, hkt, Nat.add_assoc, Nat.add_comm 1 k]
        · rw [hroots]
          simpa using hkr
        · obtain ⟨h1, h2⟩ := hnone hn
          refine ⟨by rw [hfil, h1]; simp, fun x hx => ?_⟩
          rcases List.mem_cons.mp hx with he | hm
          · rw [he]
            exact hrank
          · exact h2 x hm
        · obtain ⟨h1, h2, a0, ss0, r0, h3, h4, h5, h6⟩ := hsome res1 hres
          refine ⟨Nat.succ_pos _, h2, a0, ss0, r0, h3, h4, h5, ?_⟩
          rw [hfil, List.take_succ_cons]
          cases hk0 : k with
          | zero => exact absurd h1 (by rw [hk0]; exact Nat.lt_irrefl 0)
          | succ m =>
            rw [hk0] at h6
            cases htk : (rootScans rest ss.rank).take (m + 1) with
            | nil =>
              rw [htk] at h6
              cases h6
            | cons y ys =>
              rw [htk] at h6
              rw [List.getLast?_cons_cons]
              exact h6
    · rename_i hmatch
      have hfil : rootScans (r :: rest) ss.rank = rootScans rest ss.rank := by
        simp only [rootScans, List.filter_cons, hmatch, Bool.false_eq_true, if_false]
      obtain ⟨k, hk1, hev, hoth, hthis, hroots, hssr, hnone, hsome⟩ :=
        ih ss ss1 s s1 ret (fun x hx => hget x (List.mem_cons_of_mem _ hx)) h
      rw [← hfil] at hk1 hev hnone hsome
      refine ⟨k, hk1, hev, hoth, hthis, hroots, hssr, fun hn => ?_, hsome⟩
      obtain ⟨h1, h2⟩ := hnone hn
      refine ⟨h1, fun x hx => ?_⟩
      rcases List.mem_cons.mp hx with he | hm
      · rw [he]
        exact hrank
      · exact h2 x hm

theorem flipRankLoop_exit (cfg : Config) (env : Env) (trace : TraceId) (fuel : Nat)
    (ss ss1 : ScanStateStruct) (s s1 : MpsState) (ret : Option Res)
    (hr : ¬ ss.rank ≤ RankEXACT)
    (h : flipRankLoop cfg env trace fuel ss s = .ok (ret, ss1, s1)) :
    ret = none ∧ ss1 = ss ∧ s1 = s := by
  cases fuel with
  | zero => simp [flipRankLoop] at h
  | succ n =>
    simp only [flipRankLoop, if_neg hr, pure_ok_iff, Prod.mk.injEq] at h
    exact ⟨h.1.symm, h.2.1.symm, h.2.2.symm⟩

theorem flipRankLoop_step (cfg : Config) (env : Env) (trace : TraceId) (fuel : Nat)
    (ss ss1 : ScanStateStruct) (s s1 : MpsState) (ret : Option Res)
    (hr : ss.rank ≤ RankEXACT)
    (h : flipRankLoop cfg env trace fuel ss s = .ok (ret, ss1, s1)) :
    ∃ n retm ssm sm, fuel = n + 1 ∧ ScanStateCheck cfg s.arena ss = true ∧
      flipRoots cfg env trace (s.arena.roots.map (fun r => r.id)) ss s = .ok (retm, ssm, sm) ∧
      ((∃ res, retm = some res ∧ ret = some res ∧ ss1 = ssm ∧ s1 = sm) ∨
       (retm = none ∧
         flipRankLoop cfg env trace n { ssm with rank := ssm.rank + 1 } sm =
           .ok (ret, ss1, s1))) := by
  cases fuel with
  | zero => simp [flipRankLoop] at h
  | succ n =>
    simp only [flipRankLoop, if_pos hr, bind_ok_iff, exists_aver_ok_iff] at h
    obtain ⟨hc, ⟨retm, ssm, sm⟩, hroots, h⟩ := h
    refine ⟨n, retm, ssm, sm, rfl, hc, hroots, ?_⟩
    cases retm with
    | some res =>
      simp only [pure_ok_iff, Prod.mk.injEq] at h
      exact Or.inl ⟨res, rfl, h.1.symm, h.2.1.symm, h.2.2.symm⟩
    | none => exact Or.inr ⟨rfl, h⟩

/-- With every rank AMBIG or EXACT, the roots of rank AMBIG and the roots of
rank EXACT are all the roots. -/
theorem rootScans_length (l : List RootStruct) (h : ∀ r ∈ l, r.rank ≤ RankEXACT) :
    (rootScans l RankAMBIG).length + (rootScans l RankEXACT).length = l.length := by
  induction l with
  | nil => rfl
  | cons r rest ih =>
    have hr := h r (List.mem_cons_self _ _)
    have ih1 := ih (fun x hx => h x (List.mem_cons_of_mem _ hx))
    simp only [rootScans, List.length_map] at ih1 ⊢
    simp only [RankEXACT, RankAMBIG] at hr ih1 ⊢
    rcases Nat.le_one_iff_eq_zero_or_eq_one.mp hr with h0 | h1
    · simp only [List.filter_cons, h0, beq_self_eq_true, if_true, List.length_cons]
      simp only [show ((0 : Nat) == 1) = false from rfl, Bool.false_eq_true, if_false]
      omega
    · simp only [List.filter_cons, h1, beq_self_eq_true, if_true, List.length_cons]
      simp only [show ((1 : Nat) == 0) = false from rfl, Bool.false_eq_true, if_false]
      omega

/-- What the root scan of `TraceFlip` does: it calls `RootScan` on the roots
of rank AMBIG, in ring order, and then on the roots of rank EXACT, in ring
order, up to the first call that fails, and counts each call in
`rootScanCount`. -/
theorem flipRankLoop_run (cfg : Config) (env : Env) (hk : FlipKeeps env) (trace : TraceId)
    (fuel : Nat) (ss ss1 : ScanStateStruct) (s s1 : MpsState) (ret : Option Res)
    (hd : rootsDistinct s.arena) (hr : ss.rank = RankAMBIG)
    (h : flipRankLoop cfg env trace fuel ss s = .ok (ret, ss1, s1)) :
    ∃ k, k ≤ (rootScans s.arena.roots RankAMBIG ++ rootScans s.arena.roots RankEXACT).length ∧
      s1.events = s.events ++
        (rootScans s.arena.roots RankAMBIG ++ rootScans s.arena.roots RankEXACT).take k ∧
      (∀ i, i ≠ trace → s1.arena.trace i = s.arena.trace i) ∧
      s1.arena.trace trace =
        { s.arena.trace trace with
          rootScanCount := (s.arena.trace trace).rootScanCount + k } ∧
      s1.arena.roots = s.arena.roots ∧
      (ret = none → k = s.arena.roots.length ∧
        k = (rootScans s.arena.roots RankAMBIG ++ rootScans s.arena.roots RankEXACT).length ∧
        (∀ r ∈ s.arena.roots, r.rank ≤ RankEXACT) ∧ ss1.rank = RankEXACT + 1) ∧
      (∀ res, ret = some res → 0 < k ∧ res ≠ Res.OK ∧
        ∃ a0 ss0 r0 q, (env.RootScan a0 ss0 r0).1 = res ∧
          ss0.fixedSummary = RefSetEMPTY ∧ ss0.unfixedSummary = RefSetEMPTY ∧
          ((rootScans s.arena.roots RankAMBIG ++ rootScans s.arena.roots RankEXACT).take
            k).getLast? = some (Event.RootScan r0 q)) := by
  obtain ⟨n, retm, ssm, sm, _, _, hroots, hcases⟩ :=
    flipRankLoop_step cfg env trace fuel ss ss1 s s1 ret (by rw [hr]; decide) h
  obtain ⟨k0, hk0, hev0, hoth0, hthis0, hr0, hrank0, hnone0, hsome0⟩ :=
    flipRoots_run cfg env hk trace s.arena.roots ss ssm s sm retm
      (fun r hm => rootGet_of_mem s.arena hd r hm) hroots
  rw [hr] at hk0 hev0 hnone0 hsome0 hrank0
  rcases hcases with ⟨res, hretm, hret, hss1, hs1⟩ | ⟨hretm, hnext⟩
  · -- a root of rank AMBIG fails
    subst hss1 hs1
    obtain ⟨hpos, hne, a0, ss0, r0, hres, hf, hu, hlast⟩ := hsome0 res hretm
    have htake : (rootScans s.arena.roots RankAMBIG ++ rootScans s.arena.roots RankEXACT).take
        k0 = (rootScans s.arena.roots RankAMBIG).take k0 :=
      List.take_append_of_le_length hk0
    refine ⟨k0, ?_, ?_, hoth0, hthis0, hr0, fun hn => ?_, fun res1 hres1 => ?_⟩
    · rw [List.length_append]
      exact Nat.le_trans hk0 (Nat.le_add_right _ _)
    · rw [htake]
      exact hev0
    · rw [hret] at hn
      cases hn
    · rw [hret] at hres1
      simp only [Option.some.injEq] at hres1
      subst hres1
      exact ⟨hpos, hne, a0, ss0, r0, RankAMBIG, hres, hf, hu, by rw [htake]; exact hlast⟩
  · -- the roots of rank AMBIG are done
    obtain ⟨hk0e, hranks⟩ := hnone0 hretm
    have hrk1 : ({ ssm with rank := ssm.rank + 1 } : ScanStateStruct).rank = RankEXACT := by
      show ssm.rank + 1 = RankEXACT
      rw [hrank0]
      rfl
    obtain ⟨n1, retm1, ssm1, sm1, _, _, hroots1, hcases1⟩ :=
      flipRankLoop_step cfg env trace n _ ss1 sm s1 ret (by rw [hrk1]) hnext
    rw [hr0] at hroots1
    obtain ⟨k1, hk1, hev1, hoth1, hthis1, hr1, hrank1, hnone1, hsome1⟩ :=
      flipRoots_run cfg env hk trace s.arena.roots _ ssm1 sm sm1 retm1
        (fun r hm => by
          rw [rootGet_congr s.arena sm.arena hr0]
          exact rootGet_of_mem s.arena hd r hm) hroots1
    rw [hrk1] at hk1 hev1 hnone1 hsome1 hrank1
    have htake : (rootScans s.arena.roots RankAMBIG ++ rootScans s.arena.roots RankEXACT).take
        (k0 + k1) =
        rootScans s.arena.roots RankAMBIG ++ (rootScans s.arena.roots RankEXACT).take k1 := by
      rw [hk0e, List.take_append]
    have hevs : sm1.events = s.events ++
        (rootScans s.arena.roots RankAMBIG ++ rootScans s.arena.roots RankEXACT).take
          (k0 + k1) := by
      rw [htake, hev1, hev0, hk0e, List.take_length, List.append_assoc]
    have hth : sm1.arena.trace trace =
        { s.arena.trace trace with
          rootScanCount := (s.arena.trace trace).rootScanCount + (k0 + k1) } := by
      rw [hthis1, hthis0]
      simp only [Nat.add_assoc]
    have hle : k0 + k1 ≤
        (rootScans s.arena.roots RankAMBIG ++ rootScans s.arena.roots RankEXACT).length := by
      rw [List.length_append, hk0e]
      exact Nat.add_le_add_left hk1 _
    rcases hcases1 with ⟨res, hretm1, hret, hss1, hs1⟩ | ⟨hretm1, hnext1⟩
    · -- a root of rank EXACT fails
      subst hss1 hs1
      obtain ⟨hpos, hne, a0, ss0, r0, hres, hf, hu, hlast⟩ := hsome1 res hretm1
      refine ⟨k0 + k1, hle, hevs, fun i hi => (hoth1 i hi).trans (hoth0 i hi), hth,
        hr1.trans hr0, fun hn => ?_, fun res1 hres1 => ?_⟩
      · rw [hret] at hn
        cases hn
      · rw [hret] at hres1
        simp only [Option.some.injEq] at hres1
        subst hres1
        refine ⟨Nat.lt_of_lt_of_le hpos (Nat.le_add_left _ _), hne, a0, ss0, r0, RankEXACT,
          hres, hf, hu, ?_⟩
        rw [htake, List.getLast?_append, hlast]
        rfl
    · -- every root is scanned
      obtain ⟨hk1e, _⟩ := hnone1 hretm1
      obtain ⟨hret, hss1, hs1⟩ := flipRankLoop_exit cfg env trace n1 _ ss1 sm1 s1 ret
        (by
          show ¬ ssm1.rank + 1 ≤ RankEXACT
          rw [hrank1]
          decide) hnext1
      subst hs1
      refine ⟨k0 + k1, hle, hevs, fun i hi => (hoth1 i hi).trans (hoth0 i hi), hth,
        hr1.trans hr0, fun _ => ⟨?_, ?_, hranks, ?_⟩, fun res1 hres1 => ?_⟩
      · rw [hk0e, hk1e]
        exact rootScans_length _ hranks
      · rw [List.length_append, hk0e, hk1e]
      · rw [hss1]
        show ssm1.rank + 1 = RankEXACT + 1
        rw [hrank1]
      · rw [hret] at hres1
        cases hres1

/-! ## The buffer flip and the read barriers of `TraceFlip` -/

theorem flipPoolBuffers_run (env : Env) (hk : FlipKeeps env) :
    ∀ (bs : List BufferId) (s : MpsState),
      (flipPoolBuffers env bs s).events = s.events ++ bs.map Event.BufferFlip ∧
      (flipPoolBuffers env bs s).arena.trace = s.arena.trace ∧
      (flipPoolBuffers env bs s).arena.roots = s.arena.roots := by
  intro bs
  induction bs with
  | nil =>
    intro s
    simp [flipPoolBuffers]
  | cons b bs ih =>
    intro s
    simp only [flipPoolBuffers]
    obtain ⟨h1, h2, h3⟩ := ih (emit { s with arena := env.BufferFlip s.arena b }
      (Event.BufferFlip b))
    rw [h1, h2, h3]
    simp only [emit_events, emit_arena, List.map_cons, List.append_assoc, List.singleton_append]
    exact ⟨trivial, (hk.1 s.arena b).1, (hk.1 s.arena b).2⟩

theorem flipBuffersLoop_run (env : Env) (hk : FlipKeeps env) :
    ∀ (ps : List PoolId) (s s1 : MpsState), flipBuffersLoop env ps s = .ok s1 →
      ∃ bufs : List BufferId, s1.events = s.events ++ bufs.map Event.BufferFlip ∧
        s1.arena.trace = s.arena.trace ∧ s1.arena.roots = s.arena.roots := by
  intro ps
  induction ps with
  | nil =>
    intro s s1 h
    simp only [flipBuffersLoop, Except.ok.injEq] at h
    subst h
    exact ⟨[], by simp, rfl, rfl⟩
  | cons p ps ih =>
    intro s s1 h
    simp only [flipBuffersLoop] at h
    cases hp : poolGet s.arena p with
    | error f => simp [hp] at h
    | ok pool =>
      simp only [hp] at h
      obtain ⟨bufs, h1, h2, h3⟩ := ih _ _ h
      obtain ⟨e1, e2, e3⟩ := flipPoolBuffers_run env hk pool.buffers s
      refine ⟨pool.buffers ++ bufs, ?_, h2.trans e2, h3.trans e3⟩
      rw [h1, e1, List.map_append, List.append_assoc]

theorem flipRaiseRing_run (trace : TraceId) :
    ∀ (segs : List Addr) (s s1 : MpsState), flipRaiseRing trace segs s = .ok s1 →
      ∃ raised : List Addr,
        s1.events = s.events ++ raised.map (fun seg => Event.ShieldRaise seg AccessREAD) ∧
        s1.arena.trace = s.arena.trace ∧ s1.arena.roots = s.arena.roots ∧
        s1.arena.flippedTraces = s.arena.flippedTraces ∧
        s1.arena.busyTraces = s.arena.busyTraces := by
  intro segs
  induction segs with
  | nil =>
    intro s s1 h
    simp only [flipRaiseRing, Except.ok.injEq] at h
    subst h
    exact ⟨[], by simp, rfl, rfl, rfl, rfl⟩
  | cons seg rest ih =>
    intro s s1 h
    simp only [flipRaiseRing, bind_ok_iff] at h
    obtain ⟨sg, _, h⟩ := h
    split at h
    · obtain ⟨raised, h1, h2, h3, h4, h5⟩ := ih _ _ h
      refine ⟨seg :: raised, ?_, h2, h3, h4, h5⟩
      rw [h1]
      simp [ShieldRaise]
    · exact ih _ _ h

theorem flipRaise_run (trace : TraceId) :
    ∀ (ranks : List Rank) (s s1 : MpsState), flipRaise trace ranks s = .ok s1 →
      ∃ raised : List Addr,
        s1.events = s.events ++ raised.map (fun seg => Event.ShieldRaise seg AccessREAD) ∧
        s1.arena.trace = s.arena.trace ∧ s1.arena.roots = s.arena.roots ∧
        s1.arena.flippedTraces = s.arena.flippedTraces ∧
        s1.arena.busyTraces = s.arena.busyTraces := by
  intro ranks
  induction ranks with
  | nil =>
    intro s s1 h
    simp only [flipRaise, Except.ok.injEq] at h
    subst h
    exact ⟨[], by simp, rfl, rfl, rfl, rfl⟩
  | cons rank ranks ih =>
    intro s s1 h
    simp only [flipRaise, bind_ok_iff] at h
    obtain ⟨s2, hring, h⟩ := h
    obtain ⟨r1, a1, a2, a3, a4, a5⟩ := flipRaiseRing_run trace _ _ _ hring
    obtain ⟨r2, b1, b2, b3, b4, b5⟩ := ih _ _ h
    refine ⟨r1 ++ r2, ?_, b2.trans a2, b3.trans a3, b4.trans a4, b5.trans a5⟩
    rw [b1, a1, List.map_append, List.append_assoc]

theorem TraceUpdateCounts_rootScan (cfg : Config) (a a1 : ArenaStruct) (trace : TraceId)
    (ss : ScanStateStruct)
    (h : TraceUpdateCounts cfg a trace ss TraceAccountingPhase.TraceAccountingPhaseRootScan =
      .ok a1) :
    a1 = setTrace a trace (addRootScan ss (a.trace trace)) := by
  unfold TraceUpdateCounts at h
  simp only [bind_ok_iff, exists_aver_ok_iff, pure_ok_iff] at h
  obtain ⟨_, _, h⟩ := h
  rw [← h]
  rfl

/-- What a `TraceFlip` that returns has done, as far as its calls and the
slot of its trace go. After `ShieldSuspend` it flips the buffers and ages
the location dependencies, then scans roots: all of them, the AMBIG ones
before the EXACT ones, when it returns OK, in which case it goes on to add
the counters of the scan state to the trace, to raise read barriers and to
call `ShieldResume`; and the roots up to the one whose scan fails when it
returns an error, in which case it does nothing more. -/
theorem TraceFlip_run (cfg : Config) (env : Env) (hk : FlipKeeps env) (fuel : Nat)
    (trace : TraceId) (s s1 : MpsState) (r : Res) (hd : rootsDistinct s.arena)
    (h : TraceFlip cfg env fuel trace s = .ok (r, s1)) :
    ∃ (pre : List Event) (k : Nat),
      (∀ e ∈ pre, (∃ b, e = Event.BufferFlip b) ∨ ∃ rs, e = Event.LDAge rs) ∧
      k ≤ (rootScans s.arena.roots RankAMBIG ++ rootScans s.arena.roots RankEXACT).length ∧
      (∀ i, i ≠ trace → s1.arena.trace i = s.arena.trace i) ∧
      s1.arena.roots = s.arena.roots ∧
      ((r = Res.OK ∧ k = s.arena.roots.length ∧
          k = (rootScans s.arena.roots RankAMBIG ++ rootScans s.arena.roots RankEXACT).length ∧
          (∀ x ∈ s.arena.roots, x.rank ≤ RankEXACT) ∧
          ∃ (raised : List Addr) (s2 s3 : MpsState) (ss0 ssF : ScanStateStruct),
            ScanStateInit cfg s2.arena (TraceSetSingle trace) RankAMBIG
              (s.arena.trace trace).white = .ok ss0 ∧
            flipRankLoop cfg env trace fuel ss0 s2 = .ok (none, ssF, s3) ∧
            s1.events = s.events ++ Event.ShieldSuspend :: (pre ++
              ((rootScans s.arena.roots RankAMBIG ++ rootScans s.arena.roots RankEXACT) ++
                (raised.map (fun seg => Event.ShieldRaise seg AccessREAD) ++
                  [Event.ShieldResume]))) ∧
            s1.arena.trace trace =
              { addRootScan ssF
                  { s.arena.trace trace with
                    rootScanCount := (s.arena.trace trace).rootScanCount + k } with
                state := TraceState.TraceFLIPPED }) ∨
       (r ≠ Res.OK ∧ 0 < k ∧
          s1.events = s.events ++ Event.ShieldSuspend :: (pre ++
            (rootScans s.arena.roots RankAMBIG ++ rootScans s.arena.roots RankEXACT).take k) ∧
          s1.arena.trace trace =
            { s.arena.trace trace with
              rootScanCount := (s.arena.trace trace).rootScanCount + k } ∧
          ∃ a0 ss0 r0 q, (env.RootScan a0 ss0 r0).1 = r ∧
            ss0.fixedSummary = RefSetEMPTY ∧ ss0.unfixedSummary = RefSetEMPTY ∧
            ((rootScans s.arena.roots RankAMBIG ++ rootScans s.arena.roots RankEXACT).take
              k).getLast? = some (Event.RootScan r0 q))) := by
  unfold TraceFlip at h
  simp only [bind_ok_iff, exists_aver_ok_iff, emit_arena] at h
  obtain ⟨hc, _, _, sa, hbuf, ss, hinit, ⟨ret, ss1, s3⟩, hloop, h⟩ := h
  have hti := TraceCheck_ti cfg _ _ hc
  obtain ⟨bufs, hb1, hb2, hb3⟩ := flipBuffersLoop_run env hk _ _ _ hbuf
  simp only [emit_events, emit_arena] at hb1 hb2 hb3
  -- the state after `LDAge`
  obtain ⟨s2, hs2, pre, hpre, he2, ht2, hr2⟩ : ∃ s2 : MpsState,
      s2 = (if ((sa.arena.trace trace).mayMove != RefSetEMPTY) = true then
              emit { sa with arena := env.LDAge sa.arena (sa.arena.trace trace).mayMove }
                (Event.LDAge (sa.arena.trace trace).mayMove)
            else sa) ∧
      ∃ pre : List Event,
        (∀ e ∈ pre, (∃ b, e = Event.BufferFlip b) ∨ ∃ rs, e = Event.LDAge rs) ∧
        s2.events = s.events ++ Event.ShieldSuspend :: pre ∧
        s2.arena.trace = s.arena.trace ∧ s2.arena.roots = s.arena.roots := by
    refine ⟨_, rfl, ?_⟩
    split
    · refine ⟨bufs.map Event.BufferFlip ++ [Event.LDAge (sa.arena.trace trace).mayMove],
        fun e he => ?_, ?_, ?_, ?_⟩
      · rcases List.mem_append.mp he with h1 | h1
        · obtain ⟨b, _, hb⟩ := List.mem_map.mp h1
          exact Or.inl ⟨b, hb.symm⟩
        · simp only [List.mem_singleton] at h1
          exact Or.inr ⟨_, h1⟩
      · simp only [emit_events, hb1, List.append_assoc, List.singleton_append,
          List.cons_append, List.nil_append]
      · simp only [emit_arena]
        rw [(hk.2.1 _ _).1, hb2]
      · simp only [emit_arena]
        rw [(hk.2.1 _ _).2, hb3]
    · refine ⟨bufs.map Event.BufferFlip, fun e he => ?_, ?_, hb2, hb3⟩
      · obtain ⟨b, _, hb⟩ := List.mem_map.mp he
        exact Or.inl ⟨b, hb.symm⟩
      · simp only [hb1, List.append_assoc, List.singleton_append]
  rw [← hs2] at hinit hloop
  have hss : ({ ss with rank := RankAMBIG } : ScanStateStruct) = ss := by
    unfold ScanStateInit at hinit
    simp only [bind_ok_iff, exists_aver_ok_iff, pure_ok_iff] at hinit
    obtain ⟨_, _, hinit⟩ := hinit
    rw [← hinit]
  rw [hss] at hloop
  have hrank : ss.rank = RankAMBIG := by rw [← hss]
  have hd2 : rootsDistinct s2.arena := by
    unfold rootsDistinct
    rw [hr2]
    exact hd
  obtain ⟨k, hk1, hev, hoth, hthis, hroots, hnone, hsome⟩ :=
    flipRankLoop_run cfg env hk trace fuel ss ss1 s2 s3 ret hd2 hrank hloop
  rw [hr2] at hk1 hev hnone hsome hroots
  rw [ht2] at hoth hthis
  rw [ht2, hti] at hinit
  refine ⟨pre, k, hpre, hk1, ?_⟩
  cases ret with
  | some res =>
    simp only [pure_ok_iff, Prod.mk.injEq] at h
    obtain ⟨hr, hs⟩ := h
    subst hr hs
    obtain ⟨hpos, hne, hex⟩ := hsome res rfl
    refine ⟨hoth, hroots, Or.inr ⟨hne, hpos, ?_, hthis, hex⟩⟩
    rw [hev, he2]
    simp only [List.append_assoc, List.cons_append]
  | none =>
    simp only [bind_ok_iff, pure_ok_iff, Prod.mk.injEq] at h
    obtain ⟨a4, hupd, _, _, s5, hraise, hr, hs1⟩ := h
    have ha4 := TraceUpdateCounts_rootScan cfg _ _ _ _ hupd
    obtain ⟨raised, hr1, hr2t, hr3, _, _⟩ := flipRaise_run trace _ _ _ hraise
    simp only at hr1 hr2t hr3
    obtain ⟨hkl, hkl2, hranks, _⟩ := hnone rfl
    subst hr
    rw [← hs1]
    refine ⟨fun i hi => ?_, ?_, Or.inl ⟨rfl, hkl, hkl2, hranks, raised, s2, s3, ss, ss1, hinit,
      hloop, ?_, ?_⟩⟩
    · simp only [emit_arena]
      rw [setTrace_trace_ne _ _ _ _ hi, hr2t, ha4, setTrace_trace_ne _ _ _ _ hi]
      exact hoth i hi
    · simp only [emit_arena, setTrace_roots]
      rw [hr3, ha4, setTrace_roots]
      exact hroots
    · simp only [emit_events]
      rw [hr1, hev, he2, hkl2, List.take_length]
      simp only [List.append_assoc, List.cons_append]
    · simp only [emit_arena, setTrace_trace_same]
      rw [hr2t, ha4, setTrace_trace_same, hthis]

theorem mem_rootScans (l : List RootStruct) (q : Rank) (e : Event) (h : e ∈ rootScans l q) :
    ∃ r0, e = Event.RootScan r0 q := by
  unfold rootScans at h
  obtain ⟨x, _, hx⟩ := List.mem_map.mp h
  exact ⟨x.id, hx.symm⟩

/-- The calls that `TraceFlip` makes up to the end of the root scan are
calls of `BufferFlip`, `LDAge` and `RootScan`. -/
theorem flip_calls_kind (l : List RootStruct) (pre : List Event) (k : Nat)
    (hpre : ∀ e ∈ pre, (∃ b, e = Event.BufferFlip b) ∨ ∃ rs, e = Event.LDAge rs) :
    ∀ e ∈ pre ++ (rootScans l RankAMBIG ++ rootScans l RankEXACT).take k,
      (∃ b, e = Event.BufferFlip b) ∨ (∃ rs, e = Event.LDAge rs) ∨
        ∃ r0 q, e = Event.RootScan r0 q := by
  intro e he
  rcases List.mem_append.mp he with h1 | h1
  · rcases hpre e h1 with h2 | h2
    · exact Or.inl h2
    · exact Or.inr (Or.inl h2)
  · rcases List.mem_append.mp (List.mem_of_mem_take h1) with h2 | h2
    · obtain ⟨r0, hr0⟩ := mem_rootScans _ _ _ h2
      exact Or.inr (Or.inr ⟨r0, _, hr0⟩)
    · obtain ⟨r0, hr0⟩ := mem_rootScans _ _ _ h2
      exact Or.inr (Or.inr ⟨r0, _, hr0⟩)

theorem envRoots_keepsCtl : EnvKeepsCtl envRoots := by
  refine ⟨fun a pool ti seg => ?_, fun a pool ti seg => ?_, fun a pool ts seg => ?_,
    fun a ss pool seg => ?_, fun a pool ti seg => ?_, fun a root ti => ?_,
    fun a ss root => ?_, fun a buffer => ?_, fun a rs => ?_⟩
  all_goals exact ⟨⟨rfl, rfl, fun _ => rfl⟩, fun _ => rfl⟩

theorem envRootFail_flipKeeps : FlipKeeps envRootFail := by
  refine ⟨fun _ _ => ⟨rfl, rfl⟩, fun _ _ => ⟨rfl, rfl⟩, fun a ss root => ?_⟩
  simp only [envRootFail]
  split <;> exact ⟨rfl, rfl, rfl⟩

/-- `TraceStart` on a trace with a non-empty white set is the grey phase, the
rate, and `TraceFlip`, whose result it returns. -/
theorem TraceStart_ok_inv (cfg : Config) (env : Env) (fuel : Nat) (trace : TraceId)
    (s s1 : MpsState) (r : Res) (hw : (s.arena.trace trace).white ≠ RefSetEMPTY)
    (h : TraceStart cfg env fuel trace s = .ok (r, s1)) :
    TraceCheck cfg s.arena trace = true ∧
    (s.arena.trace trace).state = TraceState.TraceINIT ∧
    ∃ ret sg sr, forSegs (startGreyBody cfg env trace) fuel s = .ok (ret, sg) ∧
      startGreyRoots env trace (sg.arena.roots.map (fun x => x.id)) sg = .ok sr ∧
      TraceFlip cfg env fuel trace
        { sr with arena := (setTrace
            (setTrace sr.arena trace
              { sr.arena.trace trace with rate := traceRate cfg (sr.arena.trace trace) }) trace
            { (setTrace sr.arena trace
                { sr.arena.trace trace with
                  rate := traceRate cfg (sr.arena.trace trace) }).trace trace with
              state := TraceState.TraceUNFLIPPED }) } = .ok (r, s1) := by
  unfold TraceStart at h
  simp only [bind_ok_iff, exists_aver_ok_iff, beq_iff_eq] at h
  obtain ⟨hc, hst, h⟩ := h
  rw [if_neg hw] at h
  simp only [bind_ok_iff] at h
  obtain ⟨⟨ret, sg⟩, hsegs, sr, hroots, h⟩ := h
  exact ⟨hc, hst, ret, sg, sr, hsegs, hroots, h⟩

theorem envRoots_greyLocal : GreyLocal envRoots := by
  intro a pool ti seg
  refine ⟨rfl, rfl, rfl, ?_⟩
  simp only [envRoots, envCollect, envWhiten, segUpdate, List.map_map]
  apply List.map_congr_left
  intro sg _
  simp only [Function.comp]
  split
  · rename_i hb
    simp [segGreyKey, hb]
  · rfl

theorem envRoots_rootGreyKeeps : RootGreyKeeps envRoots := fun _ _ _ => ⟨rfl, rfl⟩

/-! ## The grey phase of `TraceStart` -/

/-- What the body of the segment loop of `TraceStart` does. -/
theorem startGreyBody_ok_inv (cfg : Config) (env : Env) (trace : TraceId) (seg : Addr)
    (s s1 : MpsState) (ret : Option Res)
    (h : startGreyBody cfg env trace seg s = .ok (ret, s1)) :
    ∃ sg, segGet s.arena seg = .ok sg ∧ ret = none ∧
      TraceSetIsMember sg.grey (s.arena.trace trace).ti = false ∧
      ((greyable (s.arena.trace trace).white sg = false ∧ s1 = s) ∨
       (greyable (s.arena.trace trace).white sg = true ∧
         ∃ sg1, segGet (env.PoolGrey s.arena sg.pool trace seg) seg = .ok sg1 ∧
          ((TraceSetIsMember sg1.grey
                ((env.PoolGrey s.arena sg.pool trace seg).trace trace).ti = true ∧
              s1 = { arena := setTrace (env.PoolGrey s.arena sg.pool trace seg) trace
                       { (env.PoolGrey s.arena sg.pool trace seg).trace trace with
                         foundation :=
                           (((env.PoolGrey s.arena sg.pool trace seg).trace trace).foundation
                             + SegSize sg1) % 2 ^ cfg.MPS_WORD_WIDTH },
                     events := s.events ++ [Event.PoolGrey sg.pool trace seg] }) ∨
           (TraceSetIsMember sg1.grey
                ((env.PoolGrey s.arena sg.pool trace seg).trace trace).ti = false ∧
              s1 = { arena := env.PoolGrey s.arena sg.pool trace seg,
                     events := s.events ++ [Event.PoolGrey sg.pool trace seg] })))) := by
  unfold startGreyBody at h
  simp only [bind_ok_iff, exists_aver_ok_iff] at h
  obtain ⟨sg, hsg, hng, h⟩ := h
  simp only [Bool.not_eq_true'] at hng
  refine ⟨sg, hsg, ?_⟩
  by_cases hrs : (sg.rankSet != RankSetEMPTY) = true
  · rw [if_pos hrs] at h
    simp only [bind_ok_iff, exists_aver_ok_iff] at h
    obtain ⟨p, _, _, h⟩ := h
    by_cases hsum : (RefSetInter sg.summary (s.arena.trace trace).white != RefSetEMPTY) = true
    · rw [if_pos hsum] at h
      simp only [bind_ok_iff, emit_arena] at h
      obtain ⟨sg1, hsg1, h⟩ := h
      have hgr : greyable (s.arena.trace trace).white sg = true := by
        unfold greyable
        rw [hrs, hsum]
        rfl
      split at h
      · rename_i hm
        simp only [pure_ok_iff, Prod.mk.injEq] at h
        exact ⟨h.1.symm, hng, Or.inr ⟨hgr, sg1, hsg1, Or.inl ⟨hm, h.2.symm⟩⟩⟩
      · rename_i hm
        simp only [pure_ok_iff, Prod.mk.injEq] at h
        exact ⟨h.1.symm, hng, Or.inr ⟨hgr, sg1, hsg1,
          Or.inr ⟨by simpa using hm, h.2.symm⟩⟩⟩
    · rw [if_neg hsum] at h
      simp only [pure_ok_iff, Prod.mk.injEq] at h
      refine ⟨h.1.symm, hng, Or.inl ⟨?_, h.2.symm⟩⟩
      unfold greyable
      simp only [Bool.not_eq_true] at hsum
      rw [hsum, Bool.and_false]
  · rw [if_neg hrs] at h
    simp only [pure_ok_iff, Prod.mk.injEq] at h
    refine ⟨h.1.symm, hng, Or.inl ⟨?_, h.2.symm⟩⟩
    unfold greyable
    simp only [Bool.not_eq_true] at hrs
    rw [hrs, Bool.false_and]

theorem segFind_greyKey (ti : TraceId) (x : Addr) (a a1 : ArenaStruct) (seg : Addr)
    (h : a1.segs.map (segGreyKey ti x) = a.segs.map (segGreyKey ti x)) :
    (segFind a1 seg).map (segGreyKey ti x) = (segFind a seg).map (segGreyKey ti x) :=
  find_map_congr (segGreyKey ti x) (fun g => g.1 == seg) a1.segs a.segs h

theorem greyable_congr (ti : TraceId) (x : Addr) (white : RefSet) (sg sg1 : SegStruct)
    (h : segGreyKey ti x sg1 = segGreyKey ti x sg) : greyable white sg1 = greyable white sg := by
  simp only [segGreyKey, Prod.mk.injEq] at h
  unfold greyable
  rw [h.2.2.2.1, h.2.2.2.2.1]

theorem greyKey_geom (ti : TraceId) (x : Addr) (l l1 : List SegStruct)
    (h : l1.map (segGreyKey ti x) = l.map (segGreyKey ti x)) :
    l1.map segGeom = l.map segGeom := by
  have := congrArg
    (List.map (fun k : Addr × Addr × PoolId × RankSet × RefSet × Bool => (k.1, k.2.1, k.2.2.1))) h
  simpa [List.map_map, Function.comp_def, segGreyKey, segGeom] using this

theorem greyCallAt_congr (ti : TraceId) (x : Addr) (a a1 : ArenaStruct) (trace : TraceId)
    (white : RefSet) (seg : Addr)
    (h : a1.segs.map (segGreyKey ti x) = a.segs.map (segGreyKey ti x)) :
    greyCallAt a1 trace white seg = greyCallAt a trace white seg := by
  have hk := segFind_greyKey ti x a a1 seg h
  unfold greyCallAt
  cases h1 : segFind a1 seg with
  | none =>
    cases h0 : segFind a seg with
    | none => rfl
    | some sg => simp [h1, h0] at hk
  | some sg1 =>
    cases h0 : segFind a seg with
    | none => simp [h1, h0] at hk
    | some sg =>
      simp only [h1, h0, Option.map_some', Option.some.injEq] at hk
      simp only []
      rw [greyable_congr ti x white sg sg1 hk]
      simp only [segGreyKey, Prod.mk.injEq] at hk
      rw [hk.2.2.1]

theorem greyedSizeIn_cons (ti : TraceId) (white : RefSet) (bases : List Addr) (y : SegStruct)
    (ys : List SegStruct) :
    greyedSizeIn ti white bases (y :: ys) =
      (if (decide (y.base ∈ bases) && (greyable white y && TraceSetIsMember y.grey ti)) = true
        then SegSize y else 0) + greyedSizeIn ti white bases ys := by
  unfold greyedSizeIn
  by_cases h : (decide (y.base ∈ bases) && (greyable white y && TraceSetIsMember y.grey ti)) = true
  · simp [List.filter_cons, h]
  · simp [List.filter_cons, h]

theorem greyedSizeIn_all (ti : TraceId) (white : RefSet) (segs : List SegStruct) :
    greyedSizeIn ti white (segs.map (fun sg => sg.base)) segs = greyedSize ti white segs := by
  unfold greyedSizeIn greyedSize
  congr 2
  apply List.filter_congr
  intro sg hsg
  have : sg.base ∈ segs.map (fun sg => sg.base) := List.mem_map_of_mem _ hsg
  simp [this]

/-- The size of the greyed segments among `visited ++ [x]` after a change of
the table that leaves what `TraceStart` reads of the segments and the
greyness of all segments but the one at `x` as they were. -/
theorem greyedSizeIn_step (ti : TraceId) (white : RefSet) (x : Addr) (visited : List Addr)
    (hx : x ∉ visited) :
    ∀ (l l1 : List SegStruct), l1.map (segGreyKey ti x) = l.map (segGreyKey ti x) →
      (l.map (fun sg => sg.base)).Nodup →
      greyedSizeIn ti white (visited ++ [x]) l1 =
        greyedSizeIn ti white visited l +
          (match l1.find? (fun sg => sg.base == x) with
           | some sg1 =>
             if (greyable white sg1 && TraceSetIsMember sg1.grey ti) = true then SegSize sg1
             else 0
           | none => 0) := by
  intro l
  induction l with
  | nil =>
    intro l1 h _
    simp only [List.map_nil, List.map_eq_nil_iff] at h
    subst h
    simp [greyedSizeIn]
  | cons y ys ih =>
    intro l1 h hn
    cases l1 with
    | nil => simp at h
    | cons y1 ys1 =>
      simp only [List.map_cons, List.cons.injEq] at h
      obtain ⟨hkey, htail⟩ := h
      simp only [List.map_cons, List.nodup_cons] at hn
      have hgr : greyable white y1 = greyable white y := greyable_congr ti x white y y1 hkey
      simp only [segGreyKey, Prod.mk.injEq] at hkey
      obtain ⟨hbase, hlim, _, _, _, hwh⟩ := hkey
      have hsize : SegSize y1 = SegSize y := by
        unfold SegSize
        rw [hbase, hlim]
      rw [greyedSizeIn_cons, greyedSizeIn_cons, ih ys1 htail hn.2]
      by_cases hyx : y.base = x
      · -- the segment at `x`
        have hy1x : y1.base = x := by rw [hbase, hyx]
        have hnone : ys1.find? (fun sg => sg.base == x) = none := by
          rw [List.find?_eq_none]
          intro z hz hzx
          simp only [beq_iff_eq] at hzx
          apply hn.1
          have hb : ys1.map (fun sg => sg.base) = ys.map (fun sg => sg.base) :=
            map_base_of_geom _ _ (greyKey_geom ti x _ _ htail)
          rw [hyx, ← hzx, ← hb]
          exact List.mem_map_of_mem _ hz
        have hnv : decide (y.base ∈ visited) = false := by
          rw [hyx]
          simpa using hx
        simp only [List.find?_cons, hy1x, beq_self_eq_true, hnone, hnv, Bool.false_and,
          Bool.false_eq_true, if_false, List.mem_append, List.mem_singleton, or_true,
          decide_True, Bool.true_and, Nat.zero_add, Nat.add_zero]
        exact Nat.add_comm _ _
      · have hy1x : y1.base ≠ x := by rw [hbase]; exact hyx
        have hw : TraceSetIsMember y1.grey ti = TraceSetIsMember y.grey ti := by
          have e1 : (y1.base == x) = false := by simpa using hy1x
          have e2 : (y.base == x) = false := by simpa using hyx
          simpa [e1, e2] using hwh
        have hmem : decide (y1.base ∈ visited ++ [x]) = decide (y.base ∈ visited) := by
          rw [hbase]
          simp [hyx]
        have e1 : (y1.base == x) = false := by simpa using hy1x
        simp only [List.find?_cons, e1, hmem, hw, hsize, hgr]
        exact (Nat.add_assoc _ _ _).symm

/-- The segment loop of `TraceStart` over a list of segments: it calls
`PoolGrey` on the segments of the list that are offered for greying, and adds
to `foundation`, modulo `2 ^ MPS_WORD_WIDTH`, the size of those of them that
are grey for the trace (`P` is what is known of `foundation` on entry). -/
theorem listLoop_grey (cfg : Config) (env : Env) (hg : GreyLocal env) (trace : TraceId)
    (white : RefSet) (f0 : Size) (P : Prop) :
    ∀ (rest visited : List Addr) (s s1 : MpsState) (ret : Option Res),
      (s.arena.segs.map (fun sg => sg.base)).Nodup → rest.Nodup →
      (∀ b ∈ rest, b ∉ visited) →
      (s.arena.trace trace).ti = trace → (s.arena.trace trace).white = white →
      (P → (s.arena.trace trace).foundation =
        (f0 + greyedSizeIn trace white visited s.arena.segs) % 2 ^ cfg.MPS_WORD_WIDTH) →
      listLoop (startGreyBody cfg env trace) rest s = .ok (ret, s1) →
      ret = none ∧
      (P → (s1.arena.trace trace).foundation =
        (f0 + greyedSizeIn trace white (visited ++ rest) s1.arena.segs)
          % 2 ^ cfg.MPS_WORD_WIDTH) ∧
      s1.arena.segs.map segGeom = s.arena.segs.map segGeom ∧
      s1.events = s.events ++ rest.flatMap (greyCallAt s.arena trace white) ∧
      s1.arena.roots = s.arena.roots ∧
      (s1.arena.trace trace).ti = trace ∧ (s1.arena.trace trace).white = white ∧
      (s1.arena.trace trace).state = (s.arena.trace trace).state ∧
      (∀ i, i ≠ trace → s1.arena.trace i = s.arena.trace i) := by
  intro rest
  induction rest with
  | nil =>
    intro visited s s1 ret _ _ _ hti hwh hJ h
    simp only [listLoop, Except.ok.injEq, Prod.mk.injEq] at h
    obtain ⟨h1, h2⟩ := h
    subst h1 h2
    exact ⟨rfl, by simpa using hJ, rfl, by simp, rfl, hti, hwh, rfl, fun _ _ => rfl⟩
  | cons x rest ih =>
    intro visited s s1 ret hn hrest hvis hti hwh hJ h
    simp only [listLoop] at h
    have hx : x ∉ visited := hvis x (List.mem_cons_self _ _)
    have hrest2 : rest.Nodup := (List.nodup_cons.mp hrest).2
    have hvis2 : ∀ b ∈ rest, b ∉ visited ++ [x] := by
      intro b hb hmem
      rcases List.mem_append.mp hmem with h1 | h1
      · exact hvis b (List.mem_cons_of_mem _ hb) h1
      · simp only [List.mem_singleton] at h1
        subst h1
        exact (List.nodup_cons.mp hrest).1 hb
    cases hb : startGreyBody cfg env trace x s with
    | error f => simp [hb] at h
    | ok res =>
      obtain ⟨ret1, s2⟩ := res
      obtain ⟨sg, hseg, hret1, hng, hcases⟩ :=
        startGreyBody_ok_inv cfg env trace x s s2 ret1 hb
      subst hret1
      simp only [hb] at h
      rw [hti] at hng
      rw [hwh] at hcases
      have hfind : s.arena.segs.find? (fun sg => sg.base == x) = some sg :=
        (segGet_ok_iff _ _ _).mp hseg
      have hcall : greyCallAt s.arena trace white x =
          (if greyable white sg = true then [Event.PoolGrey sg.pool trace x] else []) := by
        unfold greyCallAt segFind
        rw [hfind]
      -- the state after the body satisfies the invariant for `visited ++ [x]`
      have hstep : s2.arena.segs.map (segGreyKey trace x) = s.arena.segs.map (segGreyKey trace x) ∧
          (s2.arena.trace trace).ti = trace ∧ (s2.arena.trace trace).white = white ∧
          (P → (s2.arena.trace trace).foundation =
            (f0 + greyedSizeIn trace white (visited ++ [x]) s2.arena.segs)
              % 2 ^ cfg.MPS_WORD_WIDTH) ∧
          s2.events = s.events ++ greyCallAt s.arena trace white x ∧
          s2.arena.roots = s.arena.roots ∧
          (s2.arena.trace trace).state = (s.arena.trace trace).state ∧
          (∀ i, i ≠ trace → s2.arena.trace i = s.arena.trace i) := by
        rcases hcases with ⟨hgr, hs⟩ | ⟨hgr, sg1, hseg1, hc⟩
        · subst hs
          refine ⟨rfl, hti, hwh, ?_, ?_, rfl, rfl, fun _ _ => rfl⟩
          · intro hp
            rw [greyedSizeIn_step trace white x visited hx s2.arena.segs s2.arena.segs rfl hn,
              hfind]
            simp only [hgr, Bool.false_and, Bool.false_eq_true, if_false, Nat.add_zero]
            exact hJ hp
          · rw [hcall, hgr]
            simp
        · obtain ⟨ht, _, hr, hkey⟩ := hg s.arena sg.pool trace x
          have hfind1 : (env.PoolGrey s.arena sg.pool trace x).segs.find?
              (fun sg => sg.base == x) = some sg1 := (segGet_ok_iff _ _ _).mp hseg1
          have hk1 := segFind_greyKey trace x s.arena _ x hkey
          unfold segFind at hk1
          rw [hfind, hfind1] at hk1
          simp only [Option.map_some', Option.some.injEq] at hk1
          have hgr1 : greyable white sg1 = true := by
            rw [greyable_congr trace x white sg sg1 hk1]
            exact hgr
          have hev : s.events ++ [Event.PoolGrey sg.pool trace x] =
              s.events ++ greyCallAt s.arena trace white x := by
            rw [hcall, hgr]
            rfl
          rw [ht, hti] at hc
          rcases hc with ⟨hm, hs⟩ | ⟨hm, hs⟩
          · subst hs
            refine ⟨hkey, ?_, ?_, ?_, hev, hr, ?_, fun i hi => ?_⟩
            · simp only [setTrace_trace_same]
              exact hti
            · simp only [setTrace_trace_same]
              exact hwh
            · intro hp
              simp only [setTrace_trace_same, setTrace_segs]
              rw [greyedSizeIn_step trace white x visited hx s.arena.segs _ hkey hn, hfind1]
              simp only [hgr1, hm, Bool.and_self, if_true]
              rw [hJ hp, Nat.mod_add_mod, Nat.add_assoc]
            · simp only [setTrace_trace_same]
            · simp only []
              rw [setTrace_trace_ne _ _ _ _ hi, ht]
          · subst hs
            refine ⟨hkey, by rw [ht]; exact hti, by rw [ht]; exact hwh, ?_, hev, hr,
              by rw [ht], fun i _ => by rw [ht]⟩
            intro hp
            simp only []
            rw [greyedSizeIn_step trace white x visited hx s.arena.segs _ hkey hn, hfind1]
            simp only [hm, Bool.and_false, Bool.false_eq_true, if_false, Nat.add_zero]
            rw [ht]
            exact hJ hp
      obtain ⟨hkey2, hti2, hwh2, hJ2, hev2, hr2, hst2, hoth2⟩ := hstep
      have hgeom2 := greyKey_geom trace x _ _ hkey2
      have hn2 : (s2.arena.segs.map (fun sg => sg.base)).Nodup := by
        rw [map_base_of_geom _ _ hgeom2]
        exact hn
      obtain ⟨hret, hf, hge, hev, hr, hti1, hwh1, hst1, hoth1⟩ :=
        ih (visited ++ [x]) s2 s1 ret hn2 hrest2 hvis2 hti2 hwh2 hJ2 h
      refine ⟨hret, ?_, hge.trans hgeom2, ?_, hr.trans hr2, hti1, hwh1, hst1.trans hst2,
        fun i hi => (hoth1 i hi).trans (hoth2 i hi)⟩
      · intro hp
        rw [hf hp]
        simp
      · rw [hev, hev2, List.flatMap_cons, List.append_assoc]
        congr 2
        apply List.flatMap_congr
        intro b _
        exact greyCallAt_congr trace x s.arena s2.arena trace white b hkey2

theorem flatMap_greyCallAt (a : ArenaStruct) (trace : TraceId) (white : RefSet)
    (hn : (a.segs.map (fun x => x.base)).Nodup) :
    ∀ l : List SegStruct, (∀ sg ∈ l, sg ∈ a.segs) →
      (l.map (fun x => x.base)).flatMap (greyCallAt a trace white) =
        (l.filter (greyable white)).map (fun sg => Event.PoolGrey sg.pool trace sg.base) := by
  intro l
  induction l with
  | nil => intro _; rfl
  | cons y ys ih =>
    intro hsub
    have hy : greyCallAt a trace white y.base =
        (if greyable white y = true then [Event.PoolGrey y.pool trace y.base] else []) := by
      unfold greyCallAt segFind
      rw [segFind_of_mem a.segs y hn (hsub y (List.mem_cons_self _ _))]
    rw [List.map_cons, List.flatMap_cons, hy, ih (fun sg h => hsub sg (List.mem_cons_of_mem _ h)),
      List.filter_cons]
    cases greyable white y <;> simp

/-- The root loop of `TraceStart`: it calls `RootGrey` on the roots of the
list whose summary meets the white set. -/
theorem startGreyRoots_run (env : Env) (hk : RootGreyKeeps env) (trace : TraceId) :
    ∀ (rs : List RootId) (s s1 : MpsState), startGreyRoots env trace rs s = .ok s1 →
      s1.events = s.events ++
        rs.flatMap (rootGreyCallAt s.arena trace (s.arena.trace trace).white) ∧
      s1.arena.trace = s.arena.trace ∧ s1.arena.roots = s.arena.roots := by
  intro rs
  induction rs with
  | nil =>
    intro s s1 h
    simp only [startGreyRoots, Except.ok.injEq] at h
    subst h
    exact ⟨by simp, rfl, rfl⟩
  | cons r rs ih =>
    intro s s1 h
    simp only [startGreyRoots, bind_ok_iff] at h
    obtain ⟨root, hroot, h⟩ := h
    have hfind : s.arena.roots.find? (fun x => x.id == r) = some root := by
      unfold rootGet at hroot
      cases hf : s.arena.roots.find? (fun x => x.id == r) with
      | none => simp [hf] at hroot
      | some y =>
        simp only [hf, Except.ok.injEq] at hroot
        rw [hroot]
    have hcall : rootGreyCallAt s.arena trace (s.arena.trace trace).white r =
        (if (RefSetInter root.summary (s.arena.trace trace).white != RefSetEMPTY) = true
          then [Event.RootGrey r trace] else []) := by
      unfold rootGreyCallAt
      rw [hfind]
    rw [List.flatMap_cons, hcall]
    split at h
    · rename_i hm
      obtain ⟨h1, h2, h3⟩ := ih _ _ h
      obtain ⟨kt, kr⟩ := hk s.arena r trace
      simp only [emit_arena, emit_events] at h1 h2 h3
      rw [kt] at h1 h2
      rw [kr] at h3
      refine ⟨?_, h2, h3⟩
      rw [h1, if_pos hm, List.append_assoc]
      congr 2
      apply List.flatMap_congr
      intro b _
      unfold rootGreyCallAt
      rw [kr]
    · rename_i hm
      obtain ⟨h1, h2, h3⟩ := ih _ _ h
      refine ⟨?_, h2, h3⟩
      rw [h1, if_neg hm, List.nil_append]

theorem flatMap_rootGreyCallAt (a : ArenaStruct) (trace : TraceId) (white : RefSet)
    (hd : rootsDistinct a) :
    ∀ l : List RootStruct, (∀ r ∈ l, r ∈ a.roots) →
      (l.map (fun x => x.id)).flatMap (rootGreyCallAt a trace white) =
        (l.filter (fun r => RefSetInter r.summary white != RefSetEMPTY)).map
          (fun r => Event.RootGrey r.id trace) := by
  intro l
  induction l with
  | nil => intro _; rfl
  | cons y ys ih =>
    intro hsub
    have hy : rootGreyCallAt a trace white y.id =
        (if (RefSetInter y.summary white != RefSetEMPTY) = true
          then [Event.RootGrey y.id trace] else []) := by
      unfold rootGreyCallAt
      rw [find_root_of_mem y a.roots hd (hsub y (List.mem_cons_self _ _))]
    rw [List.map_cons, List.flatMap_cons, hy, ih (fun r h => hsub r (List.mem_cons_of_mem _ h)),
      List.filter_cons]
    cases (RefSetInter y.summary white != RefSetEMPTY) <;> simp

theorem greyedSizeIn_nil_bases (ti : TraceId) (white : RefSet) (segs : List SegStruct) :
    greyedSizeIn ti white [] segs = 0 := by
  simp [greyedSizeIn]

theorem startGreyBody_geom (cfg : Config) (env : Env) (hg : GreyLocal env) (trace : TraceId)
    (seg : Addr) (s s1 : MpsState) (ret : Option Res)
    (h : startGreyBody cfg env trace seg s = .ok (ret, s1)) :
    s1.arena.segs.map segGeom = s.arena.segs.map segGeom := by
  obtain ⟨sg, _, _, _, hcases⟩ := startGreyBody_ok_inv cfg env trace seg s s1 ret h
  rcases hcases with ⟨_, hs⟩ | ⟨_, sg1, _, hc⟩
  · rw [hs]
  · have hkey := (hg s.arena sg.pool trace seg).2.2.2
    rcases hc with ⟨_, hs⟩ | ⟨_, hs⟩
    · rw [hs]
      exact greyKey_geom trace seg _ _ hkey
    · rw [hs]
      exact greyKey_geom trace seg _ _ hkey

theorem map_SegSize_of_geom (l1 l2 : List SegStruct) (h : l1.map segGeom = l2.map segGeom) :
    l1.map SegSize = l2.map SegSize := by
  have := congrArg (List.map (fun g : Addr × Addr × PoolId => g.2.1 - g.1)) h
  simpa [List.map_map, Function.comp_def, segGeom, SegSize] using this

/-- When every segment was offered for greying and is grey, the greyed size
is the size of all segments. -/
theorem greyedSize_all (ti : TraceId) (white : RefSet) (segs : List SegStruct)
    (h : ∀ x ∈ segs, greyable white x = true ∧ TraceSetIsMember x.grey ti = true) :
    greyedSize ti white segs = (segs.map SegSize).sum := by
  unfold greyedSize
  rw [List.filter_eq_self.mpr]
  intro x hx
  rw [(h x hx).1, (h x hx).2]
  rfl

/-! ## The calls of `TraceFlip` -/

theorem flipPoolBuffers_calls (env : Env) :
    ∀ (bs : List BufferId) (s : MpsState),
      ∃ l, (flipPoolBuffers env bs s).events = s.events ++ l ∧ ∀ e ∈ l, flipCall e = true := by
  intro bs
  induction bs with
  | nil =>
    intro s
    exact ⟨[], by simp [flipPoolBuffers], fun e he => by cases he⟩
  | cons b bs ih =>
    intro s
    obtain ⟨l, h1, h2⟩ := ih (emit { s with arena := env.BufferFlip s.arena b }
      (Event.BufferFlip b))
    refine ⟨Event.BufferFlip b :: l, ?_, fun e he => ?_⟩
    · simp only [flipPoolBuffers]
      rw [h1]
      simp
    · rcases List.mem_cons.mp he with h0 | h0
      · rw [h0]
        rfl
      · exact h2 e h0

theorem flipBuffersLoop_calls (env : Env) :
    ∀ (ps : List PoolId) (s s1 : MpsState), flipBuffersLoop env ps s = .ok s1 →
      ∃ l, s1.events = s.events ++ l ∧ ∀ e ∈ l, flipCall e = true := by
  intro ps
  induction ps with
  | nil =>
    intro s s1 h
    simp only [flipBuffersLoop, Except.ok.injEq] at h
    subst h
    exact ⟨[], by simp, fun e he => by cases he⟩
  | cons p ps ih =>
    intro s s1 h
    simp only [flipBuffersLoop] at h
    cases hp : poolGet s.arena p with
    | error f => simp [hp] at h
    | ok pool =>
      simp only [hp] at h
      obtain ⟨l2, h1, h2⟩ := ih _ _ h
      obtain ⟨l1, e1, e2⟩ := flipPoolBuffers_calls env pool.buffers s
      refine ⟨l1 ++ l2, by rw [h1, e1, List.append_assoc], fun e he => ?_⟩
      rcases List.mem_append.mp he with h0 | h0
      · exact e2 e h0
      · exact h2 e h0

theorem flipRoots_calls (cfg : Config) (env : Env) (trace : TraceId) :
    ∀ (rs : List RootId) (ss ss1 : ScanStateStruct) (s s1 : MpsState) (ret : Option Res),
      flipRoots cfg env trace rs ss s = .ok (ret, ss1, s1) →
      ∃ l, s1.events = s.events ++ l ∧ ∀ e ∈ l, flipCall e = true := by
  intro rs
  induction rs with
  | nil =>
    intro ss ss1 s s1 ret h
    simp only [flipRoots, Except.ok.injEq, Prod.mk.injEq] at h
    rw [← h.2.2]
    exact ⟨[], by simp, fun e he => by cases he⟩
  | cons r rs ih =>
    intro ss ss1 s s1 ret h
    simp only [flipRoots, bind_ok_iff, exists_aver_ok_iff] at h
    obtain ⟨root, _, _, h⟩ := h
    split at h
    · simp only [bind_ok_iff] at h
      obtain ⟨ssa, _, h⟩ := h
      rcases hrs : env.RootScan s.arena ssa r with ⟨res, ss2, a1⟩
      simp only [hrs] at h
      split at h
      · simp only [pure_ok_iff, Prod.mk.injEq] at h
        rw [← h.2.2]
        refine ⟨[Event.RootScan r ssa.rank], rfl, fun e he => ?_⟩
        simp only [List.mem_singleton] at he
        rw [he]
        rfl
      · obtain ⟨l, h1, h2⟩ := ih _ _ _ _ _ h
        refine ⟨Event.RootScan r ssa.rank :: l, ?_, fun e he => ?_⟩
        · rw [h1]
          simp
        · rcases List.mem_cons.mp he with h0 | h0
          · rw [h0]
            rfl
          · exact h2 e h0
    · exact ih _ _ _ _ _ h

theorem flipRankLoop_calls (cfg : Config) (env : Env) (trace : TraceId) :
    ∀ (fuel : Nat) (ss ss1 : ScanStateStruct) (s s1 : MpsState) (ret : Option Res),
      flipRankLoop cfg env trace fuel ss s = .ok (ret, ss1, s1) →
      ∃ l, s1.events = s.events ++ l ∧ ∀ e ∈ l, flipCall e = true := by
  intro fuel
  induction fuel with
  | zero =>
    intro ss ss1 s s1 ret h
    simp [flipRankLoop] at h
  | succ n ih =>
    intro ss ss1 s s1 ret h
    simp only [flipRankLoop] at h
    split at h
    · simp only [bind_ok_iff, exists_aver_ok_iff] at h
      obtain ⟨_, ⟨ret1, ss2, s2⟩, hroots, h⟩ := h
      obtain ⟨l1, e1, e2⟩ := flipRoots_calls cfg env trace _ _ _ _ _ _ hroots
      cases ret1 with
      | some res =>
        simp only [pure_ok_iff, Prod.mk.injEq] at h
        rw [← h.2.2]
        exact ⟨l1, e1, e2⟩
      | none =>
        obtain ⟨l2, h1, h2⟩ := ih _ _ _ _ _ h
        refine ⟨l1 ++ l2, by rw [h1, e1, List.append_assoc], fun e he => ?_⟩
        rcases List.mem_append.mp he with h0 | h0
        · exact e2 e h0
        · exact h2 e h0
    · simp only [pure_ok_iff, Prod.mk.injEq] at h
      rw [← h.2.2]
      exact ⟨[], by simp, fun e he => by cases he⟩

/-- Every call that `TraceFlip` makes is a call to the shield or of
`BufferFlip`, `LDAge` or `RootScan`. -/
theorem TraceFlip_calls (cfg : Config) (env : Env) (fuel : Nat) (trace : TraceId)
    (s s1 : MpsState) (r : Res) (h : TraceFlip cfg env fuel trace s = .ok (r, s1)) :
    ∃ l, s1.events = s.events ++ l ∧ ∀ e ∈ l, flipCall e = true := by
  unfold TraceFlip at h
  simp only [bind_ok_iff, exists_aver_ok_iff, emit_arena] at h
  obtain ⟨_, _, _, sa, hbuf, ss, _, ⟨ret, ss1, s3⟩, hloop, h⟩ := h
  obtain ⟨l1, a1, a2⟩ := flipBuffersLoop_calls env _ _ _ hbuf
  simp only [emit_events] at a1
  obtain ⟨l3, c1, c2⟩ := flipRankLoop_calls cfg env trace _ _ _ _ _ _ hloop
  -- the calls up to the end of the root scan
  have hmid : ∃ l, s3.events = s.events ++ l ∧ ∀ e ∈ l, flipCall e = true := by
    split at c1
    · refine ⟨Event.ShieldSuspend :: (l1 ++ Event.LDAge (sa.arena.trace trace).mayMove :: l3),
        ?_, fun e he => ?_⟩
      · rw [c1]
        simp only [emit_events, a1, List.append_assoc, List.singleton_append, List.cons_append,
          List.nil_append]
      · rcases List.mem_cons.mp he with h0 | h0
        · rw [h0]
          rfl
        · rcases List.mem_append.mp h0 with h0 | h0
          · exact a2 e h0
          · rcases List.mem_cons.mp h0 with h0 | h0
            · rw [h0]
              rfl
            · exact c2 e h0
    · refine ⟨Event.ShieldSuspend :: (l1 ++ l3), ?_, fun e he => ?_⟩
      · rw [c1, a1]
        simp only [List.append_assoc, List.singleton_append, List.cons_append, List.nil_append]
      · rcases List.mem_cons.mp he with h0 | h0
        · rw [h0]
          rfl
        · rcases List.mem_append.mp h0 with h0 | h0
          · exact a2 e h0
          · exact c2 e h0
  obtain ⟨lm, m1, m2⟩ := hmid
  cases ret with
  | some res =>
    simp only [pure_ok_iff, Prod.mk.injEq] at h
    rw [← h.2]
    exact ⟨lm, m1, m2⟩
  | none =>
    simp only [bind_ok_iff, pure_ok_iff, Prod.mk.injEq] at h
    obtain ⟨a4, _, _, _, s5, hraise, _, hs1⟩ := h
    obtain ⟨raised, r1, _⟩ := flipRaise_run trace _ _ _ hraise
    simp only at r1
    rw [← hs1]
    refine ⟨lm ++ (raised.map (fun seg => Event.ShieldRaise seg AccessREAD) ++
      [Event.ShieldResume]), ?_, fun e he => ?_⟩
    · simp only [emit_events]
      rw [r1, m1]
      simp only [List.append_assoc]
    · rcases List.mem_append.mp he with h0 | h0
      · exact m2 e h0
      · rcases List.mem_append.mp h0 with h0 | h0
        · obtain ⟨x, _, hx⟩ := List.mem_map.mp h0
          rw [← hx]
          rfl
        · simp only [List.mem_singleton] at h0
          rw [h0]
          rfl

/-! ## The area scanners -/

/-- With fuel for every word, the loop of `TraceScanAreaMasked` from `p` does
what the scan of the words at `p`, ..., `limit - 1` in the words of the claim
does: it reaches `out`, with `p = limit`, when that scan answers OK, and
returns the error otherwise. -/
theorem scanAreaMaskedLoop_spec {σ : Type} (m : ScanMacros σ) (limit : Nat) (mask : Word) :
    ∀ (k n : Nat) (p : Nat) (st : σ), limit - p = k → p ≤ limit → k < n →
      ∃ pEnd, scanAreaMaskedLoop m limit mask n p st =
          .ok (if (scanWordsMasked m mask (List.range' p k) st).1 = Res.OK then none
               else some (scanWordsMasked m mask (List.range' p k) st).1,
               pEnd, (scanWordsMasked m mask (List.range' p k) st).2) ∧
        ((scanWordsMasked m mask (List.range' p k) st).1 = Res.OK → pEnd = limit) := by
  intro k
  induction k with
  | zero =>
    intro n p st hk hle hn
    obtain ⟨n1, rfl⟩ : ∃ n1, n = n1 + 1 := ⟨n - 1, by omega⟩
    have hge : p ≥ limit := by omega
    refine ⟨p, ?_, fun _ => Nat.le_antisymm hle hge⟩
    simp only [scanAreaMaskedLoop, if_pos hge, List.range', scanWordsMasked, if_true]
  | succ k ih =>
    intro n p st hk hle hn
    obtain ⟨n1, rfl⟩ : ∃ n1, n = n1 + 1 := ⟨n - 1, by omega⟩
    have hlt : ¬ p ≥ limit := by omega
    have hk1 : limit - (p + 1) = k := by omega
    have hle1 : p + 1 ≤ limit := by omega
    have hn1 : k < n1 := by omega
    simp only [scanAreaMaskedLoop, if_neg hlt, List.range', scanWordsMasked,
      Nat.add_sub_cancel]
    by_cases hmask : m.load st p &&& mask = 0
    · have hb : (m.load st p &&& mask != 0) = false := by simp [hmask]
      simp only [hb, Bool.false_eq_true, if_false, hmask, if_true]
      by_cases hpass : (m.TRACE_FIX1 st (m.load st p)).1 = true
      · simp only [hpass, Bool.not_true, Bool.false_eq_true, if_false, if_true]
        by_cases hres : (m.TRACE_FIX2 (m.TRACE_FIX1 st (m.load st p)).2 p).1 = Res.OK
        · simp only [hres, beq_self_eq_true, if_true]
          exact ih n1 (p + 1) _ hk1 hle1 hn1
        · have hb2 : ((m.TRACE_FIX2 (m.TRACE_FIX1 st (m.load st p)).2 p).1 == Res.OK) =
              false := by simpa using hres
          simp only [hb2, Bool.false_eq_true, if_false, hres]
          exact ⟨p + 1, rfl, fun h => absurd h (by simp)⟩
      · simp only [Bool.not_eq_true] at hpass
        simp only [hpass, Bool.not_false, if_true, Bool.false_eq_true, if_false]
        exact ih n1 (p + 1) _ hk1 hle1 hn1
    · have hb : (m.load st p &&& mask != 0) = true := by simp [hmask]
      simp only [hb, if_true, hmask, if_false]
      exact ih n1 (p + 1) st hk1 hle1 hn1

/-- With fuel for every word, `TraceScanAreaMasked` on a non-empty area is
the scan of its words in the words of the claim, between `TRACE_SCAN_BEGIN`
and, when no fix fails, `TRACE_SCAN_END`. -/
theorem TraceScanAreaMasked_eq {σ : Type} (m : ScanMacros σ) (fuel : Nat) (base limit : Nat)
    (mask : Word) (st : σ) (hb : base ≠ 0) (hlt : base < limit) (hfuel : limit - base < fuel) :
    TraceScanAreaMasked m fuel base limit mask st =
      .ok (if (scanWordsMasked m mask (List.range' base (limit - base))
                (m.TRACE_SCAN_BEGIN st)).1 = Res.OK
           then (Res.OK, m.TRACE_SCAN_END (scanWordsMasked m mask
                  (List.range' base (limit - base)) (m.TRACE_SCAN_BEGIN st)).2)
           else scanWordsMasked m mask (List.range' base (limit - base))
                  (m.TRACE_SCAN_BEGIN st)) := by
  have hl : limit ≠ 0 := by omega
  unfold TraceScanAreaMasked
  rw [aver_true_bind _ _ (by simpa using hb), aver_true_bind _ _ (by simpa using hl),
    aver_true_bind _ _ (by simpa using hlt)]
  obtain ⟨pEnd, hloop, hend⟩ := scanAreaMaskedLoop_spec m limit mask (limit - base) fuel base
    (m.TRACE_SCAN_BEGIN st) rfl (Nat.le_of_lt hlt) hfuel
  simp only []
  rw [hloop]
  by_cases hres : (scanWordsMasked m mask (List.range' base (limit - base))
      (m.TRACE_SCAN_BEGIN st)).1 = Res.OK
  · rw [if_pos hres, if_pos hres, hend hres]
    show (aver (limit == limit) >>= fun _ => pure _) = _
    rw [aver_true_bind _ _ (beq_self_eq_true _)]
    rfl
  · rw [if_neg hres, if_neg hres]
    rfl

/-- With the mask 0 the loop of `TraceScanAreaMasked` is the loop of
`TraceScanArea`. -/
theorem scanAreaMaskedLoop_zero {σ : Type} (m : ScanMacros σ) (limit : Addr) :
    ∀ (n : Nat) (p : Addr) (st : σ),
      scanAreaMaskedLoop m limit 0 n p st = scanAreaLoop m limit n p st := by
  intro n
  induction n with
  | zero => intro p st; rfl
  | succ n ih =>
    intro p st
    simp only [scanAreaMaskedLoop, scanAreaLoop, Nat.and_zero, bne_self_eq_false,
      Bool.false_eq_true, if_false, ih]

theorem TraceScanAreaMasked_zero {σ : Type} (m : ScanMacros σ) (fuel : Nat) (base limit : Addr)
    (st : σ) :
    TraceScanAreaMasked m fuel base limit 0 st = TraceScanArea m fuel base limit st := by
  unfold TraceScanAreaMasked TraceScanArea
  simp only [scanAreaMaskedLoop_zero]

/-- The words that vanish under the mask 3 are those whose bottom two bits
are zero. -/
theorem and_three_eq_zero (w : Nat) :
    w &&& 3 = 0 ↔ w.testBit 0 = false ∧ w.testBit 1 = false := by
  have h3 : (3 : Nat) = 2 ^ 2 - 1 := rfl
  rw [h3, Nat.and_pow_two_sub_one_eq_mod]
  simp only [Nat.testBit, Nat.shiftRight_zero, Nat.shiftRight_succ, Nat.one_and_eq_mod_two,
    bne_eq_false_iff_eq]
  omega

/-! ## Fuel for `TraceFlip` and `TraceStart` -/

theorem rootGet_ne_fuel (a : ArenaStruct) (r : RootId) : rootGet a r ≠ .error Fault.fuel := by
  unfold rootGet
  split <;> simp

theorem ScanStateSetSummary_ne_fuel (cfg : Config) (a : ArenaStruct) (ss : ScanStateStruct)
    (summary : RefSet) : ScanStateSetSummary cfg a ss summary ≠ .error Fault.fuel := by
  unfold ScanStateSetSummary
  refine bind_ne_fuel _ _ (aver_ne_fuel _) (fun _ => ?_)
  refine bind_ne_fuel _ _ (ScanStateSummary_ne_fuel _ _ _) (fun _ => ?_)
  exact bind_ne_fuel _ _ (aver_ne_fuel _) (fun _ => pure_ne_fuel _)

theorem flipBuffersLoop_ne_fuel (env : Env) :
    ∀ (ps : List PoolId) (s : MpsState), flipBuffersLoop env ps s ≠ .error Fault.fuel := by
  intro ps
  induction ps with
  | nil => intro s; simp [flipBuffersLoop]
  | cons p ps ih =>
    intro s
    simp only [flipBuffersLoop]
    cases hp : poolGet s.arena p with
    | error f =>
      simp only [ne_eq, Except.error.injEq]
      intro hf
      subst hf
      exact poolGet_ne_fuel _ _ hp
    | ok pool => exact ih _

theorem flipRoots_ne_fuel (cfg : Config) (env : Env) (trace : TraceId) :
    ∀ (rs : List RootId) (ss : ScanStateStruct) (s : MpsState),
      flipRoots cfg env trace rs ss s ≠ .error Fault.fuel := by
  intro rs
  induction rs with
  | nil => intro ss s; simp [flipRoots]
  | cons r rs ih =>
    intro ss s
    simp only [flipRoots]
    refine bind_ne_fuel _ _ (rootGet_ne_fuel _ _) (fun root => ?_)
    refine bind_ne_fuel _ _ (aver_ne_fuel _) (fun _ => ?_)
    split
    · refine bind_ne_fuel _ _ (ScanStateSetSummary_ne_fuel _ _ _ _) (fun ssa => ?_)
      rcases env.RootScan s.arena ssa r with ⟨res, ss2, a1⟩
      split
      · exact pure_ne_fuel _
      · exact ih _ _
    · exact ih _ _

/-- The walk over the root ring leaves the rank of the scan state alone. -/
theorem flipRoots_rank (cfg : Config) (env : Env) (hk : FlipKeeps env) (trace : TraceId) :
    ∀ (rs : List RootId) (ss ss1 : ScanStateStruct) (s s1 : MpsState) (ret : Option Res),
      flipRoots cfg env trace rs ss s = .ok (ret, ss1, s1) → ss1.rank = ss.rank := by
  intro rs
  induction rs with
  | nil =>
    intro ss ss1 s s1 ret h
    simp only [flipRoots, Except.ok.injEq, Prod.mk.injEq] at h
    rw [← h.2.1]
  | cons r rs ih =>
    intro ss ss1 s s1 ret h
    simp only [flipRoots, bind_ok_iff, exists_aver_ok_iff] at h
    obtain ⟨root, _, _, h⟩ := h
    split at h
    · simp only [bind_ok_iff] at h
      obtain ⟨ssa, hset, h⟩ := h
      obtain ⟨_, hssa⟩ := ScanStateSetSummary_ok_inv cfg _ _ _ _ hset
      have hkk := (hk.2.2 s.arena ssa r).2.2
      rcases hrs : env.RootScan s.arena ssa r with ⟨res, ss2, a1⟩
      rw [hrs] at hkk
      simp only at hkk
      simp only [hrs] at h
      have hr2 : ss2.rank = ss.rank := by rw [hkk, hssa]
      split at h
      · simp only [pure_ok_iff, Prod.mk.injEq] at h
        rw [← h.2.1]
        exact hr2
      · rw [ih _ _ _ _ _ h]
        exact hr2
    · exact ih _ _ _ _ _ h

theorem flipRankLoop_ne_fuel (cfg : Config) (env : Env) (hk : FlipKeeps env) (trace : TraceId) :
    ∀ (fuel : Nat) (ss : ScanStateStruct) (s : MpsState), RankEXACT + 1 - ss.rank < fuel →
      flipRankLoop cfg env trace fuel ss s ≠ .error Fault.fuel := by
  intro fuel
  induction fuel with
  | zero =>
    intro ss s h
    exact absurd h (Nat.not_lt_zero _)
  | succ n ih =>
    intro ss s h
    simp only [flipRankLoop]
    split
    · rename_i hle
      refine bind_ne_fuel _ _ (aver_ne_fuel _) (fun _ => ?_)
      intro herr
      rcases (bind_error_iff _ _ Fault.fuel).mp herr with h1 | ⟨⟨ret, ss1, s1⟩, hroots, h2⟩
      · exact flipRoots_ne_fuel cfg env trace _ _ _ h1
      · have hrank := flipRoots_rank cfg env hk trace _ _ _ _ _ _ hroots
        cases ret with
        | some res => exact pure_ne_fuel _ h2
        | none =>
          refine ih _ s1 ?_ h2
          show RankEXACT + 1 - (ss1.rank + 1) < n
          rw [hrank]
          have key : ∀ a m : Nat, a ≤ 1 → 1 + 1 - a < m + 1 → 1 + 1 - (a + 1) < m := by
            intro a m h1 h2
            omega
          exact key ss.rank n hle h
    · exact pure_ne_fuel _

theorem flipRaiseRing_ne_fuel (trace : TraceId) :
    ∀ (segs : List Addr) (s : MpsState), flipRaiseRing trace segs s ≠ .error Fault.fuel := by
  intro segs
  induction segs with
  | nil => intro s; simp [flipRaiseRing]
  | cons seg rest ih =>
    intro s
    simp only [flipRaiseRing]
    refine bind_ne_fuel _ _ (segGet_ne_fuel _ _) (fun sg => ?_)
    split
    · exact ih _
    · exact ih _

theorem flipRaise_ne_fuel (trace : TraceId) :
    ∀ (ranks : List Rank) (s : MpsState), flipRaise trace ranks s ≠ .error Fault.fuel := by
  intro ranks
  induction ranks with
  | nil => intro s; simp [flipRaise]
  | cons rank ranks ih =>
    intro s
    simp only [flipRaise]
    exact bind_ne_fuel _ _ (flipRaiseRing_ne_fuel _ _ _) (fun _ => ih _)

/-- With a `RootScan` that leaves the rank of the scan state alone, three
rounds of the rank loop are enough: `TraceFlip` does not run out of fuel. -/
theorem TraceFlip_ne_fuel (cfg : Config) (env : Env) (hk : FlipKeeps env) (fuel : Nat)
    (trace : TraceId) (s : MpsState) (hfuel : 3 ≤ fuel) :
    TraceFlip cfg env fuel trace s ≠ .error Fault.fuel := by
  unfold TraceFlip
  refine bind_ne_fuel _ _ (aver_ne_fuel _) (fun _ => ?_)
  refine bind_ne_fuel _ _ (aver_ne_fuel _) (fun _ => ?_)
  refine bind_ne_fuel _ _ (aver_ne_fuel _) (fun _ => ?_)
  refine bind_ne_fuel _ _ (flipBuffersLoop_ne_fuel _ _ _) (fun s1 => ?_)
  refine bind_ne_fuel _ _ (ScanStateInit_ne_fuel _ _ _ _ _) (fun ss => ?_)
  refine bind_ne_fuel _ _ (flipRankLoop_ne_fuel cfg env hk trace _ _ _ ?_) (fun x => ?_)
  · show (2 : Nat) < fuel
    omega
  · obtain ⟨ret, ss1, s3⟩ := x
    cases ret with
    | some res => exact pure_ne_fuel _
    | none =>
      simp only
      refine bind_ne_fuel _ _ (TraceUpdateCounts_ne_fuel _ _ _ _ _) (fun a4 => ?_)
      refine bind_ne_fuel _ _ (ScanStateFinish_ne_fuel _ _ _) (fun _ => ?_)
      exact bind_ne_fuel _ _ (flipRaise_ne_fuel _ _ _) (fun _ => pure_ne_fuel _)

theorem startGreyBody_ne_fuel (cfg : Config) (env : Env) (trace : TraceId) (seg : Addr)
    (s : MpsState) : startGreyBody cfg env trace seg s ≠ .error Fault.fuel := by
  unfold startGreyBody
  refine bind_ne_fuel _ _ (segGet_ne_fuel _ _) (fun sg => ?_)
  refine bind_ne_fuel _ _ (aver_ne_fuel _) (fun _ => ?_)
  split
  · refine bind_ne_fuel _ _ (poolGet_ne_fuel _ _) (fun p => ?_)
    refine bind_ne_fuel _ _ (aver_ne_fuel _) (fun _ => ?_)
    split
    · refine bind_ne_fuel _ _ (segGet_ne_fuel _ _) (fun sg1 => ?_)
      split
      · exact pure_ne_fuel _
      · exact pure_ne_fuel _
    · exact pure_ne_fuel _
  · exact pure_ne_fuel _

theorem startGreyRoots_ne_fuel (env : Env) (trace : TraceId) :
    ∀ (rs : List RootId) (s : MpsState), startGreyRoots env trace rs s ≠ .error Fault.fuel := by
  intro rs
  induction rs with
  | nil => intro s; simp [startGreyRoots]
  | cons r rs ih =>
    intro s
    simp only [startGreyRoots]
    refine bind_ne_fuel _ _ (rootGet_ne_fuel _ _) (fun root => ?_)
    split
    · exact ih _
    · exact ih _

/-- With fuel for every segment and for the three rounds of the rank loop,
a `PoolGrey` that leaves the places of the segments alone and a `RootScan`
that leaves the rank of the scan state alone, `TraceStart` does not run out
of fuel. -/
theorem TraceStart_ne_fuel (cfg : Config) (env : Env) (hg : GreyLocal env) (hk : FlipKeeps env)
    (fuel : Nat) (trace : TraceId) (s : MpsState) (hsegs : s.arena.segs.length ≤ fuel)
    (hfuel : 3 ≤ fuel) : TraceStart cfg env fuel trace s ≠ .error Fault.fuel := by
  unfold TraceStart
  refine bind_ne_fuel _ _ (aver_ne_fuel _) (fun _ => ?_)
  refine bind_ne_fuel _ _ (aver_ne_fuel _) (fun _ => ?_)
  split
  · exact pure_ne_fuel _
  · refine bind_ne_fuel _ _ (forSegs_ne_fuel _ (startGreyBody_ne_fuel cfg env trace)
      (fun seg st r st1 hb => ?_) fuel s hsegs) (fun x => ?_)
    · rw [map_base_of_geom _ _ (startGreyBody_geom cfg env hg trace seg st st1 r hb)]
    · obtain ⟨ret, s1⟩ := x
      simp only
      refine bind_ne_fuel _ _ (startGreyRoots_ne_fuel _ _ _ _) (fun s2 => ?_)
      exact TraceFlip_ne_fuel cfg env hk fuel trace _ hfuel

/-! ## Words and `double`s: the byte totals and the rate -/

theorem excessBits_of_lt (k n : Nat) (h : n < 2 ^ 53) : excessBits k n = 0 := by
  cases k with
  | zero => rfl
  | succ k =>
    unfold excessBits
    rw [if_pos h]

/-- A number below `2 ^ 53` is its own value as a `double`. -/
theorem toDouble_of_lt (n : Nat) (h : n < 2 ^ 53) : toDouble n = n := by
  unfold toDouble
  simp [excessBits_of_lt n n h, Nat.mod_one]

/-- A sum and product of numbers is computed exactly in `double` while the
product stays below `2 ^ 53`. -/
theorem toDouble_scan_exact (f c a : Nat) (hb : (f + c) * a < 2 ^ 53) :
    toDouble (toDouble (toDouble f + toDouble c) * toDouble a) = (f + c) * a := by
  by_cases hA : a = 0
  · subst hA
    rw [toDouble_of_lt 0 (by norm_num), Nat.mul_zero, Nat.mul_zero]
    exact toDouble_of_lt 0 (by norm_num)
  · by_cases hX : f + c = 0
    · have hf : f = 0 := by omega
      have hc : c = 0 := by omega
      subst hf hc
      rw [toDouble_of_lt 0 (by norm_num), Nat.add_zero, toDouble_of_lt 0 (by norm_num),
        Nat.zero_mul, Nat.zero_mul]
      exact toDouble_of_lt 0 (by norm_num)
    · have hXlt : f + c < 2 ^ 53 :=
        Nat.lt_of_le_of_lt (Nat.le_mul_of_pos_right _ (Nat.pos_of_ne_zero hA)) hb
      have hAlt : a < 2 ^ 53 :=
        Nat.lt_of_le_of_lt (Nat.le_mul_of_pos_left _ (Nat.pos_of_ne_zero hX)) hb
      rw [toDouble_of_lt f (by omega), toDouble_of_lt c (by omega),
        toDouble_of_lt _ hXlt, toDouble_of_lt _ hAlt, toDouble_of_lt _ hb]

theorem rate_no_wrap (x w : Nat) (hb : x < 2 ^ 53) (hW : 32 ≤ w) :
    (1 + x / (4096 * 2 ^ 20)) % 2 ^ w = 1 + x / (4096 * 2 ^ 20) := by
  have hq : x / (4096 * 2 ^ 20) < 2 ^ 21 := by
    rw [Nat.div_lt_iff_lt_mul (by norm_num)]
    calc x < 2 ^ 53 := hb
      _ = 2 ^ 21 * (4096 * 2 ^ 20) := by norm_num
  have hpow : (2 : Nat) ^ 32 ≤ 2 ^ w := Nat.pow_le_pow_right (by norm_num) hW
  apply Nat.mod_eq_of_lt
  have : (1 : Nat) + 2 ^ 21 ≤ 2 ^ 32 := by norm_num
  omega

/-- Rounding to 53 significant bits goes to the nearest `double`, and to the
one with an even last bit when two are equally near. -/
theorem toDouble_nearest_even :
    toDouble (2 ^ 53 + 1) = 2 ^ 53 ∧ toDouble (2 ^ 53 + 3) = 2 ^ 53 + 4 ∧
      toDouble (2 ^ 54 + 3) = 2 ^ 54 + 4 ∧ toDouble (2 ^ 54 + 5) = 2 ^ 54 + 4 ∧
      toDouble (2 ^ 64 - 1) = 2 ^ 64 := by
  refine ⟨?_, ?_, ?_, ?_, ?_⟩ <;> decide

/-- While `scan * ARENA_POLL_MAX` stays below `2 ^ 53` the `double`
arithmetic of the rate is exact. -/
theorem traceRate_exact (cfg : Config) (t : TraceStruct)
    (hb : (t.foundation + t.condemned / 2) * cfg.ARENA_POLL_MAX < 2 ^ 53)
    (hW : 32 ≤ cfg.MPS_WORD_WIDTH) :
    traceRate cfg t =
      1 + (t.foundation + t.condemned / 2) * cfg.ARENA_POLL_MAX / (4096 * 2 ^ 20) := by
  unfold traceRate
  simp only []
  rw [toDouble_scan_exact _ _ _ hb,
    show toDouble (4096 * toDouble (1024 * 1024)) = 4096 * 2 ^ 20 from by decide]
  exact rate_no_wrap _ _ hb hW

/-- Beyond `2 ^ 53` the `double` arithmetic rounds: with `foundation`
`2 ^ 32 + 1` and an `ARENA_POLL_MAX` of `2 ^ 32 - 1` the product `2 ^ 64 - 1`
is rounded to `2 ^ 64` and the rate is `2 ^ 32 + 1`, one more than the
quotient of the natural numbers gives. -/
theorem traceRate_rounds :
    traceRate { cfg0 with ARENA_POLL_MAX := 2 ^ 32 - 1 }
        { traceInit 0 with foundation := 2 ^ 32 + 1 } = 2 ^ 32 + 1 ∧
      1 + (2 ^ 32 + 1 + 0 / 2) * (2 ^ 32 - 1) / (4096 * 2 ^ 20) = 2 ^ 32 := by
  constructor <;> decide

/-- The condemned size is a word: on a trace whose `condemned` is 1 MiB short
of `2 ^ 64`, whitening the segment of 1 MiB leaves `condemned` 0. -/
theorem TraceAddWhite_wraps :
    ∃ s1, TraceAddWhite cfg0 envWhiten 0 1048576
        { stateOneSeg with
          arena := setTrace stateOneSeg.arena 0
            { stateOneSeg.arena.trace 0 with condemned := 2 ^ 64 - 1048576 } } =
        .ok (Res.OK, s1) ∧
      (s1.arena.trace 0).white = 2 ∧ (s1.arena.trace 0).condemned = 0 :=
  ⟨_, rfl, rfl, rfl⟩

/-! ## Claims -/

/-- C1: with `TRACE_MAX == 1` (the first assertion of `TraceCreate`),
`TraceCreate` returns LIMIT when every trace id below `TRACE_MAX` is busy and
then leaves the state unchanged; otherwise, the slot of the smallest free id
`ti` being invalid as `TraceCreate` asserts, it returns OK with trace `ti`,
adds `ti` to `busyTraces` and changes the membership of no other id, leaves
`flippedTraces`, the other slots and the rest of the arena unchanged, and
leaves the trace in state INIT with empty `white` and `mayMove`, `emergency`
false and `condemned`, `foundation`, `rate` and all counters zero. So the
result is LIMIT exactly when every id is busy. -/
theorem TraceCreate_spec (cfg : Config) (s : MpsState) (hmax : cfg.TRACE_MAX = 1) :
    ((∀ ti, ti < cfg.TRACE_MAX → TraceSetIsMember s.arena.busyTraces ti = true) →
      TraceCreate cfg s = .ok (Res.LIMIT, none, s)) ∧
    (∀ ti, ti < cfg.TRACE_MAX → TraceSetIsMember s.arena.busyTraces ti = false →
      (∀ tj, tj < ti → TraceSetIsMember s.arena.busyTraces tj = true) →
      (s.arena.trace ti).sig = Sig.SigInvalid →
      ∃ s1, TraceCreate cfg s = .ok (Res.OK, some ti, s1) ∧
        s1.arena.busyTraces = TraceSetAdd s.arena.busyTraces ti ∧
        (∀ tj, TraceSetIsMember s1.arena.busyTraces tj =
          (TraceSetIsMember s.arena.busyTraces tj || decide (ti = tj))) ∧
        s1.arena.flippedTraces = s.arena.flippedTraces ∧
        s1.arena.trace ti =
          { sig := Sig.TraceSig, ti := ti, white := RefSetEMPTY, mayMove := RefSetEMPTY,
            state := TraceState.TraceINIT, emergency := false,
            condemned := 0, foundation := 0, rate := 0,
            rootScanCount := 0, rootScanSize := 0, rootCopiedSize := 0,
            segScanCount := 0, segScanSize := 0, segCopiedSize := 0,
            singleScanCount := 0, singleScanSize := 0, singleCopiedSize := 0,
            fixRefCount := 0, segRefCount := 0, whiteSegRefCount := 0,
            nailCount := 0, snapCount := 0, forwardCount := 0,
            faultCount := 0, reclaimCount := 0, reclaimSize := 0 } ∧
        (∀ tj, tj ≠ ti → s1.arena.trace tj = s.arena.trace tj) ∧
        s1.arena.segs = s.arena.segs ∧ s1.arena.pools = s.arena.pools ∧
        s1.arena.roots = s.arena.roots ∧ s1.arena.zoneShift = s.arena.zoneShift ∧
        s1.events = s.events) ∧
    (∀ r t s1, TraceCreate cfg s = .ok (r, t, s1) →
      (r = Res.LIMIT ↔ ∀ ti, ti < cfg.TRACE_MAX → TraceSetIsMember s.arena.busyTraces ti = true)) := by
  refine ⟨TraceCreate_full cfg s hmax, ?_, ?_⟩
  · intro ti hti hfr hsm hsig
    refine ⟨_, TraceCreate_free cfg s hmax ti hti hfr hsm hsig, rfl, ?_, rfl, ?_, ?_,
      rfl, rfl, rfl, rfl, rfl⟩
    · intro tj
      simp [isMember_TraceSetAdd]
    · simp [traceInit]
    · intro tj htj
      simp [setTrace_trace_ne _ _ _ _ htj]
  · intro r t s1 hres
    rcases TraceCreate_ok_inv cfg s r t s1 hres with ⟨hr, _, _, hall⟩ | ⟨ti, hr, _, hti, hfr, _, _⟩
    · exact ⟨fun _ => hall, fun _ => hr⟩
    · constructor
      · intro h
        rw [hr] at h
        cases h
      · intro hall
        rw [hall ti hti] at hfr
        cases hfr

/-- C1 on the empty arena: `TraceCreate` returns OK with trace 0, which
becomes busy. -/
theorem TraceCreate_spec_witness :
    ∃ s1, TraceCreate cfg0 stateEmpty = .ok (Res.OK, some 0, s1) ∧
      s1.arena.busyTraces = TraceSetAdd stateEmpty.arena.busyTraces 0 := by
  obtain ⟨s1, h1, h2, _⟩ := (TraceCreate_spec cfg0 stateEmpty rfl).2.1 0 (by decide)
    (by decide) (fun tj htj => absurd htj (Nat.not_lt_zero tj)) rfl
  exact ⟨s1, h1, h2⟩

/-- C2: let `TraceCreate` return the trace `ti` on an arena whose trace sets
are words with `flippedTraces` inside `busyTraces`. Whatever calls of
`TraceStart`, `TraceStep` and `TracePoll` on that trace (and no Condemn) come
before a `TraceDestroy` of it that meets the requirement `state == FINISHED`,
after the `TraceDestroy` both `busyTraces` and `flippedTraces` are what they
were before the `TraceCreate`; `TraceCreate`, `TraceStart`, `TraceDestroy` is
such a run. And every `TraceDestroy` removes the id of the trace from both
sets and changes the membership of no other id. -/
theorem TraceCreate_TraceDestroy_roundtrip (cfg : Config) (env : Env) (fuel : Nat)
    (s s1 : MpsState) (ti : TraceId)
    (hbusy : s.arena.busyTraces < 2 ^ cfg.MPS_WORD_WIDTH)
    (hflip : s.arena.flippedTraces < 2 ^ cfg.MPS_WORD_WIDTH)
    (hsub : TraceSetSuper s.arena.busyTraces s.arena.flippedTraces = true)
    (hc : TraceCreate cfg s = .ok (Res.OK, some ti, s1)) :
    (∀ ops s2 s3, (∀ op ∈ ops, op = Op.start ti ∨ op = Op.step ti ∨ op = Op.poll ti) →
      applyOps cfg env fuel ops s1 = .ok s2 → TraceDestroy cfg ti s2 = .ok s3 →
      s3.arena.busyTraces = s.arena.busyTraces ∧
      s3.arena.flippedTraces = s.arena.flippedTraces) ∧
    (∃ s2 s3, applyOps cfg env fuel [Op.start ti] s1 = .ok s2 ∧
      TraceDestroy cfg ti s2 = .ok s3) ∧
    (∀ sa sb trace, TraceDestroy cfg trace sa = .ok sb →
      sa.arena.busyTraces < 2 ^ cfg.MPS_WORD_WIDTH →
      sa.arena.flippedTraces < 2 ^ cfg.MPS_WORD_WIDTH →
      ∀ tj, TraceSetIsMember sb.arena.busyTraces tj =
          (TraceSetIsMember sa.arena.busyTraces tj && !decide (tj = trace)) ∧
        TraceSetIsMember sb.arena.flippedTraces tj =
          (TraceSetIsMember sa.arena.flippedTraces tj && !decide (tj = trace))) := by
  rcases TraceCreate_ok_inv cfg s _ _ _ hc with ⟨h, _⟩ | ⟨ti1, _, ht, hti, hfree, _, hs1⟩
  · cases h
  simp only [Option.some.injEq] at ht
  subst ht
  have hnf : TraceSetIsMember s.arena.flippedTraces ti = false := by
    cases hm : TraceSetIsMember s.arena.flippedTraces ti
    · rfl
    · rw [(TraceSetSuper_iff _ _).mp hsub ti hm] at hfree
      cases hfree
  refine ⟨?_, ?_, ?_⟩
  · -- the round trip
    intro ops s2 s3 hops hrun hd
    have inv : ∀ (ops : List Op) (sa : MpsState),
        (∀ op ∈ ops, op = Op.start ti ∨ op = Op.step ti ∨ op = Op.poll ti) →
        sa.arena.busyTraces = TraceSetAdd s.arena.busyTraces ti →
        (sa.arena.trace ti).white = RefSetEMPTY →
        (((sa.arena.trace ti).state = TraceState.TraceINIT ∧
            sa.arena.flippedTraces = s.arena.flippedTraces) ∨
          ((sa.arena.trace ti).state = TraceState.TraceFINISHED ∧
            sa.arena.flippedTraces = TraceSetAdd s.arena.flippedTraces ti)) →
        applyOps cfg env fuel ops sa = .ok s2 →
        s2.arena.busyTraces = TraceSetAdd s.arena.busyTraces ti ∧
        (((s2.arena.trace ti).state = TraceState.TraceINIT ∧
            s2.arena.flippedTraces = s.arena.flippedTraces) ∨
          ((s2.arena.trace ti).state = TraceState.TraceFINISHED ∧
            s2.arena.flippedTraces = TraceSetAdd s.arena.flippedTraces ti)) := by
      intro ops
      induction ops with
      | nil =>
        intro sa _ hb _ hst hr
        simp only [applyOps, Except.ok.injEq] at hr
        subst hr
        exact ⟨hb, hst⟩
      | cons op rest ih =>
        intro sa hall hb hw hst hr
        simp only [applyOps] at hr
        cases hop : applyOp cfg env fuel op sa with
        | error f => simp [hop] at hr
        | ok sb =>
          simp only [hop] at hr
          have hrest : ∀ op ∈ rest, op = Op.start ti ∨ op = Op.step ti ∨ op = Op.poll ti :=
            fun o ho => hall o (List.mem_cons_of_mem _ ho)
          have hstate : (sa.arena.trace ti).state = TraceState.TraceINIT ∨
              (sa.arena.trace ti).state = TraceState.TraceFINISHED :=
            hst.elim (fun h => Or.inl h.1) (fun h => Or.inr h.1)
          rcases hall op (List.mem_cons_self _ _) with h | h | h
          · subst h
            simp only [applyOp, map_ok_iff] at hop
            obtain ⟨⟨r, sb1⟩, hstart, hsb⟩ := hop
            simp only at hsb
            subst hsb
            obtain ⟨hchk, hinit, _, hsb⟩ := TraceStart_empty_inv cfg env fuel ti sa _ r hw hstart
            have hti1 := TraceCheck_ti cfg _ _ hchk
            have hfl : sa.arena.flippedTraces = s.arena.flippedTraces := by
              rcases hst with h | h
              · exact h.2
              · rw [hinit] at h
                cases h.1
            refine ih sb1 hrest ?_ ?_ ?_ hr
            · rw [hsb]
              simpa using hb
            · rw [hsb]
              simpa using hw
            · right
              rw [hsb]
              simp [hti1, hfl]
          · subst h
            simp only [applyOp, map_ok_iff] at hop
            obtain ⟨⟨r, sb1⟩, hstep, hsb⟩ := hop
            simp only at hsb
            subst hsb
            have hchk := TraceStep_check cfg env fuel ti sa _ r hstep
            rw [TraceStep_noprogress cfg env fuel ti sa hchk hstate] at hstep
            simp only [Except.ok.injEq, Prod.mk.injEq] at hstep
            rw [← hstep.2] at hr
            exact ih sa hrest hb hw hst hr
          · subst h
            simp only [applyOp] at hop
            have hchk := TracePoll_check cfg env fuel ti sa _ hop
            rw [TracePoll_noprogress cfg env fuel ti sa hchk hstate] at hop
            simp only [Except.ok.injEq] at hop
            rw [← hop] at hr
            exact ih sa hrest hb hw hst hr
    have h2 := inv ops s1 hops (by rw [hs1]; simp) (by rw [hs1]; simp [traceInit])
      (Or.inl (by rw [hs1]; simp [traceInit])) hrun
    obtain ⟨hchk, hfin, hb3, hf3, _⟩ := TraceDestroy_ok_inv cfg ti s2 s3 hd
    have hti1 := TraceCheck_ti cfg _ _ hchk
    rw [hti1] at hb3 hf3
    rcases h2 with ⟨hb2, hst2⟩
    rcases hst2 with h | h
    · rw [hfin] at h
      cases h.1
    · rw [hb3, hf3, hb2, h.2]
      exact ⟨TraceSetDel_TraceSetAdd cfg _ ti hbusy hfree,
        TraceSetDel_TraceSetAdd cfg _ ti hflip hnf⟩
  · -- `TraceCreate`, `TraceStart`, `TraceDestroy` runs
    have hchk1 : TraceCheck cfg s1.arena ti = true := by
      rw [hs1]
      exact TraceCheck_created cfg s.arena ti hti
    have hstart := TraceStart_empty cfg env fuel ti s1 hchk1 (by rw [hs1]; simp [traceInit])
      (by rw [hs1]; simp [traceInit])
    obtain ⟨s2, hs2⟩ : ∃ s2, TraceStart cfg env fuel ti s1 = .ok (Res.OK, s2) := ⟨_, hstart⟩
    obtain ⟨_, _, _, he⟩ := TraceStart_empty_inv cfg env fuel ti s1 s2 Res.OK
      (by rw [hs1]; simp [traceInit]) hs2
    have hchk2 : TraceCheck cfg s2.arena ti = true := by
      rw [he, hs1]
      simp [TraceCheck, traceInit, TraceIdCheck, hti, isMember_TraceSetAdd, RefSetSub_empty]
    obtain ⟨s3, hs3⟩ := TraceDestroy_ok cfg ti s2 hchk2 (by rw [he]; simp)
    refine ⟨s2, s3, ?_, hs3⟩
    simp only [applyOps, applyOp, hs2, Except.map]
  · intro sa sb trace hd hb hf tj
    obtain ⟨hchk, _, hb3, hf3, _⟩ := TraceDestroy_ok_inv cfg trace sa sb hd
    have hti1 := TraceCheck_ti cfg _ _ hchk
    rw [hti1] at hb3 hf3
    rw [hb3, hf3, isMember_TraceSetDel, isMember_TraceSetDel]
    constructor
    · cases hm : TraceSetIsMember sa.arena.busyTraces tj
      · simp
      · have := isMember_lt_of_lt_two_pow hb hm
        simp [this, eq_comm]
    · cases hm : TraceSetIsMember sa.arena.flippedTraces tj
      · simp
      · have := isMember_lt_of_lt_two_pow hf hm
        simp [this, eq_comm]

/-- C2 on the empty arena: `TraceCreate`, `TraceStart`, `TraceDestroy` runs
and gives back the trace sets of the empty arena. -/
theorem TraceCreate_TraceDestroy_roundtrip_witness :
    ∃ s2 s3, applyOps cfg0 envIdle 0 [Op.start 0] stateCreated = .ok s2 ∧
      TraceDestroy cfg0 0 s2 = .ok s3 ∧
      s3.arena.busyTraces = stateEmpty.arena.busyTraces ∧
      s3.arena.flippedTraces = stateEmpty.arena.flippedTraces := by
  have h := TraceCreate_TraceDestroy_roundtrip cfg0 envIdle 0 stateEmpty stateCreated 0
    (by decide) (by decide) (by decide) rfl
  obtain ⟨s2, s3, h2, h3⟩ := h.2.1
  exact ⟨s2, s3, h2, h3, h.1 [Op.start 0] s2 s3 (by simp) h2 h3⟩

/-- C3: for a valid trace in state INIT with an empty white set `TraceStart`
returns OK, the state becomes FINISHED and the rate 1, the id of the trace is
added to `flippedTraces`; `busyTraces`, `foundation` (zero for a trace that
comes from `TraceCreate`), the other fields of the trace, the other traces,
the segments and the roots are unchanged and no call leaves the tracer. So in
an arena with one trace slot and no segments, `TraceCreate`,
`TraceCondemnRefSet` of UNIV and `TraceStart` give
`busyTraces = flippedTraces = {0}`, with zero `foundation`. -/
theorem TraceStart_white_empty (cfg : Config) (env : Env) (fuel : Nat) (trace : TraceId)
    (s : MpsState)
    (hc : TraceCheck cfg s.arena trace = true)
    (hs : (s.arena.trace trace).state = TraceState.TraceINIT)
    (hw : (s.arena.trace trace).white = RefSetEMPTY) :
    (∃ s1, TraceStart cfg env fuel trace s = .ok (Res.OK, s1) ∧
      (s1.arena.trace trace).state = TraceState.TraceFINISHED ∧
      (s1.arena.trace trace).rate = 1 ∧
      s1.arena.flippedTraces = TraceSetAdd s.arena.flippedTraces trace ∧
      s1.arena.busyTraces = s.arena.busyTraces ∧
      (s1.arena.trace trace).foundation = (s.arena.trace trace).foundation ∧
      s1.arena.trace trace =
        { s.arena.trace trace with state := TraceState.TraceFINISHED, rate := 1 } ∧
      (∀ tj, tj ≠ trace → s1.arena.trace tj = s.arena.trace tj) ∧
      s1.arena.segs = s.arena.segs ∧ s1.arena.roots = s.arena.roots ∧
      s1.arena.pools = s.arena.pools ∧
      s1.events = s.events) ∧
    (∀ s0 : MpsState, cfg.TRACE_MAX = 1 → 0 < cfg.MPS_WORD_WIDTH → s0.arena.segs = [] →
      s0.arena.busyTraces = TraceSetEMPTY → s0.arena.flippedTraces = TraceSetEMPTY →
      (s0.arena.trace 0).sig = Sig.SigInvalid →
      ∃ s3, applyOps cfg env fuel [Op.create, Op.condemn 0 (RefSetUNIV cfg), Op.start 0] s0
          = .ok s3 ∧
        s3.arena.busyTraces = TraceSetSingle 0 ∧ s3.arena.flippedTraces = TraceSetSingle 0 ∧
        (s3.arena.trace 0).state = TraceState.TraceFINISHED ∧
        (s3.arena.trace 0).rate = 1 ∧ (s3.arena.trace 0).foundation = 0 ∧
        s3.events = s0.events) := by
  constructor
  · have hti := TraceCheck_ti cfg _ _ hc
    refine ⟨_, TraceStart_empty cfg env fuel trace s hc hs hw, ?_, ?_, ?_, ?_, ?_, ?_, ?_,
      rfl, rfl, rfl, rfl⟩
    · simp
    · simp
    · simp [hti]
    · simp
    · simp
    · simp
    · intro tj htj
      simp [setTrace_trace_ne _ _ _ _ htj]
  · intro s0 hmax hW hsegs hb hf hsig
    have h0 : (0 : Nat) < cfg.TRACE_MAX := by omega
    have hcreate := TraceCreate_free cfg s0 hmax 0 h0 (by simp [hb, TraceSetIsMember,
      TraceSetEMPTY]) (fun tj htj => absurd htj (Nat.not_lt_zero tj)) hsig
    have hchk1 := TraceCheck_created cfg s0.arena 0 h0
    have hcond := TraceCondemnRefSet_nil cfg env fuel 0 (RefSetUNIV cfg)
      { s0 with arena := setTrace { s0.arena with
          busyTraces := TraceSetAdd s0.arena.busyTraces 0 } 0 (traceInit 0) }
      hchk1 (RefSetUNIV_ne_empty cfg hW) (by simp [traceInit]) (by simp [traceInit])
      (by simpa using hsegs)
    have hstart := TraceStart_empty cfg env fuel 0
      { s0 with arena := setTrace { s0.arena with
          busyTraces := TraceSetAdd s0.arena.busyTraces 0 } 0 (traceInit 0) }
      hchk1 (by simp [traceInit]) (by simp [traceInit])
    apply Exists.intro
    refine And.intro ?_ ?_
    · simp only [applyOps, applyOp, hcreate, hcond, hstart, Except.map]
      rfl
    refine ⟨?_, ?_, ?_, ?_, ?_, ?_⟩
    · simp [hb, TraceSetAdd, TraceSetSingle, TraceSetEMPTY]
    · simp [hf, traceInit, TraceSetAdd, TraceSetSingle, TraceSetEMPTY]
    · simp
    · simp
    · simp [traceInit]
    · simp

/-- C3 on the empty arena after `TraceCreate`: `TraceStart` finishes the trace
at once. -/
theorem TraceStart_white_empty_witness :
    ∃ s1, TraceStart cfg0 envIdle 0 0 stateCreated = .ok (Res.OK, s1) ∧
      (s1.arena.trace 0).state = TraceState.TraceFINISHED ∧
      (s1.arena.trace 0).rate = 1 ∧
      s1.arena.flippedTraces = TraceSetAdd stateCreated.arena.flippedTraces 0 := by
  obtain ⟨s1, h1, h2, h3, h4, _⟩ :=
    (TraceStart_white_empty cfg0 envIdle 0 0 stateCreated (by decide) rfl rfl).1
  exact ⟨s1, h1, h2, h3, h4⟩

/-- C4: let `PoolWhiten` decide about colours only (it leaves the trace
slots, the zone shift and the places of the segments alone) and let the white
set of the trace be empty, as `TraceCondemnRefSet` requires. Then whatever
`PoolWhiten` answers for each segment, every run of the loop of
`TraceCondemnRefSet` that reaches the final assertion
`RefSetSuper(condemnedSet, trace->white)` passes it, and whenever
`TraceCondemnRefSet` returns (OK or a pool's error) the white set of the trace
is a subset of `condemnedSet`. -/
theorem TraceCondemnRefSet_white_sub (cfg : Config) (env : Env) (hk : WhitenKeeps env)
    (fuel : Nat) (trace : TraceId) (condemnedSet : RefSet) (s : MpsState)
    (hw : (s.arena.trace trace).white = RefSetEMPTY) :
    (∀ s1, forSegs (condemnBody cfg env trace condemnedSet) fuel s = .ok (none, s1) →
      aver (RefSetSuper condemnedSet (s1.arena.trace trace).white) = .ok ()) ∧
    (∀ r s1, TraceCondemnRefSet cfg env fuel trace condemnedSet s = .ok (r, s1) →
      RefSetSub (s1.arena.trace trace).white condemnedSet = true ∧
      RefSetSuper condemnedSet (s1.arena.trace trace).white = true) := by
  have hP : RefSetSuper condemnedSet (s.arena.trace trace).white = true := by
    rw [hw]
    exact RefSetSuper_empty _
  have hloop : ∀ ret s1, forSegs (condemnBody cfg env trace condemnedSet) fuel s = .ok (ret, s1) →
      RefSetSuper condemnedSet (s1.arena.trace trace).white = true := by
    intro ret s1 h
    exact forSegs_inv _ (fun st => RefSetSuper condemnedSet (st.arena.trace trace).white = true)
      (fun seg st r st1 hp hb => condemnBody_white_sub cfg env hk trace condemnedSet seg st st1 r
        hp hb) fuel s ret s1 hP h
  constructor
  · intro s1 h
    rw [hloop none s1 h]
    rfl
  · intro r s1 h
    unfold TraceCondemnRefSet at h
    simp only [bind_ok_iff, exists_aver_ok_iff] at h
    obtain ⟨_, _, _, _, ⟨ret, s2⟩, hfor, h⟩ := h
    have hsup : RefSetSuper condemnedSet (s1.arena.trace trace).white = true := by
      cases ret with
      | some res =>
        simp only [pure_ok_iff, Prod.mk.injEq] at h
        rw [← h.2]
        exact hloop _ _ hfor
      | none =>
        simp only [bind_ok_iff, exists_aver_ok_iff, pure_ok_iff, Prod.mk.injEq] at h
        rw [← h.2.2]
        exact h.1
    refine ⟨?_, hsup⟩
    rw [RefSetSub_iff]
    exact (RefSetSuper_iff _ _).mp hsup

/-- C5: let the checks of `TraceAddWhite` hold (valid trace, the segment is
in the arena and not white for the trace, its pool is in the arena), let
`PoolWhiten` answer `res` and leave the arena `a1`, in which the segment (now
`sg1`) and its pool (now `p1`) still exist and the id, white set, condemned
size and may-move set of the trace are untouched. Then `TraceAddWhite` returns
`res`, having made exactly that one call. If `res` is OK and the segment is
white for the trace in `a1`, then `white` becomes `white ∪ RefSetOfSeg(seg)`,
`condemned` becomes `condemned + SegSize(seg)` modulo `2 ^ MPS_WORD_WIDTH`, so
that it grows by `SegSize(seg)` whenever that sum is below
`2 ^ MPS_WORD_WIDTH`, and `mayMove` becomes `mayMove ∪ RefSetOfSeg(seg)` if the
pool has the MOVINGGC attribute and is unchanged if not. Otherwise (an error, or OK without whitening) the arena is
as `PoolWhiten` left it: `white`, `condemned` and `mayMove` are unchanged. -/
theorem TraceAddWhite_spec (cfg : Config) (env : Env) (trace : TraceId) (seg : Addr)
    (s : MpsState) (sg sg1 : SegStruct) (p p1 : PoolStruct) (res : Res) (a1 : ArenaStruct)
    (hc : TraceCheck cfg s.arena trace = true)
    (hseg : segGet s.arena seg = .ok sg)
    (hnw : TraceSetIsMember sg.white trace = false)
    (hpool : poolGet s.arena sg.pool = .ok p)
    (hw : env.PoolWhiten s.arena sg.pool trace seg = (res, a1))
    (hseg1 : segGet a1 seg = .ok sg1)
    (hp1 : poolGet a1 sg.pool = .ok p1)
    (hti : (a1.trace trace).ti = (s.arena.trace trace).ti)
    (hwhite : (a1.trace trace).white = (s.arena.trace trace).white)
    (hcond : (a1.trace trace).condemned = (s.arena.trace trace).condemned)
    (hmay : (a1.trace trace).mayMove = (s.arena.trace trace).mayMove) :
    ∃ s1, TraceAddWhite cfg env trace seg s = .ok (res, s1) ∧
      s1.events = s.events ++ [Event.PoolWhiten sg.pool trace seg] ∧
      (res = Res.OK ∧ TraceSetIsMember sg1.white trace = true →
        (s1.arena.trace trace).white =
          RefSetUnion (s.arena.trace trace).white (RefSetOfSeg cfg a1 sg1) ∧
        (s1.arena.trace trace).condemned =
          ((s.arena.trace trace).condemned + SegSize sg1) % 2 ^ cfg.MPS_WORD_WIDTH ∧
        ((s.arena.trace trace).condemned + SegSize sg1 < 2 ^ cfg.MPS_WORD_WIDTH →
          (s1.arena.trace trace).condemned = (s.arena.trace trace).condemned + SegSize sg1) ∧
        (p1.attr &&& cfg.AttrMOVINGGC ≠ 0 →
          (s1.arena.trace trace).mayMove =
            RefSetUnion (s.arena.trace trace).mayMove (RefSetOfSeg cfg a1 sg1)) ∧
        (p1.attr &&& cfg.AttrMOVINGGC = 0 →
          (s1.arena.trace trace).mayMove = (s.arena.trace trace).mayMove)) ∧
      (¬(res = Res.OK ∧ TraceSetIsMember sg1.white trace = true) →
        s1.arena = a1 ∧
        (s1.arena.trace trace).white = (s.arena.trace trace).white ∧
        (s1.arena.trace trace).condemned = (s.arena.trace trace).condemned ∧
        (s1.arena.trace trace).mayMove = (s.arena.trace trace).mayMove) := by
  have hti0 := TraceCheck_ti cfg _ _ hc
  have hrun := TraceAddWhite_run cfg env trace seg s sg p res a1 hc hseg
    (by rw [hti0]; exact hnw) hpool hw
  rw [hseg1, hp1, hti, hti0] at hrun
  simp only [bind, Except.bind] at hrun
  by_cases hr : res = Res.OK
  · subst hr
    simp only [bne_self_eq_false, Bool.false_eq_true, if_false] at hrun
    by_cases hm : TraceSetIsMember sg1.white trace = true
    · simp only [hm, if_true] at hrun
      refine ⟨_, hrun, rfl, ?_, ?_⟩
      · intro _
        refine ⟨by simp [hwhite], by simp [hcond],
          fun hb => by simp [hcond, Nat.mod_eq_of_lt hb], ?_, ?_⟩
        · intro hmv
          simp [hmv, hmay]
        · intro hmv
          simp [hmv, hmay]
      · intro hn
        exact absurd ⟨rfl, hm⟩ hn
    · simp only [hm, if_false] at hrun
      refine ⟨_, hrun, rfl, ?_, ?_⟩
      · intro h
        exact absurd h.2 hm
      · intro _
        exact ⟨rfl, hwhite, hcond, hmay⟩
  · simp only [bne_iff_ne, ne_eq, hr, not_false_eq_true, if_true] at hrun
    refine ⟨_, hrun, rfl, ?_, ?_⟩
    · intro h
      exact absurd h.1 hr
    · intro _
      exact ⟨rfl, hwhite, hcond, hmay⟩

/-- C5 on the arena with one segment, whose pool accepts: the segment of
zone 1 and size 1 MiB enters the white set and the condemned size. -/
theorem TraceAddWhite_spec_witness :
    ∃ s1, TraceAddWhite cfg0 envWhiten 0 1048576 stateOneSeg = .ok (Res.OK, s1) ∧
      (s1.arena.trace 0).white = 2 ∧ (s1.arena.trace 0).condemned = 1048576 ∧
      (s1.arena.trace 0).mayMove = 0 := by
  obtain ⟨s1, h1, _, h3, _⟩ := TraceAddWhite_spec cfg0 envWhiten 0 1048576 stateOneSeg
    segOne { segOne with white := 1 } poolGC poolGC Res.OK
    (segUpdate stateOneSeg.arena 1048576 (fun sg => { sg with white := TraceSetAdd sg.white 0 }))
    (by decide) rfl (by decide) rfl rfl rfl rfl rfl rfl rfl rfl
  obtain ⟨hw, _, hc, _, hm⟩ := h3 ⟨rfl, by decide⟩
  exact ⟨s1, h1, hw, hc (by decide), hm (by decide)⟩

/-- C4 on the arena with one segment, whose pool accepts: condemning UNIV
returns OK and the white set, zone 1, is inside UNIV. -/
theorem TraceCondemnRefSet_white_sub_witness :
    ∃ s1, TraceCondemnRefSet cfg0 envWhiten 1 0 (RefSetUNIV cfg0) stateOneSeg = .ok (Res.OK, s1) ∧
      (s1.arena.trace 0).white = 2 ∧
      RefSetSub (s1.arena.trace 0).white (RefSetUNIV cfg0) = true := by
  refine ⟨_, rfl, rfl, ?_⟩
  exact ((TraceCondemnRefSet_white_sub cfg0 envWhiten envWhiten_keeps 1 0 (RefSetUNIV cfg0)
    stateOneSeg rfl).2 _ _ rfl).1

/-- C6: let `PoolWhiten` decide about colours only, and only about the colour
of the segment it is called for, and let the segment table be in address
order. With fuel for every segment `TraceCondemnRefSet` does not run out of
fuel, and whenever it returns `r`: it has done what calling `TraceAddWhite`
in turn on the segments whose pool has the GC attribute and whose
`RefSetOfSeg` is a subset of `condemnedSet`, up to the first failure, does
(`addWhiteEach`), with that result; the calls of `PoolWhiten` it has made are
those for a prefix of that list, in order, the whole list if `r` is OK and a
prefix ending with the failing call if not; and if `r` is OK, `condemned`,
a word to start with, is its old value plus the total size of the segments
that are white for the trace, modulo `2 ^ MPS_WORD_WIDTH`: it has grown by
that total size whenever the sum is below `2 ^ MPS_WORD_WIDTH`. -/
theorem TraceCondemnRefSet_spec (cfg : Config) (env : Env) (hk : WhitenKeeps env)
    (hl : WhitenLocal env) (fuel : Nat) (trace : TraceId) (condemnedSet : RefSet)
    (s : MpsState)
    (hsorted : (s.arena.segs.map (fun sg => sg.base)).Pairwise (fun a b => a < b))
    (hfuel : s.arena.segs.length ≤ fuel) :
    TraceCondemnRefSet cfg env fuel trace condemnedSet s ≠ .error Fault.fuel ∧
    ∀ r s1, TraceCondemnRefSet cfg env fuel trace condemnedSet s = .ok (r, s1) →
      addWhiteEach cfg env trace
        ((s.arena.segs.filter (condemnable cfg s.arena condemnedSet)).map (fun sg => sg.base)) s
          = .ok (r, s1) ∧
      (∃ k, k ≤ (s.arena.segs.filter (condemnable cfg s.arena condemnedSet)).length ∧
        s1.events = s.events ++
          ((s.arena.segs.filter (condemnable cfg s.arena condemnedSet)).take k).map
            (fun sg => Event.PoolWhiten sg.pool trace sg.base) ∧
        (r = Res.OK → k = (s.arena.segs.filter (condemnable cfg s.arena condemnedSet)).length) ∧
        (r ≠ Res.OK → 0 < k)) ∧
      (r = Res.OK → (s.arena.trace trace).condemned < 2 ^ cfg.MPS_WORD_WIDTH →
        (s1.arena.trace trace).condemned =
          ((s.arena.trace trace).condemned + whiteSize trace s1.arena.segs)
            % 2 ^ cfg.MPS_WORD_WIDTH) ∧
      (r = Res.OK →
        (s.arena.trace trace).condemned + whiteSize trace s1.arena.segs
          < 2 ^ cfg.MPS_WORD_WIDTH →
        (s1.arena.trace trace).condemned =
          (s.arena.trace trace).condemned + whiteSize trace s1.arena.segs) := by
  have hbody : ∀ seg st ret st1, condemnBody cfg env trace condemnedSet seg st = .ok (ret, st1) →
      st1.arena.segs.map (fun sg => sg.base) = st.arena.segs.map (fun sg => sg.base) :=
    fun seg st ret st1 h =>
      map_base_of_geom _ _ (condemnBody_layout cfg env hk trace condemnedSet seg st st1 ret h).2.2
  have hloop := forSegs_eq_listLoop (condemnBody cfg env trace condemnedSet) hbody fuel s hsorted
    hfuel
  have hnodup : (s.arena.segs.map (fun sg => sg.base)).Nodup :=
    List.Pairwise.imp (fun h => Nat.ne_of_lt h) hsorted
  constructor
  · unfold TraceCondemnRefSet
    refine bind_ne_fuel _ _ (aver_ne_fuel _) (fun _ => ?_)
    refine bind_ne_fuel _ _ (aver_ne_fuel _) (fun _ => ?_)
    refine bind_ne_fuel _ _ (aver_ne_fuel _) (fun _ => ?_)
    refine bind_ne_fuel _ _ (aver_ne_fuel _) (fun _ => ?_)
    rw [hloop]
    refine bind_ne_fuel _ _ (listLoop_ne_fuel _ (condemnBody_ne_fuel cfg env trace condemnedSet)
      _ _) (fun res => ?_)
    split
    split
    · exact pure_ne_fuel _
    · exact bind_ne_fuel _ _ (aver_ne_fuel _) (fun _ => pure_ne_fuel _)
  · intro r s1 h
    unfold TraceCondemnRefSet at h
    simp only [bind_ok_iff, exists_aver_ok_iff] at h
    obtain ⟨hc, _, _, _, ⟨ret, s2⟩, hfor, h⟩ := h
    have hti := TraceCheck_ti cfg _ _ hc
    rw [hloop] at hfor
    obtain ⟨hrefine, hret⟩ := listLoop_condemn_refines cfg env hk trace condemnedSet _ s s2 ret hfor
    rw [filter_condemnableAt cfg s.arena condemnedSet hnodup s.arena.segs (fun _ h => h)]
      at hrefine
    have hrs : r = ret.getD Res.OK ∧ s1 = s2 := by
      cases ret with
      | some res =>
        simp only [pure_ok_iff, Prod.mk.injEq] at h
        exact ⟨h.1.symm, h.2.symm⟩
      | none =>
        simp only [bind_ok_iff, exists_aver_ok_iff, pure_ok_iff, Prod.mk.injEq] at h
        exact ⟨h.2.1.symm, h.2.2.symm⟩
    obtain ⟨hr, hs1⟩ := hrs
    subst hs1
    rw [← hr] at hrefine
    have hsum : r = Res.OK → (s.arena.trace trace).condemned < 2 ^ cfg.MPS_WORD_WIDTH →
        (s1.arena.trace trace).condemned =
          ((s.arena.trace trace).condemned + whiteSize trace s1.arena.segs)
            % 2 ^ cfg.MPS_WORD_WIDTH := by
      intro hrok hlt
      have hnone : ret = none := by
        cases ret with
        | none => rfl
        | some res =>
          exfalso
          apply hret res rfl
          rw [← hrok, hr]
          rfl
      subst hnone
      obtain ⟨hsum, hb⟩ := listLoop_condemn_sum cfg env hk hl trace condemnedSet
        (s.arena.trace trace).condemned _ [] s s1 hnodup hnodup (fun _ _ h => by cases h) hti
        (by rw [whiteSizeIn_nil_bases, Nat.add_zero, Nat.mod_eq_of_lt hlt]) hfor
      rw [hsum, List.nil_append, ← hb, whiteSizeIn_all]
    refine ⟨hrefine, ?_, hsum, ?_⟩
    · obtain ⟨k, hk1, hk2, hk3, hk4⟩ := addWhiteEach_events cfg env hk trace _ s s1 r hrefine
      refine ⟨k, by simpa using hk1, ?_, by simpa using hk3, hk4⟩
      rw [hk2, ← List.map_take,
        map_whitenEvent s.arena trace hnodup _
          (fun sg h => (List.mem_filter.mp (List.mem_of_mem_take h)).1)]
    · intro hrok hlt
      rw [hsum hrok (Nat.lt_of_le_of_lt (Nat.le_add_right _ _) hlt), Nat.mod_eq_of_lt hlt]

/-- C6 on the arena with one segment, whose pool accepts: one call of
`PoolWhiten`, result OK, and the size of the segment is condemned. -/
theorem TraceCondemnRefSet_spec_witness :
    ∃ s1, TraceCondemnRefSet cfg0 envWhiten 1 0 (RefSetUNIV cfg0) stateOneSeg = .ok (Res.OK, s1) ∧
      s1.events = [Event.PoolWhiten 7 0 1048576] ∧
      (s1.arena.trace 0).condemned = 0 + whiteSize 0 s1.arena.segs := by
  refine ⟨_, rfl, rfl, ?_⟩
  exact ((TraceCondemnRefSet_spec cfg0 envWhiten envWhiten_keeps envWhiten_local 1 0
    (RefSetUNIV cfg0) stateOneSeg (by decide) (by decide)).2 _ _ rfl).2.2.2 rfl (by decide)

/-- C9 fails as stated: in the arena with one segment of one page, condemned
and then greyed, `TraceStart` leaves `foundation = condemned = 4096` and the
rate 1, while the formula of the claim, with the ceiling, gives 2. -/
theorem TraceStart_rate_not_ceiling :
    ∃ s1 s2, TraceCondemnRefSet cfg0 envWhiten 1 0 (RefSetUNIV cfg0) statePage
        = .ok (Res.OK, s1) ∧
      (s1.arena.trace 0).state = TraceState.TraceINIT ∧
      (s1.arena.trace 0).white ≠ RefSetEMPTY ∧
      TraceStart cfg0 envWhiten 3 0 s1 = .ok (Res.OK, s2) ∧
      (s2.arena.trace 0).foundation = 4096 ∧ (s2.arena.trace 0).condemned = 4096 ∧
      (s2.arena.trace 0).rate = 1 ∧
      traceRateSpec cfg0 (s2.arena.trace 0).foundation (s2.arena.trace 0).condemned = 2 ∧
      (s2.arena.trace 0).rate ≠
        traceRateSpec cfg0 (s2.arena.trace 0).foundation (s2.arena.trace 0).condemned := by
  have hspec : traceRateSpec cfg0 4096 4096 = 2 := by
    unfold traceRateSpec cfg0
    simp only
    have : ⌈((4096 : ℕ) + ((4096 : ℕ) : ℚ) / 2) * ((65536 : ℕ) : ℚ) / (4096 * 2 ^ 20)⌉₊ = 1 := by
      rw [Nat.ceil_eq_iff (by decide)]
      constructor <;> norm_num
    rw [this]
  refine ⟨_, _, rfl, rfl, by decide, rfl, rfl, rfl, rfl, hspec, ?_⟩
  show (1 : Nat) ≠ traceRateSpec cfg0 4096 4096
  rw [hspec]
  decide

/-- C9, amended: let the procedures of the environment leave the control
fields of the traces alone. Whenever `TraceStart` returns for a trace with a
non-empty white set, the rate of the trace is the result of the computation
in `double` (`traceRate`) on the `foundation` and `condemned` the trace then
has (those of the end of the grey phase). If the word has at least 32 bits
and `(foundation + ⌊condemned / 2⌋) · ARENA_POLL_MAX` is below `2 ^ 53`, so
that no step of that computation rounds, the rate is
`1 + ⌊(foundation + ⌊condemned / 2⌋) · ARENA_POLL_MAX / (4096 · 2^20)⌋`, the
cast to `Size` truncating, and is at least 1. -/
theorem TraceStart_rate (cfg : Config) (env : Env) (hk : EnvKeepsCtl env) (fuel : Nat)
    (trace : TraceId) (s s1 : MpsState) (r : Res)
    (hw : (s.arena.trace trace).white ≠ RefSetEMPTY)
    (h : TraceStart cfg env fuel trace s = .ok (r, s1)) :
    (s.arena.trace trace).state = TraceState.TraceINIT ∧
    (s1.arena.trace trace).rate = traceRate cfg (s1.arena.trace trace) ∧
    (32 ≤ cfg.MPS_WORD_WIDTH →
      ((s1.arena.trace trace).foundation + (s1.arena.trace trace).condemned / 2)
        * cfg.ARENA_POLL_MAX < 2 ^ 53 →
      (s1.arena.trace trace).rate =
        1 + ((s1.arena.trace trace).foundation + (s1.arena.trace trace).condemned / 2)
              * cfg.ARENA_POLL_MAX / (4096 * 2 ^ 20) ∧
      (s1.arena.trace trace).rate =
        1 + ⌊((((s1.arena.trace trace).foundation : ℚ)
                + (((s1.arena.trace trace).condemned / 2 : ℕ) : ℚ))
              * (cfg.ARENA_POLL_MAX : ℚ)) / (4096 * 2 ^ 20)⌋₊ ∧
      1 ≤ (s1.arena.trace trace).rate) := by
  obtain ⟨_, hst, _, _, _, _, _, _, _, hrate, _⟩ :=
    TraceStart_effect cfg env hk fuel trace s s1 r hw h
  refine ⟨hst, hrate, ?_⟩
  intro hW hb
  have hnat : (s1.arena.trace trace).rate =
      1 + ((s1.arena.trace trace).foundation + (s1.arena.trace trace).condemned / 2)
            * cfg.ARENA_POLL_MAX / (4096 * 2 ^ 20) := by
    rw [hrate]
    exact traceRate_exact cfg _ hb hW
  refine ⟨hnat, ?_, ?_⟩
  · have hfloor := Nat.floor_div_eq_div (α := ℚ)
      (((s1.arena.trace trace).foundation + (s1.arena.trace trace).condemned / 2)
        * cfg.ARENA_POLL_MAX) (4096 * 2 ^ 20)
    push_cast at hfloor
    rw [show ((4096 : ℚ) * 2 ^ 20) = 4294967296 by norm_num, hfloor, hnat]
    norm_num
  · rw [hnat]
    exact Nat.le_add_right 1 _

/-- C9, amended, on the arena with one segment of one page: the rate is 1. -/
theorem TraceStart_rate_witness :
    ∃ s1, TraceStart cfg0 envWhiten 3 0 statePageCondemned = .ok (Res.OK, s1) ∧
      (s1.arena.trace 0).rate = 1 + (4096 + 4096 / 2) * 65536 / (4096 * 2 ^ 20) := by
  obtain ⟨s1, hs1⟩ : ∃ s1, TraceStart cfg0 envWhiten 3 0 statePageCondemned = .ok (Res.OK, s1) :=
    ⟨_, rfl⟩
  have hf : (s1.arena.trace 0).foundation = 4096 ∧ (s1.arena.trace 0).condemned = 4096 := by
    have e := hs1
    rw [show TraceStart cfg0 envWhiten 3 0 statePageCondemned = .ok (Res.OK, _) from rfl] at e
    simp only [Except.ok.injEq, Prod.mk.injEq, true_and] at e
    rw [← e]
    exact ⟨rfl, rfl⟩
  have h := ((TraceStart_rate cfg0 envWhiten envWhiten_keepsCtl 3 0 statePageCondemned s1 Res.OK
    (by decide) hs1).2.2 (by decide) (by rw [hf.1, hf.2]; decide)).1
  rw [hf.1, hf.2] at h
  exact ⟨s1, hs1, h⟩

/-- C10: for a valid trace, `TraceStep`
(a) in state INIT or FINISHED returns OK and leaves the whole state as it is;
(b) in state RECLAIM is one run of `TraceReclaim`: it returns nothing but OK,
the trace is then FINISHED, and with fuel for every segment and a
`PoolReclaim` that creates no segment it does not run out of fuel;
(c) in state FLIPPED with no segment grey for the trace only sets the state
to RECLAIM and returns OK;
(d) in state FLIPPED with a segment on a grey ring that is grey for the
trace, is, once the pool of the segment found has passed the check of its
SCAN attribute, one call of `TraceScan` for the trace set `{trace}` on one
such segment, at a rank of that segment: it returns the result of that
`TraceScan` and leaves the state that `TraceScan` leaves, in which (the
environment leaving the control fields of the traces alone) the trace is
still FLIPPED. -/
theorem TraceStep_spec (cfg : Config) (env : Env) (fuel : Nat) (trace : TraceId)
    (s : MpsState) (hc : TraceCheck cfg s.arena trace = true) :
    (((s.arena.trace trace).state = TraceState.TraceINIT ∨
        (s.arena.trace trace).state = TraceState.TraceFINISHED) →
      TraceStep cfg env fuel trace s = .ok (Res.OK, s)) ∧
    ((s.arena.trace trace).state = TraceState.TraceRECLAIM →
      TraceStep cfg env fuel trace s =
        (TraceReclaim cfg env fuel trace s).map (fun s1 => (Res.OK, s1)) ∧
      (∀ r s1, TraceStep cfg env fuel trace s = .ok (r, s1) →
        r = Res.OK ∧ (s1.arena.trace trace).state = TraceState.TraceFINISHED) ∧
      (ReclaimNoNewSegs env → s.arena.segs.length ≤ fuel →
        TraceStep cfg env fuel trace s ≠ .error Fault.fuel)) ∧
    ((s.arena.trace trace).state = TraceState.TraceFLIPPED →
      (∀ sg ∈ s.arena.segs, TraceSetIsMember sg.grey trace = false) →
      TraceStep cfg env fuel trace s =
        .ok (Res.OK, { s with arena := (setTrace s.arena trace
          { s.arena.trace trace with state := TraceState.TraceRECLAIM }) })) ∧
    ((s.arena.trace trace).state = TraceState.TraceFLIPPED →
      (∃ sg ∈ s.arena.segs, TraceSetIsMember sg.grey trace = true ∧
        ∃ rank, rank < cfg.RankMAX ∧ RankSetIsMember sg.rankSet rank = true) →
      ∃ sg ∈ s.arena.segs, ∃ rank, rank < cfg.RankMAX ∧
        TraceSetIsMember sg.grey trace = true ∧ RankSetIsMember sg.rankSet rank = true ∧
        traceFindGrey cfg s.arena trace = .ok (some (sg.base, rank)) ∧
        (∀ sg1 p, segGet s.arena sg.base = .ok sg1 → poolGet s.arena sg1.pool = .ok p →
          p.attr &&& cfg.AttrSCAN ≠ 0 →
          TraceStep cfg env fuel trace s =
            TraceScan cfg env (TraceSetSingle trace) rank sg.base s) ∧
        (∀ r s1, TraceStep cfg env fuel trace s = .ok (r, s1) →
          TraceScan cfg env (TraceSetSingle trace) rank sg.base s = .ok (r, s1) ∧
          (EnvKeepsCtl env → (s1.arena.trace trace).state = TraceState.TraceFLIPPED))) := by
  have hid := TraceCheck_idcheck cfg _ _ hc
  refine ⟨TraceStep_noprogress cfg env fuel trace s hc, ?_, ?_, ?_⟩
  · intro hs
    have heq := TraceStep_reclaim cfg env fuel trace s hc hs
    refine ⟨heq, ?_, ?_⟩
    · intro r s1 h
      rw [heq, map_ok_iff] at h
      obtain ⟨s2, hrec, h⟩ := h
      simp only [Prod.mk.injEq] at h
      rw [← h.1, ← h.2]
      exact ⟨rfl, TraceReclaim_finished cfg env fuel trace s s2 hrec⟩
    · intro hn hfuel
      rw [heq]
      have := TraceReclaim_ne_fuel cfg env hn fuel trace s hfuel
      cases hr : TraceReclaim cfg env fuel trace s with
      | error f =>
        simp only [Except.map, ne_eq, Except.error.injEq]
        intro hf
        rw [hr, hf] at this
        exact this rfl
      | ok s1 => simp [Except.map]
  · intro hs hnone
    rw [TraceStep_flipped cfg env fuel trace s hc hs]
    apply TraceRun_none cfg env trace s hc hs
    unfold traceFindGrey
    rw [aver_true_bind _ _ hid]
    exact findGreyRanks_none s.arena trace hnone _
  · intro hs hex
    obtain ⟨sg0, hsg0, hg0, rank0, hr0, hrs0⟩ := hex
    obtain ⟨sg, hsg, rank, hr, hg, hrs, hfind⟩ :=
      findGreyRanks_some s.arena trace (List.range cfg.RankMAX)
        ⟨sg0, hsg0, hg0, rank0, List.mem_range.mpr hr0, hrs0⟩
    have hfg : traceFindGrey cfg s.arena trace = .ok (some (sg.base, rank)) := by
      unfold traceFindGrey
      rw [aver_true_bind _ _ hid]
      exact hfind
    have hrun := TraceRun_some cfg env trace s sg.base rank hc hs hfg
    have hstep := TraceStep_flipped cfg env fuel trace s hc hs
    refine ⟨sg, hsg, rank, List.mem_range.mp hr, hg, hrs, hfg, ?_, ?_⟩
    · intro sg1 p h1 h2 h3
      rw [hstep, hrun, h1]
      simp only [bind, Except.bind]
      rw [h2]
      simp only []
      rw [show aver (p.attr &&& cfg.AttrSCAN != 0) = .ok () by simp [aver, h3]]
    · intro r s1 h
      rw [hstep, hrun] at h
      simp only [bind_ok_iff, exists_aver_ok_iff] at h
      obtain ⟨sg1, _, p, _, _, hscan⟩ := h
      refine ⟨hscan, ?_⟩
      intro hk
      rw [sameAll_state (TraceScan_keeps cfg env hk _ _ _ _ _ _ hscan), hs]

/-- C10 on the arena with one page, FLIPPED and grey: the step is one
`TraceScan` of the segment at rank 1 and returns OK. -/
theorem TraceStep_spec_witness :
    TraceStep cfg0 envWhiten 1 0 statePageFlipped =
        TraceScan cfg0 envWhiten (TraceSetSingle 0) 1 1048576 statePageFlipped ∧
      ∃ s1, TraceStep cfg0 envWhiten 1 0 statePageFlipped = .ok (Res.OK, s1) ∧
        (s1.arena.trace 0).state = TraceState.TraceFLIPPED := by
  obtain ⟨sg, hsg, rank, _, _, _, hfind, heq, hres⟩ :=
    (TraceStep_spec cfg0 envWhiten 1 0 statePageFlipped (by decide)).2.2.2 rfl
      ⟨{ segPage with white := 1, grey := 1, sm := 1 }, by decide, by decide, 1, by decide,
        by decide⟩
  obtain ⟨s1, hs1⟩ : ∃ s1, TraceStep cfg0 envWhiten 1 0 statePageFlipped = .ok (Res.OK, s1) :=
    ⟨_, rfl⟩
  exact ⟨rfl, s1, hs1, (hres Res.OK s1 hs1).2 envWhiten_keepsCtl⟩

/-- C7: `mayMove ⊆ white`, for an environment that leaves the control fields
of the traces alone. The trace that `TraceCreate` returns has both sets
empty, and `TraceCreate` changes no other slot. `TraceAddWhite` and
`TraceCondemnRefSet` keep `mayMove ⊆ white` in every slot, whatever result
code `PoolWhiten` gives and whatever the attributes of the pool are.
`TraceStart`, `TraceFlip`, `TraceStep`, `TracePoll`, `TraceAccess` and
`TraceDestroy` leave `white` and `mayMove` of every slot as they are. So
every sequence of operations keeps `mayMove ⊆ white` in every slot. -/
theorem mayMove_sub_white (cfg : Config) (env : Env) (hk : EnvKeepsCtl env) :
    (∀ s r ti s1, TraceCreate cfg s = .ok (r, some ti, s1) →
      (s1.arena.trace ti).white = RefSetEMPTY ∧ (s1.arena.trace ti).mayMove = RefSetEMPTY ∧
      RefSetSub (s1.arena.trace ti).mayMove (s1.arena.trace ti).white = true ∧
      ∀ i, i ≠ ti → s1.arena.trace i = s.arena.trace i) ∧
    (∀ trace seg s r s1, TraceAddWhite cfg env trace seg s = .ok (r, s1) →
      ∀ i, RefSetSub (s.arena.trace i).mayMove (s.arena.trace i).white = true →
        RefSetSub (s1.arena.trace i).mayMove (s1.arena.trace i).white = true) ∧
    (∀ fuel trace condemnedSet s r s1,
      TraceCondemnRefSet cfg env fuel trace condemnedSet s = .ok (r, s1) →
      ∀ i, RefSetSub (s.arena.trace i).mayMove (s.arena.trace i).white = true →
        RefSetSub (s1.arena.trace i).mayMove (s1.arena.trace i).white = true) ∧
    (∀ fuel trace s r s1, TraceStart cfg env fuel trace s = .ok (r, s1) →
      sameWhite s.arena s1.arena) ∧
    (∀ fuel trace s r s1, TraceFlip cfg env fuel trace s = .ok (r, s1) →
      sameWhite s.arena s1.arena) ∧
    (∀ fuel trace s r s1, TraceStep cfg env fuel trace s = .ok (r, s1) →
      sameWhite s.arena s1.arena) ∧
    (∀ fuel trace s s1, TracePoll cfg env fuel trace s = .ok s1 →
      sameWhite s.arena s1.arena) ∧
    (∀ seg mode s s1, TraceAccess cfg env seg mode s = .ok s1 →
      sameWhite s.arena s1.arena) ∧
    (∀ trace s s1, TraceDestroy cfg trace s = .ok s1 → sameWhite s.arena s1.arena) ∧
    (∀ fuel ops s s1, applyOps cfg env fuel ops s = .ok s1 →
      mayMoveSubWhite s.arena → mayMoveSubWhite s1.arena) := by
  refine ⟨?_, ?_, ?_, ?_, ?_, ?_, ?_, ?_, ?_, ?_⟩
  · intro s r ti s1 h
    rcases TraceCreate_ok_inv cfg s r (some ti) s1 h with ⟨_, ht, _⟩ | ⟨tj, _, ht, _, _, _, hs1⟩
    · cases ht
    · simp only [Option.some.injEq] at ht
      subst ht
      rw [hs1]
      refine ⟨?_, ?_, ?_, ?_⟩
      · simp only [setTrace_trace_same]
        rfl
      · simp only [setTrace_trace_same]
        rfl
      · simp only [setTrace_trace_same]
        exact RefSetSub_empty _
      · intro i hi
        simp only [setTrace_trace_ne _ _ _ _ hi]
  · intro trace seg s r s1 h i
    exact ((TraceAddWhite_ctl cfg env hk trace seg s s1 r h).2.2 i).2.2
  · intro fuel trace cs s r s1 h i
    exact ((TraceCondemnRefSet_ctl cfg env hk fuel trace cs s s1 r h).2.2 i).2.2
  · intro fuel trace s r s1 h
    exact TraceStart_sameWhite cfg env hk fuel trace s s1 r h
  · intro fuel trace s r s1 h
    exact TraceFlip_sameWhite cfg env hk fuel trace s s1 r h
  · intro fuel trace s r s1 h
    exact sameWhite_of_advCtl (TraceStep_adv cfg env hk fuel trace s s1 r h)
  · intro fuel trace s s1 h
    exact sameWhite_of_advCtl (TracePoll_adv cfg env hk fuel trace s s1 h)
  · intro seg mode s s1 h
    exact sameWhite_of_sameCtl (TraceAccess_keeps cfg env hk seg mode s s1 h).1
  · intro trace s s1 h
    exact TraceDestroy_sameWhite cfg trace s s1 h
  · intro fuel ops s s1 h hs
    exact applyOps_inv cfg env fuel (fun st => mayMoveSubWhite st.arena)
      (fun op st st1 hop hP => applyOp_mayMoveSubWhite cfg env hk fuel op st st1 hop hP)
      ops s s1 h hs

/-- C7 on a segment of a moving pool: `TraceAddWhite` adds zone 1 to `white`
and to `mayMove`, and `mayMove ⊆ white` afterwards. -/
theorem mayMove_sub_white_witness :
    ∃ s1, TraceAddWhite cfg0 envWhiten 0 1048576 statePageMoving = .ok (Res.OK, s1) ∧
      (s1.arena.trace 0).white = 2 ∧ (s1.arena.trace 0).mayMove = 2 ∧
      RefSetSub (s1.arena.trace 0).mayMove (s1.arena.trace 0).white = true := by
  obtain ⟨s1, hs1⟩ :
      ∃ s1, TraceAddWhite cfg0 envWhiten 0 1048576 statePageMoving = .ok (Res.OK, s1) :=
    ⟨_, rfl⟩
  have hsub := (mayMove_sub_white cfg0 envWhiten envWhiten_keepsCtl).2.1 0 1048576
    statePageMoving Res.OK s1 hs1 0 (by decide)
  have hf : (s1.arena.trace 0).white = 2 ∧ (s1.arena.trace 0).mayMove = 2 := by
    have e := hs1
    rw [show TraceAddWhite cfg0 envWhiten 0 1048576 statePageMoving = .ok (Res.OK, _) from rfl]
      at e
    simp only [Except.ok.injEq, Prod.mk.injEq, true_and] at e
    rw [← e]
    exact ⟨rfl, rfl⟩
  exact ⟨s1, hs1, hf.1, hf.2, hsub⟩

/-- C8: for an environment that leaves the trace sets and the control fields
of the traces alone, in every state that a sequence of `TraceCreate`,
`TraceCondemnRefSet`, `TraceStart` (with its `TraceFlip`), `TraceStep`,
`TracePoll`, `TraceAccess` and `TraceDestroy` reaches from `busyTraces =
flippedTraces = EMPTY`: `flippedTraces ⊆ busyTraces`, and every busy slot
holds the trace of its index, whose identifier is not in `flippedTraces`
while its state is INIT or UNFLIPPED and is in `flippedTraces` while its
state is FLIPPED, RECLAIM or FINISHED. -/
theorem flippedTraces_sub_busyTraces (cfg : Config) (env : Env) (hk : EnvKeepsCtl env)
    (fuel : Nat) (ops : List Op) (s s1 : MpsState)
    (hb : s.arena.busyTraces = TraceSetEMPTY) (hf : s.arena.flippedTraces = TraceSetEMPTY)
    (h : applyOps cfg env fuel ops s = .ok s1) :
    TraceSetSub s1.arena.flippedTraces s1.arena.busyTraces = true ∧
    ∀ i, TraceSetIsMember s1.arena.busyTraces i = true →
      (s1.arena.trace i).ti = i ∧
      (((s1.arena.trace i).state = TraceState.TraceINIT ∨
          (s1.arena.trace i).state = TraceState.TraceUNFLIPPED) →
        TraceSetIsMember s1.arena.flippedTraces (s1.arena.trace i).ti = false) ∧
      (((s1.arena.trace i).state = TraceState.TraceFLIPPED ∨
          (s1.arena.trace i).state = TraceState.TraceRECLAIM ∨
          (s1.arena.trace i).state = TraceState.TraceFINISHED) →
        TraceSetIsMember s1.arena.flippedTraces (s1.arena.trace i).ti = true) := by
  have hinv : busyFlippedInv s1.arena :=
    applyOps_inv cfg env fuel (fun st => busyFlippedInv st.arena)
      (fun op st st1 hop hP => applyOp_busyFlippedInv cfg env hk fuel op st st1 hop hP)
      ops s s1 h (busyFlippedInv_empty s.arena hb hf)
  refine ⟨hinv.1, ?_⟩
  intro i hi
  obtain ⟨h1, h2⟩ := hinv.2 i hi
  refine ⟨h1, ?_, ?_⟩
  · intro hst
    rw [h2]
    rcases hst with hst | hst <;> rw [hst] <;> rfl
  · intro hst
    rw [h2]
    rcases hst with hst | hst | hst <;> rw [hst] <;> rfl

/-- C8 on the arena with one page: after create, condemn and start the one
trace is busy, flipped and FLIPPED. -/
theorem flippedTraces_sub_busyTraces_witness :
    ∃ s1, applyOps cfg0 envWhiten 3 [Op.create, Op.condemn 0 (RefSetUNIV cfg0), Op.start 0]
        stateFresh = .ok s1 ∧
      s1.arena.busyTraces = 1 ∧ s1.arena.flippedTraces = 1 ∧
      (s1.arena.trace 0).state = TraceState.TraceFLIPPED ∧
      TraceSetSub s1.arena.flippedTraces s1.arena.busyTraces = true ∧
      TraceSetIsMember s1.arena.flippedTraces (s1.arena.trace 0).ti = true := by
  obtain ⟨s1, hs1⟩ :
      ∃ s1, applyOps cfg0 envWhiten 3 [Op.create, Op.condemn 0 (RefSetUNIV cfg0), Op.start 0]
        stateFresh = .ok s1 :=
    ⟨_, rfl⟩
  have hinv := flippedTraces_sub_busyTraces cfg0 envWhiten envWhiten_keepsCtl 3
    [Op.create, Op.condemn 0 (RefSetUNIV cfg0), Op.start 0] stateFresh s1 rfl rfl hs1
  have hf : s1.arena.busyTraces = 1 ∧ s1.arena.flippedTraces = 1 ∧
      (s1.arena.trace 0).state = TraceState.TraceFLIPPED := by
    have e := hs1
    rw [show applyOps cfg0 envWhiten 3 [Op.create, Op.condemn 0 (RefSetUNIV cfg0), Op.start 0]
      stateFresh = .ok _ from rfl] at e
    simp only [Except.ok.injEq] at e
    rw [← e]
    exact ⟨rfl, rfl, rfl⟩
  have hbusy : TraceSetIsMember s1.arena.busyTraces 0 = true := by
    rw [hf.1]
    rfl
  exact ⟨s1, hs1, hf.1, hf.2.1, hf.2.2, hinv.1, (hinv.2 0 hbusy).2.2 (Or.inl hf.2.2)⟩

/-- C11: `TracePoll` returns no result code. When its `TraceStep` returns
OK, `TracePoll` returns the state that this one `TraceStep` left. When its
`TraceStep` returns another code and `TracePoll` returns, the code was MEMORY
or RESOURCE and the state returned is the one that a number of further calls
of `TraceStep`, each returning OK, reach from the state of the failed step
with `emergency` set in the trace; in it the trace is FINISHED and, the pool
procedures leaving the flag alone, `emergency` is TRUE. Conversely, when the
code is MEMORY or RESOURCE and `TraceExpedite` returns from the state of the
failed step, `TracePoll` returns what `TraceExpedite` returns. -/
theorem TracePoll_spec (cfg : Config) (env : Env) (fuel : Nat) (trace : TraceId)
    (s : MpsState) :
    (∀ s1, TraceStep cfg env fuel trace s = .ok (Res.OK, s1) →
      TracePoll cfg env fuel trace s = .ok s1) ∧
    (∀ res s1 s2, TraceStep cfg env fuel trace s = .ok (res, s1) → res ≠ Res.OK →
      TracePoll cfg env fuel trace s = .ok s2 →
      (res = Res.MEMORY ∨ res = Res.RESOURCE) ∧
      TraceExpedite cfg env fuel trace s1 = .ok s2 ∧
      (∃ k, stepN cfg env fuel trace k
        { s1 with arena := (setTrace s1.arena trace
            { s1.arena.trace trace with emergency := true }) } = .ok s2) ∧
      (s2.arena.trace trace).state = TraceState.TraceFINISHED ∧
      (StepKeeps (fun t => t.emergency) env → (s2.arena.trace trace).emergency = true)) ∧
    (∀ res s1 s2, TraceStep cfg env fuel trace s = .ok (res, s1) →
      (res = Res.MEMORY ∨ res = Res.RESOURCE) →
      TraceExpedite cfg env fuel trace s1 = .ok s2 →
      TracePoll cfg env fuel trace s = .ok s2) := by
  refine ⟨?_, ?_, ?_⟩
  · intro s1 h
    have hc := TraceStep_ok_check cfg env fuel trace s s1 Res.OK h
    unfold TracePoll
    rw [aver_true_bind _ _ hc, h]
    rfl
  · intro res s1 s2 hstep hres hpoll
    unfold TracePoll at hpoll
    simp only [bind_ok_iff, exists_aver_ok_iff] at hpoll
    obtain ⟨_, ⟨res1, s1a⟩, hstep1, hpoll⟩ := hpoll
    rw [hstep] at hstep1
    simp only [Except.ok.injEq, Prod.mk.injEq] at hstep1
    obtain ⟨e1, e2⟩ := hstep1
    subst e1 e2
    have hne : (res != Res.OK) = true := by simpa using hres
    simp only [hne, if_true, bind_ok_iff, exists_aver_ok_iff, pure_ok_iff, Bool.or_eq_true,
      beq_iff_eq] at hpoll
    obtain ⟨hcode, s3, hexp, hfin, hs3⟩ := hpoll
    subst hs3
    obtain ⟨_, _, hloop⟩ := TraceExpedite_ok_inv cfg env fuel trace s1 s3 hexp
    obtain ⟨k, _, hk⟩ := expediteLoop_stepN cfg env fuel trace fuel _ s3 hloop
    refine ⟨hcode, hexp, ⟨k, hk⟩, hfin, ?_⟩
    intro hkeep
    have hp := (expediteLoop_proj (fun t => t.emergency) stepBlind_emergency cfg env hkeep
      fuel trace fuel _ s3 hloop).1 trace
    simp only [setTrace_trace_same] at hp
    exact hp
  · intro res s1 s2 hstep hcode hexp
    have hc := TraceStep_ok_check cfg env fuel trace s s1 res hstep
    obtain ⟨_, _, hloop⟩ := TraceExpedite_ok_inv cfg env fuel trace s1 s2 hexp
    have hfin := expediteLoop_finished cfg env fuel trace fuel _ s2 hloop
    unfold TracePoll
    rw [aver_true_bind _ _ hc, hstep]
    have hne : (res != Res.OK) = true := by
      rcases hcode with h | h <;> rw [h] <;> rfl
    have hcd : (res == Res.MEMORY || res == Res.RESOURCE) = true := by
      rcases hcode with h | h <;> rw [h] <;> rfl
    simp only [bind, Except.bind, hne, if_true]
    rw [show aver (res == Res.MEMORY || res == Res.RESOURCE) = .ok () by rw [hcd]; rfl]
    simp only [hexp]
    rw [show aver ((s2.arena.trace trace).state == TraceState.TraceFINISHED) = .ok () by
      rw [hfin]; rfl]
    rfl

/-- C11 on the arena with one grey page and a pool whose scan fails with
RESOURCE outside emergency mode: `TracePoll` returns, the trace is FINISHED
and `emergency` is TRUE. -/
theorem TracePoll_spec_witness :
    ∃ s1 s2, TraceStep cfg0 envFailing 5 0 statePageFlipped = .ok (Res.RESOURCE, s1) ∧
      TracePoll cfg0 envFailing 5 0 statePageFlipped = .ok s2 ∧
      (s2.arena.trace 0).state = TraceState.TraceFINISHED ∧
      (s2.arena.trace 0).emergency = true := by
  obtain ⟨s1, hs1⟩ :
      ∃ s1, TraceStep cfg0 envFailing 5 0 statePageFlipped = .ok (Res.RESOURCE, s1) :=
    ⟨_, rfl⟩
  obtain ⟨s2, hs2⟩ : ∃ s2, TracePoll cfg0 envFailing 5 0 statePageFlipped = .ok s2 :=
    ⟨_, rfl⟩
  have h := (TracePoll_spec cfg0 envFailing 5 0 statePageFlipped).2.1 Res.RESOURCE s1 s2 hs1
    (by decide) hs2
  refine ⟨s1, s2, hs1, hs2, h.2.2.2.1, h.2.2.2.2 ⟨?_, ?_, ?_⟩⟩
  · intro a pool ts seg i
    rfl
  · intro a ss pool seg i
    simp only [envFailing]
    split <;> rfl
  · intro a pool ti seg i
    rfl

/-- C12: repeated `TraceStep` on a started trace. Let the procedures of the
environment leave the control fields of the traces alone, and let
`PoolBlacken` and `PoolScan` grey no further segment. Then
(a) a `TraceStart` that returns OK leaves the trace FLIPPED or FINISHED;
(b) a step that returns OK in state FLIPPED either leaves the state FLIPPED
and takes the greyness for the trace off one segment, the other grey
segments being among those grey before, or moves to RECLAIM and leaves the
segments as they are;
(c) a step in state RECLAIM returns OK and moves to FINISHED;
(d) after a `TraceStart` that returned OK, `n` calls of `TraceStep` that all
return OK leave the trace FINISHED as soon as `n` is at least `G + 2`, `G`
being the number of segments grey for the trace after the start;
(e) the loop of `TraceExpedite` does not run out of rounds: if moreover the
pool procedures add no segment, then from a started trace, with more rounds
than `G + 2` and fuel for every segment, the loop does not end for lack of
fuel. -/
theorem TraceStep_terminates (cfg : Config) (env : Env) (hk : EnvKeepsCtl env)
    (hg : ScanNoNewGrey env) (fuel : Nat) (trace : TraceId) :
    (∀ s s1, TraceStart cfg env fuel trace s = .ok (Res.OK, s1) →
      (s1.arena.trace trace).state = TraceState.TraceFLIPPED ∨
      (s1.arena.trace trace).state = TraceState.TraceFINISHED) ∧
    (∀ s s1, (s.arena.trace trace).state = TraceState.TraceFLIPPED →
      TraceStep cfg env fuel trace s = .ok (Res.OK, s1) →
      ((s1.arena.trace trace).state = TraceState.TraceFLIPPED ∧
        ∃ seg, seg ∈ greyBases trace s.arena.segs ∧ seg ∉ greyBases trace s1.arena.segs ∧
          (greyBases trace s1.arena.segs).Sublist (greyBases trace s.arena.segs) ∧
          (greyBases trace s1.arena.segs).length < (greyBases trace s.arena.segs).length) ∨
      ((s1.arena.trace trace).state = TraceState.TraceRECLAIM ∧
        s1.arena.segs = s.arena.segs)) ∧
    (∀ s r s1, (s.arena.trace trace).state = TraceState.TraceRECLAIM →
      TraceStep cfg env fuel trace s = .ok (r, s1) →
      r = Res.OK ∧ (s1.arena.trace trace).state = TraceState.TraceFINISHED) ∧
    (∀ s s1 n s2, TraceStart cfg env fuel trace s = .ok (Res.OK, s1) →
      (greyBases trace s1.arena.segs).length + 2 ≤ n →
      stepN cfg env fuel trace n s1 = .ok s2 →
      (s2.arena.trace trace).state = TraceState.TraceFINISHED) ∧
    (ScanNoNewSegs env → ReclaimNoNewSegs env →
      ∀ s n, flippedPhase (s.arena.trace trace).state = true →
        (greyBases trace s.arena.segs).length + 2 < n → s.arena.segs.length ≤ fuel →
        expediteLoop cfg env fuel trace n s ≠ .error Fault.fuel) := by
  have hstart : ∀ s s1, TraceStart cfg env fuel trace s = .ok (Res.OK, s1) →
      (s1.arena.trace trace).state = TraceState.TraceFLIPPED ∨
      (s1.arena.trace trace).state = TraceState.TraceFINISHED := by
    intro s s1 h
    by_cases hw : (s.arena.trace trace).white = RefSetEMPTY
    · obtain ⟨_, _, _, hs1⟩ := TraceStart_empty_inv cfg env fuel trace s s1 Res.OK hw h
      rw [hs1]
      exact Or.inr (by simp only [setTrace_trace_same])
    · obtain ⟨_, _, _, _, _, _, _, _, _, _, hcases⟩ :=
        TraceStart_effect cfg env hk fuel trace s s1 Res.OK hw h
      rcases hcases with ⟨hne, _⟩ | ⟨_, _, hst⟩
      · exact absurd rfl hne
      · exact Or.inl hst
  have hmeasure : ∀ a : ArenaStruct,
      stepMeasure trace a ≤ (greyBases trace a.segs).length + 2 := by
    intro a
    unfold stepMeasure
    cases (a.trace trace).state <;> simp
  refine ⟨hstart, ?_, ?_, ?_, ?_⟩
  · intro s s1 hst h
    obtain ⟨hc, hcases⟩ := TraceStep_ok_inv cfg env fuel trace s s1 Res.OK h
    rcases hcases with ⟨hst1, _, _⟩ | ⟨_, hrun⟩ | ⟨hst1, _, _⟩
    · rw [hst] at hst1
      rcases hst1 with h1 | h1 <;> cases h1
    · obtain ⟨_, _, hrun⟩ := TraceRun_ok_inv cfg env trace s s1 Res.OK hrun
      rcases hrun with ⟨_, _, hs1⟩ | ⟨seg, rank, sg, p, _, _, _, _, hscan⟩
      · rw [hs1]
        exact Or.inr ⟨by simp only [setTrace_trace_same], rfl⟩
      · have hs := sameAll_state (TraceScan_keeps cfg env hk _ _ _ _ _ _ hscan) trace
        exact Or.inl ⟨hs.trans hst, seg,
          TraceScan_single_grey cfg env hg trace rank seg s s1 hscan⟩
    · rw [hst] at hst1
      cases hst1
  · intro s r s1 hst h
    obtain ⟨hc, hcases⟩ := TraceStep_ok_inv cfg env fuel trace s s1 r h
    rcases hcases with ⟨hst1, _, _⟩ | ⟨hst1, _⟩ | ⟨_, hr, hrec⟩
    · rw [hst] at hst1
      rcases hst1 with h1 | h1 <;> cases h1
    · rw [hst] at hst1
      cases hst1
    · exact ⟨hr, TraceReclaim_finished cfg env fuel trace s s1 hrec⟩
  · intro s s1 n s2 h hn hsteps
    have hph : flippedPhase (s1.arena.trace trace).state = true := by
      rcases hstart s s1 h with h1 | h1 <;> rw [h1] <;> rfl
    exact stepN_finished cfg env hk hg fuel trace n s1 s2 hph
      (Nat.le_trans (hmeasure s1.arena) hn) hsteps
  · intro hs hnew s n hph hn hfuel
    exact expediteLoop_ne_fuel cfg env hk hg hs hnew fuel trace n s hph
      (Nat.lt_of_le_of_lt (hmeasure s.arena) hn) hfuel

/-- C12 on the arena with one page, condemned: after the start one segment
is grey, and three successful steps leave the trace FINISHED. -/
theorem TraceStep_terminates_witness :
    ∃ s2, TraceStart cfg0 envCollect 3 0 statePageCondemned = .ok (Res.OK, statePageFlipped) ∧
      (greyBases 0 statePageFlipped.arena.segs).length = 1 ∧
      stepN cfg0 envCollect 3 0 3 statePageFlipped = .ok s2 ∧
      (s2.arena.trace 0).state = TraceState.TraceFINISHED := by
  have hs1 : TraceStart cfg0 envCollect 3 0 statePageCondemned =
      .ok (Res.OK, statePageFlipped) := rfl
  obtain ⟨s2, hs2⟩ : ∃ s2, stepN cfg0 envCollect 3 0 3 statePageFlipped = .ok s2 := ⟨_, rfl⟩
  exact ⟨s2, hs1, rfl, hs2,
    (TraceStep_terminates cfg0 envCollect envCollect_keepsCtl envCollect_noNewGrey 3 0).2.2.2.1
      statePageCondemned statePageFlipped 3 s2 hs1 (by decide) hs2⟩

/-- C13: the summary rule of the scanning branch of `TraceScan`. Let the
segment refer to the white set, let `PoolScan` return `res` and `wasTotal`
and leave the scan state `ss1` and the segment with the summary `old`. When
`TraceScan` returns, the summary of the segment is `ScanStateSummary(ss1)` if
`res` is OK and `wasTotal` is true, and `old ∪ ScanStateSummary(ss1)`
otherwise; in both cases it is a superset of `ScanStateSummary(ss1)`, and
after a partial scan also of `old`. -/
theorem TraceScan_summary_rule (cfg : Config) (env : Env) (ts : TraceSet) (rank : Rank)
    (seg : Addr) (s s1 : MpsState) (r : Res) (sg : SegStruct)
    (h : TraceScan cfg env ts rank seg s = .ok (r, s1))
    (hsg : segGet s.arena seg = .ok sg)
    (hw : RefSetInter (traceSetWhite cfg s.arena ts) sg.summary ≠ RefSetEMPTY) :
    ∃ ss res wasTotal ss1 a1 sg1 sgF,
      ScanStateInit cfg s.arena ts rank (traceSetWhite cfg s.arena ts) = .ok ss ∧
      env.PoolScan s.arena ss sg.pool seg = (res, wasTotal, ss1, a1) ∧
      segGet a1 seg = .ok sg1 ∧
      ScanStateSummary cfg a1 ss1 = .ok (scanSummary cfg ss1) ∧
      segGet s1.arena seg = .ok sgF ∧
      (res = Res.OK ∧ wasTotal = true → sgF.summary = scanSummary cfg ss1) ∧
      (res ≠ Res.OK ∨ wasTotal = false →
        sgF.summary = RefSetUnion sg1.summary (scanSummary cfg ss1) ∧
        RefSetSuper sgF.summary sg1.summary = true) ∧
      RefSetSuper sgF.summary (scanSummary cfg ss1) = true := by
  obtain ⟨sg0, hsg0, _, _, hcases⟩ := TraceScan_seg_inv cfg env ts rank seg s s1 r h
  rw [hsg] at hsg0
  simp only [Except.ok.injEq] at hsg0
  subst hsg0
  rcases hcases with ⟨hw0, _⟩ |
    ⟨_, ss, res, wasTotal, ss1, a1, sg1, sgF, hinit, hps, _, hsg1, _, hsum, hF, hS, _⟩
  · exact absurd hw0 hw
  · refine ⟨ss, res, wasTotal, ss1, a1, sg1, sgF, hinit, hps, hsg1, hsum, hF, ?_, ?_, ?_⟩
    · rintro ⟨hres, htot⟩
      rw [hS, hres, htot]
      rfl
    · intro hpart
      have e : sgF.summary = RefSetUnion sg1.summary (scanSummary cfg ss1) := by
        rw [hS]
        unfold scannedSegSummary
        rw [if_pos]
        rcases hpart with hne | htot
        · simp [hne]
        · simp [htot]
      rw [e]
      exact ⟨rfl, RefSetSuper_union_left _ _⟩
    · rw [hS]
      unfold scannedSegSummary
      split
      · exact RefSetSuper_union_right _ _
      · exact RefSetSuper_refl _

/-- C13 on the grey page: a total successful scan that fixed nothing
replaces the summary UNIV of the segment by the empty scanned summary. -/
theorem TraceScan_summary_rule_witness :
    ∃ s1 sgF, TraceScan cfg0 envCollect (TraceSetSingle 0) 1 1048576 statePageFlipped =
        .ok (Res.OK, s1) ∧
      segGet s1.arena 1048576 = .ok sgF ∧ sgF.summary = RefSetEMPTY := by
  obtain ⟨s1, hs1⟩ : ∃ s1, TraceScan cfg0 envCollect (TraceSetSingle 0) 1 1048576
      statePageFlipped = .ok (Res.OK, s1) := ⟨_, rfl⟩
  obtain ⟨ss, res, wasTotal, ss1, a1, sg1, sgF, hinit, hps, _, _, hF, htotal, _, _⟩ :=
    TraceScan_summary_rule cfg0 envCollect (TraceSetSingle 0) 1 1048576 statePageFlipped s1
      Res.OK { segPage with white := 1, grey := 1, sm := 1 } hs1 rfl (by decide)
  have hss : ScanStateInit cfg0 statePageFlipped.arena (TraceSetSingle 0) 1
      (traceSetWhite cfg0 statePageFlipped.arena (TraceSetSingle 0)) = .ok _ := rfl
  rw [hss] at hinit
  simp only [Except.ok.injEq] at hinit
  subst hinit
  simp only [envCollect, envWhiten, envIdle, Prod.mk.injEq] at hps
  obtain ⟨hres, htot, hss1, _⟩ := hps
  refine ⟨s1, sgF, hs1, hF, ?_⟩
  rw [htotal ⟨hres.symm, htot.symm⟩, ← hss1]
  rfl

/-- C14: the greyness of the segment after `TraceScan(ts, rank, arena, seg)`.
When the call returns OK, by the blacken branch or by a `PoolScan` that
returned OK (total or not), the grey set of the segment is the grey set that
the pool procedure left, less `ts`, so that the segment is grey for no trace
of `ts`. When the call returns another code, this is the code of `PoolScan`,
and the grey set of the segment is the one `PoolScan` left: `TraceScan`
itself takes no trace off it, and if `PoolScan` left the grey set as it
found it, the segment is still grey for a trace of `ts`. -/
theorem TraceScan_grey (cfg : Config) (env : Env) (ts : TraceSet) (rank : Rank)
    (seg : Addr) (s s1 : MpsState) (r : Res) (sg : SegStruct)
    (h : TraceScan cfg env ts rank seg s = .ok (r, s1))
    (hsg : segGet s.arena seg = .ok sg) :
    (r = Res.OK →
      ∃ a1 sg1 sgF,
        ((RefSetInter (traceSetWhite cfg s.arena ts) sg.summary = RefSetEMPTY ∧
            a1 = env.PoolBlacken s.arena sg.pool ts seg) ∨
         (RefSetInter (traceSetWhite cfg s.arena ts) sg.summary ≠ RefSetEMPTY ∧
            ∃ ss wasTotal ss1,
              ScanStateInit cfg s.arena ts rank (traceSetWhite cfg s.arena ts) = .ok ss ∧
              env.PoolScan s.arena ss sg.pool seg = (Res.OK, wasTotal, ss1, a1))) ∧
        segGet a1 seg = .ok sg1 ∧ segGet s1.arena seg = .ok sgF ∧
        sgF.grey = TraceSetDiff cfg sg1.grey ts ∧
        ∀ i, TraceSetIsMember ts i = true → TraceSetIsMember sgF.grey i = false) ∧
    (r ≠ Res.OK →
      RefSetInter (traceSetWhite cfg s.arena ts) sg.summary ≠ RefSetEMPTY ∧
      ∃ ss wasTotal ss1 a1 sg1 sgF,
        ScanStateInit cfg s.arena ts rank (traceSetWhite cfg s.arena ts) = .ok ss ∧
        env.PoolScan s.arena ss sg.pool seg = (r, wasTotal, ss1, a1) ∧
        segGet a1 seg = .ok sg1 ∧ segGet s1.arena seg = .ok sgF ∧
        sgF.grey = sg1.grey ∧
        (sg1.grey = sg.grey → TraceSetInter ts sgF.grey ≠ TraceSetEMPTY)) := by
  obtain ⟨sg0, hsg0, hgrey, _, hcases⟩ := TraceScan_seg_inv cfg env ts rank seg s s1 r h
  rw [hsg] at hsg0
  simp only [Except.ok.injEq] at hsg0
  subst hsg0
  have hclear : ∀ g i, TraceSetIsMember ts i = true →
      TraceSetIsMember (TraceSetDiff cfg g ts) i = false := by
    intro g i hi
    rw [isMember_TraceSetDiff, hi]
    simp
  rcases hcases with ⟨hw, hr, sg2, sgF, hsg2, hF, _, hG, _⟩ |
    ⟨hw, ss, res, wasTotal, ss1, a1, sg1, sgF, hinit, hps, hr, hsg1, _, _, hF, _, hG, _⟩
  · refine ⟨fun _ => ⟨_, sg2, sgF, Or.inl ⟨hw, rfl⟩, hsg2, hF, hG, ?_⟩,
      fun hne => absurd hr hne⟩
    intro i hi
    rw [hG]
    exact hclear _ i hi
  · subst hr
    refine ⟨fun hok => ?_, fun hne => ?_⟩
    · subst hok
      rw [if_pos rfl] at hG
      refine ⟨a1, sg1, sgF, Or.inr ⟨hw, ss, wasTotal, ss1, hinit, hps⟩, hsg1, hF, hG, ?_⟩
      intro i hi
      rw [hG]
      exact hclear _ i hi
    · rw [if_neg hne] at hG
      refine ⟨hw, ss, wasTotal, ss1, a1, sg1, sgF, hinit, hps, hsg1, hF, hG, ?_⟩
      intro hkeep
      rw [hG, hkeep]
      exact hgrey

/-- C14 on the grey page with a pool whose scan fails: `TraceScan` returns
RESOURCE and the segment is still grey for the trace. -/
theorem TraceScan_grey_witness :
    ∃ s1 sgF, TraceScan cfg0 envFailing (TraceSetSingle 0) 1 1048576 statePageFlipped =
        .ok (Res.RESOURCE, s1) ∧
      segGet s1.arena 1048576 = .ok sgF ∧
      TraceSetInter (TraceSetSingle 0) sgF.grey ≠ TraceSetEMPTY := by
  obtain ⟨s1, hs1⟩ : ∃ s1, TraceScan cfg0 envFailing (TraceSetSingle 0) 1 1048576
      statePageFlipped = .ok (Res.RESOURCE, s1) := ⟨_, rfl⟩
  obtain ⟨_, ss, wasTotal, ss1, a1, sg1, sgF, hinit, hps, hsg1, hF, _, hkeep⟩ :=
    (TraceScan_grey cfg0 envFailing (TraceSetSingle 0) 1 1048576 statePageFlipped s1
      Res.RESOURCE { segPage with white := 1, grey := 1, sm := 1 } hs1 rfl).2 (by decide)
  have hss : ScanStateInit cfg0 statePageFlipped.arena (TraceSetSingle 0) 1
      (traceSetWhite cfg0 statePageFlipped.arena (TraceSetSingle 0)) = .ok _ := rfl
  rw [hss] at hinit
  simp only [Except.ok.injEq] at hinit
  subst hinit
  have ha1 : a1 = statePageFlipped.arena := (congrArg (fun x => x.2.2.2) hps).symm
  subst ha1
  have hsg : segGet statePageFlipped.arena 1048576 =
      .ok { segPage with white := 1, grey := 1, sm := 1 } := rfl
  rw [hsg] at hsg1
  simp only [Except.ok.injEq] at hsg1
  exact ⟨s1, sgF, hs1, hF, hkeep (by rw [← hsg1])⟩

/-- C15 fails as stated: on a page that is grey for the flipped trace 0, with
an empty summary and both barriers up (shield mode 3), `TraceScan` takes the
blacken branch, returns OK and records the one call `PoolBlacken`, and yet
the shield mode of the segment is then 2: `SegSetGrey`, taking the greyness
off, has taken the read barrier down. -/
theorem TraceScan_blacken_lowers_barrier :
    ∃ s1 sgF,
      segGet (SegSetSummary cfg0 statePageFlipped.arena 1048576 RefSetEMPTY) 1048576 =
        .ok { segPage with white := 1, grey := 1, sm := 3, summary := 0 } ∧
      RefSetInter
        (traceSetWhite cfg0 (SegSetSummary cfg0 statePageFlipped.arena 1048576 RefSetEMPTY)
          (TraceSetSingle 0)) 0 = RefSetEMPTY ∧
      TraceScan cfg0 envCollect (TraceSetSingle 0) 1 1048576
        { statePageFlipped with
          arena := SegSetSummary cfg0 statePageFlipped.arena 1048576 RefSetEMPTY } =
        .ok (Res.OK, s1) ∧
      s1.events = statePageFlipped.events ++ [Event.PoolBlacken 7 (TraceSetSingle 0) 1048576] ∧
      segGet s1.arena 1048576 = .ok sgF ∧
      sgF.summary = 0 ∧ sgF.grey = 0 ∧ sgF.sm = 2 ∧ sgF.sm ≠ 3 :=
  ⟨_, _, rfl, by decide, rfl, rfl, rfl, rfl, rfl, rfl, by decide⟩

/-- C15, amended: the blacken branch of `TraceScan`. Let the checks of
`TraceScan` pass, let the summary of the segment not meet the union of the
white sets of the traces of `ts`, and let the segment still be there after
`PoolBlacken`. Then `TraceScan` returns OK; the one call it records is
`PoolBlacken(pool, ts, seg)`, so that `PoolScan`, and with it the fix
functions, `ShieldExpose` and `ShieldCover` are not called; the arena is
the one `PoolBlacken` left but for what `SegSetGrey` does to the segment:
the trace slots, with all their counters, and the summary of the segment are
as `PoolBlacken` left them, hence unchanged if `PoolBlacken` leaves them
alone; the segment is no longer grey for the traces of `ts`, and its shield
mode has the read barrier down if the segment is now grey for no flipped
trace and up if it is still grey for one, the other bits of the shield mode
being as `PoolBlacken` left them. -/
theorem TraceScan_blacken (cfg : Config) (env : Env) (ts : TraceSet) (rank : Rank)
    (seg : Addr) (s : MpsState) (sg sg2 : SegStruct)
    (hts : TraceSetCheck cfg ts = true) (hrank : RankCheck cfg rank = true)
    (hsg : segGet s.arena seg = .ok sg)
    (hgrey : TraceSetInter ts sg.grey ≠ TraceSetEMPTY)
    (hw : RefSetInter (traceSetWhite cfg s.arena ts) sg.summary = RefSetEMPTY)
    (hsg2 : segGet (env.PoolBlacken s.arena sg.pool ts seg) seg = .ok sg2) :
    ∃ s1 sgF, TraceScan cfg env ts rank seg s = .ok (Res.OK, s1) ∧
      s1.events = s.events ++ [Event.PoolBlacken sg.pool ts seg] ∧
      s1.arena = SegSetGrey cfg (env.PoolBlacken s.arena sg.pool ts seg) seg
        (TraceSetDiff cfg sg2.grey ts) ∧
      s1.arena.trace = (env.PoolBlacken s.arena sg.pool ts seg).trace ∧
      ((env.PoolBlacken s.arena sg.pool ts seg).trace = s.arena.trace →
        ∀ i, s1.arena.trace i = s.arena.trace i) ∧
      segGet s1.arena seg = .ok sgF ∧ sgF.summary = sg2.summary ∧
      (sg2.summary = sg.summary → sgF.summary = sg.summary) ∧
      sgF = { sg2 with
              grey := TraceSetDiff cfg sg2.grey ts
              sm := if TraceSetInter (TraceSetDiff cfg sg2.grey ts)
                      (env.PoolBlacken s.arena sg.pool ts seg).flippedTraces == TraceSetEMPTY
                    then sg2.sm &&& wordNot cfg.MPS_WORD_WIDTH AccessREAD
                    else sg2.sm ||| AccessREAD } ∧
      (TraceSetInter (TraceSetDiff cfg sg2.grey ts)
          (env.PoolBlacken s.arena sg.pool ts seg).flippedTraces = TraceSetEMPTY →
        sgF.sm = sg2.sm &&& wordNot cfg.MPS_WORD_WIDTH AccessREAD) ∧
      (TraceSetInter (TraceSetDiff cfg sg2.grey ts)
          (env.PoolBlacken s.arena sg.pool ts seg).flippedTraces ≠ TraceSetEMPTY →
        sgF.sm = sg2.sm ||| AccessREAD) := by
  have hrun : TraceScan cfg env ts rank seg s = .ok (Res.OK,
      { arena := SegSetGrey cfg (env.PoolBlacken s.arena sg.pool ts seg) seg
          (TraceSetDiff cfg sg2.grey ts),
        events := s.events ++ [Event.PoolBlacken sg.pool ts seg] }) := by
    unfold TraceScan
    rw [aver_true_bind _ _ hts, aver_true_bind _ _ hrank, hsg]
    have hg : (TraceSetInter ts sg.grey != TraceSetEMPTY) = true := by simpa using hgrey
    have hwb : (RefSetInter (traceSetWhite cfg s.arena ts) sg.summary == RefSetEMPTY) = true := by
      simpa using hw
    simp only [bind, Except.bind, aver, hg, hwb, if_true, pure, Except.pure, scanFinish,
      beq_self_eq_true, emit_arena, hsg2]
    rfl
  have hF := segGet_SegSetGrey cfg _ seg (TraceSetDiff cfg sg2.grey ts) sg2 hsg2
  refine ⟨_, _, hrun, rfl, rfl, rfl, ?_, hF, rfl, fun e => e, rfl, ?_, ?_⟩
  · intro e i
    show (env.PoolBlacken s.arena sg.pool ts seg).trace i = s.arena.trace i
    rw [e]
  · intro e
    simp only [e, beq_self_eq_true, if_true]
  · intro e
    have hb : (TraceSetInter (TraceSetDiff cfg sg2.grey ts)
        (env.PoolBlacken s.arena sg.pool ts seg).flippedTraces == TraceSetEMPTY) = false := by
      simpa using e
    simp only [hb, Bool.false_eq_true, if_false]

/-- C15, amended, on a grey page whose summary is empty: `TraceScan` calls
`PoolBlacken` only, returns OK, leaves the counters of the trace alone and
takes the read barrier off the shield mode of the page. -/
theorem TraceScan_blacken_witness :
    ∃ s1, TraceScan cfg0 envCollect (TraceSetSingle 0) 1 1048576
        { statePageFlipped with
          arena := SegSetSummary cfg0 statePageFlipped.arena 1048576 RefSetEMPTY } =
        .ok (Res.OK, s1) ∧
      s1.events = statePageFlipped.events ++ [Event.PoolBlacken 7 (TraceSetSingle 0) 1048576] ∧
      (s1.arena.trace 0).segScanCount = 0 ∧
      ∃ sgF, segGet s1.arena 1048576 = .ok sgF ∧ sgF.sm = 2 := by
  obtain ⟨s1, sgF, hs1, hev, _, _, htr, hF, _, _, _, hsm, _⟩ :=
    TraceScan_blacken cfg0 envCollect (TraceSetSingle 0) 1 1048576
      { statePageFlipped with
        arena := SegSetSummary cfg0 statePageFlipped.arena 1048576 RefSetEMPTY }
      { segPage with white := 1, grey := 1, sm := 3, summary := 0 }
      { segPage with white := 1, grey := 1, sm := 3, summary := 0 }
      (by decide) (by decide) rfl (by decide) (by decide) rfl
  refine ⟨s1, hs1, hev, ?_, sgF, hF, ?_⟩
  · rw [htr rfl 0]
    rfl
  · rw [hsm (by decide)]
    rfl

/-- C18: `TraceFixEmergency`.
(a) Whatever it returns, the result code is OK.
(b) It returns whenever its checks pass: for a scan state that passes its
check and a reference that lies in a segment or is legal.
(c) It has the shape of `TraceFix`: if, for the segment of the reference
and the scan state with the three counters incremented, `PoolFix` returns OK
and leaves the reference, the scan state and the arena that
`PoolFixEmergency` leaves, then `TraceFix` and `TraceFixEmergency` give the
same result code, reference, scan state and arena (or fail the same check). -/
theorem TraceFixEmergency_spec (cfg : Config) (env : Env) (ss : ScanStateStruct) (ref : Addr)
    (s : MpsState) :
    (∀ r ref1 ss1 s1, TraceFixEmergency cfg env ss ref s = .ok (r, ref1, ss1, s1) →
      r = Res.OK) ∧
    (ScanStateCheck cfg s.arena ss = true →
      (SegOfAddr s.arena ref ≠ none ∨ ss.rank < RankEXACT ∨
        env.ArenaIsReservedAddr s.arena ref = false) →
      ∃ ref1 ss1 s1, TraceFixEmergency cfg env ss ref s = .ok (Res.OK, ref1, ss1, s1)) ∧
    ((∀ sg, SegOfAddr s.arena ref = some sg →
        TraceSetInter sg.white ss.traces ≠ TraceSetEMPTY →
        env.PoolFix s.arena
          { ss with fixRefCount := ss.fixRefCount + 1
                    segRefCount := ss.segRefCount + 1
                    whiteSegRefCount := ss.whiteSegRefCount + 1 } sg.pool sg.base ref =
          (Res.OK, env.PoolFixEmergency s.arena
            { ss with fixRefCount := ss.fixRefCount + 1
                      segRefCount := ss.segRefCount + 1
                      whiteSegRefCount := ss.whiteSegRefCount + 1 } sg.pool sg.base ref)) →
      (TraceFix cfg env ss ref s).map (fun x => (x.1, x.2.1, x.2.2.1, x.2.2.2.arena)) =
        (TraceFixEmergency cfg env ss ref s).map
          (fun x => (x.1, x.2.1, x.2.2.1, x.2.2.2.arena))) := by
  refine ⟨?_, ?_, ?_⟩
  · intro r ref1 ss1 s1 h
    unfold TraceFixEmergency at h
    simp only [bind_ok_iff, exists_aver_ok_iff, pure_ok_iff, Prod.mk.injEq] at h
    obtain ⟨_, _, _, h, _⟩ := h
    exact h.symm
  · intro hc hlegal
    unfold TraceFixEmergency
    rw [aver_true_bind _ _ hc]
    cases hso : SegOfAddr s.arena ref with
    | some sg =>
      simp only [fixSegEmergency, hso]
      split <;> exact ⟨_, _, _, rfl⟩
    | none =>
      have hl : (decide (ss.rank < RankEXACT) || !env.ArenaIsReservedAddr s.arena ref) = true := by
        rcases hlegal with h | h | h
        · exact absurd hso h
        · simp [h]
        · simp [h]
      simp only [fixSegEmergency, hso, bind, Except.bind, aver, hl, if_true]
      exact ⟨_, _, _, rfl⟩
  · intro hsame
    unfold TraceFix TraceFixEmergency
    cases hc : ScanStateCheck cfg s.arena ss with
    | false => simp [aver, bind, Except.bind, Except.map]
    | true =>
      rw [aver_true_bind _ _ rfl, aver_true_bind _ _ rfl]
      cases hso : SegOfAddr s.arena ref with
      | none =>
        simp only [fixSeg, fixSegEmergency, hso]
        cases hl : (decide (ss.rank < RankEXACT) || !env.ArenaIsReservedAddr s.arena ref) <;>
          simp [aver, bind, Except.bind, Except.map, pure, Except.pure, hl]
      | some sg =>
        by_cases hb : (TraceSetInter sg.white ss.traces != TraceSetEMPTY) = true
        · have hpf := hsame sg hso (by simpa using hb)
          simp only [fixSeg, fixSegEmergency, hso, hb, if_true, hpf, bind, Except.bind,
            pure, Except.pure, Except.map, emit, bne_self_eq_false, Bool.false_eq_true,
            if_false]
        · simp only [fixSeg, fixSegEmergency, hso, hb, Bool.false_eq_true, if_false, bind,
            Except.bind, pure, Except.pure, Except.map]

/-- C18 on a reference into the white page, with a pool whose two fix
methods mark alike: both fixers return OK and the same scan state. -/
theorem TraceFixEmergency_spec_witness :
    (TraceFix cfg0 envMark ssPage 1048584 statePageFlipped).map
        (fun x => (x.1, x.2.1, x.2.2.1, x.2.2.2.arena)) =
      (TraceFixEmergency cfg0 envMark ssPage 1048584 statePageFlipped).map
        (fun x => (x.1, x.2.1, x.2.2.1, x.2.2.2.arena)) ∧
    ∃ ss1 s1, TraceFixEmergency cfg0 envMark ssPage 1048584 statePageFlipped =
        .ok (Res.OK, 1048584, ss1, s1) ∧
      ss1.fixRefCount = 1 ∧ ss1.whiteSegRefCount = 1 ∧ ss1.fixedSummary = 2 :=
  ⟨(TraceFixEmergency_spec cfg0 envMark ssPage 1048584 statePageFlipped).2.2
      (fun _ _ _ => rfl),
    _, _, rfl, rfl, rfl, rfl⟩

theorem envCollect_blackenKeepsBarrier : BlackenKeepsBarrier cfg0 envCollect := by
  intro a pool ts seg sg sg2 h1 h2 hok
  have e : segGet a seg = .ok sg2 := h2
  rw [h1] at e
  simp only [Except.ok.injEq] at e
  rw [← e]
  exact hok

/-- C21: write summary widening. Let the access mode and the shield mode of
the segment both hold WRITE when `TraceAccess` is called and let it return.
Then the summary of the segment was not UNIV at the call; `TraceAccess`
tests the shield mode again after it has handled the read barrier, and when
WRITE is still in common it sets the summary to UNIV, which takes the write
barrier down. When the two modes have no READ bit in common that is all it
does: the state at return is the state at the call with
`SegSetSummary(seg, UNIV)` applied, so the traces, the trace sets and the
calls made are unchanged, and every later `TraceScan` of that segment for
traces whose white set is not EMPTY runs `ScanStateInit` and `PoolScan` (the
scanning branch) and makes no call of `PoolBlacken`. Whether or not READ is
in common: if the word has at least two bits and `PoolBlacken` leaves the
write barrier of its segment in agreement with the summary (up exactly while
the summary is not UNIV), then at return the summary of the segment is UNIV
and its write barrier is down, be it that `TraceAccess` has set the summary
itself or that the scan of the read barrier has widened it to UNIV before,
and every later `TraceScan` of that segment for traces whose white set is not
EMPTY takes the scanning branch: it runs `ScanStateInit` and `PoolScan` and
makes no call of `PoolBlacken`. -/
theorem TraceAccess_write (cfg : Config) (env : Env) (seg : Addr) (mode : AccessSet)
    (s s4 : MpsState) (sg : SegStruct)
    (hsg : segGet s.arena seg = .ok sg) (hwrite : mode &&& sg.sm &&& AccessWRITE ≠ 0)
    (h : TraceAccess cfg env seg mode s = .ok s4) :
    sg.summary ≠ RefSetUNIV cfg ∧
    (∃ s3 sg3,
      (if mode &&& sg.sm &&& AccessREAD ≠ 0 then accessRead cfg env seg s else pure s) =
        .ok s3 ∧
      segGet s3.arena seg = .ok sg3 ∧
      (mode &&& sg3.sm &&& AccessWRITE ≠ 0 →
        s4 = { s3 with arena := SegSetSummary cfg s3.arena seg (RefSetUNIV cfg) } ∧
        segGet s4.arena seg =
          .ok { sg3 with summary := RefSetUNIV cfg
                         sm := sg3.sm &&& wordNot cfg.MPS_WORD_WIDTH AccessWRITE })) ∧
    (mode &&& sg.sm &&& AccessREAD = 0 →
      s4 = { s with arena := SegSetSummary cfg s.arena seg (RefSetUNIV cfg) } ∧
      segGet s4.arena seg =
        .ok { sg with summary := RefSetUNIV cfg
                      sm := sg.sm &&& wordNot cfg.MPS_WORD_WIDTH AccessWRITE } ∧
      mode &&& (sg.sm &&& wordNot cfg.MPS_WORD_WIDTH AccessWRITE) = AccessSetEMPTY ∧
      s4.arena.trace = s.arena.trace ∧ s4.arena.busyTraces = s.arena.busyTraces ∧
      s4.arena.flippedTraces = s.arena.flippedTraces ∧ s4.events = s.events ∧
      ∀ ts rank, traceSetWhite cfg s4.arena ts ≠ RefSetEMPTY →
        traceSetWhite cfg s4.arena ts < 2 ^ cfg.MPS_WORD_WIDTH →
        (TraceSetCheck cfg ts = true → RankCheck cfg rank = true →
          TraceSetInter ts sg.grey ≠ TraceSetEMPTY →
          TraceScan cfg env ts rank seg s4 =
            (scanSegment cfg env ts rank seg sg.pool (traceSetWhite cfg s4.arena ts) s4 >>=
              fun p => scanFinish cfg ts seg p.1 p.2)) ∧
        ∀ r s5, TraceScan cfg env ts rank seg s4 = .ok (r, s5) →
          ∃ ss, ScanStateInit cfg s4.arena ts rank (traceSetWhite cfg s4.arena ts) = .ok ss ∧
            s5.events = s4.events ++ [Event.ShieldExpose seg,
              Event.PoolScan sg.pool seg ss.fix ss.rank, Event.ShieldCover seg]) ∧
    (1 < cfg.MPS_WORD_WIDTH → BlackenKeepsBarrier cfg env →
      ∃ sg4, segGet s4.arena seg = .ok sg4 ∧ sg4.summary = RefSetUNIV cfg ∧
        sg4.sm &&& AccessWRITE = 0 ∧
        ∀ ts rank, traceSetWhite cfg s4.arena ts ≠ RefSetEMPTY →
          traceSetWhite cfg s4.arena ts < 2 ^ cfg.MPS_WORD_WIDTH →
          (TraceSetCheck cfg ts = true → RankCheck cfg rank = true →
            TraceSetInter ts sg4.grey ≠ TraceSetEMPTY →
            TraceScan cfg env ts rank seg s4 =
              (scanSegment cfg env ts rank seg sg4.pool (traceSetWhite cfg s4.arena ts) s4 >>=
                fun p => scanFinish cfg ts seg p.1 p.2)) ∧
          ∀ r s5, TraceScan cfg env ts rank seg s4 = .ok (r, s5) →
            ∃ ss, ScanStateInit cfg s4.arena ts rank (traceSetWhite cfg s4.arena ts) = .ok ss ∧
              s5.events = s4.events ++ [Event.ShieldExpose seg,
                Event.PoolScan sg4.pool seg ss.fix ss.rank, Event.ShieldCover seg]) := by
  obtain ⟨sg0, s3, sg3, sg4, hsg0, _, hpre2, hbranch, hsg3, hs4, hsg4, hacc⟩ :=
    TraceAccess_ok_inv cfg env seg mode s s4 h
  rw [hsg] at hsg0
  simp only [Except.ok.injEq] at hsg0
  subst hsg0
  have hsum : sg.summary ≠ RefSetUNIV cfg := by
    rcases hpre2 with h0 | h0
    · exact absurd h0 hwrite
    · exact h0
  have hset : ∀ (a : ArenaStruct) (x : SegStruct), segGet a seg = .ok x →
      segGet (SegSetSummary cfg a seg (RefSetUNIV cfg)) seg =
        .ok { x with summary := RefSetUNIV cfg
                     sm := x.sm &&& wordNot cfg.MPS_WORD_WIDTH AccessWRITE } := by
    intro a x hx
    rw [segGet_SegSetSummary cfg a seg _ x hx]
    simp only [beq_self_eq_true, if_true]
  -- a later scan of a segment whose summary is UNIV
  have later : ∀ x : SegStruct, segGet s4.arena seg = .ok x → x.summary = RefSetUNIV cfg →
      ∀ ts rank, traceSetWhite cfg s4.arena ts ≠ RefSetEMPTY →
        traceSetWhite cfg s4.arena ts < 2 ^ cfg.MPS_WORD_WIDTH →
        (TraceSetCheck cfg ts = true → RankCheck cfg rank = true →
          TraceSetInter ts x.grey ≠ TraceSetEMPTY →
          TraceScan cfg env ts rank seg s4 =
            (scanSegment cfg env ts rank seg x.pool (traceSetWhite cfg s4.arena ts) s4 >>=
              fun p => scanFinish cfg ts seg p.1 p.2)) ∧
        ∀ r s5, TraceScan cfg env ts rank seg s4 = .ok (r, s5) →
          ∃ ss, ScanStateInit cfg s4.arena ts rank (traceSetWhite cfg s4.arena ts) = .ok ss ∧
            s5.events = s4.events ++ [Event.ShieldExpose seg,
              Event.PoolScan x.pool seg ss.fix ss.rank, Event.ShieldCover seg] := by
    intro x hx hxs ts rank hw hlt
    have hcond : RefSetInter (traceSetWhite cfg s4.arena ts) x.summary ≠ RefSetEMPTY := by
      rw [hxs, RefSetInter_UNIV cfg _ hlt]
      exact hw
    refine ⟨fun hts hrank hgrey =>
      TraceScan_scans cfg env ts rank seg s4 x hx hts hrank hgrey hcond, fun r s5 hscan => ?_⟩
    obtain ⟨sgS, hsgS, _, _, hcases⟩ := TraceScan_seg_inv cfg env ts rank seg s4 s5 r hscan
    rw [hx] at hsgS
    simp only [Except.ok.injEq] at hsgS
    subst hsgS
    rcases hcases with ⟨hblack, _⟩ | ⟨_, ss, res, wasTotal, ss1, a1, sg1, sgF, hinit, _, _, _,
      _, _, _, _, _, _, _, _, hev⟩
    · exact absurd hblack hcond
    · exact ⟨ss, hinit, hev⟩
  refine ⟨hsum, ⟨s3, sg3, hbranch, hsg3, fun hw3 => ?_⟩, fun hread => ?_, fun hW hb => ?_⟩
  · rw [if_pos hw3] at hs4
    refine ⟨hs4, ?_⟩
    rw [hs4]
    exact hset _ _ hsg3
  · have hnr : ¬ (mode &&& sg.sm &&& AccessREAD ≠ 0) := fun hh => hh hread
    rw [if_neg hnr, pure_ok_iff] at hbranch
    subst hbranch
    rw [hsg] at hsg3
    simp only [Except.ok.injEq] at hsg3
    subst hsg3
    rw [if_pos hwrite] at hs4
    have hF := hset _ _ hsg
    have hF4 : segGet s4.arena seg =
        .ok { sg with summary := RefSetUNIV cfg
                      sm := sg.sm &&& wordNot cfg.MPS_WORD_WIDTH AccessWRITE } := by
      rw [hs4]
      exact hF
    have hm : mode &&& (sg.sm &&& wordNot cfg.MPS_WORD_WIDTH AccessWRITE) = AccessSetEMPTY := by
      rw [hF4] at hsg4
      simp only [Except.ok.injEq] at hsg4
      rw [← hsg4] at hacc
      exact hacc
    have hl := later _ hF4 rfl
    exact ⟨hs4, hF4, hm, by rw [hs4]; rfl, by rw [hs4]; rfl, by rw [hs4]; rfl,
      by rw [hs4], hl⟩
  · -- the write barrier agrees with the summary at the call, hence after the read barrier
    have hbits := (and_and_two_ne_zero_iff mode sg.sm).mp hwrite
    have hok : writeBarrierOK cfg sg := by
      rw [writeBarrierOK_iff]
      exact ⟨fun _ => hsum, fun _ => hbits.2⟩
    have hok3 : writeBarrierOK cfg sg3 := by
      by_cases hread : mode &&& sg.sm &&& AccessREAD ≠ 0
      · rw [if_pos hread] at hbranch
        obtain ⟨x, hx, hokx⟩ := accessRead_barrier cfg env hW hb seg s s3 sg hsg hok hbranch
        rw [hsg3] at hx
        simp only [Except.ok.injEq] at hx
        rw [hx]
        exact hokx
      · rw [if_neg hread, pure_ok_iff] at hbranch
        subst hbranch
        rw [hsg] at hsg3
        simp only [Except.ok.injEq] at hsg3
        rw [← hsg3]
        exact hok
    by_cases hw3 : mode &&& sg3.sm &&& AccessWRITE ≠ 0
    · rw [if_pos hw3] at hs4
      have hF4 : segGet s4.arena seg =
          .ok { sg3 with summary := RefSetUNIV cfg
                         sm := sg3.sm &&& wordNot cfg.MPS_WORD_WIDTH AccessWRITE } := by
        rw [hs4]
        exact hset _ _ hsg3
      refine ⟨_, hF4, rfl, ?_, later _ hF4 rfl⟩
      show sg3.sm &&& wordNot cfg.MPS_WORD_WIDTH AccessWRITE &&& 2 = 0
      rw [and_two_eq_zero_iff, Nat.testBit_land, testBit_wordNot, AccessWRITE,
        show (2 : Nat).testBit 1 = true from by decide]
      simp
    · rw [if_neg hw3] at hs4
      have hF4 : segGet s4.arena seg = .ok sg3 := by
        rw [hs4]
        exact hsg3
      have hbit : sg3.sm.testBit 1 = false := by
        cases hb3 : sg3.sm.testBit 1
        · rfl
        · exact absurd ((and_and_two_ne_zero_iff mode sg3.sm).mpr ⟨hbits.1, hb3⟩) hw3
      have hU : sg3.summary = RefSetUNIV cfg := by
        by_contra hne
        have := ((writeBarrierOK_iff cfg sg3).mp hok3).mpr hne
        rw [hbit] at this
        cases this
      exact ⟨sg3, hF4, hU, (and_two_eq_zero_iff _).mpr hbit, later sg3 hF4 hU⟩

/-- C21 on a page behind both barriers. An access for writing to the page
whose summary is the zone of the white set widens the summary to UNIV and
changes nothing else, and the scan that follows runs `PoolScan`. An access
for reading and writing to the page whose summary is another zone first
blackens the page, which leaves the summary; then the summary is widened to
UNIV and the write barrier is down. -/
theorem TraceAccess_write_witness :
    (∃ s4, TraceAccess cfg0 envCollect 1048576 AccessWRITE statePageBarrier = .ok s4 ∧
      segGet s4.arena 1048576 =
        .ok { segPage with summary := RefSetUNIV cfg0, grey := 1, white := 1, sm := 1 } ∧
      s4.arena.trace = statePageBarrier.arena.trace ∧
      s4.events = statePageBarrier.events ∧
      ∃ s5, TraceScan cfg0 envCollect (TraceSetSingle 0) RankEXACT 1048576 s4 =
          .ok (Res.OK, s5) ∧
        s5.events = s4.events ++ [Event.ShieldExpose 1048576,
          Event.PoolScan 7 1048576 FixMethod.TraceFix RankEXACT, Event.ShieldCover 1048576]) ∧
    (TraceAccess cfg0 envCollect 1048576 3 statePageAway = .ok statePageAccessed ∧
      statePageAccessed.events =
        statePageAway.events ++ [Event.PoolBlacken 7 statePageAway.arena.busyTraces 1048576] ∧
      ∃ sg4, segGet statePageAccessed.arena 1048576 = .ok sg4 ∧
        sg4.summary = RefSetUNIV cfg0 ∧ sg4.sm &&& AccessWRITE = 0) := by
  constructor
  · obtain ⟨s4, hs4⟩ : ∃ s4,
        TraceAccess cfg0 envCollect 1048576 AccessWRITE statePageBarrier = .ok s4 := ⟨_, rfl⟩
    have hsg : segGet statePageBarrier.arena 1048576 =
        .ok { segPage with summary := 2, grey := 1, white := 1, sm := 3 } := rfl
    obtain ⟨_, _, hw, _⟩ := TraceAccess_write cfg0 envCollect 1048576 AccessWRITE statePageBarrier
      s4 _ hsg (by decide) hs4
    obtain ⟨h4, hF, _, htr, _, _, hev, hscan⟩ := hw (by decide)
    refine ⟨s4, hs4, hF, htr, hev, ?_⟩
    subst h4
    obtain ⟨s5, hs5⟩ : ∃ s5, TraceScan cfg0 envCollect (TraceSetSingle 0) RankEXACT 1048576
        { statePageBarrier with
          arena := SegSetSummary cfg0 statePageBarrier.arena 1048576 (RefSetUNIV cfg0) } =
        .ok (Res.OK, s5) := ⟨_, rfl⟩
    obtain ⟨ss, hinit, hev5⟩ := (hscan (TraceSetSingle 0) RankEXACT (by decide) (by decide)).2
      _ _ hs5
    refine ⟨s5, hs5, ?_⟩
    rw [hev5]
    have hss : ScanStateInit cfg0 (SegSetSummary cfg0 statePageBarrier.arena 1048576
        (RefSetUNIV cfg0)) (TraceSetSingle 0) RankEXACT
        (traceSetWhite cfg0 (SegSetSummary cfg0 statePageBarrier.arena 1048576
          (RefSetUNIV cfg0)) (TraceSetSingle 0)) = .ok ssPage := rfl
    rw [hss] at hinit
    simp only [Except.ok.injEq] at hinit
    subst hinit
    rfl
  · have hs4 : TraceAccess cfg0 envCollect 1048576 3 statePageAway = .ok statePageAccessed := rfl
    have hsg : segGet statePageAway.arena 1048576 =
        .ok { segPage with summary := 4, grey := 1, white := 1, sm := 3 } := rfl
    obtain ⟨_, _, _, hgen⟩ := TraceAccess_write cfg0 envCollect 1048576 3 statePageAway
      statePageAccessed _ hsg (by decide) hs4
    obtain ⟨sg4, hF, hU, hsm, _⟩ := hgen (by decide) envCollect_blackenKeepsBarrier
    exact ⟨hs4, rfl, sg4, hF, hU, hsm⟩

/-! ## C22: the summary law of the scan state -/

/-- C22: the summary law of the scan state. For a scan state that passes its
check, `ScanStateSummary` returns `fixedSummary ∪ (unfixedSummary \ white)`;
and for every refset `summary`, whatever the white set of the scan state,
`ScanStateSetSummary(ss, summary)` returns (its assertion holds), having set
`unfixedSummary` to EMPTY and `fixedSummary` to `summary` and nothing else,
and `ScanStateSummary` of the result is exactly `summary`. -/
theorem ScanStateSummary_law (cfg : Config) (a : ArenaStruct) (ss : ScanStateStruct)
    (h : ScanStateCheck cfg a ss = true) :
    ScanStateSummary cfg a ss =
      .ok (RefSetUnion ss.fixedSummary (RefSetDiff cfg ss.unfixedSummary ss.white)) ∧
    ∀ summary : RefSet,
      ScanStateSetSummary cfg a ss summary =
        .ok { ss with unfixedSummary := RefSetEMPTY, fixedSummary := summary } ∧
      ScanStateSummary cfg a { ss with unfixedSummary := RefSetEMPTY, fixedSummary := summary } =
        .ok summary := by
  have hlaw : ∀ ss1 : ScanStateStruct, ScanStateCheck cfg a ss1 = true →
      ScanStateSummary cfg a ss1 =
        .ok (RefSetUnion ss1.fixedSummary (RefSetDiff cfg ss1.unfixedSummary ss1.white)) := by
    intro ss1 h1
    unfold ScanStateSummary
    rw [aver_true_bind _ _ h1]
    rfl
  have hchk : ∀ summary : RefSet, ScanStateCheck cfg a
      { ss with unfixedSummary := RefSetEMPTY, fixedSummary := summary } = true := fun _ => h
  have hsum : ∀ summary : RefSet, ScanStateSummary cfg a
      { ss with unfixedSummary := RefSetEMPTY, fixedSummary := summary } = .ok summary := by
    intro summary
    rw [hlaw _ (hchk summary)]
    simp only [RefSetUnion, RefSetDiff, RefSetEMPTY, Nat.zero_and, Nat.or_zero]
  refine ⟨hlaw ss h, fun summary => ⟨?_, hsum summary⟩⟩
  unfold ScanStateSetSummary
  rw [aver_true_bind _ _ h]
  simp only []
  rw [hsum summary]
  show (aver (summary == summary) >>= fun _ => pure _) = _
  rw [aver_true_bind _ _ (beq_self_eq_true _)]
  rfl

theorem ScanStateSummary_law_witness :
    ScanStateCheck cfg0 statePageFlipped.arena ssPage = true ∧
    ScanStateSummary cfg0 statePageFlipped.arena
      { ssPage with unfixedSummary := 6, fixedSummary := 8 } = .ok 12 ∧
    ScanStateSetSummary cfg0 statePageFlipped.arena ssPage 5 =
      .ok { ssPage with unfixedSummary := RefSetEMPTY, fixedSummary := 5 } :=
  ⟨by decide,
   (ScanStateSummary_law cfg0 statePageFlipped.arena
      { ssPage with unfixedSummary := 6, fixedSummary := 8 } (by decide)).1.trans
      rfl,
   ((ScanStateSummary_law cfg0 statePageFlipped.arena ssPage (by decide)).2 5).1⟩

/-! ## C23: the shield across `TraceFlip` -/

/-- C23: the shield across `TraceFlip`. Let `BufferFlip`, `LDAge` and
`RootScan` leave the trace slots and the root ring alone and let the roots
have distinct identifiers. With fuel for three rounds of the rank loop
`TraceFlip` does not run out of fuel. A `TraceFlip` that returns OK has
called `ShieldSuspend` first and `ShieldResume` last, and neither in between. A
`TraceFlip` that returns the error of a `RootScan` has called
`ShieldSuspend` and, after it, only `BufferFlip`, `LDAge` and `RootScan`: it
returns from inside the root loop without calling `ShieldResume`, so the
shield is still suspended when `TraceFlip`, and `TraceStart` with it,
returns. -/
theorem TraceFlip_error_leaves_suspended (cfg : Config) (env : Env) (hk : FlipKeeps env)
    (fuel : Nat) (trace : TraceId) (s s1 : MpsState) (r : Res) (hd : rootsDistinct s.arena)
    (h : TraceFlip cfg env fuel trace s = .ok (r, s1)) :
    (∀ (fuel2 : Nat) (s2 : MpsState), 3 ≤ fuel2 →
      TraceFlip cfg env fuel2 trace s2 ≠ .error Fault.fuel) ∧
    (r = Res.OK → ∃ l,
      s1.events = s.events ++ Event.ShieldSuspend :: (l ++ [Event.ShieldResume]) ∧
      Event.ShieldResume ∉ l ∧ Event.ShieldSuspend ∉ l) ∧
    (r ≠ Res.OK → ∃ l, s1.events = s.events ++ Event.ShieldSuspend :: l ∧ l ≠ [] ∧
      Event.ShieldResume ∉ l ∧
      ∀ e ∈ l, (∃ b, e = Event.BufferFlip b) ∨ (∃ rs, e = Event.LDAge rs) ∨
        ∃ r0 q, e = Event.RootScan r0 q) := by
  refine ⟨fun fuel2 s2 h3 => TraceFlip_ne_fuel cfg env hk fuel2 trace s2 h3, ?_⟩
  obtain ⟨pre, k, hpre, _, _, _, hrun⟩ := TraceFlip_run cfg env hk fuel trace s s1 r hd h
  have hkind := flip_calls_kind s.arena.roots pre
  rcases hrun with ⟨hok, _, hkl, _, raised, _, _, _, _, _, _, hev, _⟩ |
    ⟨hne, hpos, hev, _, _, _, _, _, _, _, _, hlast⟩
  · refine ⟨fun _ => ⟨pre ++ ((rootScans s.arena.roots RankAMBIG ++
        rootScans s.arena.roots RankEXACT) ++
        raised.map (fun seg => Event.ShieldRaise seg AccessREAD)), ?_, ?_, ?_⟩,
      fun hne => absurd hok hne⟩
    · rw [hev]
      simp only [List.append_assoc]
    · intro hmem
      rw [← List.append_assoc] at hmem
      rcases List.mem_append.mp hmem with h1 | h1
      · have := hkind k hpre Event.ShieldResume (by rw [hkl, List.take_length]; exact h1)
        rcases this with ⟨b, hb⟩ | ⟨rs, hb⟩ | ⟨x, y, hb⟩ <;> cases hb
      · obtain ⟨x, _, hx⟩ := List.mem_map.mp h1
        cases hx
    · intro hmem
      rw [← List.append_assoc] at hmem
      rcases List.mem_append.mp hmem with h1 | h1
      · have := hkind k hpre Event.ShieldSuspend (by rw [hkl, List.take_length]; exact h1)
        rcases this with ⟨b, hb⟩ | ⟨rs, hb⟩ | ⟨x, y, hb⟩ <;> cases hb
      · obtain ⟨x, _, hx⟩ := List.mem_map.mp h1
        cases hx
  · refine ⟨fun hok => absurd hok hne, fun _ => ⟨_, hev, ?_, ?_, hkind k hpre⟩⟩
    · intro hnil
      have h2 := List.append_eq_nil.mp hnil
      rw [h2.2] at hlast
      cases hlast
    · intro hmem
      rcases hkind k hpre _ hmem with ⟨b, hb⟩ | ⟨rs, hb⟩ | ⟨x, y, hb⟩ <;> cases hb

theorem TraceFlip_error_leaves_suspended_witness :
    TraceFlip cfg0 envRootFail 3 0 stateRootsUnflipped = .ok (Res.RESOURCE, stateRootsFailed) ∧
    stateRootsFailed.events = stateRootsUnflipped.events ++
      [Event.ShieldSuspend, Event.RootScan 2 RankAMBIG, Event.RootScan 1 RankEXACT] ∧
    ∃ l, stateRootsFailed.events = stateRootsUnflipped.events ++ Event.ShieldSuspend :: l ∧
      l ≠ [] ∧ Event.ShieldResume ∉ l ∧
      ∀ e ∈ l, (∃ b, e = Event.BufferFlip b) ∨ (∃ rs, e = Event.LDAge rs) ∨
        ∃ r0 q, e = Event.RootScan r0 q := by
  have hs1 : TraceFlip cfg0 envRootFail 3 0 stateRootsUnflipped =
      .ok (Res.RESOURCE, stateRootsFailed) := rfl
  have hd : rootsDistinct stateRootsUnflipped.arena := by
    show (stateRootsUnflipped.arena.roots.map (fun r => r.id)).Nodup
    rw [show stateRootsUnflipped.arena.roots = rootsThree from rfl]
    decide
  exact ⟨hs1, rfl,
    (TraceFlip_error_leaves_suspended cfg0 envRootFail envRootFail_flipKeeps 3 0
      stateRootsUnflipped stateRootsFailed Res.RESOURCE hd hs1).2.2 (by decide)⟩

/-! ## C24: the grey phase of `TraceStart` -/

/-- C24: let `PoolGrey` decide about the greyness of its segment for its
trace only, let `RootGrey` leave the trace slots and the root ring alone,
let the procedures of the environment leave the control fields and
`foundation` of the traces alone, let the segment table be in address order
with fuel for every segment, and let the roots have distinct identifiers.
With a `RootScan` that leaves the rank of the scan state alone and fuel for
every segment and for three rounds of the rank loop, `TraceStart` does not
run out of fuel. Whenever `TraceStart` returns for a trace with a non-empty
white set, the trace was in state INIT and the calls made are:
`PoolGrey(pool, trace, seg)` for exactly the segments with a non-empty rank set whose summary meets the
white set, in address order; then `RootGrey(root, trace)` for exactly the
roots whose summary meets the white set, in ring order; then the calls of
`TraceFlip`, none of them a `PoolGrey` or a `RootGrey`. `foundation`, a word
to start with, is its old value plus the total size of the segments that were
offered to `PoolGrey` and are grey for the trace in the table the segment loop
leaves, modulo `2 ^ MPS_WORD_WIDTH`: it has grown by that total size whenever
the sum is below `2 ^ MPS_WORD_WIDTH`, and when every segment is offered and
greyed and the old value plus the size of all segments is below
`2 ^ MPS_WORD_WIDTH`, by the size of all segments. Visiting a segment, the
loop asserts that it is not grey for the trace, calls `PoolGrey` if the
segment is offered, and adds `SegSize` to `foundation`, modulo
`2 ^ MPS_WORD_WIDTH`, if the segment is then grey for the trace. -/
theorem TraceStart_grey (cfg : Config) (env : Env) (hg : GreyLocal env)
    (hrg : RootGreyKeeps env) (hc : EnvKeepsCtl env) (fuel : Nat) (trace : TraceId)
    (s s1 : MpsState) (r : Res) (hsorted : segsSorted s.arena)
    (hfuel : s.arena.segs.length ≤ fuel) (hd : rootsDistinct s.arena)
    (hw : (s.arena.trace trace).white ≠ RefSetEMPTY)
    (h : TraceStart cfg env fuel trace s = .ok (r, s1)) :
    (FlipKeeps env → ∀ (fuel2 : Nat) (s2 : MpsState), s2.arena.segs.length ≤ fuel2 →
      3 ≤ fuel2 → TraceStart cfg env fuel2 trace s2 ≠ .error Fault.fuel) ∧
    (s.arena.trace trace).state = TraceState.TraceINIT ∧
    (∃ (sg : MpsState) (l : List Event),
      forSegs (startGreyBody cfg env trace) fuel s = .ok (none, sg) ∧
      sg.arena.segs.map segGeom = s.arena.segs.map segGeom ∧
      s1.events = s.events ++
        ((s.arena.segs.filter (greyable (s.arena.trace trace).white)).map
            (fun x => Event.PoolGrey x.pool trace x.base) ++
          ((s.arena.roots.filter
              (fun x => RefSetInter x.summary (s.arena.trace trace).white != RefSetEMPTY)).map
              (fun x => Event.RootGrey x.id trace) ++ l)) ∧
      (∀ e ∈ l, flipCall e = true) ∧
      ((s.arena.trace trace).foundation < 2 ^ cfg.MPS_WORD_WIDTH →
        (s1.arena.trace trace).foundation =
          ((s.arena.trace trace).foundation +
            greyedSize trace (s.arena.trace trace).white sg.arena.segs)
              % 2 ^ cfg.MPS_WORD_WIDTH) ∧
      ((s.arena.trace trace).foundation +
          greyedSize trace (s.arena.trace trace).white sg.arena.segs
            < 2 ^ cfg.MPS_WORD_WIDTH →
        (s1.arena.trace trace).foundation =
          (s.arena.trace trace).foundation +
            greyedSize trace (s.arena.trace trace).white sg.arena.segs) ∧
      ((∀ x ∈ sg.arena.segs, greyable (s.arena.trace trace).white x = true ∧
          TraceSetIsMember x.grey trace = true) →
        (s.arena.trace trace).foundation + (s.arena.segs.map SegSize).sum
          < 2 ^ cfg.MPS_WORD_WIDTH →
        (s1.arena.trace trace).foundation =
          (s.arena.trace trace).foundation + (s.arena.segs.map SegSize).sum)) ∧
    ∀ (seg : Addr) (st st1 : MpsState) (ret : Option Res),
      startGreyBody cfg env trace seg st = .ok (ret, st1) →
      ∃ x, segGet st.arena seg = .ok x ∧ ret = none ∧
        TraceSetIsMember x.grey (st.arena.trace trace).ti = false ∧
        ((greyable (st.arena.trace trace).white x = false ∧ st1 = st) ∨
         (greyable (st.arena.trace trace).white x = true ∧
           ∃ x1, segGet (env.PoolGrey st.arena x.pool trace seg) seg = .ok x1 ∧
            ((TraceSetIsMember x1.grey
                  ((env.PoolGrey st.arena x.pool trace seg).trace trace).ti = true ∧
                st1 = { arena := setTrace (env.PoolGrey st.arena x.pool trace seg) trace
                         { (env.PoolGrey st.arena x.pool trace seg).trace trace with
                           foundation :=
                             (((env.PoolGrey st.arena x.pool trace seg).trace trace).foundation
                               + SegSize x1) % 2 ^ cfg.MPS_WORD_WIDTH },
                        events := st.events ++ [Event.PoolGrey x.pool trace seg] }) ∨
             (TraceSetIsMember x1.grey
                  ((env.PoolGrey st.arena x.pool trace seg).trace trace).ti = false ∧
                st1 = { arena := env.PoolGrey st.arena x.pool trace seg,
                        events := st.events ++ [Event.PoolGrey x.pool trace seg] })))) := by
  refine ⟨fun hk fuel2 s2 h1 h3 => TraceStart_ne_fuel cfg env hg hk fuel2 trace s2 h1 h3, ?_⟩
  obtain ⟨hcheck, hst, ret, sg, sr, hsegs, hroots, hflip⟩ :=
    TraceStart_ok_inv cfg env fuel trace s s1 r hw h
  have hti := TraceCheck_ti cfg _ _ hcheck
  refine ⟨hst, ?_, fun seg st st1 ret1 hb => startGreyBody_ok_inv cfg env trace seg st st1 ret1 hb⟩
  have hn : (s.arena.segs.map (fun x => x.base)).Nodup :=
    List.Pairwise.imp (fun hlt => Nat.ne_of_lt hlt) hsorted
  rw [forSegs_eq_listLoop (startGreyBody cfg env trace)
    (fun seg st ret1 st1 hb =>
      map_base_of_geom _ _ (startGreyBody_geom cfg env hg trace seg st st1 ret1 hb))
    fuel s hsorted hfuel] at hsegs
  obtain ⟨hret, hf, hgeom, hev, hr, _, hwh, _, _⟩ :=
    listLoop_grey cfg env hg trace (s.arena.trace trace).white (s.arena.trace trace).foundation
      ((s.arena.trace trace).foundation < 2 ^ cfg.MPS_WORD_WIDTH)
      (s.arena.segs.map (fun x => x.base)) [] s sg ret hn hn (fun _ _ hm => by cases hm) hti rfl
      (fun hlt => by rw [greyedSizeIn_nil_bases, Nat.add_zero, Nat.mod_eq_of_lt hlt]) hsegs
  subst hret
  rw [List.nil_append, ← map_base_of_geom _ _ hgeom, greyedSizeIn_all] at hf
  rw [flatMap_greyCallAt s.arena trace _ hn s.arena.segs (fun _ hm => hm)] at hev
  obtain ⟨hev2, ht2, _⟩ := startGreyRoots_run env hrg trace _ _ _ hroots
  have hcalleq : rootGreyCallAt sg.arena trace (sg.arena.trace trace).white =
      rootGreyCallAt s.arena trace (s.arena.trace trace).white := by
    funext b
    unfold rootGreyCallAt
    rw [hr, hwh]
  rw [hr, hcalleq,
    flatMap_rootGreyCallAt s.arena trace _ hd s.arena.roots (fun _ hm => hm)] at hev2
  obtain ⟨l, hev3, hl⟩ := TraceFlip_calls cfg env fuel trace _ s1 r hflip
  obtain ⟨_, _, _, _, hstatic, _, _⟩ := TraceFlip_effect cfg env hc fuel trace _ s1 r hflip
  have hfound : (s1.arena.trace trace).foundation = (sg.arena.trace trace).foundation := by
    have := hstatic trace
    simp only [traceStatic, Prod.mk.injEq, setTrace_trace_same] at this
    rw [this.2.2.2.2.2, ht2]
  have hforSegs : forSegs (startGreyBody cfg env trace) fuel s = .ok (none, sg) := by
    rw [forSegs_eq_listLoop (startGreyBody cfg env trace)
      (fun seg st ret1 st1 hb =>
        map_base_of_geom _ _ (startGreyBody_geom cfg env hg trace seg st st1 ret1 hb))
      fuel s hsorted hfuel]
    exact hsegs
  have hexact : (s.arena.trace trace).foundation +
        greyedSize trace (s.arena.trace trace).white sg.arena.segs
          < 2 ^ cfg.MPS_WORD_WIDTH →
      (s1.arena.trace trace).foundation =
        (s.arena.trace trace).foundation +
          greyedSize trace (s.arena.trace trace).white sg.arena.segs := by
    intro hlt
    rw [hfound, hf (Nat.lt_of_le_of_lt (Nat.le_add_right _ _) hlt), Nat.mod_eq_of_lt hlt]
  refine ⟨sg, l, hforSegs, hgeom, ?_, hl, fun hlt => by rw [hfound, hf hlt], hexact,
    fun hall hlt => ?_⟩
  · rw [hev3]
    simp only []
    rw [hev2, hev]
    simp only [List.append_assoc]
  · rw [← map_SegSize_of_geom _ _ hgeom, ← greyedSize_all _ _ _ hall] at hlt ⊢
    exact hexact hlt

theorem TraceStart_grey_witness :
    TraceStart cfg0 envRoots 3 0 stateLeaf = .ok (Res.OK, stateLeafStarted) ∧
    (∃ l, stateLeafStarted.events = stateLeaf.events ++
        ([Event.PoolGrey 7 0 1048576] ++ ([Event.RootGrey 1 0, Event.RootGrey 2 0] ++ l)) ∧
      ∀ e ∈ l, flipCall e = true) ∧
    (stateLeafStarted.arena.trace 0).foundation = 4096 := by
  have hs1 : TraceStart cfg0 envRoots 3 0 stateLeaf = .ok (Res.OK, stateLeafStarted) := rfl
  have hsorted : segsSorted stateLeaf.arena := by
    show ([1048576, 2097152] : List Nat).Pairwise (fun x y => x < y)
    decide
  have hd : rootsDistinct stateLeaf.arena := by
    show ([1, 2, 3] : List Nat).Nodup
    decide
  obtain ⟨_, _, ⟨sg, l, _, _, hev, hl, _, _, _⟩, _⟩ :=
    TraceStart_grey cfg0 envRoots envRoots_greyLocal envRoots_rootGreyKeeps envRoots_keepsCtl 3 0
      stateLeaf stateLeafStarted Res.OK hsorted (by decide) hd (by decide) hs1
  exact ⟨hs1, ⟨l, hev, hl⟩, rfl⟩

/-! ## C25: `traceFindGrey` picks the lowest rank -/

/-- C25: the rank tie-break. `traceFindGrey` returns; it returns a segment
of rank `r` only if that segment lies in the grey ring of rank `r` and is
grey for the trace and no segment grey for the trace lies in a grey ring of
rank lower than `r`; and it returns FALSE only if no grey ring of any rank
holds a segment grey for the trace. Hence a `TraceStep` of a FLIPPED trace
that returns either ran `TraceScan` for the trace on such a segment at that
lowest rank, or found no grey ring with a segment grey for the trace and
moved the trace to RECLAIM. -/
theorem traceFindGrey_lowest_rank (cfg : Config) (s : MpsState) (trace : TraceId)
    (hti : TraceIdCheck cfg trace = true) :
    (∃ found, traceFindGrey cfg s.arena trace = .ok found ∧
      (found = none → ∀ r, r < cfg.RankMAX → ∀ sg ∈ ArenaGreyRing s.arena r,
        TraceSetIsMember sg.grey trace = false) ∧
      (∀ seg r, found = some (seg, r) →
        r < cfg.RankMAX ∧
        (∃ sg ∈ ArenaGreyRing s.arena r, sg.base = seg ∧
          TraceSetIsMember sg.grey trace = true) ∧
        ∀ q, q < r → ∀ sg ∈ ArenaGreyRing s.arena q,
          TraceSetIsMember sg.grey trace = false)) ∧
    ∀ (env : Env) (fuel : Nat) (s1 : MpsState) (res : Res),
      (s.arena.trace trace).state = TraceState.TraceFLIPPED →
      TraceStep cfg env fuel trace s = .ok (res, s1) →
      (∃ seg r, traceFindGrey cfg s.arena trace = .ok (some (seg, r)) ∧
        TraceScan cfg env (TraceSetSingle trace) r seg s = .ok (res, s1) ∧
        r < cfg.RankMAX ∧
        (∃ sg ∈ ArenaGreyRing s.arena r, sg.base = seg ∧
          TraceSetIsMember sg.grey trace = true) ∧
        ∀ q, q < r → ∀ sg ∈ ArenaGreyRing s.arena q,
          TraceSetIsMember sg.grey trace = false) ∨
      (traceFindGrey cfg s.arena trace = .ok none ∧ res = Res.OK ∧
        s1 = { s with arena := (setTrace s.arena trace
          { s.arena.trace trace with state := TraceState.TraceRECLAIM }) } ∧
        ∀ r, r < cfg.RankMAX → ∀ sg ∈ ArenaGreyRing s.arena r,
          TraceSetIsMember sg.grey trace = false) := by
  obtain ⟨found, hfound, hN, hS⟩ := traceFindGrey_spec cfg s.arena trace hti
  refine ⟨⟨found, hfound, hN, hS⟩, fun env fuel s1 res hst hstep => ?_⟩
  obtain ⟨_, hcases⟩ := TraceStep_ok_inv cfg env fuel trace s s1 res hstep
  rcases hcases with ⟨hs, _⟩ | ⟨_, hrun⟩ | ⟨hs, _⟩
  · rcases hs with hs | hs <;> rw [hst] at hs <;> cases hs
  · obtain ⟨_, _, hrc⟩ := TraceRun_ok_inv cfg env trace s s1 res hrun
    rcases hrc with ⟨hnone, hres, hs1⟩ | ⟨seg, rank, sg, p, hsome, _, _, _, hscan⟩
    · rw [hfound] at hnone
      simp only [Except.ok.injEq] at hnone
      exact Or.inr ⟨by rw [hfound, hnone], hres, hs1, hN hnone⟩
    · rw [hfound] at hsome
      simp only [Except.ok.injEq] at hsome
      obtain ⟨h1, h2, h3⟩ := hS seg rank hsome
      exact Or.inl ⟨seg, rank, by rw [hfound, hsome], hscan, h1, h2, h3⟩
  · rw [hst] at hs
    cases hs

theorem traceFindGrey_lowest_rank_witness :
    traceFindGrey cfg0 stateTwoRanks.arena 0 = .ok (some (2097152, RankAMBIG)) ∧
    ∃ s1, TraceStep cfg0 envCollect 3 0 stateTwoRanks = .ok (Res.OK, s1) ∧
      TraceScan cfg0 envCollect (TraceSetSingle 0) RankAMBIG 2097152 stateTwoRanks =
        .ok (Res.OK, s1) ∧
      ∀ q, q < RankAMBIG → ∀ sg ∈ ArenaGreyRing stateTwoRanks.arena q,
        TraceSetIsMember sg.grey 0 = false := by
  obtain ⟨s1, hs1⟩ : ∃ s1, TraceStep cfg0 envCollect 3 0 stateTwoRanks = .ok (Res.OK, s1) :=
    ⟨_, rfl⟩
  have hfind : traceFindGrey cfg0 stateTwoRanks.arena 0 = .ok (some (2097152, RankAMBIG)) :=
    rfl
  refine ⟨hfind, s1, hs1, ?_⟩
  rcases (traceFindGrey_lowest_rank cfg0 stateTwoRanks 0 (by decide)).2 envCollect 3 s1 Res.OK
    rfl hs1 with ⟨seg, r, hf, hscan, _, _, hlow⟩ | ⟨hf, _⟩
  · rw [hfind] at hf
    simp only [Except.ok.injEq, Option.some.injEq, Prod.mk.injEq] at hf
    obtain ⟨h1, h2⟩ := hf
    subst h1 h2
    exact ⟨hscan, hlow⟩
  · rw [hfind] at hf
    cases hf

/-! ## C26: the root scan of `TraceFlip` when every `RootScan` succeeds -/

/-- C27: `ScanStateInit(&ss, ts, arena, rank, white)`, called with a valid
rank, a valid set of busy traces and the white set of those traces, returns a
scan state whose fix method is `TraceFixEmergency` exactly when at least one
trace of `ts` has `emergency = TRUE`, and `TraceFix` otherwise; whose
`unfixedSummary` and `fixedSummary` are EMPTY, whose `wasMarked` is TRUE,
whose `white`, `rank` and `traces` are the arguments, whose zone shift is the
arena's, and whose counters are all 0. -/
theorem ScanStateInit_spec (cfg : Config) (a : ArenaStruct) (ts : TraceSet) (rank : Rank)
    (white : RefSet) (hrank : RankCheck cfg rank = true) (hts : TraceSetCheck cfg ts = true)
    (hbusy : TraceSetSuper a.busyTraces ts = true) (hwhite : white = traceSetWhite cfg a ts) :
    ∃ ss, ScanStateInit cfg a ts rank white = .ok ss ∧
      (ss.fix = FixMethod.TraceFixEmergency ↔
        ∃ ti, TraceSetIsMember ts ti = true ∧ (ArenaTrace a ti).emergency = true) ∧
      (ss.fix = FixMethod.TraceFix ↔
        ¬ ∃ ti, TraceSetIsMember ts ti = true ∧ (ArenaTrace a ti).emergency = true) ∧
      ss.unfixedSummary = RefSetEMPTY ∧ ss.fixedSummary = RefSetEMPTY ∧
      ss.wasMarked = true ∧ ss.white = white ∧ ss.rank = rank ∧ ss.traces = ts ∧
      ss.zoneShift = a.zoneShift ∧ ss.sig = Sig.ScanStateSig ∧
      ss.fixRefCount = 0 ∧ ss.segRefCount = 0 ∧ ss.whiteSegRefCount = 0 ∧
      ss.nailCount = 0 ∧ ss.snapCount = 0 ∧ ss.forwardCount = 0 ∧
      ss.copiedSize = 0 ∧ ss.scannedSize = 0 := by
  have hem : ∀ f : FixMethod, f = FixMethod.TraceFixEmergency ↔ ¬ f = FixMethod.TraceFix := by
    intro f
    cases f <;> simp
  have hfix := fixChoice_eq a ts (List.range cfg.TRACE_MAX) FixMethod.TraceFix
  have hiff : (List.range cfg.TRACE_MAX).foldl (fun fix ti =>
        if TraceSetIsMember ts ti && (ArenaTrace a ti).emergency
        then FixMethod.TraceFixEmergency else fix) FixMethod.TraceFix =
        FixMethod.TraceFixEmergency ↔
      ∃ ti, TraceSetIsMember ts ti = true ∧ (ArenaTrace a ti).emergency = true := by
    rw [hfix]
    constructor
    · rintro (h | ⟨ti, _, h1, h2⟩)
      · exact absurd h (by decide)
      · exact ⟨ti, h1, h2⟩
    · rintro ⟨ti, h1, h2⟩
      exact Or.inr ⟨ti, List.mem_range.mpr (isMember_lt_TRACE_MAX cfg ts ti hts h1), h1, h2⟩
  refine ⟨{ sig := Sig.ScanStateSig,
             fix := (List.range cfg.TRACE_MAX).foldl (fun fix ti =>
               if TraceSetIsMember ts ti && (ArenaTrace a ti).emergency
               then FixMethod.TraceFixEmergency else fix) FixMethod.TraceFix,
             traces := ts, rank := rank, zoneShift := a.zoneShift, white := white,
             unfixedSummary := RefSetEMPTY, fixedSummary := RefSetEMPTY, wasMarked := true,
             fixRefCount := 0, segRefCount := 0, whiteSegRefCount := 0,
             nailCount := 0, snapCount := 0, forwardCount := 0,
             copiedSize := 0, scannedSize := 0 }, ?_, hiff, ?_, rfl, rfl, rfl, rfl, rfl, rfl, rfl, rfl, rfl, rfl, rfl, rfl, rfl,
    rfl, rfl, rfl⟩
  · unfold ScanStateInit
    rw [aver_true_bind _ _ hrank]
    simp only []
    rw [aver_true_bind]
    · rfl
    · unfold ScanStateCheck
      simp only [hts, hbusy, hrank, hwhite, beq_self_eq_true, Bool.and_self]
  · rw [← hiff, hem]
    exact not_not.symm

theorem ScanStateInit_spec_witness :
    ∃ ss, ScanStateInit cfg0 (withEmergency statePageFlipped).arena (TraceSetSingle 0)
        RankEXACT 2 = .ok ss ∧
      (ss.fix = FixMethod.TraceFixEmergency ↔
        ∃ ti, TraceSetIsMember (TraceSetSingle 0) ti = true ∧
          (ArenaTrace (withEmergency statePageFlipped).arena ti).emergency = true) ∧
      (ss.fix = FixMethod.TraceFix ↔
        ¬ ∃ ti, TraceSetIsMember (TraceSetSingle 0) ti = true ∧
          (ArenaTrace (withEmergency statePageFlipped).arena ti).emergency = true) ∧
      ss.unfixedSummary = RefSetEMPTY ∧ ss.fixedSummary = RefSetEMPTY ∧
      ss.wasMarked = true ∧ ss.white = 2 ∧ ss.rank = RankEXACT ∧
      ss.traces = TraceSetSingle 0 ∧
      ss.zoneShift = (withEmergency statePageFlipped).arena.zoneShift ∧
      ss.sig = Sig.ScanStateSig ∧
      ss.fixRefCount = 0 ∧ ss.segRefCount = 0 ∧ ss.whiteSegRefCount = 0 ∧
      ss.nailCount = 0 ∧ ss.snapCount = 0 ∧ ss.forwardCount = 0 ∧
      ss.copiedSize = 0 ∧ ss.scannedSize = 0 :=
  ScanStateInit_spec cfg0 (withEmergency statePageFlipped).arena (TraceSetSingle 0) RankEXACT 2
    (by decide) (by decide) (by decide) (by decide)

/-! ## C28: the area scanners -/

/-- C28: the area scanners. On a non-empty area `[base, limit)` with
`base` not NULL, and with fuel for every word, `TraceScanAreaMasked` returns,
and what it returns is what this scan returns: after `TRACE_SCAN_BEGIN`,
consider the words at `base`, `base + 1`, ..., `limit - 1` in that order;
skip a word whose value ANDed with `mask` is not zero; give the others to the
first-stage filter `TRACE_FIX1` and fix, with `TRACE_FIX2`, those that pass;
at the first fix that fails return its error, leaving the scan as it is;
otherwise run `TRACE_SCAN_END` and return OK. With the mask 0,
`TraceScanAreaMasked` is `TraceScanArea` on every input. And
`TraceScanAreaTagged` is `TraceScanAreaMasked` with the mask 3, under which
the words that are fixed are among those whose bottom two bits are zero. -/
theorem TraceScanAreaMasked_spec {σ : Type} (m : ScanMacros σ) (fuel : Nat) (base limit : Nat)
    (mask : Word) (st : σ) (hb : base ≠ 0) (hlt : base < limit) (hfuel : limit - base < fuel) :
    TraceScanAreaMasked m fuel base limit mask st =
      .ok (if (scanWordsMasked m mask (List.range' base (limit - base))
                (m.TRACE_SCAN_BEGIN st)).1 = Res.OK
           then (Res.OK, m.TRACE_SCAN_END (scanWordsMasked m mask
                  (List.range' base (limit - base)) (m.TRACE_SCAN_BEGIN st)).2)
           else scanWordsMasked m mask (List.range' base (limit - base))
                  (m.TRACE_SCAN_BEGIN st)) ∧
    (∀ (fuel2 : Nat) (base2 limit2 : Addr) (st2 : σ),
      TraceScanAreaMasked m fuel2 base2 limit2 0 st2 = TraceScanArea m fuel2 base2 limit2 st2) ∧
    (∀ (fuel2 : Nat) (base2 limit2 : Addr) (st2 : σ),
      TraceScanAreaTagged m fuel2 base2 limit2 st2 =
        TraceScanAreaMasked m fuel2 base2 limit2 3 st2) ∧
    TraceScanAreaTagged m fuel base limit st =
      .ok (if (scanWordsMasked m 3 (List.range' base (limit - base))
                (m.TRACE_SCAN_BEGIN st)).1 = Res.OK
           then (Res.OK, m.TRACE_SCAN_END (scanWordsMasked m 3
                  (List.range' base (limit - base)) (m.TRACE_SCAN_BEGIN st)).2)
           else scanWordsMasked m 3 (List.range' base (limit - base))
                  (m.TRACE_SCAN_BEGIN st)) ∧
    (∀ w : Word, w &&& 3 = 0 ↔ w.testBit 0 = false ∧ w.testBit 1 = false) :=
  ⟨TraceScanAreaMasked_eq m fuel base limit mask st hb hlt hfuel,
   fun fuel2 base2 limit2 st2 => TraceScanAreaMasked_zero m fuel2 base2 limit2 st2,
   fun _ _ _ _ => rfl,
   TraceScanAreaMasked_eq m fuel base limit 3 st hb hlt hfuel,
   and_three_eq_zero⟩

/-- C28 on an area of six words, with the mask 3: the word 4097 is skipped,
the word 16 does not pass the first stage, the words at 1 and 4 are fixed,
the fix of the word at 5 fails and its error is returned, and the word at 6
is not considered. -/
theorem TraceScanAreaMasked_spec_witness :
    TraceScanAreaMasked macrosLog 7 1 7 3 areaSix =
      .ok (Res.RESOURCE,
        { areaSix with tested := [4096, 16, 8192, 12288], fixed := [1, 4, 5],
                       scanning := true }) ∧
    TraceScanAreaMasked macrosLog 7 1 7 0 areaSix = TraceScanArea macrosLog 7 1 7 areaSix ∧
    TraceScanAreaTagged macrosLog 7 1 7 areaSix = TraceScanAreaMasked macrosLog 7 1 7 3 areaSix :=
  ⟨(TraceScanAreaMasked_spec macrosLog 7 1 7 3 areaSix (by decide) (by decide)
      (by decide)).1.trans rfl,
   (TraceScanAreaMasked_spec macrosLog 7 1 7 3 areaSix (by decide) (by decide)
      (by decide)).2.1 7 1 7 areaSix,
   (TraceScanAreaMasked_spec macrosLog 7 1 7 3 areaSix (by decide) (by decide)
      (by decide)).2.2.1 7 1 7 areaSix⟩

/-! ## C29: a `RootScan` that fails during `TraceFlip` -/

end Mps
